import Mathlib

/-!
# DHCPv4 client: packet codec, packet factory and processing engine

A shallow embedding of `packet/dhcppacket.go`, `packet/option/options.go`,
`packet/option/parsers.go`, `packet/option/string-converters.go`,
`packet/factory.go`, `util/converter/converter.go`, `util/net-utils/util.go`,
`lease/lease.go`, `client/state/state.go` and of the lease handling of
`core/processing-engine.go`.

Conventions of the embedding.

* A Go `byte` is a `Nat` below 256, `uint16` a `Nat` below `2 ^ 16`, `uint32`
  a `Nat` below `2 ^ 32`; the ranges are collected in `DHCPPacket.WF`.
  Arithmetic that can wrap is written with an explicit `%`.
* A Go `[]byte` whose capacity matters is a `ByteSlice`: the visible elements
  `data` (indices `0 .. len-1`) and the elements `spare` of the backing array
  that lie between `len` and `cap`.
* A Go run-time panic that nothing recovers is the outcome `Run.panic`.
* A `time.Duration` is an `Int` count of nanoseconds; a `float64` that holds an
  integer is that integer, and rounding to a `float64` is `roundSig53`.
* What the engine shares with its surroundings (the package variable
  `autoPrivateAddr`, the packets handed to `Send`) is the `World` that the
  functions pass along. A `Host` adds the script of what the surroundings will
  answer (the results of the coming reads of the socket, of the clock and of
  the random number generator) and the log of the listener calls.
* A loop or recursion of the Go code whose length depends on its input takes a
  bound (`fuel`) and ends in `Run.outOfFuel` when the bound is too small.
-/

namespace DHCPv4

/-! ## Go slices -/

/-- Go `[]byte` value: `data` holds the elements below `len`, `spare` the
elements of the backing array from `len` up to `cap`. -/
structure ByteSlice where
  data : List Nat
  spare : List Nat
deriving DecidableEq, Repr

/-- The nil slice. -/
def ByteSlice.empty : ByteSlice := ⟨[], []⟩

/-- Go `cap(s)`. -/
def ByteSlice.cap (s : ByteSlice) : Nat := s.data.length + s.spare.length

/-- Go `append(s, xs...)`. When the capacity suffices the elements are written
into the spare part of the backing array; otherwise a new array is allocated,
whose capacity `growslice oldCap newLen` is chosen by the Go runtime and whose
elements above the new length are zero. -/
def goAppend (growslice : Nat → Nat → Nat) (s : ByteSlice) (xs : List Nat) : ByteSlice :=
  if xs.length ≤ s.spare.length then
    ⟨s.data ++ xs, s.spare.drop xs.length⟩
  else
    ⟨s.data ++ xs, List.replicate (growslice s.cap (s.data.length + xs.length) - (s.data.length + xs.length)) 0⟩

/-! ## The packet (`packet/dhcppacket.go`) -/

/-- The constant `REQUEST`. -/
def REQUEST : Nat := 1

/-- The constant `REPLY`. -/
def REPLY : Nat := 2

/-- Go `DHCPPacket`. -/
structure DHCPPacket where
  Op : Nat
  Htype : Nat
  Hlen : Nat
  Hops : Nat
  Xid : Nat
  Secs : Nat
  Flags : Nat
  Ciaddr : List Nat
  Yiaddr : List Nat
  Siaddr : List Nat
  Giaddr : List Nat
  Chaddr : List Nat
  Sname : List Nat
  File : List Nat
  options : ByteSlice
deriving DecidableEq, Repr

/-- Go `DHCPPacket{}`: every field zero, `options` nil. -/
def DHCPPacket.zero : DHCPPacket :=
  { Op := 0, Htype := 0, Hlen := 0, Hops := 0, Xid := 0, Secs := 0, Flags := 0,
    Ciaddr := List.replicate 4 0, Yiaddr := List.replicate 4 0,
    Siaddr := List.replicate 4 0, Giaddr := List.replicate 4 0,
    Chaddr := List.replicate 16 0, Sname := List.replicate 64 0,
    File := List.replicate 128 0, options := ByteSlice.empty }

/-- Every element is a byte. -/
def allBytes (l : List Nat) : Prop := ∀ b ∈ l, b < 256

instance (l : List Nat) : Decidable (allBytes l) := by
  unfold allBytes; infer_instance

/-- The ranges and array sizes that the Go type `DHCPPacket` fixes. -/
structure DHCPPacket.WF (p : DHCPPacket) : Prop where
  op : p.Op < 256
  htype : p.Htype < 256
  hlen : p.Hlen < 256
  hops : p.Hops < 256
  xid : p.Xid < 2 ^ 32
  secs : p.Secs < 2 ^ 16
  flags : p.Flags < 2 ^ 16
  ciaddr : p.Ciaddr.length = 4 ∧ allBytes p.Ciaddr
  yiaddr : p.Yiaddr.length = 4 ∧ allBytes p.Yiaddr
  siaddr : p.Siaddr.length = 4 ∧ allBytes p.Siaddr
  giaddr : p.Giaddr.length = 4 ∧ allBytes p.Giaddr
  chaddr : p.Chaddr.length = 16 ∧ allBytes p.Chaddr
  sname : p.Sname.length = 64 ∧ allBytes p.Sname
  file : p.File.length = 128 ∧ allBytes p.File
  opts : allBytes p.options.data ∧ allBytes p.options.spare

/-! ### `encoding/binary`, big endian -/

/-- Go `binary.Write(buf, binary.BigEndian, v)` for a `byte`. -/
def writeUint8 (buf : List Nat) (v : Nat) : List Nat := buf ++ [v]

/-- Go `binary.Write(buf, binary.BigEndian, v)` for a `uint16`. -/
def writeUint16 (buf : List Nat) (v : Nat) : List Nat :=
  buf ++ [(v >>> 8) % 256, v % 256]

/-- Go `binary.Write(buf, binary.BigEndian, v)` for a `uint32`. -/
def writeUint32 (buf : List Nat) (v : Nat) : List Nat :=
  buf ++ [(v >>> 24) % 256, (v >>> 16) % 256, (v >>> 8) % 256, v % 256]

/-- Go `binary.Write(buf, binary.BigEndian, v)` for a byte array or slice. -/
def writeBytes (buf : List Nat) (v : List Nat) : List Nat := buf ++ v

/-- Go `DHCPPacket.Encode`. -/
def Encode (packet : DHCPPacket) : List Nat :=
  let buf : List Nat := []
  let buf := writeUint8 buf packet.Op
  let buf := writeUint8 buf packet.Htype
  let buf := writeUint8 buf packet.Hlen
  let buf := writeUint8 buf packet.Hops
  let buf := writeUint32 buf packet.Xid
  let buf := writeUint16 buf packet.Secs
  let buf := writeUint16 buf packet.Flags
  let buf := writeBytes buf packet.Ciaddr
  let buf := writeBytes buf packet.Yiaddr
  let buf := writeBytes buf packet.Siaddr
  let buf := writeBytes buf packet.Giaddr
  let buf := writeBytes buf packet.Chaddr
  let buf := writeBytes buf packet.Sname
  let buf := writeBytes buf packet.File
  let options : List Nat := []
  let options := options ++ [99, 130, 83, 99]
  let options := options ++ packet.options.data
  let options := options ++ [255, 0, 0]
  writeBytes buf options

/-- The errors that `Decode` turns into its error result: the two errors of
`binary.Read` and the run-time error of an out-of-range slice expression. -/
inductive ParseError where
  | eof
  | unexpectedEOF
  | sliceBounds
deriving DecidableEq, Repr

/-- Go `binary.Read` of `k` bytes from a `bytes.Reader` with remaining input `r`:
the bytes read and the remaining input. Reading nothing succeeds; at the end of
the input the error is `io.EOF`, and `io.ErrUnexpectedEOF` when fewer than `k`
bytes remain. -/
def readBytes (k : Nat) (r : List Nat) : Except ParseError (List Nat × List Nat) :=
  if k = 0 then .ok ([], r)
  else if r.length = 0 then .error .eof
  else if r.length < k then .error .unexpectedEOF
  else .ok (r.take k, r.drop k)

/-- Go `binary.Read` into a `byte`. -/
def readUint8 (r : List Nat) : Except ParseError (Nat × List Nat) :=
  match readBytes 1 r with
  | .ok (bs, r) => .ok (bs.getD 0 0, r)
  | .error e => .error e

/-- Go `binary.BigEndian.Uint16`, after reading two bytes. -/
def readUint16 (r : List Nat) : Except ParseError (Nat × List Nat) :=
  match readBytes 2 r with
  | .ok (bs, r) => .ok (bs.getD 1 0 ||| (bs.getD 0 0 <<< 8), r)
  | .error e => .error e

/-- Go `binary.BigEndian.Uint32`, after reading four bytes. -/
def readUint32 (r : List Nat) : Except ParseError (Nat × List Nat) :=
  match readBytes 4 r with
  | .ok (bs, r) =>
      .ok (bs.getD 3 0 ||| (bs.getD 2 0 <<< 8) ||| (bs.getD 1 0 <<< 16) ||| (bs.getD 0 0 <<< 24), r)
  | .error e => .error e

/-- The body of Go `Decode`, where a panic is an `Except.error`. The slice
`buf[:bytesRead]` needs `0 ≤ bytesRead ≤ cap(buf)`; `buf` lists the backing
array up to its capacity. -/
def decodeBody (buf : List Nat) (bytesRead : Int) : Except ParseError DHCPPacket := do
  if bytesRead < 0 ∨ (buf.length : Int) < bytesRead then throw ParseError.sliceBounds
  let b := buf.take bytesRead.toNat
  let (op, b) ← readUint8 b
  let (htype, b) ← readUint8 b
  let (hlen, b) ← readUint8 b
  let (hops, b) ← readUint8 b
  let (xid, b) ← readUint32 b
  let (secs, b) ← readUint16 b
  let (flags, b) ← readUint16 b
  let (ciaddr, b) ← readBytes 4 b
  let (yiaddr, b) ← readBytes 4 b
  let (siaddr, b) ← readBytes 4 b
  let (giaddr, b) ← readBytes 4 b
  let (chaddr, b) ← readBytes 16 b
  let (sname, b) ← readBytes 64 b
  let (file, b) ← readBytes 128 b
  -- packet.options = make([]byte, b.Len()), filled by binary.Read
  let (sect, _) ← readBytes b.length b
  -- packet.options = packet.options[4 : len(packet.options)-3]
  if sect.length < 3 ∨ sect.length - 3 < 4 then throw ParseError.sliceBounds
  let options : ByteSlice :=
    ⟨(sect.take (sect.length - 3)).drop 4, sect.drop (sect.length - 3)⟩
  return { Op := op, Htype := htype, Hlen := hlen, Hops := hops, Xid := xid,
           Secs := secs, Flags := flags, Ciaddr := ciaddr, Yiaddr := yiaddr,
           Siaddr := siaddr, Giaddr := giaddr, Chaddr := chaddr, Sname := sname,
           File := file, options := options }

/-- Go `Decode`: the deferred function recovers every panic of the body and
returns the zero packet together with the error. -/
def Decode (buf : List Nat) (bytesRead : Int) : DHCPPacket × Option ParseError :=
  match decodeBody buf bytesRead with
  | .ok packet => (packet, none)
  | .error e => (DHCPPacket.zero, some e)


/-! ## Options (`packet/option/options.go`) -/

/-- The option codes used by name in the client (`OptionType` constants; the
constants count up from `SUBNET_MASK = 1`). -/
def REQUEST_IP_ADDR : Nat := 50

/-- Option code of the lease time. -/
def IP_ADDR_LEASE_TIME : Nat := 51

/-- Option code of the message type. -/
def DHCP_MESSAGE_TYPE : Nat := 53

/-- Option code of the server identifier. -/
def SERVER_IDENTIFIER : Nat := 54

/-- Option code of T1. -/
def RENEWAL_TIME_VALUE : Nat := 58

/-- Option code of T2. -/
def REBINDING_TIME_VALUE : Nat := 59

/-- The map `toString`: the name of each of the 61 `OptionType` constants. -/
def toStringTable : List (Nat × String) := [
  (1, "SUBNET_MASK"), (2, "TIME_OFFSET"), (3, "ROUTER_OPT"),
  (4, "TIME_SERVER_OPT"), (5, "NAME_SERVER_OPT"), (6, "DOMAIN_NAME_SERVER_OPT"),
  (7, "LOG_SERVER_OPT"), (8, "COOKIE_SERVER_OPT"), (9, "LPR_SERVER_OPT"),
  (10, "IMPRESS_SERVER_OPT"), (11, "RESOURCE_LOCATION_SERVER_OPT"), (12, "HOST_NAME_OPT"),
  (13, "BOOT_FILE_SIZE_OPT"), (14, "MERIT_DUMP_FILE"), (15, "DOMAIN_NAME"),
  (16, "SWAP_SERVER"), (17, "ROOT_PATH"), (18, "EXTENSION_PATH"),
  (19, "IP_FORWARDING_OPT"), (20, "NON_LOCAL_SOURCE_ROUTING_OPT"), (21, "POLICY_FILTER_OPT"),
  (22, "MAX_DATAGRAM_REASSEMBLY_SIZE"), (23, "DEFAULT_IP_TTL"), (24, "PATH_MTU_AGING_TIMEOUT_OPT"),
  (25, "PATH_MTU_PLATEAU_TABLE_OPT"), (26, "INTERFACE_MTU_OPT"), (27, "ALL_SUBNET_ARE_LOCAL_OPT"),
  (28, "BROADCAST_ADDR_OPT"), (29, "PERFORM_MASK_DISCOVERY_OPT"), (30, "MASK_SUPPLIER_OPT"),
  (31, "PERFORM_ROUTER_DICOVERY_OPT"), (32, "ROUTER_SOLICITATION_ADDR_OPT"), (33, "STATIC_ROUTE_OPT"),
  (34, "TRAILER_ENCAPSULATION_OPT"), (35, "ARP_CACHE_TIMEOUT_OPT"), (36, "ETHERNET_ENCAPSULATION_OPT"),
  (37, "TCP_DEFAULT_TTL_OPT"), (38, "TCP_KEAPALIVE_INTERVAL_OPT"), (39, "TCP_KEEPALIVE_GARBAGE_OPT"),
  (40, "NET_INFORMATION_SERVICE_DOMAIN_OPT"), (41, "NET_INFORMATION_SERVERS_OPT"), (42, "NET_TIME_PROTOCOL_SERVERS_OPT"),
  (43, "VENDOR_SPECIFIC_INFORMATION"), (44, "NETBIOS_OVER_TCPIP_NAME_SERVER_OP"), (45, "NETBIOS_OVER_TCPIP_DATAGRAM_DISTRIBUTION_SERVER_OPT"),
  (46, "NETBIOS_OVER_TCPIP_NODE_TYPE_OPT"), (47, "NETBIOS_OVER_TCPIP_SCOPE_OPT"), (48, "XWINDOW_SYSTEM_FONT_SERVER_OPT"),
  (49, "XWINDOW_SYSTEM_DISPLAY_MANAGER_OPT"), (50, "REQUEST_IP_ADDR"), (51, "IP_ADDR_LEASE_TIME"),
  (52, "OPT_OVERLOAD"), (53, "DHCP_MESSAGE_TYPE"), (54, "SERVER_IDENTIFIER"),
  (55, "PARAMETER_REQUEST_LIST"), (56, "MESSAGE"), (57, "MAX_DHCP_MESSAGE_SIZE"),
  (58, "RENEWAL_TIME_VALUE"), (59, "REBINDING_TIME_VALUE"), (60, "CLASS_IDENTIFIER"),
  (61, "CLIENT_IDENTIFIER")]

/-- Go `TypeToString`. -/
def TypeToString (id : Nat) : String :=
  match toStringTable.lookup id with
  | some v => v
  | none => "UNKNOWN " ++ toString id

/-- Go `DHCPOption`. -/
structure DHCPOption where
  Data : List Nat
  ID : String
deriving DecidableEq, Repr

/-- The `MessageType` constants, counted up from `DHCPDISCOVER = 1`. -/
def DHCPDISCOVER : Nat := 1

/-- Message type OFFER. -/
def DHCPOFFER : Nat := 2

/-- Message type REQUEST. -/
def DHCPREQUEST : Nat := 3

/-- Message type DECLINE. -/
def DHCPDECLINE : Nat := 4

/-- Message type ACK. -/
def DHCPACK : Nat := 5

/-- Message type NAK. -/
def DHCPNAK : Nat := 6

/-- Message type RELEASE. -/
def DHCPRELEASE : Nat := 7

/-- Message type UNKNOWN. -/
def UNKNOWN : Nat := 8

/-- Go `NewMessageTypeOpt`; `byte(messageType)` keeps the low eight bits. -/
def NewMessageTypeOpt (messageType : Nat) : DHCPOption :=
  { Data := [53, 1, messageType % 256], ID := TypeToString DHCP_MESSAGE_TYPE }

/-- Go `NewRequestIpAddrOpt`. -/
def NewRequestIpAddrOpt (ipAddr : List Nat) : DHCPOption :=
  { Data := [50, 4] ++ ipAddr, ID := TypeToString REQUEST_IP_ADDR }

/-! ## Options of a packet (`packet/dhcppacket.go`) -/

/-- The outcome of running Go code that can panic. `outOfFuel` is the outcome of
a loop of the embedding that was given too few iterations; `GetOptions_fuel`
shows that it never arises. -/
inductive Run (α : Type) where
  | ok (a : α)
  | panic
  | outOfFuel
deriving DecidableEq, Repr

/-- Go `AddOption`. -/
def AddOption (growslice : Nat → Nat → Nat) (packet : DHCPPacket) (option : DHCPOption) :
    DHCPPacket :=
  { packet with options := goAppend growslice packet.options option.Data }

/-- A value of the map `decodedOptions`, stored under `key`: a `DHCPOption`
whose `ID` is `TypeToString key` and whose `Data` is the slice
`options[start : start+len]` of the packet's option buffer. The slice shares
the backing array of the buffer, so its contents are read when the walk is
over. -/
structure Entry where
  key : Nat
  start : Nat
  len : Nat
deriving DecidableEq, Repr

/-- Lookup in `decodedOptions`. -/
def lookupEntry (key : Nat) (m : List Entry) : Option Entry :=
  m.find? (fun e => e.key == key)

/-- Go `copy(arr[pos:], src)` for `pos + len(src) ≤ len(arr)`. -/
def copyInto (arr : List Nat) (pos : Nat) (src : List Nat) : List Nat :=
  arr.take pos ++ src ++ arr.drop (pos + src.length)

/-- The `for` loop of Go `GetOptions` over the backing array `arr` of
`packet.options`, of which the first `len` elements are visible; `i` is the
loop index and `m` the map `decodedOptions` (in order of insertion).

* `options[i+1]` panics unless `i+1 < len`.
* `options[i:nextOptionIndex]` panics unless `nextOptionIndex ≤ cap`.
* For a code already in the map, `existingOption` is a copy of the map value.
  `append(existingOption.Data, option.Data[2:]...)` writes the payload into the
  backing array right behind the slice of the first occurrence when the
  capacity of that slice suffices (otherwise into a fresh array, which is
  dropped), and `existingOption.Data[1] += option.Data[1]` adds, modulo 256,
  the length octet found in the array after that write. The map value itself
  is not assigned, so its slice keeps its length. -/
def optionWalk (len : Nat) : Nat → Nat → List Nat → List Entry → Run (List Nat × List Entry)
  | 0, i, arr, m => if i < len then .outOfFuel else .ok (arr, m)
  | fuel + 1, i, arr, m =>
    if i < len then
      let optionId := arr.getD i 0
      if i + 1 < len then
        let optionLen := arr.getD (i + 1) 0
        let nextOptionIndex := i + 2 + optionLen
        if nextOptionIndex ≤ arr.length then
          match lookupEntry optionId m with
          | none =>
              optionWalk len fuel nextOptionIndex arr (m ++ [⟨optionId, i, 2 + optionLen⟩])
          | some existing =>
              if existing.len + optionLen ≤ arr.length - existing.start then
                let arr := copyInto arr (existing.start + existing.len)
                  ((arr.drop (i + 2)).take optionLen)
                let arr := arr.set (existing.start + 1)
                  ((arr.getD (existing.start + 1) 0 + arr.getD (i + 1) 0) % 256)
                optionWalk len fuel nextOptionIndex arr m
              else
                optionWalk len fuel nextOptionIndex arr m
        else .panic
      else .panic
    else .ok (arr, m)

/-- The option that a map value denotes once the walk has left the backing
array as `arr`. -/
def entryOption (arr : List Nat) (e : Entry) : DHCPOption :=
  { Data := (arr.drop e.start).take e.len, ID := TypeToString e.key }

/-- The loop of `GetOptions` run on a packet: the backing array as the walk
leaves it (the caller's packet shares it) and the map. Every iteration moves
the index by at least two, so `len(options)` iterations are enough. -/
def GetOptionsRun (packet : DHCPPacket) : Run (List Nat × List Entry) :=
  optionWalk packet.options.data.length packet.options.data.length 0
    (packet.options.data ++ packet.options.spare) []

/-- Go `GetOptions`. Go ranges over the map in an unspecified order; the
embedding lists the values in order of insertion (`GetOption_order`: the
order does not matter to `GetOption`). -/
def GetOptions (packet : DHCPPacket) : Run (List DHCPOption) :=
  match GetOptionsRun packet with
  | .ok (arr, m) => .ok (m.map (entryOption arr))
  | .panic => .panic
  | .outOfFuel => .outOfFuel

/-- Go `GetOption`; `none` is the nil pointer. -/
def GetOption (packet : DHCPPacket) (optionType : Nat) : Run (Option DHCPOption) :=
  match GetOptions packet with
  | .ok opts => .ok (opts.find? (fun opt => opt.ID == TypeToString optionType))
  | .panic => .panic
  | .outOfFuel => .outOfFuel

/-- Go `GetMessageType`; `opt.Data[2]` panics when the slice has fewer than
three elements. -/
def GetMessageType (packet : DHCPPacket) : Run Nat :=
  match GetOption packet DHCP_MESSAGE_TYPE with
  | .ok none => .ok UNKNOWN
  | .ok (some opt) => if 2 < opt.Data.length then .ok (opt.Data.getD 2 0) else .panic
  | .panic => .panic
  | .outOfFuel => .outOfFuel

/-- Go `BroadcastFlag`. -/
def BroadcastFlag (packet : DHCPPacket) : Bool :=
  ((1 <<< 15) &&& packet.Flags) != 0

/-- Go `MarkBroadcastFlag`. -/
def MarkBroadcastFlag (packet : DHCPPacket) : DHCPPacket :=
  { packet with Flags := (1 <<< 15) % 2 ^ 16 }

/-! ## Converters (`util/converter/converter.go`) -/

/-- Go `IP2Array`: `copy` moves `min(4, len(ip))` bytes into a zeroed array. -/
def IP2Array (ip : List Nat) : List Nat := (ip ++ List.replicate 4 0).take 4

/-- Go `Hardware2Array`. -/
def Hardware2Array (addr : List Nat) : List Nat := (addr ++ List.replicate 16 0).take 16

/-- Go `net.IPv4zero`, the 16-byte form of 0.0.0.0. -/
def IPv4zero : List Nat := [0, 0, 0, 0, 0, 0, 0, 0, 0, 0, 255, 255, 0, 0, 0, 0]

/-! ## The packet factory (`packet/factory.go`) -/

/-- Go `DHCPConfig`. -/
structure DHCPConfig where
  OfferWindowSec : Int
  HardwareType : Int
  HardwareAddrLen : Int
  InterfaceName : String
  RetryRequestSec : Int
  StopOnLeaseAcquisitionFailure : Bool
deriving DecidableEq, Repr

/-- Go conversion `uint8(x)` of an `int`. -/
def toUint8 (x : Int) : Nat := (x % 256).toNat

/-- Go `RequestForOffer`. `hardwareAddr` is the result of
`netUtils.GetHardwareAddr(hardwareInterface.Name)`. Dereferencing the nil
pointer that `GetOption` returns for a missing server identifier panics. -/
def RequestForOffer (growslice : Nat → Nat → Nat) (config : DHCPConfig)
    (hardwareAddr : List Nat) (offer : DHCPPacket) : Run (DHCPPacket × Nat) :=
  let tx := offer.Xid
  let packet : DHCPPacket :=
    { DHCPPacket.zero with
      Op := REQUEST, Htype := toUint8 config.HardwareType,
      Hlen := toUint8 config.HardwareAddrLen, Xid := tx, Secs := 0,
      Ciaddr := IP2Array IPv4zero, Chaddr := Hardware2Array hardwareAddr }
  let packet := MarkBroadcastFlag packet
  let packet := AddOption growslice packet (NewRequestIpAddrOpt offer.Yiaddr)
  let packet := AddOption growslice packet (NewMessageTypeOpt DHCPREQUEST)
  match GetOption offer SERVER_IDENTIFIER with
  | .ok (some serverIdentifier) => .ok (AddOption growslice packet serverIdentifier, tx)
  | .ok none => .panic
  | .panic => .panic
  | .outOfFuel => .outOfFuel

/-! ## Well-formed option buffers and sample inputs -/

/-- Serialisation of a sequence of options (code, payload): each one as code,
length octet, payload. -/
def tlvBytes : List (Nat × List Nat) → List Nat
  | [] => []
  | (c, pl) :: rest => c :: pl.length :: (pl ++ tlvBytes rest)

/-- The map values that the walk inserts for a sequence of options with
pairwise distinct codes that starts at index `i`. -/
def tlvEntries : Nat → List (Nat × List Nat) → List Entry
  | _, [] => []
  | i, (c, pl) :: rest => ⟨c, i, 2 + pl.length⟩ :: tlvEntries (i + 2 + pl.length) rest

/-- The option that a code and a payload denote. -/
def tlvOption (t : Nat × List Nat) : DHCPOption :=
  { Data := t.1 :: t.2.length :: t.2, ID := TypeToString t.1 }

/-- Reads back the option code from the text that `TypeToString` gives it. -/
def codeOfName (s : String) : Nat :=
  match toStringTable.find? (fun e => e.2 == s) with
  | some e => e.1
  | none => (s.data.drop 8).foldl (fun acc ch => 10 * acc + (ch.toNat - 48)) 0

/-- What `Decode` returns for an input `b = buf[:bytesRead]` of at least 243 bytes. -/
def decodedPacket (b : List Nat) : DHCPPacket :=
  { Op := b.getD 0 0, Htype := b.getD 1 0, Hlen := b.getD 2 0, Hops := b.getD 3 0,
    Xid := b.getD 7 0 ||| (b.getD 6 0 <<< 8) ||| (b.getD 5 0 <<< 16) ||| (b.getD 4 0 <<< 24),
    Secs := b.getD 9 0 ||| (b.getD 8 0 <<< 8),
    Flags := b.getD 11 0 ||| (b.getD 10 0 <<< 8),
    Ciaddr := (b.drop 12).take 4, Yiaddr := (b.drop 16).take 4,
    Siaddr := (b.drop 20).take 4, Giaddr := (b.drop 24).take 4,
    Chaddr := (b.drop 28).take 16, Sname := (b.drop 44).take 64,
    File := (b.drop 108).take 128,
    options := ⟨(b.drop 240).take (b.length - 243), b.drop (b.length - 3)⟩ }

/-- A DISCOVER-like packet used to instantiate the theorems. -/
def samplePacket : DHCPPacket :=
  { DHCPPacket.zero with
    Op := 1, Htype := 1, Hlen := 6, Xid := 1234, Secs := 50, Flags := 32768,
    options := ⟨[53, 1, 1], []⟩ }

/-- An ACK-like packet with option 55 split into three parts with payloads 1, 3
and 6. -/
def splitPacket : DHCPPacket :=
  { DHCPPacket.zero with Op := 2, options := ⟨[55, 1, 1, 55, 1, 3, 55, 1, 6], []⟩ }

/-- A datagram whose option section is the single octet 53: a code with no
length octet. -/
def truncatedDatagram : List Nat :=
  List.replicate 236 0 ++ [99, 130, 83, 99] ++ [53] ++ [255, 0, 0]

/-- A datagram whose only option announces three payload bytes and carries
one. -/
def overlongDatagram : List Nat :=
  List.replicate 236 0 ++ [99, 130, 83, 99] ++ [53, 3, 5] ++ [255, 0, 0]

/-- An ACK whose subnet mask (option 1) is split into the parts `1,1,0` and
`1,3,7,8,9`, with the message type `53,1,5` between them. -/
def splitMaskPacket : DHCPPacket :=
  { DHCPPacket.zero with Op := 2, options := ⟨[1, 1, 0, 53, 1, 5, 1, 3, 7, 8, 9], []⟩ }

/-- The first 236 bytes of the encoding: the fixed header of the packet. -/
def fixedHeader (p : DHCPPacket) : List Nat := (Encode p).take 236

/-- The datagram of a sender that ends the option section with the END tag
followed by `k` zero octets. -/
def paddedDatagram (p : DHCPPacket) (k : Nat) : List Nat :=
  fixedHeader p ++ [99, 130, 83, 99] ++ p.options.data ++ [255] ++ List.replicate k 0

/-- An ACK whose only option is the message type. -/
def ackPacket : DHCPPacket :=
  { DHCPPacket.zero with
    Op := 2, Xid := 77, Yiaddr := [127, 0, 0, 2], options := ⟨[53, 1, 5], []⟩ }

/-- A reply without options. -/
def emptyPacket : DHCPPacket := { DHCPPacket.zero with Op := 2 }

/-- An OFFER as `Decode` returns it: message type, server identifier 127.0.0.1
and a lease time of 200 seconds. -/
def offerPacket : DHCPPacket :=
  { DHCPPacket.zero with
    Op := 2, Xid := 77, Yiaddr := [127, 0, 0, 2],
    options := ⟨[53, 1, 2, 54, 4, 127, 0, 0, 1, 51, 4, 0, 0, 0, 200], [255, 0, 0]⟩ }

/-- The default configuration (`envDefault` tags of `DHCPConfig`). -/
def defaultConfig : DHCPConfig :=
  { OfferWindowSec := 1, HardwareType := 1, HardwareAddrLen := 6, InterfaceName := "en0",
    RetryRequestSec := 3, StopOnLeaseAcquisitionFailure := false }

/-- A growth policy for `append`: double the length needed. -/
def doubling (_oldCap newLen : Nat) : Nat := 2 * newLen

/-! ## Typed accessors of an option (`packet/option/options.go`) -/

/-- Go `int64(x)`: the value of `x` wrapped into the signed 64-bit range. -/
def wrapInt64 (x : Int) : Int := (x + 2 ^ 63) % 2 ^ 64 - 2 ^ 63

/-- Go `time.Second`, in nanoseconds. -/
def Second : Int := 1000000000

/-- Go `GetRawOptionValue`: `o.Data[2:]`, which panics on fewer than two bytes. -/
def GetRawOptionValue (o : DHCPOption) : Run (List Nat) :=
  if 2 ≤ o.Data.length then .ok (o.Data.drop 2) else .panic

/-- Go `binary.BigEndian.Uint32`, which panics on fewer than four bytes and
reads the first four. -/
def bigEndianUint32 (b : List Nat) : Run Nat :=
  if 4 ≤ b.length then
    .ok (b.getD 3 0 ||| (b.getD 2 0 <<< 8) ||| (b.getD 1 0 <<< 16) ||| (b.getD 0 0 <<< 24))
  else .panic

/-- Go `GetDataAsIP4`. -/
def GetDataAsIP4 (o : DHCPOption) : Run (List Nat) := GetRawOptionValue o

/-- Go `GetDataAsUint`. -/
def GetDataAsUint (o : DHCPOption) : Run Nat :=
  match GetRawOptionValue o with
  | .ok raw => bigEndianUint32 raw
  | .panic => .panic
  | .outOfFuel => .outOfFuel

/-- Go `GetDataAsSecDuration`: the `uint32` converted to `time.Duration` (an
`int64` count of nanoseconds) and multiplied by `time.Second`. -/
def GetDataAsSecDuration (o : DHCPOption) : Run Int :=
  match GetRawOptionValue o with
  | .ok raw =>
    match bigEndianUint32 raw with
    | .ok v => .ok (wrapInt64 ((v : Int) * Second))
    | .panic => .panic
    | .outOfFuel => .outOfFuel
  | .panic => .panic
  | .outOfFuel => .outOfFuel

/-! ## `float64` arithmetic on durations -/

/-- The number of bits by which `n` exceeds the 53 bits of a `float64`
significand, counted in at most `fuel` halvings. -/
def excessBitsAux : Nat → Nat → Nat
  | 0, _ => 0
  | fuel + 1, n => if n < 2 ^ 53 then 0 else excessBitsAux fuel (n / 2) + 1

/-- The number of bits by which `n` exceeds 53 bits, for `n` below `2 ^ 181`. -/
def excessBits (n : Nat) : Nat := excessBitsAux 128 n

/-- The `float64` nearest to the natural number `n` (IEEE 754 round to nearest,
ties to even): `n` rounded to 53 significant bits. The result is an integer. -/
def roundSig53 (n : Nat) : Nat :=
  let k := excessBits n
  let q := n / 2 ^ k
  let r := n % 2 ^ k
  if 2 * r > 2 ^ k ∨ (2 * r = 2 ^ k ∧ q % 2 = 1) then (q + 1) * 2 ^ k else q * 2 ^ k

/-- Go `time.Duration(float64(d) * 0.875)` for `d ≥ 0`: `d` is converted to the
nearest `float64`, the product with 0.875 (= 7/8, a `float64`) is rounded to
the nearest `float64`, and the conversion to `int64` drops the fraction. The
exact product of the integer `f` with 7/8 is `7 * f` eighths, and rounding it
to 53 significant bits is rounding `7 * f`. -/
def mulFloat0875Nat (d : Nat) : Nat := roundSig53 (7 * roundSig53 d) / 8

/-- Go `time.Duration(float64(d) * 0.875)` for an `int64` duration `d`;
rounding to nearest and truncation toward zero are symmetric in the sign. -/
def mulFloat0875 (d : Int) : Int :=
  if 0 ≤ d then (mulFloat0875Nat d.toNat : Int) else - (mulFloat0875Nat (-d).toNat : Int)

/-! ## Client states (`client/state/state.go`) -/

/-- State `INIT_REBOOT`; the `State` constants count up from 0. -/
def INIT_REBOOT : Nat := 0

/-- State `REBOOTING`. -/
def REBOOTING : Nat := 1

/-- State `INIT`. -/
def INIT : Nat := 2

/-- State `SELECTING`. -/
def SELECTING : Nat := 3

/-- State `REQUESTING`. -/
def REQUESTING : Nat := 4

/-- State `BOUND`. -/
def BOUND : Nat := 5

/-- State `RENEWING`. -/
def RENEWING : Nat := 6

/-- State `REBINDING`. -/
def REBINDING : Nat := 7

/-! ## The lease (`lease/lease.go`) -/

/-- Go `DHCPLease`. A `net.IP` or `net.IPMask` is its byte list, nil being the
empty list; a `time.Time` is the count of nanoseconds since the zero instant
`time.Time{}`; a `time.Duration` is its count of nanoseconds. -/
structure DHCPLease where
  State : Nat
  IpAddr : List Nat
  Dns : List Nat
  SubnetMask : List Nat
  ServerIdentifier : List Nat
  LeaseInitTime : Int
  LeaseDuration : Int
  T1 : Int
  T2 : Int
  Offer : DHCPPacket
deriving DecidableEq, Repr

/-- Go `generatePrivateIp` for the two results `r1`, `r2` of `rand.Int()`:
`net.IPv4(169, 254, byte(r1%254)+1, byte(r2%253)+1).To4()`. -/
def generatePrivateIp (r1 r2 : Nat) : List Nat :=
  [169, 254, ((r1 % 254) % 256 + 1) % 256, ((r2 % 253) % 256 + 1) % 256]

/-- Go `AutoPrivateAddr`. The function draws candidates with
`generatePrivateIp` until the ARP probe finds one unused and returns that one;
`accepted` holds the two random draws of the candidate that is returned. -/
def AutoPrivateAddr (accepted : Nat × Nat) : List Nat :=
  generatePrivateIp accepted.1 accepted.2

/-- What the engine shares with the rest of the process: the package variable
`autoPrivateAddr` of `lease.go` (`none` until `initPrivateAddr.Do` has run) and
the calls of `DHCPClient.Send` made so far, each with its packet and its
address argument. -/
structure World where
  autoPrivateAddr : Option (List Nat)
  sent : List (DHCPPacket × List Nat)
deriving DecidableEq, Repr

/-- Go `ResetLease`. -/
def ResetLease (accepted : Nat × Nat) (w : World) (l : DHCPLease) : DHCPLease × World :=
  let addr := match w.autoPrivateAddr with
    | some a => a
    | none => AutoPrivateAddr accepted
  ({ l with State := INIT, IpAddr := addr, Dns := [], SubnetMask := [], ServerIdentifier := [],
            LeaseInitTime := 0, LeaseDuration := 0, T1 := 0, T2 := 0 },
   { w with autoPrivateAddr := some addr })

/-! ## More of the packet factory (`packet/factory.go`) -/

/-- Go `DHCPPacketFactory.Discover`; `tx` is the result of
`RandomTransactionId()`. -/
def Discover (growslice : Nat → Nat → Nat) (config : DHCPConfig) (hardwareAddr : List Nat)
    (tx : Nat) : DHCPPacket × Nat :=
  let packet : DHCPPacket :=
    { DHCPPacket.zero with
      Op := REQUEST, Htype := toUint8 config.HardwareType,
      Hlen := toUint8 config.HardwareAddrLen, Xid := tx, Secs := 0,
      Ciaddr := IP2Array IPv4zero, Chaddr := Hardware2Array hardwareAddr }
  let packet := MarkBroadcastFlag packet
  let packet := AddOption growslice packet (NewMessageTypeOpt DHCPDISCOVER)
  (packet, tx)

/-- Go `RequestForRenew`. -/
def RequestForRenew (growslice : Nat → Nat → Nat) (config : DHCPConfig)
    (hardwareAddr : List Nat) (tx : Nat) (lease : DHCPLease) : DHCPPacket × Nat :=
  let packet : DHCPPacket :=
    { DHCPPacket.zero with
      Op := REQUEST, Htype := toUint8 config.HardwareType,
      Hlen := toUint8 config.HardwareAddrLen, Xid := tx, Secs := 0,
      Ciaddr := IP2Array lease.IpAddr, Chaddr := Hardware2Array hardwareAddr }
  let packet := AddOption growslice packet (NewMessageTypeOpt DHCPREQUEST)
  (packet, tx)

/-- Go `RequestForRebind`. -/
def RequestForRebind (growslice : Nat → Nat → Nat) (config : DHCPConfig)
    (hardwareAddr : List Nat) (tx : Nat) (lease : DHCPLease) : DHCPPacket × Nat :=
  let (request, tx) := RequestForRenew growslice config hardwareAddr tx lease
  (request, tx)

/-- Go `RequestForReboot`. -/
def RequestForReboot (growslice : Nat → Nat → Nat) (config : DHCPConfig)
    (hardwareAddr : List Nat) (tx : Nat) (lease : DHCPLease) : DHCPPacket × Nat :=
  let packet : DHCPPacket :=
    { DHCPPacket.zero with
      Op := REQUEST, Htype := toUint8 config.HardwareType,
      Hlen := toUint8 config.HardwareAddrLen, Xid := tx, Secs := 0,
      Ciaddr := IP2Array IPv4zero, Chaddr := Hardware2Array hardwareAddr }
  let packet := MarkBroadcastFlag packet
  let packet := AddOption growslice packet (NewRequestIpAddrOpt lease.IpAddr)
  let packet := AddOption growslice packet (NewMessageTypeOpt DHCPREQUEST)
  (packet, tx)

/-- Go `Decline`. -/
def Decline (growslice : Nat → Nat → Nat) (hardwareAddr : List Nat) (tx : Nat)
    (ack : DHCPPacket) : DHCPPacket × Nat :=
  let packet : DHCPPacket :=
    { DHCPPacket.zero with Op := REQUEST, Xid := tx, Chaddr := Hardware2Array hardwareAddr }
  let packet := AddOption growslice packet (NewRequestIpAddrOpt ack.Yiaddr)
  (packet, tx)

/-! ## The processing engine (`core/processing-engine.go`, `core/client.go`) -/

/-- Sequencing of Go code that can panic. -/
def Run.bind {α β : Type} (x : Run α) (f : α → Run β) : Run β :=
  match x with
  | .ok a => f a
  | .panic => .panic
  | .outOfFuel => .outOfFuel

instance : Monad Run where
  pure := Run.ok
  bind := Run.bind

/-- The packet as its holders see it after `GetOptions` has walked its option
buffer and left the backing array as `arr`. -/
def withBuffer (packet : DHCPPacket) (arr : List Nat) : DHCPPacket :=
  { packet with
    options := ⟨arr.take packet.options.data.length, arr.drop packet.options.data.length⟩ }

/-- Go `GetOption`, with what the caller keeps in hand: the map value found,
which is a slice of the option buffer, and the packet after the walk. -/
def GetOptionRef (packet : DHCPPacket) (optionType : Nat) : Run (Option Entry × DHCPPacket) :=
  match GetOptionsRun packet with
  | .ok (arr, m) =>
      .ok (m.find? (fun e => TypeToString e.key == TypeToString optionType),
           withBuffer packet arr)
  | .panic => .panic
  | .outOfFuel => .outOfFuel

/-- The option that a slice of the option buffer holds in a given state of the
packet. -/
def refOption (packet : DHCPPacket) (e : Entry) : DHCPOption :=
  entryOption (packet.options.data ++ packet.options.spare) e

/-- The fields of Go `ProcessingEngine` that the state machine reads and
writes. A listener is known by a number: the engine calls it with a copy of the
lease and does nothing with what it does. -/
structure ProcessingEngine where
  Config : DHCPConfig
  Lease : DHCPLease
  stopped : Bool
  leaseReceivedListeners : List Nat := []
  leaseRenewedListeners : List Nat := []
deriving DecidableEq, Repr

/-- The collaborators of the engine: the growth policy of `append`, the
hardware address of the interface, and the ARP probe `netUtils.IsUniqueIp`. -/
structure Env where
  growslice : Nat → Nat → Nat
  hardwareAddr : List Nat
  IsUniqueIp : List Nat → DHCPConfig → Bool

/-- The error values that the engine returns: the address offered is in use
(`FinalizeOffer`), the offer has no server identifier, `Send` failed, the wait
for a reply timed out or failed otherwise, and the server sent a NAK
(`ProcessOffers`). -/
inductive EngineError where
  | addressInUse
  | noServerIdentifier
  | sendFailed
  | noResponse
  | waitFailed
  | leaseRevoked
deriving DecidableEq, Repr

/-- Go `DHCPClient.Send`: the log line evaluates `packet.GetMessageType()`,
then the datagram is written; `sendFails` tells whether `WriteToUDP` returns an
error. The `String` method that formats the packet for the log line runs under
the `recover` of package `fmt`, so only `GetMessageType` can make `Send` panic.
The call is recorded with its packet and its address argument. -/
def Send (sendFails : Bool) (w : World) (packet : DHCPPacket) (addr : List Nat) :
    Run (Bool × World) := do
  let _ ← GetMessageType packet
  return (sendFails, { w with sent := w.sent ++ [(packet, addr)] })

/-- What `FinalizeOffer` leaves behind: its error result, the engine, the
world, and the packet behind the pointer `ack`. -/
structure Finalized where
  err : Option EngineError
  engine : ProcessingEngine
  world : World
  ack : DHCPPacket
deriving DecidableEq, Repr

/-- The right-hand side of the assignments to `T1` and `T2`: the option in
seconds when `GetOption` found one, the default otherwise. -/
def timerValue (ack : DHCPPacket) (found : Option Entry) (default : Int) : Run Int :=
  match found with
  | some e => GetDataAsSecDuration (refOption ack e)
  | none => .ok default

/-- Go `FinalizeOffer`. `declineTx` is the transaction id drawn for the
DECLINE and `sendFails` the outcome of its `Send`. Every `ack.GetOption` walks
the option buffer of the packet again; a method call on the nil pointer that
`GetOption` returns for a missing option panics. `ServerIdentifier` is a slice
of the option buffer and is read here when the function returns. -/
def FinalizeOffer (env : Env) (declineTx : Nat) (sendFails : Bool) (p : ProcessingEngine)
    (w : World) (ack : DHCPPacket) (requestTime : Int) : Run Finalized :=
  if env.IsUniqueIp ack.Yiaddr p.Config = false then do
    let declinePacket := (Decline env.growslice env.hardwareAddr declineTx ack).1
    let (found, ack) ← GetOptionRef ack SERVER_IDENTIFIER
    match found with
    | none => .panic
    | some serverIdentifier =>
      let addr ← GetDataAsIP4 (refOption ack serverIdentifier)
      let (_, w) ← Send sendFails w declinePacket addr
      return { err := some .addressInUse, engine := p, world := w, ack := ack }
  else do
    let (found, ack1) ← GetOptionRef ack SERVER_IDENTIFIER
    match found with
    | none => .panic
    | some serverIdentifier =>
      let (found, ack2) ← GetOptionRef ack1 IP_ADDR_LEASE_TIME
      match found with
      | none => .panic
      | some leaseTime =>
        let leaseDuration ← GetDataAsSecDuration (refOption ack2 leaseTime)
        let (t1, ack3) ← GetOptionRef ack2 RENEWAL_TIME_VALUE
        let T1 ← timerValue ack3 t1 (Int.tdiv leaseDuration 2)
        let (t2, ack4) ← GetOptionRef ack3 REBINDING_TIME_VALUE
        let T2 ← timerValue ack4 t2 (mulFloat0875 leaseDuration)
        let serverId ← GetDataAsIP4 (refOption ack4 serverIdentifier)
        return { err := none,
                 engine := { p with Lease := { p.Lease with
                   ServerIdentifier := serverId, IpAddr := ack.Yiaddr,
                   LeaseDuration := leaseDuration, LeaseInitTime := requestTime,
                   T1 := T1, T2 := T2 } },
                 world := w, ack := ack4 }

/-- Go `UpdateState`; `accepted` is passed on to `ResetLease`. -/
def UpdateState (accepted : Nat × Nat) (w : World) (p : ProcessingEngine) (newState : Nat) :
    ProcessingEngine × World :=
  let p := { p with Lease := { p.Lease with State := newState } }
  if newState = INIT then
    let (l, w) := ResetLease accepted w p.Lease
    ({ p with Lease := l }, w)
  else (p, w)

/-- Go `normalizeStateAfterStart`. -/
def normalizeStateAfterStart (accepted : Nat × Nat) (w : World) (p : ProcessingEngine) :
    ProcessingEngine × World :=
  if p.Lease.State = INIT_REBOOT ∨ p.Lease.State = BOUND ∨ p.Lease.State = RENEWING ∨
      p.Lease.State = REBINDING ∨ p.Lease.State = REBOOTING ∨ p.Lease.State = SELECTING ∨
      p.Lease.State = REQUESTING then
    UpdateState accepted w p INIT_REBOOT
  else (p, w)

/-- The function `processInput` of Go `Start`: one iteration of the dispatch
loop. The three phases that it calls are parameters: `discover` is
`p.Discover()`, `renewOrRebind` the two timer resets followed by
`p.RenewOrRebindLease()`, and `renewAfterReboot` is `p.RenewAfterReboot()`. A
state that no `case` lists falls out of the `switch`. -/
def processInput (discover renewOrRebind renewAfterReboot :
      ProcessingEngine × World → ProcessingEngine × World)
    (accepted : Nat × Nat) (w : World) (p : ProcessingEngine) : ProcessingEngine × World :=
  if p.Lease.State = INIT then discover (p, w)
  else if p.Lease.State = BOUND then renewOrRebind (p, w)
  else if p.Lease.State = INIT_REBOOT then renewAfterReboot (p, w)
  else if p.Lease.State = RENEWING ∨ p.Lease.State = REBINDING ∨ p.Lease.State = REBOOTING then
    UpdateState accepted w p INIT_REBOOT
  else (p, w)

/-- The big-endian value of the first four bytes of a payload. -/
def bigEndianValue (payload : List Nat) : Nat :=
  payload.getD 3 0 ||| (payload.getD 2 0 <<< 8) ||| (payload.getD 1 0 <<< 16)
    ||| (payload.getD 0 0 <<< 24)

/-- The duration that `GetDataAsSecDuration` reads from a payload of at least
four bytes. -/
def secondsOf (payload : List Nat) : Int := wrapInt64 ((bigEndianValue payload : Int) * Second)

/-- The timer that `FinalizeOffer` assigns when the buffer holds the options
`tlvs`: the option with the code `name` in seconds, or the default. -/
def timerOf (tlvs : List (Nat × List Nat)) (name : Nat) (default : Int) : Int :=
  match tlvs.find? (fun t => t.1 == name) with
  | some t => secondsOf t.2
  | none => default

/-- A lease as `NewDHCPLease` makes it, in state REQUESTING. -/
def sampleLease : DHCPLease :=
  { State := REQUESTING, IpAddr := [169, 254, 7, 9], Dns := [], SubnetMask := [],
    ServerIdentifier := [], LeaseInitTime := 0, LeaseDuration := 0, T1 := 0, T2 := 0,
    Offer := DHCPPacket.zero }

/-- An engine with the default configuration and the sample lease. -/
def sampleEngine : ProcessingEngine :=
  { Config := defaultConfig, Lease := sampleLease, stopped := false }

/-- A world in which `initPrivateAddr.Do` has run and nothing has been sent. -/
def sampleWorld : World := { autoPrivateAddr := some [169, 254, 7, 9], sent := [] }

/-- Collaborators whose probe finds every address unused. -/
def sampleEnv : Env :=
  { growslice := doubling, hardwareAddr := [0, 10, 149, 157, 104, 22],
    IsUniqueIp := fun _ _ => true }

/-- Collaborators whose probe finds every address in use. -/
def busyEnv : Env :=
  { growslice := doubling, hardwareAddr := [0, 10, 149, 157, 104, 22],
    IsUniqueIp := fun _ _ => false }

/-- An ACK for 127.0.0.2 from the server 127.0.0.1 with a lease time of 200
seconds and the router 192.168.0.1. -/
def goodAck : DHCPPacket :=
  { DHCPPacket.zero with
    Op := 2, Xid := 77, Yiaddr := [127, 0, 0, 2],
    options := ⟨[53, 1, 5, 54, 4, 127, 0, 0, 1, 51, 4, 0, 0, 0, 200, 3, 4, 192, 168, 0, 1],
                [255, 0, 0]⟩ }

/-- The options of `goodAck`. -/
def goodAckOptions : List (Nat × List Nat) :=
  [(53, [5]), (54, [127, 0, 0, 1]), (51, [0, 0, 0, 200]), (3, [192, 168, 0, 1])]

/-- An ACK with the infinite lease time `0xFFFFFFFF` and neither T1 nor T2. -/
def infiniteAck : DHCPPacket :=
  { DHCPPacket.zero with
    Op := 2, Xid := 77, Yiaddr := [127, 0, 0, 2],
    options := ⟨[53, 1, 5, 54, 4, 127, 0, 0, 1, 51, 4, 255, 255, 255, 255], [255, 0, 0]⟩ }

/-- An ACK with a lease time of 100 seconds, T1 = 90 seconds and T2 = 50
seconds. -/
def unorderedAck : DHCPPacket :=
  { DHCPPacket.zero with
    Op := 2, Xid := 77, Yiaddr := [127, 0, 0, 2],
    options := ⟨[53, 1, 5, 54, 4, 127, 0, 0, 1, 51, 4, 0, 0, 0, 100,
                 58, 4, 0, 0, 0, 90, 59, 4, 0, 0, 0, 50], [255, 0, 0]⟩ }

/-- The options of `unorderedAck`. -/
def unorderedAckOptions : List (Nat × List Nat) :=
  [(53, [5]), (54, [127, 0, 0, 1]), (51, [0, 0, 0, 100]), (58, [0, 0, 0, 90]),
   (59, [0, 0, 0, 50])]

/-- An engine whose lease is bound: address 127.0.0.2 from the server
127.0.0.1 for 200 seconds, acquired at instant 1000. -/
def boundEngine : ProcessingEngine :=
  { Config := defaultConfig,
    Lease := { State := BOUND, IpAddr := [127, 0, 0, 2], Dns := [8, 8, 8, 8],
               SubnetMask := [255, 255, 255, 0], ServerIdentifier := [127, 0, 0, 1],
               LeaseInitTime := 1000, LeaseDuration := 200000000000, T1 := 100000000000,
               T2 := 175000000000, Offer := DHCPPacket.zero },
    stopped := false }

/-! ## The surroundings of the engine: socket, clock, random numbers, listeners -/

/-- What one call of `conn.ReadFromUDP(buf)` returns: a datagram, of which the
first 2000 bytes are copied into `buf`, with a nil error, or an error, for
which `os.IsTimeout` answers `timeout`. -/
inductive ReadResult where
  | datagram (payload : List Nat)
  | failure (timeout : Bool)
deriving DecidableEq, Repr

/-- The error results of `readPacket`: the error of `ReadFromUDP` (with the
answer of `os.IsTimeout`), or a `decodeError`, which is not a timeout. -/
inductive ReadError where
  | net (timeout : Bool)
  | decode (e : ParseError)
deriving DecidableEq, Repr

/-- Go `os.IsTimeout`. -/
def IsTimeout : ReadError → Bool
  | .net timeout => timeout
  | .decode _ => false

/-- One call of a listener: `renewed` tells the list it is in
(`leaseRenewedListeners` or `leaseReceivedListeners`), `lease` is the copy of
the lease it is called with. -/
structure ListenerCall where
  renewed : Bool
  listener : Nat
  lease : DHCPLease
deriving DecidableEq, Repr

/-- What surrounds the engine. `world` holds the package variable of `lease.go`
and the packets handed to `Send`. The other fields are the script of what the
surroundings will answer: `reads` the results of the coming calls of
`ReadFromUDP` (after the last one every read times out), `elapsed` the
nanoseconds that pass before each of the coming calls of `time.Now()` (after
the last one the clock stands at `now`), `txs` the coming results of
`rand.Uint32()` and `sendErrors` whether the coming calls of `WriteToUDP` fail
(zero and success after the last one); `calls` lists the listener calls made so
far. -/
structure Host where
  world : World
  reads : List ReadResult
  now : Int
  elapsed : List Nat
  txs : List Nat
  sendErrors : List Bool
  calls : List ListenerCall
deriving DecidableEq, Repr

/-- Go `time.Now()`. -/
def timeNow (h : Host) : Int × Host :=
  match h.elapsed with
  | [] => (h.now, h)
  | d :: rest => (h.now + d, { h with now := h.now + d, elapsed := rest })

/-- Go `RandomTransactionId`. -/
def RandomTransactionId (h : Host) : Nat × Host :=
  match h.txs with
  | [] => (0, h)
  | t :: rest => (t % 2 ^ 32, { h with txs := rest })

/-- Go `net.IPv4bcast`, as `Send` receives it. -/
def IPv4bcast : List Nat := [0, 0, 0, 0, 0, 0, 0, 0, 0, 0, 255, 255, 255, 255, 255, 255]

/-- The call `p.Client.Send(packet, addr)` of the engine: `Send` with the next
outcome of `WriteToUDP`; the result tells whether `Send` returned an error. -/
def clientSend (h : Host) (packet : DHCPPacket) (addr : List Nat) : Run (Bool × Host) :=
  let (sendFails, h) : Bool × Host :=
    match h.sendErrors with
    | [] => (false, h)
    | b :: rest => (b, { h with sendErrors := rest })
  match Send sendFails h.world packet addr with
  | .ok (failed, w) => .ok (failed, { h with world := w })
  | .panic => .panic
  | .outOfFuel => .outOfFuel

/-! ## The option buffer after a packet has been printed -/

/-- The backing array of the option buffer as the loop of Go `GetOptions` leaves
it when it ends or panics: the loop of `optionWalk`, keeping the array. -/
def optionWalkArray (len : Nat) : Nat → Nat → List Nat → List Entry → List Nat
  | 0, _, arr, _ => arr
  | fuel + 1, i, arr, m =>
    if i < len then
      let optionId := arr.getD i 0
      if i + 1 < len then
        let optionLen := arr.getD (i + 1) 0
        let nextOptionIndex := i + 2 + optionLen
        if nextOptionIndex ≤ arr.length then
          match lookupEntry optionId m with
          | none =>
              optionWalkArray len fuel nextOptionIndex arr (m ++ [⟨optionId, i, 2 + optionLen⟩])
          | some existing =>
              if existing.len + optionLen ≤ arr.length - existing.start then
                let arr := copyInto arr (existing.start + existing.len)
                  ((arr.drop (i + 2)).take optionLen)
                let arr := arr.set (existing.start + 1)
                  ((arr.getD (existing.start + 1) 0 + arr.getD (i + 1) 0) % 256)
                optionWalkArray len fuel nextOptionIndex arr m
              else
                optionWalkArray len fuel nextOptionIndex arr m
        else arr
      else arr
    else arr

/-- The packet after `fmt` has printed it with `%v`. `String` slices
`Chaddr[:Hlen]` and then calls `GetOptions`; `fmt` recovers a panic of
`String`, and what `GetOptions` has written into the option buffer until then
stays. -/
def printed (packet : DHCPPacket) : DHCPPacket :=
  if 16 < packet.Hlen then packet
  else
    withBuffer packet
      (optionWalkArray packet.options.data.length packet.options.data.length 0
        (packet.options.data ++ packet.options.spare) [])

/-- Go `GetMessageType` together with the packet as the call leaves it. -/
def GetMessageTypeRef (packet : DHCPPacket) : Run (Nat × DHCPPacket) := do
  let messageType ← GetMessageType packet
  let (arr, _) ← GetOptionsRun packet
  return (messageType, withBuffer packet arr)

/-- Go `IsPacketOfType`, together with the packet as the call leaves it. -/
def IsPacketOfType (packet : DHCPPacket) (messageType : Nat) : Run (Bool × DHCPPacket) := do
  let (t, packet) ← GetMessageTypeRef packet
  return (t == messageType, packet)

/-! ## The receive path (`core/processing-engine.go`) -/

/-- The buffer `buf` of `readPacket` after `ReadFromUDP` has copied a datagram
into it, and the count `bytesRead`. -/
def readBuffer (payload : List Nat) : List Nat × Int :=
  (payload.take 2000 ++ List.replicate (2000 - (payload.take 2000).length) 0,
   ((payload.take 2000).length : Int))

/-- Go `readPacket` on the coming results of `ReadFromUDP`: the result and the
reads that are left. The loop reads again after an empty datagram. The log line
after `Decode` evaluates `data.GetMessageType()` and prints `data`. -/
def readPacketFrom : List ReadResult →
    Run ((DHCPPacket × Option ReadError) × List ReadResult)
  | [] => .ok ((DHCPPacket.zero, some (.net true)), [])
  | .failure timeout :: rest => .ok ((DHCPPacket.zero, some (.net timeout)), rest)
  | .datagram payload :: rest =>
    if (readBuffer payload).2 ≤ 0 then readPacketFrom rest
    else
      match Decode (readBuffer payload).1 (readBuffer payload).2 with
      | (_, some e) => .ok ((DHCPPacket.zero, some (.decode e)), rest)
      | (data, none) =>
        match GetMessageTypeRef data with
        | .ok (_, data) => .ok ((printed data, none), rest)
        | .panic => .panic
        | .outOfFuel => .outOfFuel

/-- Go `readPacket`. The read deadline `timeout` goes to the socket; whether a
read times out is in the script of the host. -/
def readPacket (_timeout : Int) (h : Host) : Run ((DHCPPacket × Option ReadError) × Host) :=
  match readPacketFrom h.reads with
  | .ok (r, rest) => .ok (r, { h with reads := rest })
  | .panic => .panic
  | .outOfFuel => .outOfFuel

/-- Go `WaitForEventUntil` with a bound on the depth of its recursion. -/
def waitForEventLoop (tx : Nat) (timeout : Int) :
    Nat → Host → Run ((DHCPPacket × Option ReadError) × Host)
  | 0, _ => .outOfFuel
  | fuel + 1, h =>
    match readPacket timeout h with
    | .ok ((data, err), h) =>
      match err with
      | some e => .ok ((DHCPPacket.zero, some e), h)
      | none =>
        if data.Xid ≠ tx then waitForEventLoop tx timeout fuel h
        else .ok ((data, none), h)
    | .panic => .panic
    | .outOfFuel => .outOfFuel

/-- Go `WaitForEventUntil`. Every call of `readPacket` that returns a packet
takes a read from the script, and a call on an empty script returns the
timeout, so one call more than there are reads is deep enough. -/
def WaitForEventUntil (tx : Nat) (timeout : Int) (h : Host) :
    Run ((DHCPPacket × Option ReadError) × Host) :=
  waitForEventLoop tx timeout (h.reads.length + 1) h

/-- Go `WaitForEvent`. -/
def WaitForEvent (tx : Nat) (timeout : Int) (h : Host) :
    Run ((DHCPPacket × Option ReadError) × Host) :=
  let (now, h) := timeNow h
  WaitForEventUntil tx (now + timeout) h

/-! ## Moments of a lease (`lease/lease.go`) -/

/-- The largest `time.Duration`. -/
def maxDuration : Int := 2 ^ 63 - 1

/-- The smallest `time.Duration`. -/
def minDuration : Int := -(2 ^ 63)

/-- Go `Time.Sub`: the difference, or the largest or smallest `Duration` when
the difference does not fit. -/
def timeSub (t u : Int) : Int :=
  if maxDuration < t - u then maxDuration
  else if t - u < minDuration then minDuration
  else t - u

/-- Go `GetRebindMoment`. -/
def GetRebindMoment (l : DHCPLease) : Int := l.LeaseInitTime + l.T2

/-- Go `GetLeaseExpirationMoment`. -/
def GetLeaseExpirationMoment (l : DHCPLease) : Int := l.LeaseInitTime + l.LeaseDuration

/-- Go `IsRenewPeriodExpired`. -/
def IsRenewPeriodExpired (l : DHCPLease) (h : Host) : Bool × Host :=
  let (now, h) := timeNow h
  (decide (l.LeaseInitTime + l.T2 < now), h)

/-- Go `IsRebindPeriodExpired`. -/
def IsRebindPeriodExpired (l : DHCPLease) (h : Host) : Bool × Host :=
  let (now, h) := timeNow h
  (decide (l.LeaseInitTime + l.LeaseDuration < now), h)

/-- Go `DurationUntilRenew`. The function reads the clock once for the
comparison and once more for the difference. -/
def DurationUntilRenew (l : DHCPLease) (h : Host) : Int × Host :=
  let t1Moment := l.LeaseInitTime + l.T1
  let (now, h) := timeNow h
  if now < t1Moment then
    let (now, h) := timeNow h
    (timeSub t1Moment now, h)
  else (Second * 60, h)

/-- Go `DurationUntilRebind`. -/
def DurationUntilRebind (l : DHCPLease) (h : Host) : Int × Host :=
  let t2Moment := l.LeaseInitTime + l.T2
  let (now, h) := timeNow h
  if now < t2Moment then
    let (now, h) := timeNow h
    (timeSub t2Moment now, h)
  else (Second * 60, h)

/-! ## The phases of the engine (`core/processing-engine.go`) -/

/-- Go `UpdateState`, on a host. -/
def updateState (accepted : Nat × Nat) (p : ProcessingEngine) (h : Host) (newState : Nat) :
    ProcessingEngine × Host :=
  ((UpdateState accepted h.world p newState).1,
   { h with world := (UpdateState accepted h.world p newState).2 })

/-- Go `Stop`, as far as the fields of the engine go: the timers, the socket
and the channel `terminate` belong to the surroundings. -/
def Stop (p : ProcessingEngine) : ProcessingEngine :=
  if p.stopped then p else { p with stopped := true }

/-- Go `onLeaseAcquisitionFailure`. -/
def onLeaseAcquisitionFailure (p : ProcessingEngine) : ProcessingEngine :=
  if p.Config.StopOnLeaseAcquisitionFailure then Stop p else p

/-- Go `onLeaseReceived`: every listener of `leaseReceivedListeners` is called,
in order, with a copy of the lease. -/
def onLeaseReceived (p : ProcessingEngine) (h : Host) : Host :=
  { h with calls := h.calls ++ p.leaseReceivedListeners.map (fun f => ⟨false, f, p.Lease⟩) }

/-- Go `onLeaseRenewed`. -/
def onLeaseRenewed (p : ProcessingEngine) (h : Host) : Host :=
  { h with calls := h.calls ++ p.leaseRenewedListeners.map (fun f => ⟨true, f, p.Lease⟩) }

/-- Go `waitSec`: the engine sleeps; the time that passes is in the script of
the clock. -/
def waitSec (_t : Int) (h : Host) : Host := h

/-- Go `waitForTimer`: the `select` evaluates `timeout.Sub(time.Now())` and
blocks until the timer fires, the engine is terminated or the time is over;
the time that passes is in the script of the clock. -/
def waitForTimer (_timeout : Int) (h : Host) : Host := (timeNow h).2

/-- The call `p.FinalizeOffer(&ack, requestTime)` of the engine: `FinalizeOffer`
with the transaction id that `Decline` draws and the outcome of its `Send`,
which the host is asked for when the address is in use. -/
def finalizeOffer (env : Env) (p : ProcessingEngine) (h : Host) (ack : DHCPPacket)
    (requestTime : Int) : Run (Option EngineError × ProcessingEngine × Host × DHCPPacket) :=
  let inUse : Bool := env.IsUniqueIp ack.Yiaddr p.Config = false
  let (declineTx, h) : Nat × Host := if inUse then RandomTransactionId h else (0, h)
  let (sendFails, h) : Bool × Host :=
    if inUse then
      match h.sendErrors with
      | [] => (false, h)
      | b :: rest => (b, { h with sendErrors := rest })
    else (false, h)
  match FinalizeOffer env declineTx sendFails p h.world ack requestTime with
  | .ok r => .ok (r.err, r.engine, { h with world := r.world }, r.ack)
  | .panic => .panic
  | .outOfFuel => .outOfFuel

/-- The loop of Go `readOffers`, with a bound on its iterations.
`offerTimeoutMoment` is the variable of that name and `offers` the list so
far. -/
def readOffersLoop (tx : Nat) (offerWindowEndMoment : Int) :
    Nat → Int → List DHCPPacket → Host → Run (List DHCPPacket × Host)
  | 0, _, _, _ => .outOfFuel
  | fuel + 1, offerTimeoutMoment, offers, h =>
    if offerTimeoutMoment < (timeNow h).1 then .ok (offers, (timeNow h).2)
    else
      match WaitForEventUntil tx offerTimeoutMoment (timeNow h).2 with
      | .ok ((responsePacket, err), h) =>
        match err with
        | some _ => .ok (offers, h)
        | none =>
          match IsPacketOfType responsePacket DHCPOFFER with
          | .ok (true, responsePacket) =>
            if offerWindowEndMoment < (timeNow h).1 then
              .ok (offers ++ [responsePacket], (timeNow h).2)
            else
              readOffersLoop tx offerWindowEndMoment fuel offerWindowEndMoment
                (offers ++ [responsePacket]) (timeNow h).2
          | .ok (false, responsePacket) =>
            match GetMessageTypeRef responsePacket with
            | .ok _ => readOffersLoop tx offerWindowEndMoment fuel offerTimeoutMoment offers h
            | .panic => .panic
            | .outOfFuel => .outOfFuel
          | .panic => .panic
          | .outOfFuel => .outOfFuel
      | .panic => .panic
      | .outOfFuel => .outOfFuel

/-- Go `readOffers`. `MaxOfferWaitTimeSec` is the field of that name of the
configuration, which `config.go` does not declare: it is a parameter. An
iteration that does not return has taken a read from the script, so one
iteration more than there are reads is enough. -/
def readOffers (MaxOfferWaitTimeSec : Int) (tx : Nat) (p : ProcessingEngine) (h : Host) :
    Run (List DHCPPacket × Host) :=
  let offerTimeoutMoment := (timeNow h).1 + wrapInt64 (Second * MaxOfferWaitTimeSec)
  let h := (timeNow h).2
  let offerWindowEndMoment := (timeNow h).1 + wrapInt64 (Second * p.Config.OfferWindowSec)
  let h := (timeNow h).2
  readOffersLoop tx offerWindowEndMoment (h.reads.length + 1) offerTimeoutMoment [] h

/-- What a step of `ProcessOffers` leaves behind: the error result, the first
offer of the list (whose option buffer the calls of `GetOption` walk), the
engine and the host. -/
structure Processed where
  err : Option EngineError
  offer : DHCPPacket
  engine : ProcessingEngine
  host : Host
deriving DecidableEq, Repr

/-- The end of the closure `waitForAck`, from the second test for a NAK on. -/
def waitForAckEnd (offerPacket ack : DHCPPacket) (p : ProcessingEngine) (h : Host) :
    Run Processed :=
  match IsPacketOfType ack DHCPNAK with
  | .ok (true, _) =>
    match GetOptionRef offerPacket SERVER_IDENTIFIER with
    | .ok (_, offerPacket) =>
      .ok { err := some .leaseRevoked, offer := offerPacket, engine := p, host := h }
    | .panic => .panic
    | .outOfFuel => .outOfFuel
  | .ok (false, _) => .ok { err := none, offer := offerPacket, engine := p, host := h }
  | .panic => .panic
  | .outOfFuel => .outOfFuel

/-- The closure `waitForAck` of Go `ProcessOffers`, with a bound on the depth
of its recursion. -/
def waitForAck (env : Env) (accepted : Nat × Nat) (offerPacket : DHCPPacket) (reqTx : Nat)
    (requestTime : Int) : Nat → ProcessingEngine → Host → Run Processed
  | 0, _, _ => .outOfFuel
  | fuel + 1, p, h =>
    match WaitForEvent reqTx Second h with
    | .ok ((ack, err), h) =>
      match err with
      | some e =>
        if IsTimeout e then
          .ok { err := some .noResponse, offer := offerPacket, engine := p, host := h }
        else .ok { err := some .waitFailed, offer := offerPacket, engine := p, host := h }
      | none =>
        -- !ack.IsPacketOfType(DHCPACK) && !ack.IsPacketOfType(DHCPNAK)
        match (do
            let (isAck, ack) ← IsPacketOfType ack DHCPACK
            if isAck then pure (false, ack)
            else do
              let (isNak, ack) ← IsPacketOfType ack DHCPNAK
              pure (!isNak, ack) : Run (Bool × DHCPPacket)) with
        | .ok (true, ack) =>
          match GetMessageTypeRef ack with
          | .ok _ => waitForAck env accepted offerPacket reqTx requestTime fuel p h
          | .panic => .panic
          | .outOfFuel => .outOfFuel
        | .ok (false, ack) =>
          match IsPacketOfType ack DHCPACK with
          | .ok (true, ack) =>
            match finalizeOffer env p h ack requestTime with
            | .ok (some e, p, h, _) =>
              .ok { err := some e, offer := offerPacket, engine := p, host := h }
            | .ok (none, p, h, ack) =>
              waitForAckEnd offerPacket ack (updateState accepted p h BOUND).1
                (onLeaseReceived (updateState accepted p h BOUND).1
                  (updateState accepted p h BOUND).2)
            | .panic => .panic
            | .outOfFuel => .outOfFuel
          | .ok (false, ack) => waitForAckEnd offerPacket ack p h
          | .panic => .panic
          | .outOfFuel => .outOfFuel
        | .panic => .panic
        | .outOfFuel => .outOfFuel
    | .panic => .panic
    | .outOfFuel => .outOfFuel

/-- Go `ProcessOffers`. `offers.Get(0)` of an empty list is nil, on which the
type assertion panics. `RequestForOffer` walks the option buffer of the offer
once more. The closure `waitForAck` calls itself only after a call of
`readPacket` has taken a read from the script. -/
def ProcessOffers (env : Env) (accepted : Nat × Nat) (offers : List DHCPPacket)
    (p : ProcessingEngine) (h : Host) : Run Processed :=
  match offers with
  | [] => .panic
  | offerPacket :: _ =>
    match GetOptionRef offerPacket SERVER_IDENTIFIER with
    | .ok (none, offerPacket) =>
      .ok { err := some .noServerIdentifier, offer := offerPacket, engine := p, host := h }
    | .ok (some _, offerPacket) =>
      match RequestForOffer env.growslice p.Config env.hardwareAddr offerPacket,
            GetOptionsRun offerPacket with
      | .ok (requestPacket, reqTx), .ok (arr, _) =>
        match clientSend (timeNow h).2 requestPacket IPv4bcast with
        | .ok (true, h1) =>
          .ok { err := some .sendFailed, offer := withBuffer offerPacket arr, engine := p,
                host := h1 }
        | .ok (false, h1) =>
          waitForAck env accepted (withBuffer offerPacket arr) reqTx (timeNow h).1
            (h1.reads.length + 1) (updateState accepted p h1 REQUESTING).1
            (updateState accepted p h1 REQUESTING).2
        | .panic => .panic
        | .outOfFuel => .outOfFuel
      | .outOfFuel, _ => .outOfFuel
      | _, .outOfFuel => .outOfFuel
      | _, _ => .panic
    | .panic => .panic
    | .outOfFuel => .outOfFuel

/-- The `for` loop of Go `Discover` over the attempts that are left
(`maxRetries + 1` minus `i`): the result tells whether `ProcessOffers` has
returned nil, in which case `Discover` returns. -/
def processOffersLoop (env : Env) (accepted : Nat × Nat) :
    Nat → List DHCPPacket → ProcessingEngine → Host → Run (Bool × ProcessingEngine × Host)
  | 0, _, p, h => .ok (false, p, h)
  | attempts + 1, offers, p, h =>
    if offers.isEmpty then .ok (false, p, h)
    else
      match ProcessOffers env accepted offers p h with
      | .ok r =>
        match r.err with
        | none => .ok (true, r.engine, r.host)
        | some _ =>
          processOffersLoop env accepted attempts (r.offer :: offers.tail) r.engine
            (waitSec r.engine.Config.RetryRequestSec r.host)
      | .panic => .panic
      | .outOfFuel => .outOfFuel

/-- Go `ProcessingEngine.Discover`. -/
def ProcessingEngine.Discover (env : Env) (accepted : Nat × Nat) (MaxOfferWaitTimeSec : Int)
    (p : ProcessingEngine) (h : Host) : Run (ProcessingEngine × Host) :=
  let maxRetries := 2
  let data :=
    (DHCPv4.Discover env.growslice p.Config env.hardwareAddr (RandomTransactionId h).1).1
  let tx :=
    (DHCPv4.Discover env.growslice p.Config env.hardwareAddr (RandomTransactionId h).1).2
  match clientSend (RandomTransactionId h).2 data IPv4bcast with
  | .ok (true, h1) => .ok (p, h1)
  | .ok (false, h1) =>
    let p1 := (updateState accepted p h1 SELECTING).1
    let h2 := (updateState accepted p h1 SELECTING).2
    match readOffers MaxOfferWaitTimeSec tx p1 h2 with
    | .ok (offers, h3) =>
      if 0 < offers.length then
        match processOffersLoop env accepted (maxRetries + 1) offers p1 h3 with
        | .ok (true, p2, h4) => .ok (p2, h4)
        | .ok (false, p2, h4) =>
          .ok (onLeaseAcquisitionFailure (updateState accepted p2 h4 INIT).1,
               (updateState accepted p2 h4 INIT).2)
        | .panic => .panic
        | .outOfFuel => .outOfFuel
      else
        .ok (onLeaseAcquisitionFailure (updateState accepted p1 h3 INIT).1,
             (updateState accepted p1 h3 INIT).2)
    | .panic => .panic
    | .outOfFuel => .outOfFuel
  | .panic => .panic
  | .outOfFuel => .outOfFuel

/-- Go `handleRenewResponse`; `err` is the error result of the wait. -/
def handleRenewResponse (env : Env) (accepted : Nat × Nat) (response : DHCPPacket)
    (requestTime : Int) (err : Option ReadError) (p : ProcessingEngine) (h : Host) :
    Run (ProcessingEngine × Host) :=
  match err with
  | some _ => .ok (updateState accepted p h INIT)
  | none =>
    match IsPacketOfType response DHCPNAK with
    | .ok (true, _) => .ok (updateState accepted p h INIT)
    | .ok (false, response) =>
      match IsPacketOfType response DHCPACK with
      | .ok (true, response) =>
        match finalizeOffer env p h response requestTime with
        | .ok (some _, p, h, _) => .ok (updateState accepted p h INIT)
        | .ok (none, p, h, _) => .ok (updateState accepted p (onLeaseRenewed p h) BOUND)
        | .panic => .panic
        | .outOfFuel => .outOfFuel
      | .ok (false, _) => .ok (p, h)
      | .panic => .panic
      | .outOfFuel => .outOfFuel
    | .panic => .panic
    | .outOfFuel => .outOfFuel

/-- Go `RenewAfterReboot`. -/
def RenewAfterReboot (env : Env) (accepted : Nat × Nat) (p : ProcessingEngine) (h : Host) :
    Run (ProcessingEngine × Host) :=
  let lease := p.Lease
  if lease.State ≠ INIT_REBOOT then .ok (p, h)
  else
    let requestTime := (timeNow h).1
    let h := (timeNow h).2
    let requestPacket :=
      (RequestForReboot env.growslice p.Config env.hardwareAddr (RandomTransactionId h).1 lease).1
    let tx :=
      (RequestForReboot env.growslice p.Config env.hardwareAddr (RandomTransactionId h).1 lease).2
    match clientSend (RandomTransactionId h).2 requestPacket IPv4bcast with
    | .ok (true, h) => .ok (updateState accepted p h INIT)
    | .ok (false, h) =>
      match WaitForEvent tx Second h with
      | .ok ((response, err), h) => handleRenewResponse env accepted response requestTime err p h
      | .panic => .panic
      | .outOfFuel => .outOfFuel
    | .panic => .panic
    | .outOfFuel => .outOfFuel

/-- What `RenewLease` and `RebindLease` leave behind: their two results, the
engine and the host. -/
structure Renewed where
  state : Nat
  renewed : Bool
  engine : ProcessingEngine
  host : Host
deriving DecidableEq, Repr

/-- The reply handling that Go `RenewLease` and `RebindLease` share word for
word: NAK, ACK with and without a failure of `FinalizeOffer`; `none` when the
reply is neither. -/
def handleReply (env : Env) (accepted : Nat × Nat) (response : DHCPPacket) (requestTime : Int)
    (p : ProcessingEngine) (h : Host) : Run (Option Renewed) :=
  match IsPacketOfType response DHCPNAK with
  | .ok (true, _) =>
    .ok (some { state := INIT, renewed := false, engine := (updateState accepted p h INIT).1,
                host := (updateState accepted p h INIT).2 })
  | .ok (false, response) =>
    match IsPacketOfType response DHCPACK with
    | .ok (true, response) =>
      match finalizeOffer env p h response requestTime with
      | .ok (some _, p, h, _) =>
        .ok (some { state := INIT, renewed := false,
                    engine := (updateState accepted p h INIT).1,
                    host := (updateState accepted p h INIT).2 })
      | .ok (none, p, h, _) =>
        .ok (some { state := BOUND, renewed := true,
                    engine := (updateState accepted p h BOUND).1,
                    host := onLeaseRenewed (updateState accepted p h BOUND).1
                      (updateState accepted p h BOUND).2 })
      | .panic => .panic
      | .outOfFuel => .outOfFuel
    | .ok (false, _) => .ok none
    | .panic => .panic
    | .outOfFuel => .outOfFuel
  | .panic => .panic
  | .outOfFuel => .outOfFuel

/-- Go `RenewLease`, with a bound on the depth of its recursion. -/
def RenewLease (env : Env) (accepted : Nat × Nat) :
    Nat → ProcessingEngine → Host → Run Renewed
  | 0, _, _ => .outOfFuel
  | fuel + 1, p, h =>
    let h := waitForTimer (GetRebindMoment p.Lease) h
    if p.stopped then .ok { state := p.Lease.State, renewed := false, engine := p, host := h }
    else if (IsRenewPeriodExpired p.Lease h).1 then
      .ok { state := p.Lease.State, renewed := false, engine := p,
            host := (IsRenewPeriodExpired p.Lease h).2 }
    else
      let h := (IsRenewPeriodExpired p.Lease h).2
      let lease := p.Lease
      let renewExpireMoment := p.Lease.LeaseInitTime + lease.T2
      if (timeNow h).1 < renewExpireMoment then
        let h := (timeNow h).2
        let requestTime := (timeNow h).1
        let h := (timeNow h).2
        let requestPacket :=
          (RequestForRenew env.growslice p.Config env.hardwareAddr (RandomTransactionId h).1
            lease).1
        let tx :=
          (RequestForRenew env.growslice p.Config env.hardwareAddr (RandomTransactionId h).1
            lease).2
        match clientSend (RandomTransactionId h).2 requestPacket lease.ServerIdentifier with
        | .ok (_, h1) =>
          let p1 := (updateState accepted p h1 RENEWING).1
          let h2 := (updateState accepted p h1 RENEWING).2
          match WaitForEvent tx Second h2 with
          | .ok ((_, some _), h3) =>
            RenewLease env accepted fuel p1 (DurationUntilRenew p1.Lease h3).2
          | .ok ((response, none), h3) =>
            match handleReply env accepted response requestTime p1 h3 with
            | .ok (some r) => .ok r
            | .ok none =>
              .ok { state := p1.Lease.State, renewed := false, engine := p1, host := h3 }
            | .panic => .panic
            | .outOfFuel => .outOfFuel
          | .panic => .panic
          | .outOfFuel => .outOfFuel
        | .panic => .panic
        | .outOfFuel => .outOfFuel
      else
        .ok { state := p.Lease.State, renewed := false, engine := p, host := (timeNow h).2 }

/-- The `for` loop of Go `RebindLease`, with a bound on its iterations; `lease`
and `rebindExpireMoment` are the variables of these names. -/
def rebindLoop (env : Env) (accepted : Nat × Nat) (lease : DHCPLease) (rebindExpireMoment : Int) :
    Nat → ProcessingEngine → Host → Run Renewed
  | 0, _, _ => .outOfFuel
  | fuel + 1, p, h =>
    if (timeNow h).1 < rebindExpireMoment then
      let h := (timeNow h).2
      let requestTime := (timeNow h).1
      let h := (timeNow h).2
      let requestPacket :=
        (RequestForRebind env.growslice p.Config env.hardwareAddr (RandomTransactionId h).1
          lease).1
      let tx :=
        (RequestForRebind env.growslice p.Config env.hardwareAddr (RandomTransactionId h).1
          lease).2
      match clientSend (RandomTransactionId h).2 requestPacket IPv4bcast with
      | .ok (_, h1) =>
        let p1 := (updateState accepted p h1 REBINDING).1
        let h2 := (updateState accepted p h1 REBINDING).2
        match WaitForEvent tx Second h2 with
        | .ok ((_, some _), h3) => rebindLoop env accepted lease rebindExpireMoment fuel p1 h3
        | .ok ((response, none), h3) =>
          match handleReply env accepted response requestTime p1 h3 with
          | .ok (some r) => .ok r
          | .ok none => rebindLoop env accepted lease rebindExpireMoment fuel p1 h3
          | .panic => .panic
          | .outOfFuel => .outOfFuel
        | .panic => .panic
        | .outOfFuel => .outOfFuel
      | .panic => .panic
      | .outOfFuel => .outOfFuel
    else .ok { state := p.Lease.State, renewed := false, engine := p, host := (timeNow h).2 }

/-- Go `RebindLease`; `fuel` bounds the iterations of its loop. -/
def RebindLease (env : Env) (accepted : Nat × Nat) (fuel : Nat) (p : ProcessingEngine)
    (h : Host) : Run Renewed :=
  let h := waitForTimer (GetLeaseExpirationMoment p.Lease) h
  if p.stopped then .ok { state := p.Lease.State, renewed := false, engine := p, host := h }
  else if (IsRebindPeriodExpired p.Lease h).1 then
    .ok { state := p.Lease.State, renewed := false, engine := p,
          host := (IsRebindPeriodExpired p.Lease h).2 }
  else
    rebindLoop env accepted p.Lease (p.Lease.LeaseInitTime + p.Lease.LeaseDuration) fuel p
      (IsRebindPeriodExpired p.Lease h).2

/-- The end of Go `RenewOrRebindLease`, after the attempt to renew. -/
def rebindOrReset (env : Env) (accepted : Nat × Nat) (fuel : Nat) (p : ProcessingEngine)
    (h : Host) : Run (ProcessingEngine × Host) :=
  if (IsRebindPeriodExpired p.Lease h).1 then
    .ok (updateState accepted p (IsRebindPeriodExpired p.Lease h).2 INIT)
  else
    match RebindLease env accepted fuel p (IsRebindPeriodExpired p.Lease h).2 with
    | .ok r => .ok (r.engine, r.host)
    | .panic => .panic
    | .outOfFuel => .outOfFuel

/-- Go `RenewOrRebindLease`; `fuel` bounds the recursion of `RenewLease` and
the loop of `RebindLease`. The variable `s` starts as `0`. -/
def RenewOrRebindLease (env : Env) (accepted : Nat × Nat) (fuel : Nat) (p : ProcessingEngine)
    (h : Host) : Run (ProcessingEngine × Host) :=
  if (IsRenewPeriodExpired p.Lease h).1 then
    -- s = 0, renewed = false
    if (0 : Nat) = INIT then .ok (p, (IsRenewPeriodExpired p.Lease h).2)
    else rebindOrReset env accepted fuel p (IsRenewPeriodExpired p.Lease h).2
  else
    match RenewLease env accepted fuel p (IsRenewPeriodExpired p.Lease h).2 with
    | .ok r =>
      if r.renewed ∨ r.state = INIT then .ok (r.engine, r.host)
      else rebindOrReset env accepted fuel r.engine r.host
    | .panic => .panic
    | .outOfFuel => .outOfFuel

/-! ## Well-formed input of the receive path -/

/-- A packet whose option buffer is a sequence of whole options with pairwise
distinct byte codes, in which a message type option has a payload. -/
def CleanPacket (q : DHCPPacket) : Prop :=
  ∃ tlvs : List (Nat × List Nat), q.options.data = tlvBytes tlvs ∧ (tlvs.map Prod.fst).Nodup ∧
    (∀ t ∈ tlvs, t.1 < 256) ∧ ∀ t ∈ tlvs, t.1 = 53 → t.2 ≠ []

/-- The packet that `Decode` makes of a datagram of 243 bytes or more in the
buffer of `readPacket`. -/
def received (payload : List Nat) : DHCPPacket := decodedPacket (payload.take 2000)

/-- A datagram that `readPacket` hands on as a packet: `Decode` accepts it (243
bytes or more) and the packet is clean, which is the case when the option
section ends with the END tag and two zero octets, the trailer that `Encode`
writes, and no option code comes twice. A datagram with more or less padding
behind the END tag, or with an option in several parts, is not in this
class. -/
def WellFormedDatagram (payload : List Nat) : Prop :=
  243 ≤ payload.length ∧ CleanPacket (received payload)

/-- Whether a read returns a datagram. -/
def ReadResult.isDatagram : ReadResult → Bool
  | .datagram _ => true
  | .failure _ => false

/-- What the specification says of a wait for the transaction `tx` on the
coming reads: datagrams with another `xid` are dropped, the first one with
`xid = tx` is the result, and a read that fails (after the last read: that
times out) ends the wait with its error. The second component lists the reads
that are left. -/
def firstWithXid (tx : Nat) : List ReadResult → (DHCPPacket × Option ReadError) × List ReadResult
  | [] => ((DHCPPacket.zero, some (.net true)), [])
  | .failure timeout :: rest => ((DHCPPacket.zero, some (.net timeout)), rest)
  | .datagram payload :: rest =>
    if (received payload).Xid = tx then ((received payload, none), rest)
    else firstWithXid tx rest

/-- A host to which nothing has happened and nothing will: the clock stands at
zero and every read times out. -/
def quietHost : Host :=
  { world := sampleWorld, reads := [], now := 0, elapsed := [], txs := [], sendErrors := [],
    calls := [] }

/-- The datagram of an OFFER with the transaction id `xid`. -/
def offerDatagram (xid : Nat) : List Nat := Encode { offerPacket with Xid := xid }

/-- The datagram of the ACK `goodAck` with the transaction id `xid`. -/
def ackDatagram (xid : Nat) : List Nat := Encode { goodAck with Xid := xid }

/-- An engine in state INIT with two lease-received listeners and one
lease-renewed listener. -/
def listeningEngine : ProcessingEngine :=
  { sampleEngine with
    Lease := { sampleLease with State := INIT }
    leaseReceivedListeners := [1, 2]
    leaseRenewedListeners := [3] }

/-- An engine that restarts with the lease of `boundEngine`: state INIT_REBOOT,
two lease-received listeners and one lease-renewed listener. -/
def rebootingEngine : ProcessingEngine :=
  { boundEngine with
    Lease := { boundEngine.Lease with State := INIT_REBOOT }
    leaseReceivedListeners := [1, 2]
    leaseRenewedListeners := [3] }

/-- A read that brings neither an ACK nor a NAK for the transaction `tx`: a
read that fails, or a well-formed datagram that has another `Xid` or another
message type. -/
def NoReply (tx : Nat) : ReadResult → Prop
  | .failure _ => True
  | .datagram d =>
    WellFormedDatagram d ∧
      ((received d).Xid = tx →
        GetMessageType (received d) ≠ .ok DHCPACK ∧ GetMessageType (received d) ≠ .ok DHCPNAK)

/-- What the specification says `readOffers(tx)` may collect from the coming
reads: the packets of the datagrams, up to the first read that fails, that are
a DHCPOFFER with `Xid = tx`, in order of arrival. -/
def offersAmong (tx : Nat) : List ReadResult → List DHCPPacket
  | [] => []
  | .failure _ :: _ => []
  | .datagram d :: rest =>
    if (received d).Xid = tx ∧ GetMessageType (received d) = .ok DHCPOFFER then
      received d :: offersAmong tx rest
    else offersAmong tx rest

/-- The reads that are left after the first read that fails. -/
def afterFailure : List ReadResult → List ReadResult
  | [] => []
  | .failure _ :: rest => rest
  | .datagram _ :: rest => afterFailure rest

/-- An engine whose lease of 200 seconds, with T1 = 100 s and T2 = 175 s, was
acquired at the instant 0. -/
def expiringEngine : ProcessingEngine :=
  { boundEngine with Lease := { boundEngine.Lease with LeaseInitTime := 0 } }

/-- A host on which no datagram arrives, whose clock stands at 199.5 s and
moves on by one second between the seventh and the eighth reading to come. -/
def expiringHost : Host :=
  { quietHost with now := 199500000000, elapsed := [0, 0, 0, 0, 0, 0, 0, 1000000000] }

/-! ## Addresses (`net`, `util/net-utils/util.go`) -/

/-- Go `net.IPv4(a, b, c, d)`: the 16-byte form of the address. -/
def IPv4 (a b c d : Nat) : List Nat := [0, 0, 0, 0, 0, 0, 0, 0, 0, 0, 255, 255, a, b, c, d]

/-- Go `IP.To4`: a 4-byte address as it is, the last four bytes of a 16-byte
address that starts with ten zero bytes and two bytes 255, and nil (the empty
list) otherwise. -/
def To4 (ip : List Nat) : List Nat :=
  if ip.length = 4 then ip
  else if ip.length = 16 ∧ (ip.take 10).all (fun b => b == 0) = true ∧
      ip.getD 10 0 = 255 ∧ ip.getD 11 0 = 255 then ip.drop 12
  else []

/-- Go `IsApipaAddr`. -/
def IsApipaAddr (ip : List Nat) : Bool :=
  let ip := To4 ip
  decide (ip.length = 4) && (ip.getD 0 0 == 169 && ip.getD 1 0 == 254)

/-- The digits of Go `hexString`. -/
def hexDigit (n : Nat) : Char := "0123456789abcdef".data.getD n '0'

/-- Go `hexString` of package `net`: two lower-case digits for every byte. -/
def hexString (b : List Nat) : String :=
  String.mk (b.flatMap (fun x => [hexDigit (x / 16), hexDigit (x % 16)]))

/-- The dotted decimal text of four bytes. -/
def dottedQuad (p4 : List Nat) : String :=
  toString (p4.getD 0 0) ++ "." ++ toString (p4.getD 1 0) ++ "." ++ toString (p4.getD 2 0)
    ++ "." ++ toString (p4.getD 3 0)

/-- Go `IP.String`: `<nil>` for an empty address, `?` and the bytes in
hexadecimal for a length other than 4 and 16, the dotted decimal text when
`To4` finds an IPv4 address, and otherwise the IPv6 text, which is the
parameter `ipv6Text`. -/
def IPString (ipv6Text : List Nat → String) (ip : List Nat) : String :=
  if ip.length = 0 then "<nil>"
  else if ip.length ≠ 4 ∧ ip.length ≠ 16 then "?" ++ hexString ip
  else if (To4 ip).length = 4 then dottedQuad (To4 ip)
  else ipv6Text ip

/-- The text that Go `DHCPPacket.String` puts into the field `Ciaddr` of its
`toStringStruct`: `fmt.Sprintf("%v", net.IP(packet.Ciaddr[:]))`. -/
def ciaddrText (ipv6Text : List Nat → String) (packet : DHCPPacket) : String :=
  IPString ipv6Text packet.Ciaddr

/-! ## Options as text (`packet/option/string-converters.go`) -/

/-- What `encoding/json` writes for one character of a string, with the
escaping of HTML characters that `json.Marshal` has switched on: a backslash
before the quote and the backslash, the short forms for line feed, carriage
return and tab, the form with `u00` and two hexadecimal digits for the other
control characters and for `<`, `>` and `&`, the form with `u` and four digits
for the line separators U+2028 and U+2029, and the character itself
otherwise. -/
def jsonEscape (c : Char) : List Char :=
  if c.toNat = 34 ∨ c.toNat = 92 then [Char.ofNat 92, c]
  else if c.toNat = 10 then [Char.ofNat 92, 'n']
  else if c.toNat = 13 then [Char.ofNat 92, 'r']
  else if c.toNat = 9 then [Char.ofNat 92, 't']
  else if c.toNat < 32 ∨ c.toNat = 60 ∨ c.toNat = 62 ∨ c.toNat = 38 then
    [Char.ofNat 92, 'u', '0', '0', hexDigit (c.toNat / 16), hexDigit (c.toNat % 16)]
  else if c.toNat = 8232 then [Char.ofNat 92, 'u', '2', '0', '2', '8']
  else if c.toNat = 8233 then [Char.ofNat 92, 'u', '2', '0', '2', '9']
  else [c]

/-- What `encoding/json` writes for a string value. -/
def jsonString (s : String) : String :=
  "\"" ++ String.mk (s.data.flatMap jsonEscape) ++ "\""

/-- Go `toJsonString` on a struct: the fields in the order of their
declaration, each with its name and its value as JSON text. -/
def toJsonString (shape : List (String × String)) : String :=
  "\x7b" ++ ",".intercalate (shape.map (fun f => jsonString f.1 ++ ":" ++ f.2)) ++ "\x7d"

/-- Go `MessageType.String`: `t[m-1]` in the table of the eight names, which
panics when the index is out of range. -/
def MessageType.String (m : Nat) : Run String :=
  if m = 0 then .panic
  else
    match ["DHCPDISCOVER", "DHCPOFFER", "DHCPREQUEST", "DHCPDECLINE", "DHCPACK", "DHCPNAK",
           "DHCPRELEASE", "UNKNOWN"].get? (m - 1) with
    | some name => .ok name
    | none => .panic

/-- Go `messageTypeStringConverter`. -/
def messageTypeStringConverter (d : DHCPOption) : Run String :=
  if d.Data.length = 0 then .panic
  else if d.Data.length < 3 then .panic
  else
    match MessageType.String (d.Data.getD 2 0) with
    | .ok name =>
      .ok (toJsonString [("ID", jsonString (TypeToString (d.Data.getD 0 0))),
                         ("MessageType", jsonString name)])
    | .panic => .panic
    | .outOfFuel => .outOfFuel

/-- Go `requestIpAddrConverter`. -/
def requestIpAddrConverter (ipv6Text : List Nat → String) (d : DHCPOption) : Run String :=
  if d.Data.length < 2 then .panic
  else
    .ok (toJsonString [("ID", jsonString (TypeToString (d.Data.getD 0 0))),
                       ("IP", jsonString (IPString ipv6Text (d.Data.drop 2)))])

/-- Go `serverIdentifierConverter`. -/
def serverIdentifierConverter (ipv6Text : List Nat → String) (d : DHCPOption) : Run String :=
  if d.Data.length < 2 then .panic
  else
    .ok (toJsonString [("ID", jsonString (TypeToString (d.Data.getD 0 0))),
                       ("ServerId", jsonString (IPString ipv6Text (d.Data.drop 2)))])

/-- Go `defaultConverter`. -/
def defaultConverter (d : DHCPOption) : Run String :=
  if d.Data.length = 0 then .panic
  else .ok (toJsonString [("ID", jsonString (TypeToString (d.Data.getD 0 0)))])

/-- Go `DHCPOption.String`: the converter that the table `toStringConverters`
holds for the code `Data[0]`, or `defaultConverter`. The converters of the
codes 1, 3, 6, 15, 51, 58 and 59 are the parameter `others`. -/
def DHCPOption.String (ipv6Text : List Nat → String) (others : DHCPOption → Run String)
    (option : DHCPOption) : Run String :=
  if option.Data.length = 0 then .panic
  else
    let code := option.Data.getD 0 0
    if code = 50 then requestIpAddrConverter ipv6Text option
    else if code = 53 then messageTypeStringConverter option
    else if code = 54 then serverIdentifierConverter ipv6Text option
    else if code = 1 ∨ code = 3 ∨ code = 6 ∨ code = 15 ∨ code = 51 ∨ code = 58 ∨ code = 59 then
      others option
    else defaultConverter option

/-! ## A list of addresses in an option (`packet/option/parsers.go`) -/

/-- The loop of `parseDns` on the slice `bytes` of length `len` whose backing
array, up to its capacity, is `arr`: the slice expression `bytes[i:i+4]` panics
only when `i + 4` exceeds the capacity. -/
def parseDnsLoop (arr : List Nat) (len : Nat) :
    Nat → Nat → List (List Nat) → Run (List (List Nat))
  | 0, i, res => if i < len then .outOfFuel else .ok res
  | fuel + 1, i, res =>
    if i < len then
      if i + 4 ≤ arr.length then parseDnsLoop arr len fuel (i + 4) (res ++ [(arr.drop i).take 4])
      else .panic
    else .ok res

/-- Go `DnsParser`. `spare` holds the bytes of the backing array behind
`o.Data`, up to the capacity of the slice. Every turn of the loop moves `i` on
by four, so as many turns as the payload has bytes are enough. -/
def DnsParser (o : DHCPOption) (spare : List Nat) : Run (List (List Nat)) :=
  if o.Data.length < 2 then .panic
  else parseDnsLoop (o.Data.drop 2 ++ spare) (o.Data.length - 2) (o.Data.length - 2) 0 []

/-- What the specification says of the list accessor on a payload whose length
is a multiple of four: the addresses of the payload, four bytes each. -/
def addressesOf (payload : List Nat) : List (List Nat) :=
  (List.range (payload.length / 4)).map (fun j => (payload.drop (4 * j)).take 4)

/-! ## More sample inputs -/

/-- An ACK without a server identifier. -/
def ackWithoutServerId : DHCPPacket :=
  { DHCPPacket.zero with
    Op := 2, Xid := 77, Yiaddr := [127, 0, 0, 2],
    options := ⟨[53, 1, 5, 51, 4, 0, 0, 0, 200], [255, 0, 0]⟩ }

/-- An ACK without a lease time. -/
def ackWithoutLeaseTime : DHCPPacket :=
  { DHCPPacket.zero with
    Op := 2, Xid := 77, Yiaddr := [127, 0, 0, 2],
    options := ⟨[53, 1, 5, 54, 4, 127, 0, 0, 1], [255, 0, 0]⟩ }

/-- An ACK with a lease time of 1 000 000 001 seconds and neither T1 nor T2. -/
def longLeaseAck : DHCPPacket :=
  { DHCPPacket.zero with
    Op := 2, Xid := 77, Yiaddr := [127, 0, 0, 2],
    options := ⟨[53, 1, 5, 54, 4, 127, 0, 0, 1, 51, 4, 59, 154, 202, 1], [255, 0, 0]⟩ }

/-- The option bytes of a reply in which option 12 comes twice, first without a
payload right in front of the other options and then, at the end, with a
payload of one byte: every walk of `GetOptions` copies that byte behind the
first part and adds one to its length octet, so that the next walk starts
reading the options that follow one byte later. -/
def shiftingOptions : List Nat :=
  [12, 0, 3, 54, 53, 1, 5, 50, 49, 0, 0, 0, 7, 44] ++ List.replicate 44 0 ++ [12, 1, 0]

/-- A reply of the server with the transaction id 77 and the option bytes
`shiftingOptions`, as the server encodes it. -/
def shiftingReply : DHCPPacket :=
  { DHCPPacket.zero with
    Op := 2, Xid := 77, Yiaddr := [127, 0, 0, 2], options := ⟨shiftingOptions, []⟩ }

/-- The datagram of `shiftingReply`. -/
def shiftingDatagram : List Nat := Encode shiftingReply

/-- A host that draws the transaction id 77, on which an OFFER arrives, then
the reads time out once, and then the datagram of `shiftingReply` arrives. -/
def shiftingHost : Host :=
  { quietHost with
    txs := [77]
    reads := [.datagram (offerDatagram 77), .failure true, .datagram shiftingDatagram] }

/-- The option bytes of `shiftingReply` after `k` walks of `GetOptions`, for
`k` up to five: the length octet of the first option 12 is `k`, and the `k`
bytes behind it are zero. -/
def shiftedOptions (k : Nat) : List Nat :=
  [12, k] ++ List.replicate k 0 ++ shiftingOptions.drop (2 + k)

/-- The packet that `Decode` makes of the datagram of `shiftingReply`, after
`k` walks of `GetOptions`. -/
def shiftedReply (k : Nat) : DHCPPacket :=
  { shiftingReply with options := ⟨shiftedOptions k, [255, 0, 0]⟩ }

/-! ## Inputs on which the receive path, `FinalizeOffer` and the pacing diverge -/

/-- The datagram of an ACK of the transaction 5 whose sender has put three zero
octets of padding behind the END tag: 247 bytes. -/
def paddedForeignDatagram : List Nat := paddedDatagram { ackPacket with Xid := 5 } 3

/-- A datagram of 100 bytes, cut off inside the fixed header, with the
transaction id 5. -/
def shortForeignDatagram : List Nat := [2, 1, 6, 0, 0, 0, 0, 5] ++ List.replicate 92 0

/-- An ACK for 127.0.0.2 from the server 127.0.0.1 with a lease time of 200
seconds and a renewal time (option 58) of two bytes. -/
def shortT1Ack : DHCPPacket :=
  { DHCPPacket.zero with
    Op := 2, Xid := 77, Yiaddr := [127, 0, 0, 2],
    options := ⟨[53, 1, 5, 54, 4, 127, 0, 0, 1, 51, 4, 0, 0, 0, 200, 58, 2, 0, 1],
                [255, 0, 0]⟩ }

/-- An ACK whose server identifier 127.0.0.1 comes in two parts of two bytes
(RFC 3396), with a lease time of 200 seconds. -/
def splitServerIdAck : DHCPPacket :=
  { DHCPPacket.zero with
    Op := 2, Xid := 77, Yiaddr := [127, 0, 0, 2],
    options := ⟨[53, 1, 5, 54, 2, 127, 0, 54, 2, 0, 1, 51, 4, 0, 0, 0, 200], [255, 0, 0]⟩ }

/-- A host whose clock stands five nanoseconds before the renewal moment of
the lease of `boundEngine` and moves on by ten nanoseconds before its second
reading. -/
def renewCrossingHost : Host :=
  { quietHost with now := 100000000995, elapsed := [0, 10] }

/-- A host whose clock stands five nanoseconds before the rebinding moment of
the lease of `boundEngine` and moves on by five nanoseconds before its second
reading. -/
def rebindCrossingHost : Host :=
  { quietHost with now := 175000000995, elapsed := [0, 5] }

/-- The datagram of an OFFER of the transaction 5 whose sender has put three
zero octets of padding behind the END tag. -/
def paddedForeignOffer : List Nat := paddedDatagram { offerPacket with Xid := 5 } 3

/-- A host that draws the transaction id 77 and to which the OFFER of that
transaction comes, then a read that times out, and later the padded OFFER of
the transaction 5. -/
def paddedOfferHost : Host :=
  { quietHost with
    txs := [77]
    reads := [.datagram (offerDatagram 77), .failure true, .datagram paddedForeignOffer] }

/-- The outcome of a wait for the transaction `tx` on the coming reads, when
the datagrams that `Decode` accepts are clean: an empty datagram is read over, a
read that fails and a datagram of 1 to 242 bytes (which `Decode` rejects) end
the wait without a packet, a datagram with another `Xid` is dropped and the
first one with `Xid = tx` is the packet. The second component lists the reads
that are left. -/
def nextPacket (tx : Nat) : List ReadResult → Option DHCPPacket × List ReadResult
  | [] => (none, [])
  | .failure _ :: rest => (none, rest)
  | .datagram d :: rest =>
    if d.length = 0 then nextPacket tx rest
    else if d.length < 243 then (none, rest)
    else if (received d).Xid = tx then (some (received d), rest)
    else nextPacket tx rest

/-- The reads up to the first one that ends the collection of offers: a read
that fails or a datagram of 1 to 242 bytes. -/
def beforeStop : List ReadResult → List ReadResult
  | [] => []
  | .failure _ :: _ => []
  | .datagram d :: rest =>
    if d.length = 0 then .datagram d :: beforeStop rest
    else if d.length < 243 then []
    else .datagram d :: beforeStop rest

/-- The reads that are left after the first one that ends the collection of
offers. -/
def afterStop : List ReadResult → List ReadResult
  | [] => []
  | .failure _ :: rest => rest
  | .datagram d :: rest =>
    if d.length = 0 then afterStop rest
    else if d.length < 243 then rest
    else afterStop rest

/-- What `readOffers(tx)` collects from the coming reads while no deadline
passes: the packets, in order of arrival, of the datagrams that are a DHCPOFFER
with `Xid = tx`, up to the first read that fails or datagram that `Decode`
rejects. -/
def offersBefore (tx : Nat) : List ReadResult → List DHCPPacket
  | [] => []
  | .failure _ :: _ => []
  | .datagram d :: rest =>
    if d.length = 0 then offersBefore tx rest
    else if d.length < 243 then []
    else if (received d).Xid = tx ∧ GetMessageType (received d) = .ok DHCPOFFER then
      received d :: offersBefore tx rest
    else offersBefore tx rest

/-! ## Facts about the binary reader and writer -/

theorem readBytes_append (k : Nat) (xs rest : List Nat) (hk : 0 < k) (hx : xs.length = k) :
    readBytes k (xs ++ rest) = .ok (xs, rest) := by
  unfold readBytes
  have h1 : ¬ k = 0 := by omega
  have h2 : ¬ (xs ++ rest).length = 0 := by simp; intro h; simp [h] at hx; omega
  have h3 : ¬ (xs ++ rest).length < k := by simp; omega
  simp only [h1, h2, h3, if_false]
  rw [List.take_left' hx, List.drop_left' hx]

theorem readBytes_all (r : List Nat) : readBytes r.length r = .ok (r, []) := by
  unfold readBytes
  by_cases h : r.length = 0
  · simp [h, List.length_eq_zero.mp h]
  · simp [h]

theorem readUint8_cons (a : Nat) (rest : List Nat) : readUint8 (a :: rest) = .ok (a, rest) := by
  simp [readUint8, readBytes]

theorem testBit_eq_false_of_lt (x i n : Nat) (h : x < 2 ^ n) (hi : n ≤ i) : x.testBit i = false := by
  apply Nat.testBit_lt_two_pow
  exact lt_of_lt_of_le h (Nat.pow_le_pow_right (by decide) hi)

theorem bigEndian16 (x : Nat) (h : x < 2 ^ 16) :
    x % 256 ||| (((x >>> 8) % 256) <<< 8) = x := by
  apply Nat.eq_of_testBit_eq
  intro i
  have e : (256 : Nat) = 2 ^ 8 := by norm_num
  rw [e]
  simp only [Nat.testBit_or, Nat.testBit_shiftLeft, Nat.testBit_mod_two_pow, Nat.testBit_shiftRight]
  by_cases h8 : i < 8
  · have : ¬ i ≥ 8 := by omega
    simp [h8, this]
  · by_cases h16 : i < 16
    · have a : i ≥ 8 := by omega
      have b : i - 8 < 8 := by omega
      have c : 8 + (i - 8) = i := by omega
      simp [h8, a, b, c]
    · have a : i ≥ 8 := by omega
      have b : ¬ i - 8 < 8 := by omega
      simp [h8, a, b, testBit_eq_false_of_lt x i 16 h (by omega)]

theorem bigEndian32 (x : Nat) (h : x < 2 ^ 32) :
    x % 256 ||| (((x >>> 8) % 256) <<< 8) ||| (((x >>> 16) % 256) <<< 16)
      ||| (((x >>> 24) % 256) <<< 24) = x := by
  apply Nat.eq_of_testBit_eq
  intro i
  have e : (256 : Nat) = 2 ^ 8 := by norm_num
  rw [e]
  simp only [Nat.testBit_or, Nat.testBit_shiftLeft, Nat.testBit_mod_two_pow, Nat.testBit_shiftRight]
  by_cases h8 : i < 8
  · have a : ¬ i ≥ 8 := by omega
    have b : ¬ i ≥ 16 := by omega
    have c : ¬ i ≥ 24 := by omega
    simp [h8, a, b, c]
  · by_cases h16 : i < 16
    · have a : i ≥ 8 := by omega
      have b : i - 8 < 8 := by omega
      have c : 8 + (i - 8) = i := by omega
      have d : ¬ i ≥ 16 := by omega
      have f : ¬ i ≥ 24 := by omega
      simp [h8, a, b, c, d, f]
    · by_cases h24 : i < 24
      · have a : i ≥ 8 := by omega
        have b : ¬ i - 8 < 8 := by omega
        have c : i ≥ 16 := by omega
        have d : i - 16 < 8 := by omega
        have f : 16 + (i - 16) = i := by omega
        have g : ¬ i ≥ 24 := by omega
        simp [h8, a, b, c, d, f, g]
      · by_cases h32 : i < 32
        · have a : i ≥ 8 := by omega
          have b : ¬ i - 8 < 8 := by omega
          have c : i ≥ 16 := by omega
          have d : ¬ i - 16 < 8 := by omega
          have f : i ≥ 24 := by omega
          have g : i - 24 < 8 := by omega
          have k : 24 + (i - 24) = i := by omega
          simp [h8, a, b, c, d, f, g, k]
        · have a : i ≥ 8 := by omega
          have b : ¬ i - 8 < 8 := by omega
          have c : i ≥ 16 := by omega
          have d : ¬ i - 16 < 8 := by omega
          have f : i ≥ 24 := by omega
          have g : ¬ i - 24 < 8 := by omega
          simp [h8, a, b, c, d, f, g, testBit_eq_false_of_lt x i 32 h (by omega)]

theorem readUint16_write (x : Nat) (rest : List Nat) (h : x < 2 ^ 16) :
    readUint16 ((x >>> 8) % 256 :: x % 256 :: rest) = .ok (x, rest) := by
  have hr := readBytes_append 2 [(x >>> 8) % 256, x % 256] rest (by decide) rfl
  simp only [List.cons_append, List.nil_append] at hr
  unfold readUint16
  rw [hr]
  simp [bigEndian16 x h]

theorem readUint32_write (x : Nat) (rest : List Nat) (h : x < 2 ^ 32) :
    readUint32 ((x >>> 24) % 256 :: (x >>> 16) % 256 :: (x >>> 8) % 256 :: x % 256 :: rest)
      = .ok (x, rest) := by
  have hr := readBytes_append 4
    [(x >>> 24) % 256, (x >>> 16) % 256, (x >>> 8) % 256, x % 256] rest (by decide) rfl
  simp only [List.cons_append, List.nil_append] at hr
  unfold readUint32
  rw [hr]
  simp [bigEndian32 x h]

/-- The explicit byte layout of `Encode`. -/
theorem Encode_eq (p : DHCPPacket) :
    Encode p =
      p.Op :: p.Htype :: p.Hlen :: p.Hops ::
      (p.Xid >>> 24) % 256 :: (p.Xid >>> 16) % 256 :: (p.Xid >>> 8) % 256 :: p.Xid % 256 ::
      (p.Secs >>> 8) % 256 :: p.Secs % 256 :: (p.Flags >>> 8) % 256 :: p.Flags % 256 ::
      (p.Ciaddr ++ (p.Yiaddr ++ (p.Siaddr ++ (p.Giaddr ++ (p.Chaddr ++ (p.Sname ++ (p.File ++
        (99 :: 130 :: 83 :: 99 :: (p.options.data ++ [255, 0, 0]))))))))) := by
  simp [Encode, writeUint8, writeUint16, writeUint32, writeBytes]

theorem decodeBody_Encode (p : DHCPPacket) (h : p.WF) :
    decodeBody (Encode p) ((Encode p).length : Int)
      = .ok { p with options := ⟨p.options.data, [255, 0, 0]⟩ } := by
  unfold decodeBody
  have hneg : ¬ (((Encode p).length : Int) < 0 ∨ ((Encode p).length : Int) < ((Encode p).length : Int)) := by
    omega
  simp only [hneg, if_false, Int.toNat_ofNat, List.take_length]
  rw [Encode_eq]
  simp only [readUint8_cons, readUint32_write _ _ h.xid, readUint16_write _ _ h.secs,
    readUint16_write _ _ h.flags,
    readBytes_append 4 p.Ciaddr _ (by decide) h.ciaddr.1,
    readBytes_append 4 p.Yiaddr _ (by decide) h.yiaddr.1,
    readBytes_append 4 p.Siaddr _ (by decide) h.siaddr.1,
    readBytes_append 4 p.Giaddr _ (by decide) h.giaddr.1,
    readBytes_append 16 p.Chaddr _ (by decide) h.chaddr.1,
    readBytes_append 64 p.Sname _ (by decide) h.sname.1,
    readBytes_append 128 p.File _ (by decide) h.file.1,
    readBytes_all, bind, Except.bind, pure, Except.pure]
  have e : (99 :: 130 :: 83 :: 99 :: (p.options.data ++ [255, 0, 0]))
      = (99 :: 130 :: 83 :: 99 :: p.options.data) ++ [255, 0, 0] := by simp
  have hl : ((99 :: 130 :: 83 :: 99 :: p.options.data) ++ [255, 0, 0]).length - 3
      = (99 :: 130 :: 83 :: 99 :: p.options.data).length := by simp
  have hc : ¬ (((99 :: 130 :: 83 :: 99 :: p.options.data) ++ [255, 0, 0]).length < 3 ∨
      (99 :: 130 :: 83 :: 99 :: p.options.data).length < 4) := by
    simp only [List.length_append, List.length_cons, List.length_nil]; omega
  rw [e, hl, List.take_left' rfl, List.drop_left' rfl]
  simp only [hc, if_false]
  rfl

theorem readBytes_drop (k i : Nat) (b : List Nat) (hk : 0 < k) (h : i + k ≤ b.length) :
    readBytes k (b.drop i) = .ok ((b.drop i).take k, b.drop (i + k)) := by
  unfold readBytes
  have h1 : ¬ k = 0 := by omega
  have h2 : ¬ (b.drop i).length = 0 := by simp; omega
  have h3 : ¬ (b.drop i).length < k := by simp; omega
  simp only [h1, h2, h3, if_false, List.drop_drop]

theorem getD_take_drop (b : List Nat) (i j k : Nat) (h : j < k) :
    ((b.drop i).take k).getD j 0 = b.getD (i + j) 0 := by
  simp [List.getD_eq_getElem?_getD, List.getElem?_take, h, List.getElem?_drop]

theorem readUint8_drop (i : Nat) (b : List Nat) (h : i + 1 ≤ b.length) :
    readUint8 (b.drop i) = .ok (b.getD i 0, b.drop (i + 1)) := by
  unfold readUint8
  rw [readBytes_drop 1 i b (by decide) h]
  simp only [getD_take_drop b i 0 1 (by decide), Nat.add_zero]

theorem readUint16_drop (i : Nat) (b : List Nat) (h : i + 2 ≤ b.length) :
    readUint16 (b.drop i) = .ok (b.getD (i + 1) 0 ||| (b.getD i 0 <<< 8), b.drop (i + 2)) := by
  unfold readUint16
  rw [readBytes_drop 2 i b (by decide) h]
  simp only [getD_take_drop b i 0 2 (by decide), getD_take_drop b i 1 2 (by decide), Nat.add_zero]

theorem readUint32_drop (i : Nat) (b : List Nat) (h : i + 4 ≤ b.length) :
    readUint32 (b.drop i)
      = .ok (b.getD (i + 3) 0 ||| (b.getD (i + 2) 0 <<< 8) ||| (b.getD (i + 1) 0 <<< 16)
              ||| (b.getD i 0 <<< 24), b.drop (i + 4)) := by
  unfold readUint32
  rw [readBytes_drop 4 i b (by decide) h]
  simp only [getD_take_drop b i 0 4 (by decide), getD_take_drop b i 1 4 (by decide),
    getD_take_drop b i 2 4 (by decide), getD_take_drop b i 3 4 (by decide), Nat.add_zero]

theorem decodeBody_ok (buf : List Nat) (n : Nat) (h1 : 243 ≤ n) (h2 : n ≤ buf.length) :
    decodeBody buf (n : Int) = .ok (decodedPacket (buf.take n)) := by
  unfold decodeBody
  have hneg : ¬ ((n : Int) < 0 ∨ (buf.length : Int) < (n : Int)) := by omega
  simp only [hneg, if_false, Int.toNat_ofNat]
  generalize hb : buf.take n = b
  have hlen : b.length = n := by rw [← hb]; simp; omega
  have h0 : readUint8 b = .ok (b.getD 0 0, b.drop 1) := by
    have := readUint8_drop 0 b (by omega)
    simpa using this
  simp only [h0, bind, Except.bind, pure, Except.pure,
    readUint8_drop 1 b (by omega), readUint8_drop 2 b (by omega), readUint8_drop 3 b (by omega),
    readUint32_drop 4 b (by omega), readUint16_drop 8 b (by omega), readUint16_drop 10 b (by omega),
    readBytes_drop 4 12 b (by decide) (by omega), readBytes_drop 4 16 b (by decide) (by omega),
    readBytes_drop 4 20 b (by decide) (by omega), readBytes_drop 4 24 b (by decide) (by omega),
    readBytes_drop 16 28 b (by decide) (by omega), readBytes_drop 64 44 b (by decide) (by omega),
    readBytes_drop 128 108 b (by decide) (by omega), readBytes_all]
  have hd : (List.drop (108 + 128) b).length = n - 236 := by simp [hlen]
  have hc : ¬ (n - 236 < 3 ∨ n - 236 - 3 < 4) := by omega
  have e1 : n - 236 - 3 - 4 = n - 243 := by omega
  have e2 : 108 + 128 + 4 = 240 := by norm_num
  have e3 : 108 + 128 + (n - 236 - 3) = n - 3 := by omega
  simp only [hd, hc, if_false, List.drop_take, List.drop_drop, e1, e2, e3]
  simp only [decodedPacket, hlen]

/-! ## Round trip and wire layout -/

theorem samplePacket_WF : samplePacket.WF :=
  ⟨by decide, by decide, by decide, by decide, by decide, by decide, by decide, by decide,
   by decide, by decide, by decide, by decide, by decide, by decide, by decide⟩

/-- C1. Round trip: decoding the encoding of a packet `p`, with `bytesRead` the
length of the encoding, returns no error and a packet that agrees with `p` in
every header field and in its option bytes. -/
theorem Decode_Encode_roundtrip (p : DHCPPacket) (h : p.WF) :
    (Decode (Encode p) ((Encode p).length : Int)).2 = none ∧
    (Decode (Encode p) ((Encode p).length : Int)).1.Op = p.Op ∧
    (Decode (Encode p) ((Encode p).length : Int)).1.Htype = p.Htype ∧
    (Decode (Encode p) ((Encode p).length : Int)).1.Hlen = p.Hlen ∧
    (Decode (Encode p) ((Encode p).length : Int)).1.Hops = p.Hops ∧
    (Decode (Encode p) ((Encode p).length : Int)).1.Xid = p.Xid ∧
    (Decode (Encode p) ((Encode p).length : Int)).1.Secs = p.Secs ∧
    (Decode (Encode p) ((Encode p).length : Int)).1.Flags = p.Flags ∧
    (Decode (Encode p) ((Encode p).length : Int)).1.Ciaddr = p.Ciaddr ∧
    (Decode (Encode p) ((Encode p).length : Int)).1.Yiaddr = p.Yiaddr ∧
    (Decode (Encode p) ((Encode p).length : Int)).1.Siaddr = p.Siaddr ∧
    (Decode (Encode p) ((Encode p).length : Int)).1.Giaddr = p.Giaddr ∧
    (Decode (Encode p) ((Encode p).length : Int)).1.Chaddr = p.Chaddr ∧
    (Decode (Encode p) ((Encode p).length : Int)).1.Sname = p.Sname ∧
    (Decode (Encode p) ((Encode p).length : Int)).1.File = p.File ∧
    (Decode (Encode p) ((Encode p).length : Int)).1.options.data = p.options.data := by
  unfold Decode
  rw [decodeBody_Encode p h]
  simp

theorem Decode_Encode_roundtrip_witness :
    samplePacket.WF ∧
    (Decode (Encode samplePacket) ((Encode samplePacket).length : Int)).2 = none ∧
    (Decode (Encode samplePacket) ((Encode samplePacket).length : Int)).1.Xid = 1234 ∧
    (Decode (Encode samplePacket) ((Encode samplePacket).length : Int)).1.options.data = [53, 1, 1] :=
  have h := Decode_Encode_roundtrip samplePacket samplePacket_WF
  ⟨samplePacket_WF, h.1, h.2.2.2.2.2.1, h.2.2.2.2.2.2.2.2.2.2.2.2.2.2.2⟩

/-- The sections of the encoding: header, cookie, options, trailer. -/
theorem Encode_sections (p : DHCPPacket) (h : p.WF) :
    Encode p =
      ([p.Op, p.Htype, p.Hlen, p.Hops,
        p.Xid / 2 ^ 24 % 256, p.Xid / 2 ^ 16 % 256, p.Xid / 2 ^ 8 % 256, p.Xid % 256,
        p.Secs / 2 ^ 8 % 256, p.Secs % 256, p.Flags / 2 ^ 8 % 256, p.Flags % 256]
        ++ p.Ciaddr ++ p.Yiaddr ++ p.Siaddr ++ p.Giaddr ++ p.Chaddr ++ p.Sname ++ p.File)
      ++ [99, 130, 83, 99] ++ p.options.data ++ [255, 0, 0] ∧
    ([p.Op, p.Htype, p.Hlen, p.Hops,
        p.Xid / 2 ^ 24 % 256, p.Xid / 2 ^ 16 % 256, p.Xid / 2 ^ 8 % 256, p.Xid % 256,
        p.Secs / 2 ^ 8 % 256, p.Secs % 256, p.Flags / 2 ^ 8 % 256, p.Flags % 256]
        ++ p.Ciaddr ++ p.Yiaddr ++ p.Siaddr ++ p.Giaddr ++ p.Chaddr ++ p.Sname
        ++ p.File).length = 236 := by
  constructor
  · rw [Encode_eq]
    simp [Nat.shiftRight_eq_div_pow]
  · simp only [List.length_cons, List.length_append, List.length_nil, h.ciaddr.1, h.yiaddr.1,
      h.siaddr.1, h.giaddr.1, h.chaddr.1, h.sname.1, h.file.1]

/-- C2. Wire layout: the encoding is the 236-byte fixed header in RFC 2131
order, with xid, secs and flags in big-endian order, then the magic cookie,
then the option bytes unchanged, then 255, 0, 0; so its length is 243 plus the
number of option bytes and its last three bytes are 255, 0, 0. -/
theorem Encode_layout (p : DHCPPacket) (h : p.WF) :
    Encode p =
      ([p.Op, p.Htype, p.Hlen, p.Hops,
        p.Xid / 2 ^ 24 % 256, p.Xid / 2 ^ 16 % 256, p.Xid / 2 ^ 8 % 256, p.Xid % 256,
        p.Secs / 2 ^ 8 % 256, p.Secs % 256, p.Flags / 2 ^ 8 % 256, p.Flags % 256]
        ++ p.Ciaddr ++ p.Yiaddr ++ p.Siaddr ++ p.Giaddr ++ p.Chaddr ++ p.Sname ++ p.File)
      ++ [99, 130, 83, 99] ++ p.options.data ++ [255, 0, 0] ∧
    ([p.Op, p.Htype, p.Hlen, p.Hops,
        p.Xid / 2 ^ 24 % 256, p.Xid / 2 ^ 16 % 256, p.Xid / 2 ^ 8 % 256, p.Xid % 256,
        p.Secs / 2 ^ 8 % 256, p.Secs % 256, p.Flags / 2 ^ 8 % 256, p.Flags % 256]
        ++ p.Ciaddr ++ p.Yiaddr ++ p.Siaddr ++ p.Giaddr ++ p.Chaddr ++ p.Sname
        ++ p.File).length = 236 ∧
    (p.Xid / 2 ^ 24 % 256) * 2 ^ 24 + (p.Xid / 2 ^ 16 % 256) * 2 ^ 16
      + (p.Xid / 2 ^ 8 % 256) * 2 ^ 8 + p.Xid % 256 = p.Xid ∧
    (p.Secs / 2 ^ 8 % 256) * 2 ^ 8 + p.Secs % 256 = p.Secs ∧
    (p.Flags / 2 ^ 8 % 256) * 2 ^ 8 + p.Flags % 256 = p.Flags ∧
    (Encode p).length = 243 + p.options.data.length ∧
    (Encode p).drop ((Encode p).length - 3) = [255, 0, 0] := by
  have hx := h.xid
  have hs := h.secs
  have hf := h.flags
  have hlen : (Encode p).length = 243 + p.options.data.length := by
    rw [Encode_eq]
    simp only [List.length_cons, List.length_append, List.length_nil, h.ciaddr.1, h.yiaddr.1,
      h.siaddr.1, h.giaddr.1, h.chaddr.1, h.sname.1, h.file.1]
    omega
  refine ⟨(Encode_sections p h).1, (Encode_sections p h).2, ?_, ?_, ?_, hlen, ?_⟩
  · omega
  · omega
  · omega
  · have e : Encode p = (p.Op :: p.Htype :: p.Hlen :: p.Hops ::
        (p.Xid >>> 24) % 256 :: (p.Xid >>> 16) % 256 :: (p.Xid >>> 8) % 256 :: p.Xid % 256 ::
        (p.Secs >>> 8) % 256 :: p.Secs % 256 :: (p.Flags >>> 8) % 256 :: p.Flags % 256 ::
        (p.Ciaddr ++ (p.Yiaddr ++ (p.Siaddr ++ (p.Giaddr ++ (p.Chaddr ++ (p.Sname ++ (p.File ++
          (99 :: 130 :: 83 :: 99 :: p.options.data))))))))) ++ [255, 0, 0] := by
      rw [Encode_eq]; simp
    generalize Encode p = l at e hlen
    subst e
    apply List.drop_left'
    simp only [List.length_append, List.length_cons, List.length_nil] at hlen ⊢
    omega

theorem Encode_layout_witness :
    samplePacket.WF ∧ (Encode samplePacket).length = 243 + 3 ∧
    (Encode samplePacket).drop ((Encode samplePacket).length - 3) = [255, 0, 0] :=
  have h := Encode_layout samplePacket samplePacket_WF
  ⟨samplePacket_WF, h.2.2.2.2.2.1, h.2.2.2.2.2.2⟩

/-! ## The magic cookie -/

/-- C5, as stated, fails: a buffer of 243 zero bytes has no magic cookie at
offsets 236..239, and `Decode` accepts it. -/
theorem Decode_accepts_missing_cookie :
    243 ≤ (List.replicate 243 0).length ∧
    ((List.replicate 243 0).drop 236).take 4 ≠ [99, 130, 83, 99] ∧
    (Decode (List.replicate 243 0) 243).2 = none := by
  set_option maxRecDepth 100000 in decide

/-- C5, amended. `Decode` skips the four bytes at offsets 236..239 without
comparing them: for every buffer and every `bytesRead` from 243 up to the length
of the buffer it returns no error, and the option bytes are those from offset
240 up to the last three bytes read. -/
theorem Decode_skips_cookie (buf : List Nat) (n : Nat) (h1 : 243 ≤ n) (h2 : n ≤ buf.length) :
    (Decode buf (n : Int)).2 = none ∧
    (Decode buf (n : Int)).1.options.data = ((buf.take n).drop 240).take (n - 243) := by
  unfold Decode
  rw [decodeBody_ok buf n h1 h2]
  have hl : (buf.take n).length = n := by simp; omega
  simp [decodedPacket, hl]

set_option maxRecDepth 100000 in
theorem Decode_skips_cookie_witness :
    243 ≤ 244 ∧ 244 ≤ (List.replicate 240 7 ++ [53, 1, 5, 9]).length ∧
    (Decode (List.replicate 240 7 ++ [53, 1, 5, 9]) ((244 : Nat) : Int)).2 = none :=
  ⟨by decide, by decide,
   (Decode_skips_cookie (List.replicate 240 7 ++ [53, 1, 5, 9]) 244 (by decide) (by decide)).1⟩

/-! ## The broadcast flag -/

theorem two_pow_and_ne_zero (k x : Nat) : (2 ^ k &&& x ≠ 0) ↔ x.testBit k = true := by
  constructor
  · intro h
    by_contra hb
    apply h
    apply Nat.eq_of_testBit_eq
    intro i
    simp only [Nat.testBit_and, Nat.testBit_two_pow, Nat.zero_testBit]
    by_cases hki : k = i
    · subst hki; simp [hb]
    · simp [hki]
  · intro hb h0
    have : (2 ^ k &&& x).testBit k = true := by
      simp [Nat.testBit_and, Nat.testBit_two_pow, hb]
    rw [h0] at this
    simp at this

/-- C9. The broadcast flag on the wire: `BroadcastFlag` is true exactly when
the top bit (128) of byte 10 of the encoding is set, bytes 10 and 11 being the
big-endian flags word, that is bit 15 of `Flags`; after `MarkBroadcastFlag` the
flag reads true and bit 15 is the only bit of `Flags` that is set. -/
theorem BroadcastFlag_wire (p : DHCPPacket) :
    (BroadcastFlag p = true ↔ (Encode p).getD 10 0 &&& 128 ≠ 0) ∧
    (Encode p).getD 10 0 = p.Flags / 2 ^ 8 % 256 ∧
    (Encode p).getD 11 0 = p.Flags % 256 ∧
    (BroadcastFlag p = true ↔ p.Flags.testBit 15 = true) ∧
    BroadcastFlag (MarkBroadcastFlag p) = true ∧
    (∀ i, (MarkBroadcastFlag p).Flags.testBit i = true ↔ i = 15) := by
  have hflag : BroadcastFlag p = true ↔ p.Flags.testBit 15 = true := by
    unfold BroadcastFlag
    rw [Nat.one_shiftLeft, bne_iff_ne]
    exact two_pow_and_ne_zero 15 p.Flags
  have h10 : (Encode p).getD 10 0 = p.Flags / 2 ^ 8 % 256 := by
    rw [Encode_eq]; simp [Nat.shiftRight_eq_div_pow]
  have h11 : (Encode p).getD 11 0 = p.Flags % 256 := by
    rw [Encode_eq]; simp
  refine ⟨?_, h10, h11, hflag, ?_, ?_⟩
  · rw [hflag, h10]
    have e : (128 : Nat) = 2 ^ 7 := by norm_num
    have e8 : (256 : Nat) = 2 ^ 8 := by norm_num
    rw [e, Nat.and_comm, two_pow_and_ne_zero, e8, Nat.testBit_mod_two_pow,
      ← Nat.shiftRight_eq_div_pow, Nat.testBit_shiftRight]
    simp
  · show ((1 <<< 15 &&& (1 <<< 15) % 2 ^ 16) != 0) = true
    decide
  · intro i
    have e : (MarkBroadcastFlag p).Flags = 2 ^ 15 := by
      simp [MarkBroadcastFlag]
    rw [e, Nat.testBit_two_pow]
    simp [eq_comm]

/-! ## Defects of the option walk -/

/-- C3 fails on the code: for an option split into the parts `55,1,1`, `55,1,3`
and `55,1,6`, `GetOptions` on the decoded datagram returns one option whose
length octet is 3 but whose payload is the first part only. -/
theorem GetOptions_split_option :
    (Decode (Encode splitPacket) ((Encode splitPacket).length : Int)).2 = none ∧
    GetOptions (Decode (Encode splitPacket) ((Encode splitPacket).length : Int)).1
      = .ok [⟨[55, 3, 1], "PARAMETER_REQUEST_LIST"⟩] := by
  set_option maxRecDepth 100000 in decide

/-- C4 fails on the code: `Decode` accepts a datagram whose option section ends
after a code octet, and the walk of its options then panics in `GetOptions`,
`GetOption` and `GetMessageType`; an option whose length octet exceeds the
bytes that remain is accepted too and read beyond the option bytes. -/
theorem GetOptions_truncated_tail :
    (Decode truncatedDatagram 244).2 = none ∧
    GetOptions (Decode truncatedDatagram 244).1 = .panic ∧
    GetOption (Decode truncatedDatagram 244).1 SERVER_IDENTIFIER = .panic ∧
    GetMessageType (Decode truncatedDatagram 244).1 = .panic ∧
    (Decode overlongDatagram 246).2 = none ∧
    GetOptions (Decode overlongDatagram 246).1
      = .ok [⟨[53, 3, 5, 255, 0], "DHCP_MESSAGE_TYPE"⟩] := by
  set_option maxRecDepth 100000 in decide

/-- C7 fails on the code: the buffer holds `53,1,5`, and `GetMessageType` on
the decoded datagram returns 9, a byte of the second part of the split option
that the walk has copied over the message type. -/
theorem GetMessageType_overwritten :
    (Decode (Encode splitMaskPacket) ((Encode splitMaskPacket).length : Int)).2 = none ∧
    (Decode (Encode splitMaskPacket) ((Encode splitMaskPacket).length : Int)).1.options.data
      = [1, 1, 0, 53, 1, 5, 1, 3, 7, 8, 9] ∧
    GetMessageType (Decode (Encode splitMaskPacket) ((Encode splitMaskPacket).length : Int)).1
      = .ok 9 := by
  set_option maxRecDepth 100000 in decide

/-! ## The option walk on well-formed buffers -/

theorem drop_eq_cons_info (arr : List Nat) (i x : Nat) (t : List Nat)
    (h : arr.drop i = x :: t) :
    i < arr.length ∧ arr.getD i 0 = x ∧ arr.drop (i + 1) = t := by
  have h1 : i < arr.length := by
    by_contra hc
    rw [List.drop_eq_nil_of_le (by omega)] at h
    cases h
  refine ⟨h1, ?_, ?_⟩
  · have h2 := List.getElem?_drop arr i 0
    rw [h] at h2
    simp at h2
    simp [List.getD_eq_getElem?_getD, ← h2]
  · have h2 : arr.drop (i + 1) = (arr.drop i).drop 1 := by rw [List.drop_drop]
    rw [h2, h]
    rfl

theorem drop_eq_append_info (arr : List Nat) (i : Nat) (pl rest : List Nat)
    (hi : i ≤ arr.length) (h : arr.drop i = pl ++ rest) :
    i + pl.length ≤ arr.length ∧ (arr.drop i).take pl.length = pl ∧
      arr.drop (i + pl.length) = rest := by
  have hlen : (arr.drop i).length = pl.length + rest.length := by rw [h]; simp
  rw [List.length_drop] at hlen
  refine ⟨?_, ?_, ?_⟩
  · omega
  · rw [h, List.take_left' rfl]
  · rw [← List.drop_drop, h, List.drop_left' rfl]

/-- What the first option of a buffer suffix tells about the array. -/
theorem tlv_head_info (arr : List Nat) (i c : Nat) (pl rest : List Nat)
    (h : arr.drop i = c :: pl.length :: (pl ++ rest)) :
    i + 2 + pl.length ≤ arr.length ∧ arr.getD i 0 = c ∧ arr.getD (i + 1) 0 = pl.length ∧
      (arr.drop (i + 2)).take pl.length = pl ∧ arr.drop (i + 2 + pl.length) = rest := by
  obtain ⟨_, hc, h1⟩ := drop_eq_cons_info arr i c _ h
  obtain ⟨hlt, hn, h2⟩ := drop_eq_cons_info arr (i + 1) pl.length _ h1
  obtain ⟨h3, h4, h5⟩ := drop_eq_append_info arr (i + 2) pl rest (by omega) h2
  exact ⟨h3, hc, hn, h4, h5⟩

theorem getD_append_lt (a s : List Nat) (j : Nat) (h : j < a.length) :
    (a ++ s).getD j 0 = a.getD j 0 := by
  simp [List.getD_eq_getElem?_getD, List.getElem?_append_left h]

theorem copyInto_append (a s src : List Nat) (pos : Nat) (h : pos + src.length ≤ a.length) :
    copyInto (a ++ s) pos src = copyInto a pos src ++ s := by
  unfold copyInto
  rw [List.take_append_of_le_length (by omega), List.drop_append_of_le_length h]
  simp

theorem length_copyInto (a src : List Nat) (pos : Nat) (h : pos + src.length ≤ a.length) :
    (copyInto a pos src).length = a.length := by
  unfold copyInto
  simp
  omega

theorem drop_copyInto (a src : List Nat) (pos n : Nat) (h : pos + src.length ≤ n)
    (hn : pos ≤ a.length) :
    (copyInto a pos src).drop n = a.drop n := by
  unfold copyInto
  have hl : (a.take pos ++ src).length = pos + src.length := by simp; omega
  have e : n = (a.take pos ++ src).length + (n - (pos + src.length)) := by omega
  conv => lhs; rw [e]
  rw [List.drop_append, List.drop_drop]
  congr 1
  omega

theorem optionWalk_step_fresh (L fuel i c : Nat) (arr spare pl rest : List Nat)
    (m : List Entry) (hL : arr.length = L)
    (hd : arr.drop i = c :: pl.length :: (pl ++ rest)) (hm : lookupEntry c m = none) :
    optionWalk L (fuel + 1) i (arr ++ spare) m
      = optionWalk L fuel (i + 2 + pl.length) (arr ++ spare) (m ++ [⟨c, i, 2 + pl.length⟩]) := by
  obtain ⟨h1, h2, h3, _, _⟩ := tlv_head_info arr i c pl rest hd
  rw [optionWalk]
  have a1 : i < L := by omega
  have a2 : i + 1 < L := by omega
  have a3 : i + 2 + pl.length ≤ (arr ++ spare).length := by simp; omega
  simp only [getD_append_lt arr spare i (by omega), getD_append_lt arr spare (i + 1) (by omega),
    h2, h3, a1, a2, a3, if_true, hm]

theorem optionWalk_step_merge (L i c : Nat) (arr pl rest : List Nat)
    (m : List Entry) (e : Entry) (hL : arr.length = L)
    (hd : arr.drop i = c :: pl.length :: (pl ++ rest)) (hm : lookupEntry c m = some e)
    (he : e.start + e.len ≤ i) :
    ∃ arr1 : List Nat, arr1.length = L ∧ arr1.drop (i + 2 + pl.length) = rest ∧
      ∀ (spare : List Nat) (fuel : Nat),
        optionWalk L (fuel + 1) i (arr ++ spare) m
          = optionWalk L fuel (i + 2 + pl.length) (arr1 ++ spare) m := by
  obtain ⟨h1, h2, h3, h4, h5⟩ := tlv_head_info arr i c pl rest hd
  have hc : e.start + e.len + pl.length ≤ arr.length := by omega
  have hcl := length_copyInto arr pl (e.start + e.len) hc
  refine ⟨(copyInto arr (e.start + e.len) pl).set (e.start + 1)
      (((copyInto arr (e.start + e.len) pl).getD (e.start + 1) 0
        + (copyInto arr (e.start + e.len) pl).getD (i + 1) 0) % 256), ?_, ?_, ?_⟩
  · simp [hcl, hL]
  · rw [List.drop_set_of_lt _ _ (by omega), drop_copyInto _ _ _ _ (by omega) (by omega), h5]
  · intro spare fuel
    rw [optionWalk]
    have a1 : i < L := by omega
    have a2 : i + 1 < L := by omega
    have a3 : i + 2 + pl.length ≤ (arr ++ spare).length := by simp; omega
    have a4 : e.len + pl.length ≤ (arr ++ spare).length - e.start := by simp; omega
    have a5 : (List.drop (i + 2) (arr ++ spare)).take pl.length = pl := by
      rw [List.drop_append_of_le_length (by omega), List.take_append_of_le_length, h4]
      simp; omega
    simp only [getD_append_lt arr spare i (by omega), getD_append_lt arr spare (i + 1) (by omega),
      h2, h3, a1, a2, a3, a4, a5, if_true, hm, copyInto_append arr spare pl _ hc,
      getD_append_lt _ spare (e.start + 1) (show e.start + 1 < (copyInto arr (e.start + e.len) pl).length by omega),
      getD_append_lt _ spare (i + 1) (show i + 1 < (copyInto arr (e.start + e.len) pl).length by omega)]
    rw [List.set_append_left _ _ (by omega)]

theorem lookupEntry_some (c : Nat) (m : List Entry) (e : Entry) (h : lookupEntry c m = some e) :
    e ∈ m ∧ e.key = c := by
  unfold lookupEntry at h
  refine ⟨List.mem_of_find?_eq_some h, ?_⟩
  have := List.find?_some h
  simpa using this

theorem lookupEntry_none (c : Nat) (m : List Entry) (h : ∀ e ∈ m, e.key ≠ c) :
    lookupEntry c m = none := by
  unfold lookupEntry
  rw [List.find?_eq_none]
  intro e he
  simpa using h e he

theorem optionWalk_done (L fuel i : Nat) (arr : List Nat) (m : List Entry) (h : L ≤ i) :
    optionWalk L fuel i arr m = .ok (arr, m) := by
  have hn : ¬ i < L := by omega
  cases fuel <;> simp [optionWalk, hn]

theorem tlvBytes_cons (c : Nat) (pl : List Nat) (ts : List (Nat × List Nat)) :
    tlvBytes ((c, pl) :: ts) = c :: pl.length :: (pl ++ tlvBytes ts) := rfl

theorem tlvBytes_append (xs ys : List (Nat × List Nat)) :
    tlvBytes (xs ++ ys) = tlvBytes xs ++ tlvBytes ys := by
  induction xs with
  | nil => rfl
  | cons x xs ih =>
    obtain ⟨c, pl⟩ := x
    simp [tlvBytes_cons, ih]

theorem length_le_tlvBytes (ts : List (Nat × List Nat)) : ts.length ≤ (tlvBytes ts).length := by
  induction ts with
  | nil => simp
  | cons x xs ih =>
    obtain ⟨c, pl⟩ := x
    simp only [tlvBytes_cons, List.length_cons, List.length_append]
    omega

/-- The walk over a prefix of the buffer that is a sequence of whole options:
it never panics, leaves the bytes behind the prefix untouched, keeps every map
value inside the part walked, and only adds keys that occur in the prefix. -/
theorem optionWalk_tlvs (L : Nat) :
    ∀ (tlvs : List (Nat × List Nat)) (i : Nat) (arr : List Nat) (m : List Entry)
      (rest : List Nat),
      arr.length = L → arr.drop i = tlvBytes tlvs ++ rest →
      (∀ e ∈ m, e.start + e.len ≤ i) →
      ∃ (arr1 : List Nat) (m1 : List Entry), arr1.length = L ∧
        arr1.drop (i + (tlvBytes tlvs).length) = rest ∧
        (∀ e ∈ m1, e.start + e.len ≤ i + (tlvBytes tlvs).length) ∧
        (∀ e ∈ m1, e ∈ m ∨ e.key ∈ tlvs.map Prod.fst) ∧
        ∀ (spare : List Nat) (fuel : Nat),
          optionWalk L (tlvs.length + fuel) i (arr ++ spare) m
            = optionWalk L fuel (i + (tlvBytes tlvs).length) (arr1 ++ spare) m1 := by
  intro tlvs
  induction tlvs with
  | nil =>
    intro i arr m rest hL hd hm
    refine ⟨arr, m, hL, ?_, ?_, ?_, ?_⟩
    · simpa [tlvBytes] using hd
    · simpa [tlvBytes] using hm
    · intro e he; exact Or.inl he
    · intro spare fuel; simp [tlvBytes]
  | cons x ts ih =>
    obtain ⟨c, pl⟩ := x
    intro i arr m rest hL hd hm
    have hd1 : arr.drop i = c :: pl.length :: (pl ++ (tlvBytes ts ++ rest)) := by
      rw [hd, tlvBytes_cons]; simp
    obtain ⟨h1, _, _, _, h5⟩ := tlv_head_info arr i c pl _ hd1
    have hlen : i + (tlvBytes ((c, pl) :: ts)).length
        = i + 2 + pl.length + (tlvBytes ts).length := by
      simp only [tlvBytes_cons, List.length_cons, List.length_append]; omega
    have hfuel : ∀ fuel, ((c, pl) :: ts).length + fuel = (ts.length + fuel) + 1 := by
      intro fuel; simp only [List.length_cons]; omega
    cases hlk : lookupEntry c m with
    | none =>
      have hm2 : ∀ e ∈ m ++ [(⟨c, i, 2 + pl.length⟩ : Entry)],
          e.start + e.len ≤ i + 2 + pl.length := by
        intro e he
        rcases List.mem_append.mp he with he | he
        · have := hm e he; omega
        · simp at he; subst he; simp; omega
      obtain ⟨arr1, m1, g1, g2, g3, g4, g5⟩ := ih (i + 2 + pl.length) arr _ rest hL h5 hm2
      refine ⟨arr1, m1, g1, ?_, ?_, ?_, ?_⟩
      · rw [hlen]; exact g2
      · rw [hlen]; exact g3
      · intro e he
        rcases g4 e he with h | h
        · rcases List.mem_append.mp h with h | h
          · exact Or.inl h
          · simp at h; subst h; right; simp
        · right; simp only [List.map_cons, List.mem_cons]; exact Or.inr h
      · intro spare fuel
        rw [hfuel, optionWalk_step_fresh L _ i c arr spare pl _ m hL hd1 hlk, g5, hlen]
    | some e =>
      obtain ⟨hem, _⟩ := lookupEntry_some c m e hlk
      obtain ⟨arr0, k1, k2, k3⟩ :=
        optionWalk_step_merge L i c arr pl _ m e hL hd1 hlk (hm e hem)
      have hm2 : ∀ e ∈ m, e.start + e.len ≤ i + 2 + pl.length := by
        intro e he; have := hm e he; omega
      obtain ⟨arr1, m1, g1, g2, g3, g4, g5⟩ := ih (i + 2 + pl.length) arr0 m rest k1 k2 hm2
      refine ⟨arr1, m1, g1, ?_, ?_, ?_, ?_⟩
      · rw [hlen]; exact g2
      · rw [hlen]; exact g3
      · intro e he
        rcases g4 e he with h | h
        · exact Or.inl h
        · right; simp only [List.map_cons, List.mem_cons]; exact Or.inr h
      · intro spare fuel
        rw [hfuel, k3, g5, hlen]

theorem entryOption_append (arr spare : List Nat) (e : Entry) (h : e.start + e.len ≤ arr.length) :
    entryOption (arr ++ spare) e = entryOption arr e := by
  unfold entryOption
  rw [List.drop_append_of_le_length (by omega), List.take_append_of_le_length]
  simp; omega

/-- On a buffer that is a sequence of whole options the walk succeeds, and its
result does not depend on what lies behind the buffer in the backing array. -/
theorem GetOptions_tlvs (tlvs : List (Nat × List Nat)) :
    ∃ opts : List DHCPOption, ∀ p : DHCPPacket, p.options.data = tlvBytes tlvs →
      GetOptions p = .ok opts := by
  obtain ⟨arr1, m1, g1, g2, g3, _, g5⟩ :=
    optionWalk_tlvs (tlvBytes tlvs).length tlvs 0 (tlvBytes tlvs) [] [] rfl (by simp) (by simp)
  refine ⟨m1.map (entryOption arr1), ?_⟩
  intro p hp
  have hf : tlvs.length + ((tlvBytes tlvs).length - tlvs.length) = (tlvBytes tlvs).length := by
    have := length_le_tlvBytes tlvs; omega
  have hw := g5 p.options.spare ((tlvBytes tlvs).length - tlvs.length)
  rw [hf, optionWalk_done _ _ (0 + (tlvBytes tlvs).length) _ _ (by omega)] at hw
  unfold GetOptions GetOptionsRun
  rw [hp, hw]
  simp only [Run.ok.injEq, List.map_inj_left]
  intro e he
  exact entryOption_append arr1 _ e (by have := g3 e he; omega)

theorem optionWalk_distinct (L : Nat) (spare : List Nat) (arr : List Nat) (hL : arr.length = L) :
    ∀ (ts : List (Nat × List Nat)) (i : Nat) (m : List Entry) (fuel : Nat),
      arr.drop i = tlvBytes ts → (ts.map Prod.fst).Nodup →
      (∀ e ∈ m, e.key ∉ ts.map Prod.fst) →
      optionWalk L (ts.length + fuel) i (arr ++ spare) m
        = .ok (arr ++ spare, m ++ tlvEntries i ts) := by
  intro ts
  induction ts with
  | nil =>
    intro i m fuel hd _ _
    have hi : L ≤ i := by
      have := congrArg List.length hd
      simp [tlvBytes] at this
      omega
    simp [tlvEntries, optionWalk_done _ _ _ _ _ hi]
  | cons x ts ih =>
    obtain ⟨c, pl⟩ := x
    intro i m fuel hd hnd hm
    have hd1 : arr.drop i = c :: pl.length :: (pl ++ (tlvBytes ts ++ [])) := by
      rw [hd, tlvBytes_cons]; simp
    obtain ⟨_, _, _, _, h5⟩ := tlv_head_info arr i c pl _ hd1
    simp only [List.append_nil] at h5
    have hlk : lookupEntry c m = none := by
      apply lookupEntry_none
      intro e he hk
      exact hm e he (by simp [hk])
    have hnd2 : (ts.map Prod.fst).Nodup := (List.nodup_cons.mp hnd).2
    have hc : c ∉ ts.map Prod.fst := (List.nodup_cons.mp hnd).1
    have hm2 : ∀ e ∈ m ++ [(⟨c, i, 2 + pl.length⟩ : Entry)], e.key ∉ ts.map Prod.fst := by
      intro e he
      rcases List.mem_append.mp he with he | he
      · intro hk; exact hm e he (by simp [hk])
      · simp at he; subst he; exact hc
    have hfuel : ((c, pl) :: ts).length + fuel = (ts.length + fuel) + 1 := by
      simp only [List.length_cons]; omega
    rw [hfuel, optionWalk_step_fresh L _ i c arr spare pl _ m hL hd1 hlk,
      ih (i + 2 + pl.length) _ fuel h5 hnd2 hm2]
    simp [tlvEntries]

theorem map_entryOption_tlvEntries (arr rest : List Nat) :
    ∀ (ts : List (Nat × List Nat)) (i : Nat), arr.drop i = tlvBytes ts ++ rest →
      (tlvEntries i ts).map (entryOption arr) = ts.map tlvOption := by
  intro ts
  induction ts with
  | nil => intro i _; rfl
  | cons x ts ih =>
    obtain ⟨c, pl⟩ := x
    intro i hd
    have hd1 : arr.drop i = c :: pl.length :: (pl ++ (tlvBytes ts ++ rest)) := by
      rw [hd, tlvBytes_cons]; simp
    obtain ⟨_, _, _, _, h5⟩ := tlv_head_info arr i c pl _ hd1
    simp only [tlvEntries, List.map_cons, ih _ h5]
    congr 1
    unfold entryOption tlvOption
    simp only [hd1, DHCPOption.mk.injEq, and_true]
    have e : 2 + pl.length = pl.length + 1 + 1 := by omega
    rw [e, List.take_succ_cons, List.take_succ_cons, List.take_left' rfl]

/-- On a buffer of whole options with pairwise distinct codes `GetOptions`
returns exactly these options. -/
theorem GetOptions_distinct (tlvs : List (Nat × List Nat)) (p : DHCPPacket)
    (hp : p.options.data = tlvBytes tlvs) (hnd : (tlvs.map Prod.fst).Nodup) :
    GetOptions p = .ok (tlvs.map tlvOption) := by
  have hf : tlvs.length + ((tlvBytes tlvs).length - tlvs.length) = (tlvBytes tlvs).length := by
    have := length_le_tlvBytes tlvs; omega
  have hw := optionWalk_distinct (tlvBytes tlvs).length p.options.spare (tlvBytes tlvs) rfl
    tlvs 0 [] ((tlvBytes tlvs).length - tlvs.length) (by simp) hnd (by simp)
  rw [hf] at hw
  unfold GetOptions GetOptionsRun
  rw [hp, hw]
  simp only [List.nil_append, Run.ok.injEq]
  exact map_entryOption_tlvEntries (tlvBytes tlvs ++ p.options.spare) p.options.spare tlvs 0
    (by simp)

theorem AddOption_data (growslice : Nat → Nat → Nat) (p : DHCPPacket) (o : DHCPOption) :
    (AddOption growslice p o).options.data = p.options.data ++ o.Data := by
  unfold AddOption goAppend
  split <;> rfl

/-- An option added behind a buffer of whole options that lacks its code is
listed by `GetOptions`. -/
theorem GetOptions_AddOption_mem (growslice : Nat → Nat → Nat) (p : DHCPPacket)
    (tlvs : List (Nat × List Nat)) (c : Nat) (payload : List Nat) (o : DHCPOption)
    (hp : p.options.data = tlvBytes tlvs) (hc : c ∉ tlvs.map Prod.fst)
    (hData : o.Data = c :: payload.length :: payload) (hID : o.ID = TypeToString c) :
    ∃ opts : List DHCPOption, GetOptions (AddOption growslice p o) = .ok opts ∧ o ∈ opts := by
  have hdata := AddOption_data growslice p o
  rw [hp, hData] at hdata
  generalize AddOption growslice p o = q at hdata
  obtain ⟨arr1, m1, g1, g2, g3, g4, g5⟩ :=
    optionWalk_tlvs q.options.data.length tlvs 0 q.options.data [] (c :: payload.length :: payload)
      rfl (by rw [hdata]; simp) (by simp)
  have hL : q.options.data.length = (tlvBytes tlvs).length + (2 + payload.length) := by
    rw [hdata]; simp; omega
  have hd1 : arr1.drop (0 + (tlvBytes tlvs).length) = c :: payload.length :: (payload ++ []) := by
    rw [g2]; simp
  have hlk : lookupEntry c m1 = none := by
    apply lookupEntry_none
    intro e he hk
    rcases g4 e he with h | h
    · simp at h
    · rw [hk] at h; exact hc h
  have hf : tlvs.length + ((q.options.data.length - tlvs.length - 1) + 1)
      = q.options.data.length := by
    have := length_le_tlvBytes tlvs; omega
  have hw := g5 q.options.spare ((q.options.data.length - tlvs.length - 1) + 1)
  rw [hf, optionWalk_step_fresh _ _ _ c arr1 q.options.spare payload [] m1 g1 hd1 hlk,
    optionWalk_done _ _ (0 + (tlvBytes tlvs).length + 2 + payload.length) _ _ (by omega)] at hw
  refine ⟨(m1 ++ [(⟨c, 0 + (tlvBytes tlvs).length, 2 + payload.length⟩ : Entry)]).map
    (entryOption (arr1 ++ q.options.spare)), ?_, ?_⟩
  · unfold GetOptions GetOptionsRun
    rw [hw]
  · simp only [List.map_append, List.map_cons, List.map_nil, List.mem_append, List.mem_singleton]
    right
    have he : 0 + (tlvBytes tlvs).length + (2 + payload.length) ≤ arr1.length := by omega
    rw [entryOption_append arr1 _ _ he]
    unfold entryOption
    obtain ⟨d, id⟩ := o
    simp only at hData hID
    subst hData hID
    simp only [hd1, DHCPOption.mk.injEq, and_true]
    simp [List.take_succ_cons]
    omega

theorem optionWalk_fuel (L : Nat) :
    ∀ (fuel i : Nat) (arr : List Nat) (m : List Entry), L ≤ i + fuel →
      optionWalk L fuel i arr m ≠ .outOfFuel := by
  intro fuel
  induction fuel with
  | zero =>
    intro i arr m h
    have hn : ¬ i < L := by omega
    simp [optionWalk, hn]
  | succ fuel ih =>
    intro i arr m h
    rw [optionWalk]
    dsimp only
    split
    · split
      · split
        · split
          · exact ih _ _ _ (by omega)
          · split
            · exact ih _ _ _ (by omega)
            · exact ih _ _ _ (by omega)
        · simp
      · simp
    · simp

/-- The loop of `GetOptions` always gets enough iterations. -/
theorem GetOptions_fuel (p : DHCPPacket) : GetOptions p ≠ .outOfFuel := by
  unfold GetOptions GetOptionsRun
  have h := optionWalk_fuel p.options.data.length p.options.data.length 0
    (p.options.data ++ p.options.spare) [] (by omega)
  split <;> simp_all

/-! ## The order in which the map is visited -/

set_option maxRecDepth 1000000 in
theorem codeOfName_TypeToString : ∀ n < 256, codeOfName (TypeToString n) = n := by decide

theorem TypeToString_injOn (a b : Nat) (ha : a < 256) (hb : b < 256)
    (h : TypeToString a = TypeToString b) : a = b := by
  rw [← codeOfName_TypeToString a ha, ← codeOfName_TypeToString b hb, h]

theorem allBytes_getD (arr : List Nat) (i : Nat) (h : allBytes arr) : arr.getD i 0 < 256 := by
  rw [List.getD_eq_getElem?_getD]
  cases hi : arr[i]? with
  | none => simp
  | some v => exact h v (List.getElem?_mem hi)

theorem allBytes_append (a b : List Nat) (ha : allBytes a) (hb : allBytes b) :
    allBytes (a ++ b) := by
  intro x hx
  rcases List.mem_append.mp hx with h | h
  · exact ha x h
  · exact hb x h

theorem allBytes_take (a : List Nat) (n : Nat) (ha : allBytes a) : allBytes (a.take n) :=
  fun x hx => ha x (List.mem_of_mem_take hx)

theorem allBytes_drop (a : List Nat) (n : Nat) (ha : allBytes a) : allBytes (a.drop n) :=
  fun x hx => ha x (List.mem_of_mem_drop hx)

theorem allBytes_copyInto (arr src : List Nat) (pos : Nat) (ha : allBytes arr)
    (hs : allBytes src) : allBytes (copyInto arr pos src) := by
  unfold copyInto
  exact allBytes_append _ _ (allBytes_append _ _ (allBytes_take _ _ ha) hs) (allBytes_drop _ _ ha)

theorem allBytes_set (arr : List Nat) (j v : Nat) (ha : allBytes arr) (hv : v < 256) :
    allBytes (arr.set j v) := by
  intro x hx
  rcases List.mem_or_eq_of_mem_set hx with h | h
  · exact ha x h
  · rw [h]; exact hv

/-- The keys of the map stay pairwise distinct bytes during the walk. -/
theorem optionWalk_keys (L : Nat) :
    ∀ (fuel i : Nat) (arr : List Nat) (m : List Entry) (arr1 : List Nat) (m1 : List Entry),
      allBytes arr → (m.map Entry.key).Nodup → (∀ e ∈ m, e.key < 256) →
      optionWalk L fuel i arr m = .ok (arr1, m1) →
      (m1.map Entry.key).Nodup ∧ (∀ e ∈ m1, e.key < 256) := by
  intro fuel
  induction fuel with
  | zero =>
    intro i arr m arr1 m1 _ hn hk h
    rw [optionWalk] at h
    split at h
    · cases h
    · simp only [Run.ok.injEq, Prod.mk.injEq] at h
      rw [← h.2]; exact ⟨hn, hk⟩
  | succ fuel ih =>
    intro i arr m arr1 m1 hb hn hk h
    rw [optionWalk] at h
    dsimp only at h
    split at h
    · split at h
      · split at h
        · split at h
          · rename_i hlk
            refine ih _ _ _ _ _ hb ?_ ?_ h
            · rw [List.map_append, List.nodup_append]
              refine ⟨hn, by simp, ?_⟩
              intro a ha1 ha2
              simp only [List.map_cons, List.map_nil, List.mem_singleton] at ha2
              obtain ⟨e, he, hke⟩ := List.mem_map.mp ha1
              unfold lookupEntry at hlk
              rw [List.find?_eq_none] at hlk
              have := hlk e he
              simp only [beq_iff_eq] at this
              exact this (by rw [hke, ha2])
            · intro e he
              rcases List.mem_append.mp he with he | he
              · exact hk e he
              · simp only [List.mem_singleton] at he; subst he; exact allBytes_getD arr i hb
          · split at h
            · refine ih _ _ _ _ _ ?_ hn hk h
              apply allBytes_set
              · exact allBytes_copyInto _ _ _ hb (allBytes_take _ _ (allBytes_drop _ _ hb))
              · exact Nat.mod_lt _ (by decide)
            · exact ih _ _ _ _ _ hb hn hk h
        · cases h
      · cases h
    · simp only [Run.ok.injEq, Prod.mk.injEq] at h
      rw [← h.2]; exact ⟨hn, hk⟩

/-- The options that `GetOptions` returns have pairwise distinct `ID`s. -/
theorem GetOptions_ID_nodup (p : DHCPPacket) (opts : List DHCPOption)
    (hb : allBytes p.options.data ∧ allBytes p.options.spare)
    (h : GetOptions p = .ok opts) : (opts.map DHCPOption.ID).Nodup := by
  unfold GetOptions at h
  split at h
  · rename_i arr m hrun
    simp only [Run.ok.injEq] at h
    obtain ⟨hn, hk⟩ := optionWalk_keys _ _ _ _ _ _ _ (allBytes_append _ _ hb.1 hb.2)
      (by simp) (by simp) hrun
    rw [← h, List.map_map]
    have e : (DHCPOption.ID ∘ entryOption arr) = (TypeToString ∘ Entry.key) := by
      funext x; rfl
    rw [e, ← List.map_map]
    refine List.Nodup.map_on ?_ hn
    intro a ha b hb2 hab
    obtain ⟨ea, hea, rfl⟩ := List.mem_map.mp ha
    obtain ⟨eb, heb, rfl⟩ := List.mem_map.mp hb2
    exact TypeToString_injOn _ _ (hk ea hea) (hk eb heb) hab
  · cases h
  · cases h

/-- Go visits the map in an unspecified order: whatever the order, `GetOption`
finds the same option. -/
theorem GetOption_order (p : DHCPPacket) (opts visited : List DHCPOption) (name : String)
    (hb : allBytes p.options.data ∧ allBytes p.options.spare)
    (h : GetOptions p = .ok opts) (hperm : visited.Perm opts) :
    visited.find? (fun opt => opt.ID == name) = opts.find? (fun opt => opt.ID == name) := by
  have hnd := GetOptions_ID_nodup p opts hb h
  cases h1 : opts.find? (fun opt => opt.ID == name) with
  | none =>
    rw [List.find?_eq_none] at h1 ⊢
    intro x hx
    exact h1 x (hperm.mem_iff.mp hx)
  | some o =>
    have ho := List.mem_of_find?_eq_some h1
    have hq := List.find?_some h1
    cases h2 : visited.find? (fun opt => opt.ID == name) with
    | none =>
      rw [List.find?_eq_none] at h2
      exact absurd hq (h2 o (hperm.mem_iff.mpr ho))
    | some o2 =>
      have ho2 := hperm.mem_iff.mp (List.mem_of_find?_eq_some h2)
      have hq2 := List.find?_some h2
      simp only [beq_iff_eq] at hq hq2
      rw [List.inj_on_of_nodup_map hnd ho2 ho (by rw [hq, hq2])]

theorem find_tlvOption (name : Nat) (hname : name < 256) :
    ∀ (tlvs : List (Nat × List Nat)), (∀ t ∈ tlvs, t.1 < 256) →
      (tlvs.map tlvOption).find? (fun opt => opt.ID == TypeToString name)
        = (tlvs.find? (fun t => t.1 == name)).map tlvOption := by
  intro tlvs
  induction tlvs with
  | nil => intro _; rfl
  | cons t ts ih =>
    intro hb
    have ht : t.1 < 256 := hb t (by simp)
    have ih2 := ih (fun x hx => hb x (by simp [hx]))
    by_cases hc : t.1 = name
    · have h1 : ((tlvOption t).ID == TypeToString name) = true := by
        simp [tlvOption, hc]
      have h2 : (t.1 == name) = true := by simp [hc]
      simp only [List.map_cons, List.find?_cons, h1, h2, Option.map_some']
    · have h1 : ((tlvOption t).ID == TypeToString name) = false := by
        simp only [tlvOption, beq_eq_false_iff_ne, ne_eq]
        intro h
        exact hc (TypeToString_injOn _ _ ht hname h)
      have h2 : (t.1 == name) = false := by simp [hc]
      simp only [List.map_cons, List.find?_cons, h1, h2, ih2]

/-- On a buffer of whole options with pairwise distinct byte codes `GetOption`
returns the option of the buffer that has the code asked for. -/
theorem GetOption_distinct (tlvs : List (Nat × List Nat)) (p : DHCPPacket) (name : Nat)
    (hp : p.options.data = tlvBytes tlvs) (hnd : (tlvs.map Prod.fst).Nodup)
    (hb : ∀ t ∈ tlvs, t.1 < 256) (hname : name < 256) :
    GetOption p name = .ok ((tlvs.find? (fun t => t.1 == name)).map tlvOption) := by
  unfold GetOption
  rw [GetOptions_distinct tlvs p hp hnd]
  simp only
  rw [find_tlvOption name hname tlvs hb]

/-- Where `GetMessageType` is right: on a buffer of whole options with pairwise
distinct byte codes it returns the first payload octet of option 53, `UNKNOWN`
when there is no option 53, and it panics when option 53 has an empty
payload. -/
theorem GetMessageType_distinct (tlvs : List (Nat × List Nat)) (p : DHCPPacket)
    (hp : p.options.data = tlvBytes tlvs) (hnd : (tlvs.map Prod.fst).Nodup)
    (hb : ∀ t ∈ tlvs, t.1 < 256) :
    GetMessageType p =
      match tlvs.find? (fun t => t.1 == 53) with
      | none => .ok UNKNOWN
      | some (_, []) => .panic
      | some (_, b :: _) => .ok b := by
  unfold GetMessageType
  rw [GetOption_distinct tlvs p DHCP_MESSAGE_TYPE hp hnd hb (by decide)]
  simp only [DHCP_MESSAGE_TYPE]
  cases h : tlvs.find? (fun t => t.1 == 53) with
  | none => rfl
  | some t =>
    obtain ⟨c, pl⟩ := t
    cases pl with
    | nil => simp [tlvOption]
    | cons b rest => simp [tlvOption]

/-! ## Adding an option -/

/-- C8. `AddOption` then `GetOptions`: when the option buffer of the packet is
a sequence of whole options that does not contain the code `c`, and `o` is the
option with code `c`, a length octet equal to the length of its payload and
the `ID` of `c`, then `GetOptions` after `AddOption o` succeeds and lists an
option equal to `o` in `Data` and `ID`; in particular a packet without option
53 to which `NewMessageTypeOpt m` is added lists `NewMessageTypeOpt m`. -/
theorem AddOption_GetOptions (growslice : Nat → Nat → Nat) (p : DHCPPacket)
    (tlvs : List (Nat × List Nat)) (c : Nat) (payload : List Nat) (o : DHCPOption)
    (hp : p.options.data = tlvBytes tlvs) (hc : c ∉ tlvs.map Prod.fst)
    (hData : o.Data = c :: payload.length :: payload) (hID : o.ID = TypeToString c) :
    (∃ opts : List DHCPOption, GetOptions (AddOption growslice p o) = .ok opts ∧ o ∈ opts) ∧
    (53 ∉ tlvs.map Prod.fst → ∀ m : Nat, ∃ opts : List DHCPOption,
      GetOptions (AddOption growslice p (NewMessageTypeOpt m)) = .ok opts ∧
      NewMessageTypeOpt m ∈ opts) :=
  ⟨GetOptions_AddOption_mem growslice p tlvs c payload o hp hc hData hID,
   fun h53 m =>
     GetOptions_AddOption_mem growslice p tlvs 53 [m % 256] (NewMessageTypeOpt m) hp h53 rfl rfl⟩

theorem AddOption_GetOptions_witness :
    emptyPacket.options.data = tlvBytes [] ∧ 53 ∉ ([] : List (Nat × List Nat)).map Prod.fst ∧
    (NewMessageTypeOpt DHCPDISCOVER).Data = 53 :: [1].length :: [1] ∧
    (NewMessageTypeOpt DHCPDISCOVER).ID = TypeToString 53 ∧
    ∃ opts : List DHCPOption,
      GetOptions (AddOption doubling emptyPacket (NewMessageTypeOpt DHCPDISCOVER)) = .ok opts ∧
      NewMessageTypeOpt DHCPDISCOVER ∈ opts :=
  ⟨rfl, by decide, rfl, rfl,
   (AddOption_GetOptions doubling emptyPacket [] 53 [1] (NewMessageTypeOpt DHCPDISCOVER)
     rfl (by decide) rfl rfl).1⟩

/-! ## Padding behind the END tag -/

theorem fixedHeader_eq (p : DHCPPacket) (h : p.WF) :
    fixedHeader p =
      [p.Op, p.Htype, p.Hlen, p.Hops,
        p.Xid / 2 ^ 24 % 256, p.Xid / 2 ^ 16 % 256, p.Xid / 2 ^ 8 % 256, p.Xid % 256,
        p.Secs / 2 ^ 8 % 256, p.Secs % 256, p.Flags / 2 ^ 8 % 256, p.Flags % 256]
        ++ p.Ciaddr ++ p.Yiaddr ++ p.Siaddr ++ p.Giaddr ++ p.Chaddr ++ p.Sname ++ p.File := by
  obtain ⟨h1, h2⟩ := Encode_sections p h
  unfold fixedHeader
  rw [h1, List.append_assoc, List.append_assoc]
  exact List.take_left' h2

theorem paddedDatagram_two (p : DHCPPacket) (h : p.WF) : paddedDatagram p 2 = Encode p := by
  obtain ⟨h1, _⟩ := Encode_sections p h
  unfold paddedDatagram
  rw [fixedHeader_eq p h, h1]
  simp

/-- C6 (divergence). For the ACK with the option bytes 53,1,5: with three
zero octets behind the END tag `Decode` succeeds and the option walk panics;
with four the END tag is listed as an option; with none the walk panics as
well. For a packet without options and no padding `Decode` fails. -/
theorem Decode_padding_not_tolerated :
    ackPacket.options.data = tlvBytes [(53, [5])] ∧
    GetOptions ackPacket = .ok [⟨[53, 1, 5], "DHCP_MESSAGE_TYPE"⟩] ∧
    (Decode (paddedDatagram ackPacket 3) ((paddedDatagram ackPacket 3).length : Int)).2 = none ∧
    GetOptions (Decode (paddedDatagram ackPacket 3)
      ((paddedDatagram ackPacket 3).length : Int)).1 = .panic ∧
    GetOptions (Decode (paddedDatagram ackPacket 4)
      ((paddedDatagram ackPacket 4).length : Int)).1
      = .ok [⟨[53, 1, 5], "DHCP_MESSAGE_TYPE"⟩, ⟨[255, 0], "UNKNOWN 255"⟩] ∧
    GetOptions (Decode (paddedDatagram ackPacket 0)
      ((paddedDatagram ackPacket 0).length : Int)).1 = .panic ∧
    (Decode (paddedDatagram emptyPacket 0) ((paddedDatagram emptyPacket 0).length : Int)).2
      = some ParseError.sliceBounds := by
  set_option maxRecDepth 100000 in decide

/-- The trailer that `Encode` writes. For a packet whose option buffer is a
sequence of whole options, decoding the datagram that ends with the END tag and exactly two zero
octets (the trailer that `Encode` writes and `Decode` strips) succeeds with the
option bytes of the packet, and `GetOptions` on the result succeeds and yields
the same options as `GetOptions` on the packet itself: neither the END tag nor
the two zero octets; when the codes are pairwise distinct these are exactly
the options of the buffer. -/
theorem Decode_END_two_zero_octets (p : DHCPPacket) (tlvs : List (Nat × List Nat))
    (h : p.WF) (ho : p.options.data = tlvBytes tlvs) :
    (Decode (paddedDatagram p 2) ((paddedDatagram p 2).length : Int)).2 = none ∧
    (Decode (paddedDatagram p 2) ((paddedDatagram p 2).length : Int)).1.options.data
      = p.options.data ∧
    (∃ opts : List DHCPOption, GetOptions p = .ok opts) ∧
    GetOptions (Decode (paddedDatagram p 2) ((paddedDatagram p 2).length : Int)).1
      = GetOptions p ∧
    ((tlvs.map Prod.fst).Nodup →
      GetOptions (Decode (paddedDatagram p 2) ((paddedDatagram p 2).length : Int)).1
        = .ok (tlvs.map tlvOption)) := by
  rw [paddedDatagram_two p h]
  unfold Decode
  rw [decodeBody_Encode p h]
  obtain ⟨opts, hopts⟩ := GetOptions_tlvs tlvs
  refine ⟨rfl, rfl, ⟨opts, hopts p ho⟩, ?_, ?_⟩
  · rw [hopts p ho]
    exact hopts _ ho
  · intro hnd
    exact GetOptions_distinct tlvs _ ho hnd

theorem Decode_END_two_zero_octets_witness :
    samplePacket.WF ∧ samplePacket.options.data = tlvBytes [(53, [1])] ∧
    (Decode (paddedDatagram samplePacket 2) ((paddedDatagram samplePacket 2).length : Int)).2
      = none ∧
    GetOptions (Decode (paddedDatagram samplePacket 2)
      ((paddedDatagram samplePacket 2).length : Int)).1 = GetOptions samplePacket :=
  have h := Decode_END_two_zero_octets samplePacket [(53, [1])] samplePacket_WF rfl
  ⟨samplePacket_WF, rfl, h.1, h.2.2.2.1⟩

/-! ## REQUEST for an offer -/

/-- C10. REQUEST for an offer: when the offer carries a server identifier, that
is `GetOption` finds the option `sid` under `SERVER_IDENTIFIER`,
`RequestForOffer` returns a packet and a transaction id equal to the xid of the
packet and of the offer; the packet has `Op = REQUEST`, `Secs = 0`, `Ciaddr`
0.0.0.0 and the broadcast flag set, and its option bytes are the requested-ip
option 50, 4, `offer.Yiaddr`, then the message type 53, 1, 3, then the bytes of
`sid`. -/
theorem RequestForOffer_packet (growslice : Nat → Nat → Nat) (config : DHCPConfig)
    (hardwareAddr : List Nat) (offer : DHCPPacket) (sid : DHCPOption)
    (hsid : GetOption offer SERVER_IDENTIFIER = .ok (some sid)) :
    ∃ (packet : DHCPPacket) (tx : Nat),
      RequestForOffer growslice config hardwareAddr offer = .ok (packet, tx) ∧
      tx = offer.Xid ∧ packet.Xid = offer.Xid ∧ packet.Op = REQUEST ∧ packet.Secs = 0 ∧
      packet.Ciaddr = [0, 0, 0, 0] ∧ BroadcastFlag packet = true ∧
      sid.ID = "SERVER_IDENTIFIER" ∧
      packet.options.data = [50, 4] ++ offer.Yiaddr ++ [53, 1, 3] ++ sid.Data := by
  have hid : sid.ID = "SERVER_IDENTIFIER" := by
    unfold GetOption at hsid
    split at hsid
    · simp only [Run.ok.injEq] at hsid
      have := List.find?_some hsid
      simpa using this
    · cases hsid
    · cases hsid
  unfold RequestForOffer
  simp only [hsid]
  refine ⟨_, _, rfl, rfl, ?_, ?_, ?_, ?_, ?_, hid, ?_⟩
  · simp [AddOption, MarkBroadcastFlag]
  · simp [AddOption, MarkBroadcastFlag]
  · simp [AddOption, MarkBroadcastFlag]
  · simp [AddOption, MarkBroadcastFlag]; rfl
  · simp only [AddOption, BroadcastFlag, MarkBroadcastFlag]; decide
  · simp only [AddOption_data]
    simp [AddOption, MarkBroadcastFlag, DHCPPacket.zero, ByteSlice.empty, NewRequestIpAddrOpt,
      NewMessageTypeOpt, DHCPREQUEST]

set_option maxRecDepth 100000 in
theorem RequestForOffer_packet_witness :
    GetOption offerPacket SERVER_IDENTIFIER
      = .ok (some ⟨[54, 4, 127, 0, 0, 1], "SERVER_IDENTIFIER"⟩) ∧
    ∃ (packet : DHCPPacket) (tx : Nat),
      RequestForOffer doubling defaultConfig [0, 10, 149, 157, 104, 22] offerPacket
        = .ok (packet, tx) ∧
      tx = 77 ∧ packet.Xid = 77 ∧ packet.Op = REQUEST ∧ packet.Secs = 0 ∧
      packet.Ciaddr = [0, 0, 0, 0] ∧ BroadcastFlag packet = true ∧
      packet.options.data = [50, 4, 127, 0, 0, 2, 53, 1, 3, 54, 4, 127, 0, 0, 1] :=
  have h := RequestForOffer_packet doubling defaultConfig [0, 10, 149, 157, 104, 22] offerPacket
    ⟨[54, 4, 127, 0, 0, 1], "SERVER_IDENTIFIER"⟩ (by decide)
  ⟨by decide, by
    obtain ⟨packet, tx, h1, h2, h3, h4, h5, h6, h7, _, h9⟩ := h
    exact ⟨packet, tx, h1, h2, h3, h4, h5, h6, h7, h9⟩⟩

/-! ## Option lookups on a buffer without repeated codes -/

theorem withBuffer_self (p : DHCPPacket) :
    withBuffer p (p.options.data ++ p.options.spare) = p := by
  unfold withBuffer
  rw [List.take_left' rfl, List.drop_left' rfl]

/-- On a buffer of whole options with pairwise distinct codes the walk leaves
the backing array as it was. -/
theorem GetOptionsRun_distinct (tlvs : List (Nat × List Nat)) (p : DHCPPacket)
    (hp : p.options.data = tlvBytes tlvs) (hnd : (tlvs.map Prod.fst).Nodup) :
    GetOptionsRun p = .ok (p.options.data ++ p.options.spare, tlvEntries 0 tlvs) := by
  have hf : tlvs.length + ((tlvBytes tlvs).length - tlvs.length) = (tlvBytes tlvs).length := by
    have := length_le_tlvBytes tlvs; omega
  have hw := optionWalk_distinct (tlvBytes tlvs).length p.options.spare (tlvBytes tlvs) rfl
    tlvs 0 [] ((tlvBytes tlvs).length - tlvs.length) (by simp) hnd (by simp)
  rw [hf] at hw
  unfold GetOptionsRun
  rw [hp, hw]
  simp

theorem find_mem_distinct (tlvs : List (Nat × List Nat)) (c : Nat) (pl : List Nat)
    (hnd : (tlvs.map Prod.fst).Nodup) (hm : (c, pl) ∈ tlvs) :
    tlvs.find? (fun t => t.1 == c) = some (c, pl) := by
  induction tlvs with
  | nil => cases hm
  | cons t ts ih =>
    have hnd2 := List.nodup_cons.mp hnd
    rcases List.mem_cons.mp hm with h | h
    · subst h; simp
    · have hne : t.1 ≠ c := by
        intro he
        apply hnd2.1
        rw [he]
        exact List.mem_map.mpr ⟨(c, pl), h, rfl⟩
      have hf : (t.1 == c) = false := by simp [hne]
      simp only [List.find?_cons, hf]
      exact ih hnd2.2 h

theorem find_none_of_not_mem (tlvs : List (Nat × List Nat)) (c : Nat)
    (h : c ∉ tlvs.map Prod.fst) : tlvs.find? (fun t => t.1 == c) = none := by
  rw [List.find?_eq_none]
  intro t ht he
  apply h
  simp only [beq_iff_eq] at he
  rw [← he]
  exact List.mem_map.mpr ⟨t, ht, rfl⟩

/-- On a buffer of whole options with pairwise distinct byte codes `GetOption`
leaves the packet as it was and finds the slice that holds the option of the
buffer with the code asked for. -/
theorem GetOptionRef_distinct (tlvs : List (Nat × List Nat)) (p : DHCPPacket) (name : Nat)
    (hp : p.options.data = tlvBytes tlvs) (hnd : (tlvs.map Prod.fst).Nodup)
    (hb : ∀ t ∈ tlvs, t.1 < 256) (hname : name < 256) :
    ∃ found : Option Entry, GetOptionRef p name = .ok (found, p) ∧
      found.map (refOption p) = (tlvs.find? (fun t => t.1 == name)).map tlvOption := by
  refine ⟨(tlvEntries 0 tlvs).find? (fun e => TypeToString e.key == TypeToString name), ?_, ?_⟩
  · unfold GetOptionRef
    rw [GetOptionsRun_distinct tlvs p hp hnd]
    simp only [withBuffer_self]
  · have h1 := map_entryOption_tlvEntries (p.options.data ++ p.options.spare) p.options.spare
      tlvs 0 (by simp [hp])
    have h2 := find_tlvOption name hname tlvs hb
    rw [← h1, List.find?_map] at h2
    exact h2

theorem wrapInt64_of_range (x : Int) (h0 : 0 ≤ x) (h1 : x < 2 ^ 63) : wrapInt64 x = x := by
  unfold wrapInt64
  omega

/-- The big-endian value of the first four bytes of a payload. -/
theorem bigEndian_bytes (a b c d : Nat) (ha : a < 256) (hb : b < 256) (hc : c < 256)
    (hd : d < 256) :
    d ||| (c <<< 8) ||| (b <<< 16) ||| (a <<< 24) = a * 2 ^ 24 + b * 2 ^ 16 + c * 2 ^ 8 + d := by
  have hx : a * 2 ^ 24 + b * 2 ^ 16 + c * 2 ^ 8 + d < 2 ^ 32 := by omega
  have h := bigEndian32 _ hx
  simp only [Nat.shiftRight_eq_div_pow] at h
  have e0 : (a * 2 ^ 24 + b * 2 ^ 16 + c * 2 ^ 8 + d) % 256 = d := by omega
  have e1 : (a * 2 ^ 24 + b * 2 ^ 16 + c * 2 ^ 8 + d) / 2 ^ 8 % 256 = c := by omega
  have e2 : (a * 2 ^ 24 + b * 2 ^ 16 + c * 2 ^ 8 + d) / 2 ^ 16 % 256 = b := by omega
  have e3 : (a * 2 ^ 24 + b * 2 ^ 16 + c * 2 ^ 8 + d) / 2 ^ 24 % 256 = a := by omega
  rw [e0, e1, e2, e3] at h
  exact h

theorem GetDataAsSecDuration_tlvOption (c : Nat) (pl : List Nat) (h : 4 ≤ pl.length) :
    GetDataAsSecDuration (tlvOption (c, pl)) = .ok (secondsOf pl) := by
  simp [GetDataAsSecDuration, GetRawOptionValue, bigEndianUint32, tlvOption, h, secondsOf,
    bigEndianValue]

theorem GetDataAsIP4_tlvOption (c : Nat) (pl : List Nat) :
    GetDataAsIP4 (tlvOption (c, pl)) = .ok pl := by
  simp [GetDataAsIP4, GetRawOptionValue, tlvOption]

theorem find_some_mem (tlvs : List (Nat × List Nat)) (name : Nat) (t : Nat × List Nat)
    (h : tlvs.find? (fun t => t.1 == name) = some t) : (name, t.2) ∈ tlvs := by
  have h1 := List.mem_of_find?_eq_some h
  have h2 := List.find?_some h
  simp only [beq_iff_eq] at h2
  rw [← h2]
  exact h1

theorem timerValue_distinct (tlvs : List (Nat × List Nat)) (ack : DHCPPacket) (name : Nat)
    (found : Option Entry) (default : Int)
    (hf : found.map (refOption ack) = (tlvs.find? (fun t => t.1 == name)).map tlvOption)
    (hl : ∀ pl, (name, pl) ∈ tlvs → 4 ≤ pl.length) :
    timerValue ack found default = .ok (timerOf tlvs name default) := by
  unfold timerValue timerOf
  cases h : tlvs.find? (fun t => t.1 == name) with
  | none =>
    rw [h] at hf
    cases found with
    | none => rfl
    | some e => simp at hf
  | some t =>
    rw [h] at hf
    cases found with
    | none => simp at hf
    | some e =>
      simp only [Option.map_some', Option.some.injEq] at hf
      simp only [hf]
      exact GetDataAsSecDuration_tlvOption t.1 t.2 (hl t.2 (find_some_mem tlvs name t h))

/-- `FinalizeOffer` on an ACK that passes the probe and whose option buffer
is a sequence of whole options with pairwise distinct byte codes, among them a
server identifier and a lease time of at least four bytes, and in which T1 and
T2, when present, have at least four bytes. -/
theorem FinalizeOffer_distinct (env : Env) (declineTx : Nat) (sendFails : Bool)
    (p : ProcessingEngine) (w : World) (ack : DHCPPacket) (requestTime : Int)
    (tlvs : List (Nat × List Nat)) (sid lt : List Nat)
    (huniq : env.IsUniqueIp ack.Yiaddr p.Config = true)
    (hp : ack.options.data = tlvBytes tlvs) (hnd : (tlvs.map Prod.fst).Nodup)
    (hb : ∀ t ∈ tlvs, t.1 < 256)
    (h54 : (54, sid) ∈ tlvs) (h51 : (51, lt) ∈ tlvs) (hlt : 4 ≤ lt.length)
    (h58 : ∀ pl, (58, pl) ∈ tlvs → 4 ≤ pl.length)
    (h59 : ∀ pl, (59, pl) ∈ tlvs → 4 ≤ pl.length) :
    FinalizeOffer env declineTx sendFails p w ack requestTime = .ok
      { err := none,
        engine := { p with Lease := { p.Lease with
          ServerIdentifier := sid, IpAddr := ack.Yiaddr, LeaseDuration := secondsOf lt,
          LeaseInitTime := requestTime,
          T1 := timerOf tlvs 58 (Int.tdiv (secondsOf lt) 2),
          T2 := timerOf tlvs 59 (mulFloat0875 (secondsOf lt)) } },
        world := w, ack := ack } := by
  obtain ⟨f54, g54, k54⟩ := GetOptionRef_distinct tlvs ack 54 hp hnd hb (by decide)
  obtain ⟨f51, g51, k51⟩ := GetOptionRef_distinct tlvs ack 51 hp hnd hb (by decide)
  obtain ⟨f58, g58, k58⟩ := GetOptionRef_distinct tlvs ack 58 hp hnd hb (by decide)
  obtain ⟨f59, g59, k59⟩ := GetOptionRef_distinct tlvs ack 59 hp hnd hb (by decide)
  rw [find_mem_distinct tlvs 54 sid hnd h54] at k54
  rw [find_mem_distinct tlvs 51 lt hnd h51] at k51
  cases f54 with
  | none => simp at k54
  | some e54 =>
    cases f51 with
    | none => simp at k51
    | some e51 =>
      simp only [Option.map_some', Option.some.injEq] at k54 k51
      have t1 := timerValue_distinct tlvs ack 58 f58 (Int.tdiv (secondsOf lt) 2) k58 h58
      have t2 := timerValue_distinct tlvs ack 59 f59 (mulFloat0875 (secondsOf lt)) k59 h59
      unfold FinalizeOffer
      simp only [huniq, SERVER_IDENTIFIER, IP_ADDR_LEASE_TIME, RENEWAL_TIME_VALUE,
        REBINDING_TIME_VALUE, g54, g51, g58, g59, bind, Run.bind, k54, k51, t1, t2,
        GetDataAsSecDuration_tlvOption 51 lt hlt, GetDataAsIP4_tlvOption, pure]
      rfl

/-! ## The packet factory -/

theorem BroadcastFlag_AddOption (growslice : Nat → Nat → Nat) (p : DHCPPacket) (o : DHCPOption) :
    BroadcastFlag (AddOption growslice p o) = BroadcastFlag p := rfl

theorem BroadcastFlag_Mark (p : DHCPPacket) : BroadcastFlag (MarkBroadcastFlag p) = true := by
  show ((1 <<< 15 &&& (1 <<< 15) % 2 ^ 16) != 0) = true
  decide

theorem BroadcastFlag_of_Flags_zero (p : DHCPPacket) (h : p.Flags = 0) :
    BroadcastFlag p = false := by
  unfold BroadcastFlag
  rw [h]
  decide

theorem IP2Array_of_length (ip : List Nat) (h : ip.length = 4) : IP2Array ip = ip := by
  unfold IP2Array
  exact List.take_left' h

/-- C11. The broadcast-flag policy of the factory: the packets built by
`Discover`, `RequestForOffer` (which builds one whenever the offer carries a
server identifier) and `RequestForReboot` have the broadcast flag set; those
built by `RequestForRenew`, `RequestForRebind` and `Decline` have it clear. -/
theorem factory_broadcast_flag (growslice : Nat → Nat → Nat) (config : DHCPConfig)
    (hardwareAddr : List Nat) (tx : Nat) (lease : DHCPLease) (offer ack : DHCPPacket) :
    BroadcastFlag (Discover growslice config hardwareAddr tx).1 = true ∧
    (∀ sid, GetOption offer SERVER_IDENTIFIER = .ok (some sid) →
      ∃ packet t, RequestForOffer growslice config hardwareAddr offer = .ok (packet, t) ∧
        BroadcastFlag packet = true) ∧
    (∀ packet t, RequestForOffer growslice config hardwareAddr offer = .ok (packet, t) →
      BroadcastFlag packet = true) ∧
    BroadcastFlag (RequestForReboot growslice config hardwareAddr tx lease).1 = true ∧
    BroadcastFlag (RequestForRenew growslice config hardwareAddr tx lease).1 = false ∧
    BroadcastFlag (RequestForRebind growslice config hardwareAddr tx lease).1 = false ∧
    BroadcastFlag (Decline growslice hardwareAddr tx ack).1 = false := by
  have hoffer : ∀ packet t, RequestForOffer growslice config hardwareAddr offer = .ok (packet, t) →
      BroadcastFlag packet = true := by
    intro packet t h
    unfold RequestForOffer at h
    dsimp only at h
    split at h
    · simp only [Run.ok.injEq, Prod.mk.injEq] at h
      rw [← h.1]
      simp only [BroadcastFlag_AddOption, BroadcastFlag_Mark]
    · cases h
    · cases h
    · cases h
  refine ⟨?_, ?_, hoffer, ?_, ?_, ?_, ?_⟩
  · simp only [Discover, BroadcastFlag_AddOption, BroadcastFlag_Mark]
  · intro sid hsid
    have hok : ∃ r, RequestForOffer growslice config hardwareAddr offer = .ok r := by
      unfold RequestForOffer
      simp only [hsid]
      exact ⟨_, rfl⟩
    obtain ⟨⟨packet, t⟩, hr⟩ := hok
    exact ⟨packet, t, hr, hoffer packet t hr⟩
  · simp only [RequestForReboot, BroadcastFlag_AddOption, BroadcastFlag_Mark]
  · simp only [RequestForRenew, BroadcastFlag_AddOption]
    exact BroadcastFlag_of_Flags_zero _ rfl
  · simp only [RequestForRebind, RequestForRenew, BroadcastFlag_AddOption]
    exact BroadcastFlag_of_Flags_zero _ rfl
  · simp only [Decline, BroadcastFlag_AddOption]
    exact BroadcastFlag_of_Flags_zero _ rfl

set_option maxRecDepth 100000 in
theorem factory_broadcast_flag_witness :
    GetOption offerPacket SERVER_IDENTIFIER
      = .ok (some ⟨[54, 4, 127, 0, 0, 1], "SERVER_IDENTIFIER"⟩) ∧
    BroadcastFlag (Discover doubling defaultConfig [0, 10, 149, 157, 104, 22] 9).1 = true ∧
    (∃ packet t, RequestForOffer doubling defaultConfig [0, 10, 149, 157, 104, 22] offerPacket
        = .ok (packet, t) ∧ BroadcastFlag packet = true) ∧
    BroadcastFlag (RequestForRenew doubling defaultConfig [0, 10, 149, 157, 104, 22] 9
      sampleLease).1 = false :=
  have h := factory_broadcast_flag doubling defaultConfig [0, 10, 149, 157, 104, 22] 9
    sampleLease offerPacket goodAck
  ⟨by decide, h.1, h.2.1 ⟨[54, 4, 127, 0, 0, 1], "SERVER_IDENTIFIER"⟩ (by decide), h.2.2.2.2.1⟩

/-- C12. REQUEST for renew and rebind: for a lease whose address has four
bytes, `RequestForRenew` builds a packet with `Op = REQUEST`, `Secs = 0`,
`Ciaddr` the address of the lease, the broadcast flag clear and the option
bytes 53, 1, 3; `RequestForRebind` builds the same packet, equal in every
field but the xid drawn. -/
theorem RequestForRenew_packet (growslice : Nat → Nat → Nat) (config : DHCPConfig)
    (hardwareAddr : List Nat) (tx tx2 : Nat) (lease : DHCPLease)
    (h : lease.IpAddr.length = 4) :
    (RequestForRenew growslice config hardwareAddr tx lease).2 = tx ∧
    (RequestForRenew growslice config hardwareAddr tx lease).1.Xid = tx ∧
    (RequestForRenew growslice config hardwareAddr tx lease).1.Op = REQUEST ∧
    (RequestForRenew growslice config hardwareAddr tx lease).1.Secs = 0 ∧
    (RequestForRenew growslice config hardwareAddr tx lease).1.Ciaddr = lease.IpAddr ∧
    BroadcastFlag (RequestForRenew growslice config hardwareAddr tx lease).1 = false ∧
    (RequestForRenew growslice config hardwareAddr tx lease).1.options.data = [53, 1, 3] ∧
    RequestForRebind growslice config hardwareAddr tx lease
      = RequestForRenew growslice config hardwareAddr tx lease ∧
    (RequestForRebind growslice config hardwareAddr tx2 lease).1
      = { (RequestForRenew growslice config hardwareAddr tx lease).1 with Xid := tx2 } := by
  refine ⟨rfl, rfl, rfl, rfl, ?_, ?_, ?_, rfl, rfl⟩
  · show IP2Array lease.IpAddr = lease.IpAddr
    exact IP2Array_of_length _ h
  · simp only [RequestForRenew, BroadcastFlag_AddOption]
    exact BroadcastFlag_of_Flags_zero _ rfl
  · show (AddOption growslice _ (NewMessageTypeOpt DHCPREQUEST)).options.data = [53, 1, 3]
    rw [AddOption_data]
    rfl

theorem RequestForRenew_packet_witness :
    sampleLease.IpAddr.length = 4 ∧
    (RequestForRenew doubling defaultConfig [0, 10, 149, 157, 104, 22] 9 sampleLease).1.Ciaddr
      = [169, 254, 7, 9] ∧
    (RequestForRenew doubling defaultConfig [0, 10, 149, 157, 104, 22] 9
      sampleLease).1.options.data = [53, 1, 3] :=
  have h := RequestForRenew_packet doubling defaultConfig [0, 10, 149, 157, 104, 22] 9 10
    sampleLease rfl
  ⟨rfl, h.2.2.2.2.1, h.2.2.2.2.2.2.1⟩

/-! ## `FinalizeOffer` -/

theorem secondsOf_bytes (a b c d : Nat) (ha : a < 256) (hb : b < 256) (hc : c < 256)
    (hd : d < 256) :
    secondsOf [a, b, c, d] = ((a * 2 ^ 24 + b * 2 ^ 16 + c * 2 ^ 8 + d : Nat) : Int) * 10 ^ 9 ∧
    0 ≤ secondsOf [a, b, c, d] ∧ secondsOf [a, b, c, d] < 2 ^ 63 := by
  have hv : bigEndianValue [a, b, c, d] = a * 2 ^ 24 + b * 2 ^ 16 + c * 2 ^ 8 + d := by
    unfold bigEndianValue
    simp only [List.getD_cons_succ, List.getD_cons_zero]
    exact bigEndian_bytes a b c d ha hb hc hd
  have hx : a * 2 ^ 24 + b * 2 ^ 16 + c * 2 ^ 8 + d < 2 ^ 32 := by omega
  have h0 : (0 : Int) ≤ ((a * 2 ^ 24 + b * 2 ^ 16 + c * 2 ^ 8 + d : Nat) : Int) * 10 ^ 9 :=
    Int.mul_nonneg (Int.ofNat_nonneg _) (by norm_num)
  have h1 : ((a * 2 ^ 24 + b * 2 ^ 16 + c * 2 ^ 8 + d : Nat) : Int) * 10 ^ 9 < 2 ^ 63 := by
    have : ((a * 2 ^ 24 + b * 2 ^ 16 + c * 2 ^ 8 + d : Nat) : Int) < 2 ^ 32 := by
      exact_mod_cast hx
    omega
  have e : secondsOf [a, b, c, d]
      = ((a * 2 ^ 24 + b * 2 ^ 16 + c * 2 ^ 8 + d : Nat) : Int) * 10 ^ 9 := by
    unfold secondsOf Second
    rw [hv]
    exact wrapInt64_of_range _ h0 h1
  rw [e]
  exact ⟨rfl, h0, h1⟩

/-- C13 (as the code has it). `FinalizeOffer` on a good ACK: when the address
offered passes the probe and the ACK carries a server identifier `s0.s1.s2.s3` and a lease time
with the four bytes `a, b, c, d` (its option buffer being a sequence of whole
options with pairwise distinct codes in which T1 and T2, if present, have four
bytes or more), then for every `requestTime` the call returns no error and
leaves `ServerIdentifier` the payload of option 54, `IpAddr` the `Yiaddr` of
the ACK, `LeaseDuration` the big-endian value of option 51 in seconds, without
overflow, and `LeaseInitTime = requestTime`; `State` is not changed. -/
theorem FinalizeOffer_good_ack (env : Env) (declineTx : Nat) (sendFails : Bool)
    (p : ProcessingEngine) (w : World) (ack : DHCPPacket) (requestTime : Int)
    (tlvs : List (Nat × List Nat)) (s0 s1 s2 s3 a b c d : Nat)
    (huniq : env.IsUniqueIp ack.Yiaddr p.Config = true)
    (hp : ack.options.data = tlvBytes tlvs) (hnd : (tlvs.map Prod.fst).Nodup)
    (hb : ∀ t ∈ tlvs, t.1 < 256)
    (h54 : (54, [s0, s1, s2, s3]) ∈ tlvs) (h51 : (51, [a, b, c, d]) ∈ tlvs)
    (ha : a < 256) (hb2 : b < 256) (hc : c < 256) (hd : d < 256)
    (h58 : ∀ pl, (58, pl) ∈ tlvs → 4 ≤ pl.length)
    (h59 : ∀ pl, (59, pl) ∈ tlvs → 4 ≤ pl.length) :
    ∃ r : Finalized,
      FinalizeOffer env declineTx sendFails p w ack requestTime = .ok r ∧
      r.err = none ∧
      r.engine.Lease.ServerIdentifier = [s0, s1, s2, s3] ∧
      r.engine.Lease.IpAddr = ack.Yiaddr ∧
      r.engine.Lease.LeaseDuration
        = ((a * 2 ^ 24 + b * 2 ^ 16 + c * 2 ^ 8 + d : Nat) : Int) * 10 ^ 9 ∧
      0 ≤ r.engine.Lease.LeaseDuration ∧ r.engine.Lease.LeaseDuration < 2 ^ 63 ∧
      r.engine.Lease.LeaseInitTime = requestTime ∧
      r.engine.Lease.State = p.Lease.State := by
  have h := FinalizeOffer_distinct env declineTx sendFails p w ack requestTime tlvs
    [s0, s1, s2, s3] [a, b, c, d] huniq hp hnd hb h54 h51 (by simp) h58 h59
  obtain ⟨e1, e2, e3⟩ := secondsOf_bytes a b c d ha hb2 hc hd
  exact ⟨_, h, rfl, rfl, rfl, e1, e2, e3, rfl, rfl⟩

set_option maxRecDepth 100000 in
theorem FinalizeOffer_good_ack_witness :
    sampleEnv.IsUniqueIp goodAck.Yiaddr sampleEngine.Config = true ∧
    goodAck.options.data = tlvBytes goodAckOptions ∧
    (goodAckOptions.map Prod.fst).Nodup ∧ (∀ t ∈ goodAckOptions, t.1 < 256) ∧
    (54, [127, 0, 0, 1]) ∈ goodAckOptions ∧ (51, [0, 0, 0, 200]) ∈ goodAckOptions ∧
    ∃ r : Finalized,
      FinalizeOffer sampleEnv 5 false sampleEngine sampleWorld goodAck 1000 = .ok r ∧
      r.err = none ∧ r.engine.Lease.ServerIdentifier = [127, 0, 0, 1] ∧
      r.engine.Lease.IpAddr = [127, 0, 0, 2] ∧
      r.engine.Lease.LeaseDuration = 200 * 10 ^ 9 ∧
      r.engine.Lease.LeaseInitTime = 1000 ∧ r.engine.Lease.State = REQUESTING :=
  have h := FinalizeOffer_good_ack sampleEnv 5 false sampleEngine sampleWorld goodAck 1000
    goodAckOptions 127 0 0 1 0 0 0 200 rfl rfl (by decide) (by decide) (by decide) (by decide)
    (by decide) (by decide) (by decide) (by decide)
    (fun pl h => by simp [goodAckOptions] at h) (fun pl h => by simp [goodAckOptions] at h)
  ⟨rfl, rfl, by decide, by decide, by decide, by decide, by
    obtain ⟨r, h1, h2, h3, h4, h5, _, _, h8, h9⟩ := h
    exact ⟨r, h1, h2, h3, h4, h5, h8, h9⟩⟩

/-! ## Rounding to 53 significant bits -/

theorem excessBitsAux_le (fuel : Nat) : ∀ (j n : Nat), n < 2 ^ (53 + j) →
    excessBitsAux fuel n ≤ j := by
  induction fuel with
  | zero => intro j n _; simp [excessBitsAux]
  | succ fuel ih =>
    intro j n hn
    unfold excessBitsAux
    split
    · exact Nat.zero_le _
    · rename_i hge
      cases j with
      | zero => exact absurd hn hge
      | succ j =>
        have h2 : n / 2 < 2 ^ (53 + j) := by
          have e : 2 ^ (53 + (j + 1)) = 2 * 2 ^ (53 + j) := by
            rw [← Nat.add_assoc, Nat.pow_succ, Nat.mul_comm]
          rw [e] at hn
          omega
        have := ih j (n / 2) h2
        omega

theorem roundSig53_cases (n : Nat) :
    (roundSig53 n = n / 2 ^ excessBits n * 2 ^ excessBits n ∧
      2 * (n % 2 ^ excessBits n) ≤ 2 ^ excessBits n) ∨
    (roundSig53 n = (n / 2 ^ excessBits n + 1) * 2 ^ excessBits n ∧
      2 ^ excessBits n ≤ 2 * (n % 2 ^ excessBits n)) := by
  unfold roundSig53
  dsimp only
  split
  · rename_i h
    right
    refine ⟨rfl, ?_⟩
    rcases h with h | h
    · omega
    · omega
  · rename_i h
    left
    refine ⟨rfl, ?_⟩
    by_contra hc
    exact h (Or.inl (by omega))

theorem roundSig53_exact (j n : Nat) (hd : 2 ^ j ∣ n) (hn : n < 2 ^ (53 + j)) :
    roundSig53 n = n := by
  have hk : excessBits n ≤ j := excessBitsAux_le 128 j n hn
  have hdk : 2 ^ excessBits n ∣ n := Dvd.dvd.trans (Nat.pow_dvd_pow 2 hk) hd
  have hr : n % 2 ^ excessBits n = 0 := Nat.mod_eq_zero_of_dvd hdk
  have hpos : 0 < 2 ^ excessBits n := Nat.pow_pos (by decide)
  rcases roundSig53_cases n with ⟨e, _⟩ | ⟨_, h⟩
  · rw [e, Nat.div_mul_cancel hdk]
  · rw [hr] at h
    omega

theorem roundSig53_near (j n : Nat) (hn : n < 2 ^ (53 + j)) :
    2 * roundSig53 n ≤ 2 * n + 2 ^ j ∧ 2 * n ≤ 2 * roundSig53 n + 2 ^ j := by
  have hk : excessBits n ≤ j := excessBitsAux_le 128 j n hn
  have hle : 2 ^ excessBits n ≤ 2 ^ j := Nat.pow_le_pow_right (by decide) hk
  have hpos : 0 < 2 ^ excessBits n := Nat.pow_pos (by decide)
  have hlt : n % 2 ^ excessBits n < 2 ^ excessBits n := Nat.mod_lt _ hpos
  have hsplit : n / 2 ^ excessBits n * 2 ^ excessBits n + n % 2 ^ excessBits n = n := by
    rw [Nat.mul_comm]
    exact Nat.div_add_mod n _
  rcases roundSig53_cases n with ⟨e, h⟩ | ⟨e, h⟩
  · rw [e]
    omega
  · rw [e, Nat.add_mul, Nat.one_mul]
    omega

theorem roundSig53_dvd (m n : Nat) (hd : 2 ^ m ∣ n) : 2 ^ m ∣ roundSig53 n := by
  by_cases hk : excessBits n ≤ m
  · have hdk : 2 ^ excessBits n ∣ n := Dvd.dvd.trans (Nat.pow_dvd_pow 2 hk) hd
    have hr : n % 2 ^ excessBits n = 0 := Nat.mod_eq_zero_of_dvd hdk
    have hpos : 0 < 2 ^ excessBits n := Nat.pow_pos (by decide)
    rcases roundSig53_cases n with ⟨e, _⟩ | ⟨_, h⟩
    · rw [e, Nat.div_mul_cancel hdk]
      exact hd
    · rw [hr] at h
      omega
  · have hmk : 2 ^ m ∣ 2 ^ excessBits n := Nat.pow_dvd_pow 2 (by omega)
    rcases roundSig53_cases n with ⟨e, _⟩ | ⟨e, _⟩
    · rw [e]
      exact Dvd.dvd.mul_left hmk _
    · rw [e]
      exact Dvd.dvd.mul_left hmk _

/-- The default T2 of a lease of `v` whole seconds: eight times the result is
seven times the lease within `2 ^ 11` nanoseconds, and exactly so up to
658 812 288 seconds. -/
theorem mulFloat0875Nat_seconds (v : Nat) (hv : v < 2 ^ 32) :
    8 * mulFloat0875Nat (v * 10 ^ 9) ≤ 7 * (v * 10 ^ 9) + 2 ^ 11 ∧
    7 * (v * 10 ^ 9) ≤ 8 * mulFloat0875Nat (v * 10 ^ 9) + 2 ^ 11 ∧
    (v ≤ 658812288 → 8 * mulFloat0875Nat (v * 10 ^ 9) = 7 * (v * 10 ^ 9)) := by
  have hd9 : 2 ^ 9 ∣ v * 10 ^ 9 := Dvd.dvd.mul_left (by norm_num) v
  have e1 : roundSig53 (v * 10 ^ 9) = v * 10 ^ 9 :=
    roundSig53_exact 9 _ hd9 (by norm_num at hv ⊢; omega)
  have hd9x : 2 ^ 9 ∣ 7 * (v * 10 ^ 9) := Dvd.dvd.mul_left hd9 7
  have hd8 : 8 ∣ roundSig53 (7 * (v * 10 ^ 9)) :=
    Dvd.dvd.trans (by norm_num) (roundSig53_dvd 9 _ hd9x)
  have e8 : 8 * mulFloat0875Nat (v * 10 ^ 9) = roundSig53 (7 * (v * 10 ^ 9)) := by
    unfold mulFloat0875Nat
    rw [e1]
    exact Nat.mul_div_cancel' hd8
  have hnear := roundSig53_near 12 (7 * (v * 10 ^ 9)) (by norm_num at hv ⊢; omega)
  rw [e8]
  refine ⟨?_, ?_, ?_⟩
  · have := hnear.1
    norm_num at this ⊢
    omega
  · have := hnear.2
    norm_num at this ⊢
    omega
  · intro hs
    exact roundSig53_exact 9 _ hd9x (by norm_num; omega)

theorem getD_byte (pl : List Nat) (h : ∀ x ∈ pl, x < 256) : ∀ i, pl.getD i 0 < 256 := by
  induction pl with
  | nil => intro i; simp
  | cons x xs ih =>
    intro i
    cases i with
    | zero => simpa using h x (List.mem_cons_self _ _)
    | succ i =>
      simpa using ih (fun y hy => h y (List.mem_cons_of_mem _ hy)) i

theorem secondsOf_eq (pl : List Nat) (h : ∀ x ∈ pl, x < 256) :
    secondsOf pl = (bigEndianValue pl : Int) * 10 ^ 9 ∧ bigEndianValue pl < 2 ^ 32 := by
  have hv : bigEndianValue pl
      = pl.getD 0 0 * 2 ^ 24 + pl.getD 1 0 * 2 ^ 16 + pl.getD 2 0 * 2 ^ 8 + pl.getD 3 0 :=
    bigEndian_bytes _ _ _ _ (getD_byte pl h 0) (getD_byte pl h 1) (getD_byte pl h 2)
      (getD_byte pl h 3)
  have hx : bigEndianValue pl < 2 ^ 32 := by
    have h0 := getD_byte pl h 0
    have h1 := getD_byte pl h 1
    have h2 := getD_byte pl h 2
    have h3 := getD_byte pl h 3
    omega
  have h0 : (0 : Int) ≤ (bigEndianValue pl : Int) * 10 ^ 9 :=
    Int.mul_nonneg (Int.ofNat_nonneg _) (by norm_num)
  have h1 : (bigEndianValue pl : Int) * 10 ^ 9 < 2 ^ 63 := by
    have : (bigEndianValue pl : Int) < 2 ^ 32 := by exact_mod_cast hx
    omega
  refine ⟨?_, hx⟩
  unfold secondsOf Second
  exact wrapInt64_of_range _ h0 h1

theorem timerOf_mem (tlvs : List (Nat × List Nat)) (name : Nat) (default : Int)
    (pl : List Nat) (hnd : (tlvs.map Prod.fst).Nodup) (h : (name, pl) ∈ tlvs) :
    timerOf tlvs name default = secondsOf pl := by
  unfold timerOf
  rw [find_mem_distinct tlvs name pl hnd h]

theorem timerOf_not_mem (tlvs : List (Nat × List Nat)) (name : Nat) (default : Int)
    (h : ∀ pl, (name, pl) ∉ tlvs) : timerOf tlvs name default = default := by
  have hn : name ∉ tlvs.map Prod.fst := by
    intro hm
    obtain ⟨t, ht, e⟩ := List.mem_map.1 hm
    exact h t.2 (by rw [← e]; exact ht)
  unfold timerOf
  rw [find_none_of_not_mem tlvs name hn]

/-- C14 (as the code has it). T1/T2 selection in `FinalizeOffer`: for an ACK
that passes the probe, whose option buffer is a sequence of whole options with
pairwise distinct codes and byte payloads, with a server identifier and a
lease time of four bytes (`v` seconds), the call succeeds with T1 the value of
option 58 in seconds when the ACK carries it and exactly `LeaseDuration / 2`
otherwise, and T2 the value of option 59 in seconds when the ACK carries it and
`Duration(float64(LeaseDuration) * 0.875)` otherwise; that default is exactly
7/8 of `LeaseDuration` for lease times up to 658 812 288 seconds and within
`2 ^ 11 / 8 = 256` nanoseconds of it for every lease time. -/
theorem FinalizeOffer_timers (env : Env) (declineTx : Nat) (sendFails : Bool)
    (p : ProcessingEngine) (w : World) (ack : DHCPPacket) (requestTime : Int)
    (tlvs : List (Nat × List Nat)) (sid lt : List Nat)
    (huniq : env.IsUniqueIp ack.Yiaddr p.Config = true)
    (hp : ack.options.data = tlvBytes tlvs) (hnd : (tlvs.map Prod.fst).Nodup)
    (hb : ∀ t ∈ tlvs, t.1 < 256) (hbytes : ∀ t ∈ tlvs, ∀ x ∈ t.2, x < 256)
    (h54 : (54, sid) ∈ tlvs) (h51 : (51, lt) ∈ tlvs) (hlt : lt.length = 4)
    (h58 : ∀ pl, (58, pl) ∈ tlvs → 4 ≤ pl.length)
    (h59 : ∀ pl, (59, pl) ∈ tlvs → 4 ≤ pl.length) :
    ∃ r : Finalized,
      FinalizeOffer env declineTx sendFails p w ack requestTime = .ok r ∧
      r.err = none ∧
      r.engine.Lease.LeaseDuration = (bigEndianValue lt : Int) * 10 ^ 9 ∧
      (∀ pl, (58, pl) ∈ tlvs → r.engine.Lease.T1 = (bigEndianValue pl : Int) * 10 ^ 9) ∧
      ((∀ pl, (58, pl) ∉ tlvs) → 2 * r.engine.Lease.T1 = r.engine.Lease.LeaseDuration) ∧
      (∀ pl, (59, pl) ∈ tlvs → r.engine.Lease.T2 = (bigEndianValue pl : Int) * 10 ^ 9) ∧
      ((∀ pl, (59, pl) ∉ tlvs) →
        r.engine.Lease.T2 = mulFloat0875 r.engine.Lease.LeaseDuration ∧
        8 * r.engine.Lease.T2 - 7 * r.engine.Lease.LeaseDuration ≤ 2 ^ 11 ∧
        7 * r.engine.Lease.LeaseDuration - 8 * r.engine.Lease.T2 ≤ 2 ^ 11 ∧
        (bigEndianValue lt ≤ 658812288 →
          8 * r.engine.Lease.T2 = 7 * r.engine.Lease.LeaseDuration)) := by
  have h := FinalizeOffer_distinct env declineTx sendFails p w ack requestTime tlvs
    sid lt huniq hp hnd hb h54 h51 (by omega) h58 h59
  obtain ⟨elt, hv⟩ := secondsOf_eq lt (hbytes _ h51)
  refine ⟨_, h, rfl, elt, ?_, ?_, ?_, ?_⟩
  · intro pl hpl
    show timerOf tlvs 58 _ = _
    rw [timerOf_mem tlvs 58 _ pl hnd hpl]
    exact (secondsOf_eq pl (hbytes _ hpl)).1
  · intro hno
    show 2 * timerOf tlvs 58 _ = secondsOf lt
    rw [timerOf_not_mem tlvs 58 _ hno, elt]
    have e : ((bigEndianValue lt : Int) * 10 ^ 9) = 2 * ((bigEndianValue lt : Int) * 500000000) := by
      ring
    rw [e, Int.mul_tdiv_cancel_left _ (by decide)]
  · intro pl hpl
    show timerOf tlvs 59 _ = _
    rw [timerOf_mem tlvs 59 _ pl hnd hpl]
    exact (secondsOf_eq pl (hbytes _ hpl)).1
  · intro hno
    have e2 : timerOf tlvs 59 (mulFloat0875 (secondsOf lt)) = mulFloat0875 (secondsOf lt) :=
      timerOf_not_mem tlvs 59 _ hno
    have e3 : mulFloat0875 (secondsOf lt)
        = (mulFloat0875Nat (bigEndianValue lt * 10 ^ 9) : Int) := by
      rw [elt]
      unfold mulFloat0875
      have h0 : (0 : Int) ≤ (bigEndianValue lt : Int) * 10 ^ 9 :=
        Int.mul_nonneg (Int.ofNat_nonneg _) (by norm_num)
      rw [if_pos h0]
      have : ((bigEndianValue lt : Int) * 10 ^ 9).toNat = bigEndianValue lt * 10 ^ 9 := by
        have : ((bigEndianValue lt : Int) * 10 ^ 9) = ((bigEndianValue lt * 10 ^ 9 : Nat) : Int) := by
          push_cast
          rfl
        rw [this, Int.toNat_ofNat]
      rw [this]
    obtain ⟨b1, b2, b3⟩ := mulFloat0875Nat_seconds (bigEndianValue lt) hv
    show timerOf tlvs 59 (mulFloat0875 (secondsOf lt)) = mulFloat0875 (secondsOf lt) ∧
      8 * timerOf tlvs 59 (mulFloat0875 (secondsOf lt)) - 7 * secondsOf lt ≤ 2 ^ 11 ∧
      7 * secondsOf lt - 8 * timerOf tlvs 59 (mulFloat0875 (secondsOf lt)) ≤ 2 ^ 11 ∧
      (bigEndianValue lt ≤ 658812288 →
        8 * timerOf tlvs 59 (mulFloat0875 (secondsOf lt)) = 7 * secondsOf lt)
    rw [e2, e3, elt]
    refine ⟨rfl, ?_, ?_, ?_⟩
    · omega
    · omega
    · intro hs
      have := b3 hs
      omega

set_option maxRecDepth 100000 in
theorem FinalizeOffer_timers_witness :
    sampleEnv.IsUniqueIp goodAck.Yiaddr sampleEngine.Config = true ∧
    goodAck.options.data = tlvBytes goodAckOptions ∧
    (54, [127, 0, 0, 1]) ∈ goodAckOptions ∧ (51, [0, 0, 0, 200]) ∈ goodAckOptions ∧
    ∃ r : Finalized,
      FinalizeOffer sampleEnv 5 false sampleEngine sampleWorld goodAck 1000 = .ok r ∧
      r.err = none ∧ r.engine.Lease.LeaseDuration = 200 * 10 ^ 9 ∧
      2 * r.engine.Lease.T1 = r.engine.Lease.LeaseDuration ∧
      8 * r.engine.Lease.T2 = 7 * r.engine.Lease.LeaseDuration :=
  have h := FinalizeOffer_timers sampleEnv 5 false sampleEngine sampleWorld goodAck 1000
    goodAckOptions [127, 0, 0, 1] [0, 0, 0, 200] rfl rfl (by decide) (by decide) (by decide)
    (by decide) (by decide) rfl
    (fun pl h => by simp [goodAckOptions] at h) (fun pl h => by simp [goodAckOptions] at h)
  ⟨rfl, rfl, by decide, by decide, by
    obtain ⟨r, h1, h2, h3, _, h5, _, h7⟩ := h
    have n58 : ∀ pl, (58, pl) ∉ goodAckOptions := fun pl h => by simp [goodAckOptions] at h
    have n59 : ∀ pl, (59, pl) ∉ goodAckOptions := fun pl h => by simp [goodAckOptions] at h
    exact ⟨r, h1, h2, h3, h5 n58, (h7 n59).2.2.2 (by decide)⟩⟩

/-- C14 (counterexample). An ACK with the lease time `0xFFFFFFFF` seconds and no
option 59: `FinalizeOffer` succeeds with `LeaseDuration` = 4294967295 s and
T2 = 3758096383125000192 ns, which is not 7/8 of `LeaseDuration`
(3758096383125000000 ns). -/
theorem FinalizeOffer_T2_inexact :
    GetOption infiniteAck REBINDING_TIME_VALUE = .ok none ∧
    ∃ r : Finalized,
      FinalizeOffer sampleEnv 5 false sampleEngine sampleWorld infiniteAck 1000 = .ok r ∧
      r.err = none ∧
      r.engine.Lease.LeaseDuration = 4294967295000000000 ∧
      r.engine.Lease.T2 = 3758096383125000192 ∧
      8 * r.engine.Lease.T2 ≠ 7 * r.engine.Lease.LeaseDuration := by
  refine ⟨by decide, _, rfl, rfl, ?_, ?_, ?_⟩
  · decide
  · decide
  · decide

theorem payload_unique (tlvs : List (Nat × List Nat)) (c : Nat) (pl pl2 : List Nat)
    (hnd : (tlvs.map Prod.fst).Nodup) (h : (c, pl) ∈ tlvs) (h2 : (c, pl2) ∈ tlvs) : pl2 = pl := by
  have e1 := find_mem_distinct tlvs c pl hnd h
  have e2 := find_mem_distinct tlvs c pl2 hnd h2
  rw [e1] at e2
  simpa using e2.symm

/-- C15 (as the code has it). `FinalizeOffer` does not check the timers: for an
ACK that passes the probe and carries a server identifier, a lease time `lt`,
T1 `t1` and T2 `t2` (whole options with pairwise distinct codes and byte
payloads), the call succeeds and stores the three values as sent, so the lease
satisfies `0 < T1 < T2 < LeaseDuration` exactly when the values of the server
do. -/
theorem FinalizeOffer_no_timer_check (env : Env) (declineTx : Nat) (sendFails : Bool)
    (p : ProcessingEngine) (w : World) (ack : DHCPPacket) (requestTime : Int)
    (tlvs : List (Nat × List Nat)) (sid lt t1 t2 : List Nat)
    (huniq : env.IsUniqueIp ack.Yiaddr p.Config = true)
    (hp : ack.options.data = tlvBytes tlvs) (hnd : (tlvs.map Prod.fst).Nodup)
    (hb : ∀ t ∈ tlvs, t.1 < 256) (hbytes : ∀ t ∈ tlvs, ∀ x ∈ t.2, x < 256)
    (h54 : (54, sid) ∈ tlvs) (h51 : (51, lt) ∈ tlvs) (h58 : (58, t1) ∈ tlvs)
    (h59 : (59, t2) ∈ tlvs) (hlt : lt.length = 4) (ht1 : t1.length = 4)
    (ht2 : t2.length = 4) :
    ∃ r : Finalized,
      FinalizeOffer env declineTx sendFails p w ack requestTime = .ok r ∧
      r.err = none ∧
      r.engine.Lease.LeaseDuration = (bigEndianValue lt : Int) * 10 ^ 9 ∧
      r.engine.Lease.T1 = (bigEndianValue t1 : Int) * 10 ^ 9 ∧
      r.engine.Lease.T2 = (bigEndianValue t2 : Int) * 10 ^ 9 ∧
      ((0 < r.engine.Lease.T1 ∧ r.engine.Lease.T1 < r.engine.Lease.T2 ∧
          r.engine.Lease.T2 < r.engine.Lease.LeaseDuration) ↔
        (0 < bigEndianValue t1 ∧ bigEndianValue t1 < bigEndianValue t2 ∧
          bigEndianValue t2 < bigEndianValue lt)) := by
  have h := FinalizeOffer_distinct env declineTx sendFails p w ack requestTime tlvs
    sid lt huniq hp hnd hb h54 h51 (by omega)
    (fun pl hpl => by rw [payload_unique tlvs 58 t1 pl hnd h58 hpl]; omega)
    (fun pl hpl => by rw [payload_unique tlvs 59 t2 pl hnd h59 hpl]; omega)
  have elt := (secondsOf_eq lt (hbytes _ h51)).1
  have e1 : timerOf tlvs 58 (Int.tdiv (secondsOf lt) 2) = (bigEndianValue t1 : Int) * 10 ^ 9 := by
    rw [timerOf_mem tlvs 58 _ t1 hnd h58]
    exact (secondsOf_eq t1 (hbytes _ h58)).1
  have e2 : timerOf tlvs 59 (mulFloat0875 (secondsOf lt)) = (bigEndianValue t2 : Int) * 10 ^ 9 := by
    rw [timerOf_mem tlvs 59 _ t2 hnd h59]
    exact (secondsOf_eq t2 (hbytes _ h59)).1
  refine ⟨_, h, rfl, elt, e1, e2, ?_⟩
  show (0 < timerOf tlvs 58 (Int.tdiv (secondsOf lt) 2) ∧
      timerOf tlvs 58 (Int.tdiv (secondsOf lt) 2) < timerOf tlvs 59 (mulFloat0875 (secondsOf lt)) ∧
      timerOf tlvs 59 (mulFloat0875 (secondsOf lt)) < secondsOf lt) ↔ _
  rw [e1, e2, elt]
  constructor
  · rintro ⟨a, b, c⟩
    refine ⟨?_, ?_, ?_⟩ <;> omega
  · rintro ⟨a, b, c⟩
    refine ⟨?_, ?_, ?_⟩ <;> omega

set_option maxRecDepth 100000 in
theorem FinalizeOffer_no_timer_check_witness :
    sampleEnv.IsUniqueIp unorderedAck.Yiaddr sampleEngine.Config = true ∧
    unorderedAck.options.data = tlvBytes unorderedAckOptions ∧
    ∃ r : Finalized,
      FinalizeOffer sampleEnv 5 false sampleEngine sampleWorld unorderedAck 1000 = .ok r ∧
      r.err = none ∧
      r.engine.Lease.LeaseDuration = 100 * 10 ^ 9 ∧
      r.engine.Lease.T1 = 90 * 10 ^ 9 ∧ r.engine.Lease.T2 = 50 * 10 ^ 9 :=
  have h := FinalizeOffer_no_timer_check sampleEnv 5 false sampleEngine sampleWorld
    unorderedAck 1000 unorderedAckOptions [127, 0, 0, 1] [0, 0, 0, 100] [0, 0, 0, 90]
    [0, 0, 0, 50] rfl rfl (by decide) (by decide) (by decide) (by decide) (by decide)
    (by decide) (by decide) rfl rfl rfl
  ⟨rfl, rfl, by
    obtain ⟨r, h1, h2, h3, h4, h5, _⟩ := h
    exact ⟨r, h1, h2, h3, h4, h5⟩⟩

/-- C15 (counterexample). An ACK with lease time 100 s, T1 = 90 s and
T2 = 50 s: `FinalizeOffer` succeeds and leaves T1 = 90 s above T2 = 50 s. -/
theorem FinalizeOffer_unordered_timers :
    ∃ r : Finalized,
      FinalizeOffer sampleEnv 5 false sampleEngine sampleWorld unorderedAck 1000 = .ok r ∧
      r.err = none ∧
      r.engine.Lease.T1 = 90000000000 ∧ r.engine.Lease.T2 = 50000000000 ∧
      r.engine.Lease.LeaseDuration = 100000000000 ∧
      ¬ (0 < r.engine.Lease.T1 ∧ r.engine.Lease.T1 < r.engine.Lease.T2 ∧
          r.engine.Lease.T2 < r.engine.Lease.LeaseDuration) := by
  refine ⟨_, rfl, rfl, ?_, ?_, ?_, ?_⟩
  · decide
  · decide
  · decide
  · decide

/-! ## The slices that the walk hands out -/

/-- The walk keeps the length of the backing array, and every map value is a
slice of two bytes or more inside it. -/
theorem optionWalk_entries (L : Nat) :
    ∀ (fuel i : Nat) (arr : List Nat) (m : List Entry) (arr2 : List Nat) (m2 : List Entry),
      (∀ e ∈ m, 2 ≤ e.len ∧ e.start + e.len ≤ arr.length) →
      optionWalk L fuel i arr m = .ok (arr2, m2) →
      arr2.length = arr.length ∧ ∀ e ∈ m2, 2 ≤ e.len ∧ e.start + e.len ≤ arr.length := by
  intro fuel
  induction fuel with
  | zero =>
    intro i arr m arr2 m2 hm h
    rw [optionWalk] at h
    split at h
    · cases h
    · cases h
      exact ⟨rfl, hm⟩
  | succ fuel ih =>
    intro i arr m arr2 m2 hm h
    rw [optionWalk] at h
    dsimp only at h
    split at h
    · split at h
      · split at h
        · rename_i hnext
          split at h
          · refine ih _ _ _ _ _ ?_ h
            intro e he
            rcases List.mem_append.mp he with he | he
            · exact hm e he
            · simp only [List.mem_singleton] at he
              subst he
              exact ⟨Nat.le_add_right _ _, by dsimp only; omega⟩
          · rename_i existing hex
            split at h
            · rename_i hcap
              have hmem : existing ∈ m := List.mem_of_find?_eq_some hex
              have hsrc : ((arr.drop (i + 2)).take (arr.getD (i + 1) 0)).length
                  = arr.getD (i + 1) 0 := by
                rw [List.length_take, List.length_drop]
                omega
              have hlen : (copyInto arr (existing.start + existing.len)
                  ((arr.drop (i + 2)).take (arr.getD (i + 1) 0))).length = arr.length := by
                apply length_copyInto
                rw [hsrc]
                have := (hm existing hmem).2
                omega
              have h2 := ih _ _ _ _ _ (by
                rw [List.length_set, hlen]
                exact hm) h
              rw [List.length_set, hlen] at h2
              exact h2
            · exact ih _ _ _ _ _ hm h
        · cases h
      · cases h
    · cases h
      exact ⟨rfl, hm⟩

theorem refOption_withBuffer (p : DHCPPacket) (arr : List Nat) (e : Entry) :
    refOption (withBuffer p arr) e = entryOption arr e := by
  unfold refOption withBuffer
  simp only [List.take_append_drop]

/-- What `GetOption` returns is the slice that the caller of `GetOption` holds,
read in the packet as the walk left it; it has two bytes or more. -/
theorem GetOptionRef_of_GetOption (p : DHCPPacket) (name : Nat) (o : DHCPOption)
    (h : GetOption p name = .ok (some o)) :
    ∃ (e : Entry) (p2 : DHCPPacket), GetOptionRef p name = .ok (some e, p2) ∧
      refOption p2 e = o ∧ 2 ≤ o.Data.length := by
  unfold GetOption GetOptions at h
  unfold GetOptionRef
  cases hr : GetOptionsRun p with
  | panic => rw [hr] at h; cases h
  | outOfFuel => rw [hr] at h; cases h
  | ok r =>
    obtain ⟨arr, m⟩ := r
    rw [hr] at h
    simp only [Run.ok.injEq, List.find?_map] at h
    have hinv := optionWalk_entries _ _ _ _ _ _ _ (by simp) hr
    cases hf : m.find? (fun e => TypeToString e.key == TypeToString name) with
    | none =>
      have : m.find? ((fun opt => opt.ID == TypeToString name) ∘ entryOption arr) = none := hf
      rw [this] at h
      cases h
    | some e =>
      have : m.find? ((fun opt => opt.ID == TypeToString name) ∘ entryOption arr) = some e := hf
      rw [this] at h
      simp only [Option.map_some', Option.some.injEq] at h
      refine ⟨e, withBuffer p arr, by dsimp only; rw [hf], ?_, ?_⟩
      · rw [refOption_withBuffer]
        exact h
      · have he := hinv.2 e (List.mem_of_find?_eq_some hf)
        rw [← h]
        unfold entryOption
        simp only [List.length_take, List.length_drop]
        omega

/-- The packet that `Decline` builds has no message type option:
`GetMessageType` reports `UNKNOWN` for it. -/
theorem GetMessageType_Decline (growslice : Nat → Nat → Nat) (hardwareAddr : List Nat)
    (tx : Nat) (ack : DHCPPacket) (hy : ack.Yiaddr.length = 4) :
    GetMessageType (Decline growslice hardwareAddr tx ack).1 = .ok UNKNOWN := by
  have hd : (Decline growslice hardwareAddr tx ack).1.options.data
      = tlvBytes [(50, ack.Yiaddr)] := by
    unfold Decline
    simp only [AddOption_data, NewRequestIpAddrOpt, tlvBytes, hy]
    simp [DHCPPacket.zero, ByteSlice.empty]
  rw [GetMessageType_distinct [(50, ack.Yiaddr)] _ hd (by simp) (by simp)]
  rfl

/-- C16. Duplicate address: for every ACK whose `Yiaddr` the probe reports as
in use and for which `GetOption` finds a server identifier `sid`,
`FinalizeOffer` returns an error after exactly one `Send`, of the packet that
`Decline` builds from the ACK, to the payload of `sid`; the engine, and with it
every field of the lease, is as before, whether or not the send fails. -/
theorem FinalizeOffer_address_in_use (env : Env) (declineTx : Nat) (sendFails : Bool)
    (p : ProcessingEngine) (w : World) (ack : DHCPPacket) (requestTime : Int)
    (sid : DHCPOption)
    (hbusy : env.IsUniqueIp ack.Yiaddr p.Config = false)
    (hy : ack.Yiaddr.length = 4)
    (hsid : GetOption ack SERVER_IDENTIFIER = .ok (some sid)) :
    ∃ r : Finalized,
      FinalizeOffer env declineTx sendFails p w ack requestTime = .ok r ∧
      r.err = some EngineError.addressInUse ∧
      r.world.sent = w.sent ++
        [((Decline env.growslice env.hardwareAddr declineTx ack).1, sid.Data.drop 2)] ∧
      r.world.autoPrivateAddr = w.autoPrivateAddr ∧
      r.engine = p := by
  obtain ⟨e, ack2, hget, href, hlen⟩ := GetOptionRef_of_GetOption ack SERVER_IDENTIFIER sid hsid
  have hraw : GetDataAsIP4 sid = .ok (sid.Data.drop 2) := by
    unfold GetDataAsIP4 GetRawOptionValue
    rw [if_pos hlen]
  have hmt := GetMessageType_Decline env.growslice env.hardwareAddr declineTx ack hy
  refine ⟨{ err := some .addressInUse, engine := p,
            world := { w with sent := w.sent ++
              [((Decline env.growslice env.hardwareAddr declineTx ack).1, sid.Data.drop 2)] },
            ack := ack2 }, ?_, rfl, rfl, rfl, rfl⟩
  unfold FinalizeOffer
  simp only [hbusy, if_true, hget, bind, Run.bind, href, hraw, Send, hmt, pure]

set_option maxRecDepth 100000 in
theorem FinalizeOffer_address_in_use_witness :
    busyEnv.IsUniqueIp goodAck.Yiaddr sampleEngine.Config = false ∧
    GetOption goodAck SERVER_IDENTIFIER
      = .ok (some { Data := [54, 4, 127, 0, 0, 1], ID := TypeToString 54 }) ∧
    ∃ r : Finalized,
      FinalizeOffer busyEnv 5 true sampleEngine sampleWorld goodAck 1000 = .ok r ∧
      r.err = some EngineError.addressInUse ∧
      r.world.sent = [((Decline busyEnv.growslice busyEnv.hardwareAddr 5 goodAck).1,
        [127, 0, 0, 1])] ∧
      r.engine = sampleEngine :=
  have h := FinalizeOffer_address_in_use busyEnv 5 true sampleEngine sampleWorld goodAck 1000
    { Data := [54, 4, 127, 0, 0, 1], ID := TypeToString 54 } rfl rfl (by decide)
  ⟨rfl, by decide, by
    obtain ⟨r, h1, h2, h3, _, h5⟩ := h
    exact ⟨r, h1, h2, h3, h5⟩⟩

/-- No path through `FinalizeOffer` assigns `Lease.Offer`. -/
theorem FinalizeOffer_Offer (env : Env) (declineTx : Nat) (sendFails : Bool)
    (p : ProcessingEngine) (w : World) (ack : DHCPPacket) (requestTime : Int) (r : Finalized)
    (h : FinalizeOffer env declineTx sendFails p w ack requestTime = .ok r) :
    r.engine.Lease.Offer = p.Lease.Offer := by
  unfold FinalizeOffer at h
  simp only [bind, Run.bind, pure, Send] at h
  repeat (any_goals (split at h))
  all_goals first
    | cases h; rfl
    | cases h

set_option maxRecDepth 100000 in
/-- C17 (divergence). After a successful `FinalizeOffer` on an ACK that carries
the router option 3, the `Offer` field of the lease is still the zero packet it
was before, not the ACK, and `Lease.Offer.GetOption(3)` returns nil although
`GetOption(3)` on the ACK finds 192.168.0.1. -/
theorem FinalizeOffer_Offer_not_retained :
    ∃ r : Finalized,
      FinalizeOffer sampleEnv 5 false sampleEngine sampleWorld goodAck 1000 = .ok r ∧
      r.err = none ∧
      r.engine.Lease.IpAddr = goodAck.Yiaddr ∧
      r.engine.Lease.Offer = DHCPPacket.zero ∧
      r.engine.Lease.Offer ≠ goodAck ∧
      GetOption goodAck 3 = .ok (some { Data := [3, 4, 192, 168, 0, 1], ID := TypeToString 3 }) ∧
      GetOption r.engine.Lease.Offer 3 = .ok none := by
  refine ⟨_, rfl, rfl, ?_, ?_, ?_, ?_, ?_⟩
  · decide
  · decide
  · decide
  · decide
  · decide

/-! ## State changes of the engine -/

theorem generatePrivateIp_apipa (r1 r2 : Nat) :
    ∃ x y, generatePrivateIp r1 r2 = [169, 254, x, y] ∧ 1 ≤ x ∧ x ≤ 254 ∧ 1 ≤ y ∧ y ≤ 253 := by
  refine ⟨((r1 % 254) % 256 + 1) % 256, ((r2 % 253) % 256 + 1) % 256, rfl, ?_, ?_, ?_, ?_⟩ <;>
    omega

/-- C18. Reset on INIT: when the address that `initPrivateAddr.Do` stored, if
it has run, came from `generatePrivateIp`, `UpdateState(INIT)` leaves
`State = INIT`, `IpAddr` an address 169.254.x.y with x in 1..254 and y in
1..253, `Dns`, `SubnetMask` and `ServerIdentifier` nil, `LeaseInitTime` the zero
instant and `LeaseDuration = T1 = T2 = 0`, and sends nothing; `UpdateState(s)`
for every other `s` changes the field `State` only. -/
theorem UpdateState_reset (accepted : Nat × Nat) (w : World) (p : ProcessingEngine)
    (hw : ∀ a, w.autoPrivateAddr = some a → ∃ r1 r2, a = generatePrivateIp r1 r2) :
    ((UpdateState accepted w p INIT).1.Lease.State = INIT ∧
      (∃ x y, (UpdateState accepted w p INIT).1.Lease.IpAddr = [169, 254, x, y] ∧
        1 ≤ x ∧ x ≤ 254 ∧ 1 ≤ y ∧ y ≤ 253) ∧
      (UpdateState accepted w p INIT).1.Lease.Dns = [] ∧
      (UpdateState accepted w p INIT).1.Lease.SubnetMask = [] ∧
      (UpdateState accepted w p INIT).1.Lease.ServerIdentifier = [] ∧
      (UpdateState accepted w p INIT).1.Lease.LeaseInitTime = 0 ∧
      (UpdateState accepted w p INIT).1.Lease.LeaseDuration = 0 ∧
      (UpdateState accepted w p INIT).1.Lease.T1 = 0 ∧
      (UpdateState accepted w p INIT).1.Lease.T2 = 0 ∧
      (UpdateState accepted w p INIT).1.Config = p.Config ∧
      (UpdateState accepted w p INIT).2.sent = w.sent) ∧
    ∀ s, s ≠ INIT →
      UpdateState accepted w p s = ({ p with Lease := { p.Lease with State := s } }, w) := by
  constructor
  · have haddr : ∃ x y, (UpdateState accepted w p INIT).1.Lease.IpAddr = [169, 254, x, y] ∧
        1 ≤ x ∧ x ≤ 254 ∧ 1 ≤ y ∧ y ≤ 253 := by
      cases ha : w.autoPrivateAddr with
      | none =>
        have e : (UpdateState accepted w p INIT).1.Lease.IpAddr
            = generatePrivateIp accepted.1 accepted.2 := by
          simp [UpdateState, ResetLease, ha, AutoPrivateAddr]
        rw [e]
        exact generatePrivateIp_apipa _ _
      | some a =>
        obtain ⟨r1, r2, e2⟩ := hw a ha
        have e : (UpdateState accepted w p INIT).1.Lease.IpAddr = a := by
          simp [UpdateState, ResetLease, ha]
        rw [e, e2]
        exact generatePrivateIp_apipa _ _
    exact ⟨rfl, haddr, rfl, rfl, rfl, rfl, rfl, rfl, rfl, rfl, rfl⟩
  · intro s hs
    unfold UpdateState
    simp only [if_neg hs]

theorem UpdateState_reset_witness :
    (∀ a, sampleWorld.autoPrivateAddr = some a → ∃ r1 r2, a = generatePrivateIp r1 r2) ∧
    (UpdateState (0, 0) sampleWorld boundEngine INIT).1.Lease
      = { State := INIT, IpAddr := [169, 254, 7, 9], Dns := [], SubnetMask := [],
          ServerIdentifier := [], LeaseInitTime := 0, LeaseDuration := 0, T1 := 0, T2 := 0,
          Offer := DHCPPacket.zero } ∧
    (UpdateState (0, 0) sampleWorld boundEngine RENEWING).1.Lease
      = { boundEngine.Lease with State := RENEWING } :=
  have hw : ∀ a, sampleWorld.autoPrivateAddr = some a → ∃ r1 r2, a = generatePrivateIp r1 r2 :=
    fun a ha => ⟨6, 8, by cases ha; rfl⟩
  have h := UpdateState_reset (0, 0) sampleWorld boundEngine hw
  ⟨hw, by decide, by rw [h.2 RENEWING (by decide)]⟩

/-- C19. Startup normalisation: for a lease in one of the eight states of
`state.go` (the constants 0 to 7), `normalizeStateAfterStart` leaves `State`
INIT when it is INIT and sets it to INIT_REBOOT otherwise, that is for
INIT_REBOOT, REBOOTING, SELECTING, REQUESTING, BOUND, RENEWING and REBINDING;
no other field of the lease or the engine changes and nothing is sent. -/
theorem normalizeStateAfterStart_states (accepted : Nat × Nat) (w : World)
    (p : ProcessingEngine) (hstate : p.Lease.State ≤ 7) :
    normalizeStateAfterStart accepted w p =
      ({ p with Lease := { p.Lease with
          State := if p.Lease.State = INIT then INIT else INIT_REBOOT } }, w) := by
  unfold normalizeStateAfterStart UpdateState
  simp only [INIT, INIT_REBOOT, BOUND, RENEWING, REBINDING, REBOOTING, SELECTING, REQUESTING]
    at hstate ⊢
  by_cases h2 : p.Lease.State = 2
  · have hc : ¬ (p.Lease.State = 0 ∨ p.Lease.State = 5 ∨ p.Lease.State = 6 ∨
        p.Lease.State = 7 ∨ p.Lease.State = 1 ∨ p.Lease.State = 3 ∨ p.Lease.State = 4) := by
      omega
    rw [if_neg hc, if_pos h2]
    cases p with
    | mk c l s r n => cases l; simp_all
  · have hc : p.Lease.State = 0 ∨ p.Lease.State = 5 ∨ p.Lease.State = 6 ∨
        p.Lease.State = 7 ∨ p.Lease.State = 1 ∨ p.Lease.State = 3 ∨ p.Lease.State = 4 := by
      omega
    rw [if_pos hc, if_neg h2]
    simp

theorem normalizeStateAfterStart_states_witness :
    boundEngine.Lease.State ≤ 7 ∧
    normalizeStateAfterStart (0, 0) sampleWorld boundEngine
      = ({ boundEngine with Lease := { boundEngine.Lease with State := INIT_REBOOT } },
         sampleWorld) :=
  ⟨by decide, normalizeStateAfterStart_states (0, 0) sampleWorld boundEngine (by decide)⟩

/-- C20 (divergence). One iteration of the dispatch started in RENEWING,
REBINDING or REBOOTING sets the state to INIT_REBOOT, but started in SELECTING
or in REQUESTING it calls none of the phases and leaves the engine, the state
included, and the world exactly as they were: the `switch` has no case for
these two states. -/
theorem processInput_SELECTING_REQUESTING
    (discover renewOrRebind renewAfterReboot :
      ProcessingEngine × World → ProcessingEngine × World)
    (accepted : Nat × Nat) (w : World) (p : ProcessingEngine) :
    (processInput discover renewOrRebind renewAfterReboot accepted w
        { p with Lease := { p.Lease with State := SELECTING } }
      = ({ p with Lease := { p.Lease with State := SELECTING } }, w)) ∧
    (processInput discover renewOrRebind renewAfterReboot accepted w
        { p with Lease := { p.Lease with State := REQUESTING } }
      = ({ p with Lease := { p.Lease with State := REQUESTING } }, w)) ∧
    (processInput discover renewOrRebind renewAfterReboot accepted w
        { p with Lease := { p.Lease with State := RENEWING } }
      = ({ p with Lease := { p.Lease with State := INIT_REBOOT } }, w)) ∧
    (processInput discover renewOrRebind renewAfterReboot accepted w
        { p with Lease := { p.Lease with State := REBINDING } }
      = ({ p with Lease := { p.Lease with State := INIT_REBOOT } }, w)) ∧
    (processInput discover renewOrRebind renewAfterReboot accepted w
        { p with Lease := { p.Lease with State := REBOOTING } }
      = ({ p with Lease := { p.Lease with State := INIT_REBOOT } }, w)) := by
  refine ⟨?_, ?_, ?_, ?_, ?_⟩ <;>
    simp [processInput, UpdateState, INIT, BOUND, INIT_REBOOT, RENEWING, REBINDING, REBOOTING,
      SELECTING, REQUESTING]

/-! ## The receive path on well-formed datagrams -/

theorem optionWalkArray_of_ok (L : Nat) :
    ∀ (fuel i : Nat) (arr : List Nat) (m : List Entry) (arr2 : List Nat) (m2 : List Entry),
      optionWalk L fuel i arr m = .ok (arr2, m2) → optionWalkArray L fuel i arr m = arr2 := by
  intro fuel
  induction fuel with
  | zero =>
    intro i arr m arr2 m2 h
    rw [optionWalk] at h
    split at h
    · cases h
    · cases h
      rfl
  | succ fuel ih =>
    intro i arr m arr2 m2 h
    rw [optionWalk] at h
    rw [optionWalkArray]
    dsimp only at h ⊢
    split at h
    · rename_i h1
      rw [if_pos h1]
      split at h
      · rename_i h2
        rw [if_pos h2]
        split at h
        · rename_i h3
          rw [if_pos h3]
          split at h
          · rename_i hl
            try rw [hl]
            exact ih _ _ _ _ _ h
          · rename_i existing hl
            try rw [hl]
            try dsimp only
            split at h
            · rename_i h4
              rw [if_pos h4]
              exact ih _ _ _ _ _ h
            · rename_i h4
              rw [if_neg h4]
              exact ih _ _ _ _ _ h
        · cases h
      · cases h
    · rename_i h1
      rw [if_neg h1]
      cases h
      rfl

theorem printed_of_walk (q : DHCPPacket) (m : List Entry)
    (h : GetOptionsRun q = .ok (q.options.data ++ q.options.spare, m)) : printed q = q := by
  unfold printed
  split
  · rfl
  · unfold GetOptionsRun at h
    rw [optionWalkArray_of_ok _ _ _ _ _ _ _ h, withBuffer_self]

/-- The message type that `GetMessageType` reads from a clean packet. -/
theorem clean_GetMessageType (q : DHCPPacket) (hq : CleanPacket q) :
    ∃ t, GetMessageType q = .ok t ∧ GetMessageTypeRef q = .ok (t, q) ∧ printed q = q ∧
      ∀ name, IsPacketOfType q name = .ok (t == name, q) := by
  obtain ⟨tlvs, hp, hnd, hb, h53⟩ := hq
  have hrun := GetOptionsRun_distinct tlvs q hp hnd
  have hmt := GetMessageType_distinct tlvs q hp hnd hb
  have hok : ∃ t, GetMessageType q = .ok t := by
    rw [hmt]
    cases hf : tlvs.find? (fun t => t.1 == 53) with
    | none => exact ⟨_, rfl⟩
    | some t =>
      obtain ⟨c, pl⟩ := t
      have hmem : (c, pl) ∈ tlvs := List.mem_of_find?_eq_some hf
      have hc : c = 53 := by
        have := List.find?_some hf
        simpa using this
      cases pl with
      | nil => exact absurd rfl (h53 _ hmem hc)
      | cons b bs => exact ⟨_, rfl⟩
  obtain ⟨t, ht⟩ := hok
  have href : GetMessageTypeRef q = .ok (t, q) := by
    unfold GetMessageTypeRef
    simp only [ht, hrun, bind, Run.bind, pure, withBuffer_self]
  refine ⟨t, ht, href, printed_of_walk q _ hrun, ?_⟩
  intro name
  unfold IsPacketOfType
  simp only [href, bind, Run.bind, pure]

theorem Decode_readBuffer (d : List Nat) (hd : 243 ≤ d.length) :
    Decode (readBuffer d).1 (readBuffer d).2 = (received d, none) ∧ ¬ (readBuffer d).2 ≤ 0 := by
  have hlen : 243 ≤ (d.take 2000).length := by
    rw [List.length_take]
    omega
  constructor
  · unfold Decode readBuffer
    dsimp only
    rw [decodeBody_ok _ _ hlen (by simp)]
    dsimp only
    rw [List.take_left' rfl]
    rfl
  · unfold readBuffer
    dsimp only
    omega

theorem readPacketFrom_wf (d : List Nat) (rest : List ReadResult) (hd : WellFormedDatagram d) :
    readPacketFrom (.datagram d :: rest) = .ok ((received d, none), rest) := by
  obtain ⟨t, _, href, hpr, _⟩ := clean_GetMessageType (received d) hd.2
  obtain ⟨hdec, hpos⟩ := Decode_readBuffer d hd.1
  rw [readPacketFrom]
  rw [if_neg hpos, hdec]
  dsimp only
  rw [href]
  dsimp only
  rw [hpr]

/-- On a script whose datagrams, up to the first read that fails, are well
formed the recursion of `WaitForEventUntil` computes what the specification
says of the wait. -/
theorem waitForEventLoop_spec (tx : Nat) (timeout : Int) :
    ∀ (reads : List ReadResult) (fuel : Nat) (h : Host), h.reads = reads →
      (∀ d, ReadResult.datagram d ∈ reads.takeWhile ReadResult.isDatagram →
        WellFormedDatagram d) →
      reads.length < fuel →
      waitForEventLoop tx timeout fuel h
        = .ok ((firstWithXid tx reads).1, { h with reads := (firstWithXid tx reads).2 }) := by
  intro reads
  induction reads with
  | nil =>
    intro fuel h hr _ hf
    cases fuel with
    | zero => omega
    | succ fuel =>
      rw [waitForEventLoop]
      unfold readPacket
      rw [hr]
      rfl
  | cons r rest ih =>
    intro fuel h hr hwf hf
    cases fuel with
    | zero => omega
    | succ fuel =>
      rw [waitForEventLoop]
      unfold readPacket
      rw [hr]
      cases r with
      | failure t => rfl
      | datagram d =>
        have hwf1 : WellFormedDatagram d := hwf d (by simp [ReadResult.isDatagram])
        have hwf2 : ∀ d2, ReadResult.datagram d2 ∈ rest.takeWhile ReadResult.isDatagram →
            WellFormedDatagram d2 := by
          intro d2 hd2
          exact hwf d2 (by simp [ReadResult.isDatagram, hd2])
        rw [readPacketFrom_wf d rest hwf1]
        dsimp only
        rw [firstWithXid]
        by_cases hx : (received d).Xid = tx
        · rw [if_neg (by simpa using hx), if_pos hx]
        · rw [if_pos (by simpa using hx), if_neg hx]
          have := ih fuel { h with reads := rest } rfl hwf2
            (by simp only [List.length_cons] at hf; omega)
          rw [this]

theorem WaitForEventUntil_spec (tx : Nat) (timeout : Int) (h : Host)
    (hwf : ∀ d, ReadResult.datagram d ∈ h.reads.takeWhile ReadResult.isDatagram →
      WellFormedDatagram d) :
    WaitForEventUntil tx timeout h
      = .ok ((firstWithXid tx h.reads).1, { h with reads := (firstWithXid tx h.reads).2 }) :=
  waitForEventLoop_spec tx timeout h.reads (h.reads.length + 1) h rfl hwf (by omega)

theorem takeWhile_datagrams (ds : List (List Nat)) (rest : List ReadResult)
    (hrest : ∀ r ∈ rest.head?, r = ReadResult.failure true) :
    (ds.map ReadResult.datagram ++ rest).takeWhile ReadResult.isDatagram
      = ds.map ReadResult.datagram := by
  induction ds with
  | nil =>
    cases rest with
    | nil => rfl
    | cons r rest2 =>
      have hr := hrest r (by simp)
      subst hr
      rfl
  | cons d ds ih =>
    simp only [List.map_cons, List.cons_append, List.takeWhile_cons, ReadResult.isDatagram,
      if_true]
    rw [ih]

theorem length_Encode (p : DHCPPacket) (hwf : p.WF) :
    (Encode p).length = 243 + p.options.data.length := by
  have h := Encode_sections p hwf
  rw [h.1]
  simp only [List.length_append, h.2]
  simp
  omega

/-- The packet that the receive path makes of the encoding of a packet. -/
theorem received_Encode (p : DHCPPacket) (hwf : p.WF) (hlen : p.options.data.length ≤ 1757) :
    received (Encode p) = { p with options := ⟨p.options.data, [255, 0, 0]⟩ } := by
  have hl := length_Encode p hwf
  have h1 := decodeBody_Encode p hwf
  have h2 := decodeBody_ok (Encode p) (Encode p).length (by omega) (Nat.le_refl _)
  rw [h1, List.take_length] at h2
  unfold received
  rw [List.take_of_length_le (by omega)]
  exact (Except.ok.inj h2).symm

theorem wellFormed_Encode (p : DHCPPacket) (tlvs : List (Nat × List Nat)) (hwf : p.WF)
    (hlen : p.options.data.length ≤ 1757) (hp : p.options.data = tlvBytes tlvs)
    (hnd : (tlvs.map Prod.fst).Nodup) (hb : ∀ t ∈ tlvs, t.1 < 256)
    (h53 : ∀ t ∈ tlvs, t.1 = 53 → t.2 ≠ []) : WellFormedDatagram (Encode p) := by
  refine ⟨by rw [length_Encode p hwf]; omega, tlvs, ?_, hnd, hb, h53⟩
  rw [received_Encode p hwf hlen]
  exact hp

theorem WF_withXid (p : DHCPPacket) (x : Nat) (hwf : p.WF) (hx : x < 2 ^ 32) :
    ({ p with Xid := x } : DHCPPacket).WF :=
  ⟨hwf.op, hwf.htype, hwf.hlen, hwf.hops, hx, hwf.secs, hwf.flags, hwf.ciaddr, hwf.yiaddr,
   hwf.siaddr, hwf.giaddr, hwf.chaddr, hwf.sname, hwf.file, hwf.opts⟩

theorem offerPacket_WF : offerPacket.WF :=
  ⟨by decide, by decide, by decide, by decide, by decide, by decide, by decide, by decide,
   by decide, by decide, by decide, by decide, by decide, by decide, by decide⟩

theorem goodAck_WF : goodAck.WF :=
  ⟨by decide, by decide, by decide, by decide, by decide, by decide, by decide, by decide,
   by decide, by decide, by decide, by decide, by decide, by decide, by decide⟩

theorem wellFormed_offerDatagram (x : Nat) (hx : x < 2 ^ 32) :
    WellFormedDatagram (offerDatagram x) ∧
    received (offerDatagram x) = { offerPacket with Xid := x } := by
  have hwf : ({ offerPacket with Xid := x } : DHCPPacket).WF := WF_withXid _ x offerPacket_WF hx
  constructor
  · exact wellFormed_Encode _ [(53, [2]), (54, [127, 0, 0, 1]), (51, [0, 0, 0, 200])] hwf
      (by show offerPacket.options.data.length ≤ 1757; decide) rfl (by decide) (by decide)
      (by decide)
  · unfold offerDatagram
    rw [received_Encode _ hwf (by show offerPacket.options.data.length ≤ 1757; decide)]
    rfl

theorem wellFormed_ackDatagram (x : Nat) (hx : x < 2 ^ 32) :
    WellFormedDatagram (ackDatagram x) ∧
    received (ackDatagram x) = { goodAck with Xid := x } := by
  have hwf : ({ goodAck with Xid := x } : DHCPPacket).WF := WF_withXid _ x goodAck_WF hx
  constructor
  · exact wellFormed_Encode _ goodAckOptions hwf
      (by show goodAck.options.data.length ≤ 1757; decide) rfl (by decide) (by decide)
      (by decide)
  · unfold ackDatagram
    rw [received_Encode _ hwf (by show goodAck.options.data.length ≤ 1757; decide)]
    rfl

theorem firstWithXid_datagrams (tx : Nat) (rest : List ReadResult)
    (hrest : ∀ r ∈ rest.head?, r = ReadResult.failure true) :
    ∀ ds : List (List Nat),
      firstWithXid tx (ds.map ReadResult.datagram ++ rest) =
        match ds.dropWhile (fun d => (received d).Xid != tx) with
        | d :: later => ((received d, none), later.map ReadResult.datagram ++ rest)
        | [] => ((DHCPPacket.zero, some (.net true)), rest.tail) := by
  intro ds
  induction ds with
  | nil =>
    cases rest with
    | nil => rfl
    | cons r rest2 =>
      have hr := hrest r (by simp)
      subst hr
      rfl
  | cons d ds ih =>
    simp only [List.map_cons, List.cons_append, firstWithXid, List.dropWhile_cons]
    by_cases hx : (received d).Xid = tx
    · simp [hx]
    · simp only [hx, if_false, bne_iff_ne, ne_eq, not_false_eq_true, decide_True, if_true]
      exact ih

/-- The wait on clean datagrams: when the coming reads are the well-formed
datagrams `ds` and then, if anything, a timeout, `WaitForEventUntil(tx, _)`
returns, without error, the packet of the first datagram of `ds` whose `Xid`
is `tx`; the datagrams before it are gone from the socket, those after it are
still to be read, and nothing else of the host (the lease is no part of what
the wait touches) has changed. When no datagram of `ds` has `Xid = tx`, the
result is the timeout error. -/
theorem WaitForEventUntil_first_match (tx : Nat) (timeout : Int) (h : Host)
    (ds : List (List Nat)) (rest : List ReadResult)
    (hreads : h.reads = ds.map ReadResult.datagram ++ rest)
    (hwf : ∀ d ∈ ds, WellFormedDatagram d)
    (hrest : ∀ r ∈ rest.head?, r = ReadResult.failure true) :
    WaitForEventUntil tx timeout h =
      (match ds.dropWhile (fun d => (received d).Xid != tx) with
       | d :: later =>
         .ok ((received d, none), { h with reads := later.map ReadResult.datagram ++ rest })
       | [] => .ok ((DHCPPacket.zero, some (.net true)), { h with reads := rest.tail })) ∧
    IsTimeout (.net true) = true := by
  refine ⟨?_, rfl⟩
  have hwf2 : ∀ d, ReadResult.datagram d ∈ h.reads.takeWhile ReadResult.isDatagram →
      WellFormedDatagram d := by
    intro d hd
    rw [hreads, takeWhile_datagrams ds rest hrest] at hd
    obtain ⟨d2, hd2, e⟩ := List.mem_map.mp hd
    cases e
    exact hwf d hd2
  rw [WaitForEventUntil_spec tx timeout h hwf2, hreads, firstWithXid_datagrams tx rest hrest ds]
  split <;> rfl

theorem WaitForEventUntil_first_match_witness :
    (∀ d ∈ [offerDatagram 5, offerDatagram 77, offerDatagram 78], WellFormedDatagram d) ∧
    WaitForEventUntil 77 1000000000
        { quietHost with
          reads := [offerDatagram 5, offerDatagram 77, offerDatagram 78].map
            ReadResult.datagram ++ [] }
      = .ok (({ offerPacket with Xid := 77 }, none),
             { quietHost with reads := [ReadResult.datagram (offerDatagram 78)] }) :=
  have hwf : ∀ d ∈ [offerDatagram 5, offerDatagram 77, offerDatagram 78],
      WellFormedDatagram d := by
    intro d hd
    simp only [List.mem_cons, List.mem_singleton, List.not_mem_nil, or_false] at hd
    rcases hd with hd | hd | hd <;> subst hd
    · exact (wellFormed_offerDatagram 5 (by decide)).1
    · exact (wellFormed_offerDatagram 77 (by decide)).1
    · exact (wellFormed_offerDatagram 78 (by decide)).1
  have h := (WaitForEventUntil_first_match 77 1000000000
    { quietHost with
      reads := [offerDatagram 5, offerDatagram 77, offerDatagram 78].map
        ReadResult.datagram ++ [] }
    [offerDatagram 5, offerDatagram 77, offerDatagram 78] [] rfl hwf (by simp)).1
  ⟨hwf, by
    rw [h]
    simp [List.dropWhile, (wellFormed_offerDatagram 5 (by decide)).2,
      (wellFormed_offerDatagram 77 (by decide)).2]⟩

theorem Decode_take (buf : List Nat) (n : Nat) (hn : n ≤ buf.length) :
    Decode buf (n : Int) = Decode (buf.take n) ((buf.take n).length : Int) := by
  have hl : (buf.take n).length = n := by rw [List.length_take]; omega
  unfold Decode decodeBody
  have h1 : ¬ ((n : Int) < 0 ∨ (buf.length : Int) < (n : Int)) := by omega
  have h3 : ¬ ((n : Int) < 0 ∨ (n : Int) < (n : Int)) := by omega
  simp only [h1, h3, if_false, Int.toNat_ofNat, List.take_take, hl, Nat.min_self]

theorem Decode_readBuffer_eq (m : List Nat) :
    Decode (readBuffer m).1 (readBuffer m).2
      = Decode (m.take 2000) ((m.take 2000).length : Int) := by
  unfold readBuffer
  dsimp only
  rw [Decode_take _ _ (by simp), List.take_left' rfl]

theorem readPacketFrom_malformed (m : List Nat) (rest : List ReadResult) (e : ParseError)
    (hm : 0 < m.length) (hdec : (Decode (readBuffer m).1 (readBuffer m).2).2 = some e) :
    readPacketFrom (.datagram m :: rest) = .ok ((DHCPPacket.zero, some (.decode e)), rest) := by
  have hpos : ¬ (readBuffer m).2 ≤ 0 := by
    unfold readBuffer
    dsimp only
    rw [List.length_take]
    omega
  rw [readPacketFrom, if_neg hpos]
  cases hd : Decode (readBuffer m).1 (readBuffer m).2 with
  | mk data err =>
    rw [hd] at hdec
    dsimp only at hdec
    subst hdec
    rfl

theorem waitForEventLoop_malformed (tx : Nat) (timeout : Int) (m : List Nat)
    (rest : List ReadResult) (e : ParseError) (hm : 0 < m.length)
    (hdec : (Decode (readBuffer m).1 (readBuffer m).2).2 = some e) :
    ∀ (ds : List (List Nat)) (fuel : Nat) (h : Host),
      h.reads = ds.map ReadResult.datagram ++ ReadResult.datagram m :: rest →
      (∀ d ∈ ds, WellFormedDatagram d) → (∀ d ∈ ds, (received d).Xid ≠ tx) → ds.length < fuel →
      waitForEventLoop tx timeout fuel h
        = .ok ((DHCPPacket.zero, some (.decode e)), { h with reads := rest }) := by
  intro ds
  induction ds with
  | nil =>
    intro fuel h hr _ _ hf
    cases fuel with
    | zero => omega
    | succ fuel =>
      rw [waitForEventLoop]
      unfold readPacket
      rw [hr]
      simp only [List.map_nil, List.nil_append]
      rw [readPacketFrom_malformed m rest e hm hdec]
  | cons d ds ih =>
    intro fuel h hr hwf hno hf
    cases fuel with
    | zero => omega
    | succ fuel =>
      rw [waitForEventLoop]
      unfold readPacket
      rw [hr]
      simp only [List.map_cons, List.cons_append]
      rw [readPacketFrom_wf d _ (hwf d (List.mem_cons_self _ _))]
      dsimp only
      rw [if_pos (hno d (List.mem_cons_self _ _))]
      have := ih fuel { h with reads := ds.map ReadResult.datagram ++ ReadResult.datagram m :: rest }
        rfl (fun d2 hd2 => hwf d2 (List.mem_cons_of_mem _ hd2))
        (fun d2 hd2 => hno d2 (List.mem_cons_of_mem _ hd2))
        (by simp only [List.length_cons] at hf; omega)
      rw [this]

/-- C22 (as the code has it). A datagram that fails to decode ends the wait:
when it arrives after well-formed datagrams of other transactions,
`WaitForEventUntil(tx, _)` returns the zero packet with a decode error, which
is not a timeout, and leaves every datagram that arrived after it unread;
`handleRenewResponse`, given that error, moves the lease to INIT. -/
theorem WaitForEventUntil_decode_error (tx : Nat) (timeout : Int) (h : Host)
    (ds : List (List Nat)) (m : List Nat) (rest : List ReadResult) (e : ParseError)
    (hreads : h.reads = ds.map ReadResult.datagram ++ ReadResult.datagram m :: rest)
    (hwf : ∀ d ∈ ds, WellFormedDatagram d) (hno : ∀ d ∈ ds, (received d).Xid ≠ tx)
    (hm : 0 < m.length) (hdec : (Decode (readBuffer m).1 (readBuffer m).2).2 = some e) :
    WaitForEventUntil tx timeout h
      = .ok ((DHCPPacket.zero, some (.decode e)), { h with reads := rest }) ∧
    IsTimeout (.decode e) = false ∧
    ∀ (env : Env) (accepted : Nat × Nat) (response : DHCPPacket) (requestTime : Int)
      (p : ProcessingEngine) (h2 : Host),
      handleRenewResponse env accepted response requestTime (some (.decode e)) p h2
        = .ok (updateState accepted p h2 INIT) := by
  refine ⟨?_, rfl, fun _ _ _ _ _ _ => rfl⟩
  unfold WaitForEventUntil
  exact waitForEventLoop_malformed tx timeout m rest e hm hdec ds _ h hreads hwf hno
    (by rw [hreads]; simp; omega)


theorem WaitForEventUntil_decode_error_witness :
    (Decode (readBuffer [1, 2, 3]).1 (readBuffer [1, 2, 3]).2).2 = some ParseError.eof ∧
    WaitForEventUntil 77 1000000000
        { quietHost with
          reads := [offerDatagram 5].map ReadResult.datagram ++
            ReadResult.datagram [1, 2, 3] :: [ReadResult.datagram (offerDatagram 77)] }
      = .ok ((DHCPPacket.zero, some (.decode .eof)),
             { quietHost with reads := [ReadResult.datagram (offerDatagram 77)] }) :=
  have hdec : (Decode (readBuffer [1, 2, 3]).1 (readBuffer [1, 2, 3]).2).2
      = some ParseError.eof := by
    rw [Decode_readBuffer_eq]
    decide
  ⟨hdec, (WaitForEventUntil_decode_error 77 1000000000
    { quietHost with
      reads := [offerDatagram 5].map ReadResult.datagram ++
        ReadResult.datagram [1, 2, 3] :: [ReadResult.datagram (offerDatagram 77)] }
    [offerDatagram 5] [1, 2, 3] [ReadResult.datagram (offerDatagram 77)] .eof rfl
    (by
      intro d hd
      simp only [List.mem_singleton] at hd
      subst hd
      exact (wellFormed_offerDatagram 5 (by decide)).1)
    (by
      intro d hd
      simp only [List.mem_singleton] at hd
      subst hd
      rw [(wellFormed_offerDatagram 5 (by decide)).2]
      decide)
    (by decide) hdec).1⟩

theorem WaitForEvent_malformed (tx : Nat) (timeout : Int) (h : Host) (m : List Nat)
    (rest : List ReadResult) (e : ParseError) (hreads : h.reads = ReadResult.datagram m :: rest)
    (hm : 0 < m.length) (hdec : (Decode (readBuffer m).1 (readBuffer m).2).2 = some e) :
    WaitForEvent tx timeout h
      = .ok ((DHCPPacket.zero, some (.decode e)), { (timeNow h).2 with reads := rest }) := by
  have hr : (timeNow h).2.reads = [].map ReadResult.datagram ++ ReadResult.datagram m :: rest := by
    unfold timeNow
    split <;> simpa using hreads
  unfold WaitForEvent WaitForEventUntil
  exact waitForEventLoop_malformed tx _ m rest e hm hdec [] _ _ hr (by simp) (by simp)
    (by simp)

/-- C22 (counterexample). A three-byte datagram arrives and after it an ACK
with the awaited `Xid`: `WaitForEventUntil` returns the decode error and leaves
the ACK unread, and `RenewAfterReboot`, whose wait ends with that error, moves
the lease from INIT_REBOOT to INIT and resets its address. -/
theorem WaitForEventUntil_malformed_terminal :
    WaitForEventUntil 77 1000000000
        { quietHost with
          reads := [ReadResult.datagram [1, 2, 3], ReadResult.datagram (ackDatagram 77)] }
      = .ok ((DHCPPacket.zero, some (.decode .eof)),
             { quietHost with reads := [ReadResult.datagram (ackDatagram 77)] }) ∧
    ∃ p h,
      RenewAfterReboot sampleEnv (0, 0) rebootingEngine
          { quietHost with
            txs := [77]
            reads := [ReadResult.datagram [1, 2, 3], ReadResult.datagram (ackDatagram 77)] }
        = .ok (p, h) ∧
      rebootingEngine.Lease.State = INIT_REBOOT ∧ p.Lease.State = INIT ∧
      p.Lease.IpAddr = [169, 254, 7, 9] ∧
      h.reads = [ReadResult.datagram (ackDatagram 77)] := by
  have hdec : (Decode (readBuffer [1, 2, 3]).1 (readBuffer [1, 2, 3]).2).2
      = some ParseError.eof := by
    rw [Decode_readBuffer_eq]
    decide
  constructor
  · unfold WaitForEventUntil
    exact waitForEventLoop_malformed 77 _ [1, 2, 3] _ .eof (by decide) hdec [] _ _ rfl
      (by simp) (by simp) (by simp)
  · obtain ⟨h1, hs, hr1⟩ : ∃ h1 : Host,
        clientSend (RandomTransactionId (timeNow
          { quietHost with
            txs := [77]
            reads := [ReadResult.datagram [1, 2, 3], ReadResult.datagram (ackDatagram 77)] }).2).2
          (RequestForReboot sampleEnv.growslice rebootingEngine.Config sampleEnv.hardwareAddr
            77 rebootingEngine.Lease).1 IPv4bcast = .ok (false, h1) ∧
        h1.reads = [ReadResult.datagram [1, 2, 3], ReadResult.datagram (ackDatagram 77)] ∧
        h1.world.autoPrivateAddr = some [169, 254, 7, 9] := ⟨_, rfl, rfl, rfl⟩
    have hw := WaitForEvent_malformed 77 Second h1 [1, 2, 3] _ .eof hr1.1 (by decide) hdec
    have hrun : RenewAfterReboot sampleEnv (0, 0) rebootingEngine
          { quietHost with
            txs := [77]
            reads := [ReadResult.datagram [1, 2, 3], ReadResult.datagram (ackDatagram 77)] }
        = .ok (updateState (0, 0) rebootingEngine
            { (timeNow h1).2 with reads := [ReadResult.datagram (ackDatagram 77)] } INIT) := by
      unfold RenewAfterReboot
      rw [if_neg (by decide)]
      dsimp only
      have e77 : (RandomTransactionId (timeNow
          { quietHost with
            txs := [77]
            reads := [ReadResult.datagram [1, 2, 3],
              ReadResult.datagram (ackDatagram 77)] }).2).1 = 77 := rfl
      rw [e77, hs]
      dsimp only
      have etx : (RequestForReboot sampleEnv.growslice rebootingEngine.Config
          sampleEnv.hardwareAddr 77 rebootingEngine.Lease).2 = 77 := rfl
      rw [etx, hw]
      rfl
    have hworld : (timeNow h1).2.world = h1.world := by
      unfold timeNow
      split <;> rfl
    refine ⟨_, _, hrun, rfl, rfl, ?_, rfl⟩
    show (match (timeNow h1).2.world.autoPrivateAddr with
      | some a => a
      | none => AutoPrivateAddr (0, 0)) = [169, 254, 7, 9]
    rw [hworld, hr1.2]

/-! ## Pacing of renew and rebind -/

theorem timeSub_of_fit (t u : Int) (h1 : u < t) (h2 : t - u ≤ maxDuration) :
    timeSub t u = t - u := by
  unfold timeSub
  have hmin : minDuration < 0 := by decide
  rw [if_neg (by omega), if_neg (by omega)]

/-- Pacing at one instant: for every lease and every instant `now` that
the clock shows while the function runs (its two readings agree),
`DurationUntilRenew` returns `(LeaseInitTime + T1) - now` when `now` is before
`LeaseInitTime + T1` (the difference fitting a `Duration`) and exactly 60 s
otherwise, `DurationUntilRebind` does the same with T2, and both results are
strictly positive. -/
theorem DurationUntil_floor (l : DHCPLease) (h : Host)
    (hsame : (timeNow (timeNow h).2).1 = (timeNow h).1)
    (hfit1 : l.LeaseInitTime + l.T1 - (timeNow h).1 ≤ maxDuration)
    (hfit2 : l.LeaseInitTime + l.T2 - (timeNow h).1 ≤ maxDuration) :
    (DurationUntilRenew l h).1
      = (if (timeNow h).1 < l.LeaseInitTime + l.T1
         then l.LeaseInitTime + l.T1 - (timeNow h).1 else 60 * 1000000000) ∧
    (DurationUntilRebind l h).1
      = (if (timeNow h).1 < l.LeaseInitTime + l.T2
         then l.LeaseInitTime + l.T2 - (timeNow h).1 else 60 * 1000000000) ∧
    0 < (DurationUntilRenew l h).1 ∧ 0 < (DurationUntilRebind l h).1 := by
  have e1 : (DurationUntilRenew l h).1
      = (if (timeNow h).1 < l.LeaseInitTime + l.T1
         then l.LeaseInitTime + l.T1 - (timeNow h).1 else 60 * 1000000000) := by
    unfold DurationUntilRenew
    dsimp only
    by_cases hb : (timeNow h).1 < l.LeaseInitTime + l.T1
    · rw [if_pos hb, if_pos hb]
      dsimp only
      rw [hsame, timeSub_of_fit _ _ hb hfit1]
    · rw [if_neg hb, if_neg hb]
      rfl
  have e2 : (DurationUntilRebind l h).1
      = (if (timeNow h).1 < l.LeaseInitTime + l.T2
         then l.LeaseInitTime + l.T2 - (timeNow h).1 else 60 * 1000000000) := by
    unfold DurationUntilRebind
    dsimp only
    by_cases hb : (timeNow h).1 < l.LeaseInitTime + l.T2
    · rw [if_pos hb, if_pos hb]
      dsimp only
      rw [hsame, timeSub_of_fit _ _ hb hfit2]
    · rw [if_neg hb, if_neg hb]
      rfl
  refine ⟨e1, e2, ?_, ?_⟩
  · rw [e1]
    split <;> omega
  · rw [e2]
    split <;> omega

theorem DurationUntil_floor_witness :
    (timeNow (timeNow quietHost).2).1 = (timeNow quietHost).1 ∧
    (DurationUntilRenew boundEngine.Lease quietHost).1 = 100000001000 ∧
    (DurationUntilRebind boundEngine.Lease quietHost).1 = 175000001000 ∧
    (DurationUntilRenew boundEngine.Lease { quietHost with now := 100000001000 }).1
      = 60000000000 :=
  have h := DurationUntil_floor boundEngine.Lease quietHost rfl (by decide) (by decide)
  ⟨rfl, by rw [h.1]; decide, by rw [h.2.1]; decide, by decide⟩

/-! ## Replies to a REQUEST -/

theorem IsPacketOfType_distinct (tlvs : List (Nat × List Nat)) (q : DHCPPacket) (t name : Nat)
    (hp : q.options.data = tlvBytes tlvs) (hnd : (tlvs.map Prod.fst).Nodup)
    (hmt : GetMessageType q = .ok t) : IsPacketOfType q name = .ok (t == name, q) := by
  unfold IsPacketOfType GetMessageTypeRef
  simp only [hmt, GetOptionsRun_distinct tlvs q hp hnd, bind, Run.bind, pure, withBuffer_self]

theorem host_eta (h : Host) : { h with world := h.world } = h := by
  cases h
  rfl

/-- The call `p.FinalizeOffer(&ack, requestTime)` on an ACK that passes the
probe, under the conditions of `FinalizeOffer_distinct`: the host is as
before. -/
theorem finalizeOffer_distinct (env : Env) (p : ProcessingEngine) (h : Host) (ack : DHCPPacket)
    (requestTime : Int) (tlvs : List (Nat × List Nat)) (sid lt : List Nat)
    (huniq : env.IsUniqueIp ack.Yiaddr p.Config = true)
    (hp : ack.options.data = tlvBytes tlvs) (hnd : (tlvs.map Prod.fst).Nodup)
    (hb : ∀ t ∈ tlvs, t.1 < 256)
    (h54 : (54, sid) ∈ tlvs) (h51 : (51, lt) ∈ tlvs) (hlt : 4 ≤ lt.length)
    (h58 : ∀ pl, (58, pl) ∈ tlvs → 4 ≤ pl.length)
    (h59 : ∀ pl, (59, pl) ∈ tlvs → 4 ≤ pl.length) :
    finalizeOffer env p h ack requestTime = .ok (none,
      { p with Lease := { p.Lease with
          ServerIdentifier := sid, IpAddr := ack.Yiaddr, LeaseDuration := secondsOf lt,
          LeaseInitTime := requestTime,
          T1 := timerOf tlvs 58 (Int.tdiv (secondsOf lt) 2),
          T2 := timerOf tlvs 59 (mulFloat0875 (secondsOf lt)) } }, h, ack) := by
  unfold finalizeOffer
  simp only [huniq, Bool.true_eq_false, decide_False, Bool.false_eq_true, if_false]
  rw [FinalizeOffer_distinct env 0 false p h.world ack requestTime tlvs sid lt huniq hp hnd hb
    h54 h51 hlt h58 h59]

/-- The call `p.FinalizeOffer(&ack, requestTime)` on an ACK whose address is in
use and in which `GetOption` finds a server identifier: the error, the engine
unchanged, and one more packet sent. -/
theorem finalizeOffer_in_use (env : Env) (p : ProcessingEngine) (h : Host) (ack : DHCPPacket)
    (requestTime : Int) (sid : DHCPOption)
    (hbusy : env.IsUniqueIp ack.Yiaddr p.Config = false) (hy : ack.Yiaddr.length = 4)
    (hsid : GetOption ack SERVER_IDENTIFIER = .ok (some sid)) :
    ∃ (h2 : Host) (ack2 : DHCPPacket),
      finalizeOffer env p h ack requestTime = .ok (some .addressInUse, p, h2, ack2) ∧
      h2.calls = h.calls ∧ h2.reads = h.reads ∧
      h2.world.autoPrivateAddr = h.world.autoPrivateAddr ∧
      h2.world.sent = h.world.sent ++
        [((Decline env.growslice env.hardwareAddr (RandomTransactionId h).1 ack).1,
          sid.Data.drop 2)] := by
  obtain ⟨e, ack2, hget, href, hlen⟩ := GetOptionRef_of_GetOption ack SERVER_IDENTIFIER sid hsid
  have hraw : GetDataAsIP4 sid = .ok (sid.Data.drop 2) := by
    unfold GetDataAsIP4 GetRawOptionValue
    rw [if_pos hlen]
  have hfin : ∀ (declineTx : Nat) (sendFails : Bool) (w : World),
      FinalizeOffer env declineTx sendFails p w ack requestTime
        = .ok { err := some .addressInUse, engine := p,
                world := { w with sent := w.sent ++
                  [((Decline env.growslice env.hardwareAddr declineTx ack).1, sid.Data.drop 2)] },
                ack := ack2 } := by
    intro declineTx sendFails w
    have hmt := GetMessageType_Decline env.growslice env.hardwareAddr declineTx ack hy
    unfold FinalizeOffer
    simp only [hbusy, if_true, hget, bind, Run.bind, href, hraw, Send, hmt, pure]
  have htx : ∀ g : Host, (RandomTransactionId g).2.world = g.world ∧
      (RandomTransactionId g).2.calls = g.calls ∧ (RandomTransactionId g).2.reads = g.reads ∧
      (RandomTransactionId g).2.sendErrors = g.sendErrors := by
    intro g
    unfold RandomTransactionId
    split <;> exact ⟨rfl, rfl, rfl, rfl⟩
  unfold finalizeOffer
  simp only [hbusy, decide_True, if_true, hfin]
  cases hs : (RandomTransactionId h).2.sendErrors with
  | nil => exact ⟨_, _, rfl, (htx h).2.1, (htx h).2.2.1, by rw [← (htx h).1], by
      rw [← (htx h).1]⟩
  | cons b rest => exact ⟨_, _, rfl, (htx h).2.1, (htx h).2.2.1, by
      show (RandomTransactionId h).2.world.autoPrivateAddr = _
      rw [(htx h).1], by
      show (RandomTransactionId h).2.world.sent ++ _ = _
      rw [(htx h).1]⟩

theorem updateState_INIT_facts (accepted : Nat × Nat) (p : ProcessingEngine) (h : Host) :
    (updateState accepted p h INIT).1.Lease.State = INIT ∧
    (updateState accepted p h INIT).2.calls = h.calls ∧
    (updateState accepted p h INIT).2.world.sent = h.world.sent ∧
    (updateState accepted p h INIT).2.reads = h.reads :=
  ⟨rfl, rfl, rfl, rfl⟩

/-- C26. Reboot reply handling, for a reply whose option buffer is a sequence
of whole options with pairwise distinct codes and whose message type is `t`.
When the wait ended with an error, or `t` is NAK, `handleRenewResponse` is
`UpdateState(INIT)`: the lease ends in INIT, reset, and no listener is called.
When `t` is ACK, the address passes the probe and the reply carries a server
identifier and a lease time, the lease ends in BOUND with the address and the
lease time of the ACK, every lease-renewed listener has been called exactly
once, in order, and no lease-received listener. When `t` is ACK and the probe
finds the address in use, the lease ends in INIT and no listener is called. -/
theorem handleRenewResponse_cases (env : Env) (accepted : Nat × Nat) (response : DHCPPacket)
    (requestTime : Int) (p : ProcessingEngine) (h : Host) (tlvs : List (Nat × List Nat))
    (t : Nat) (hp : response.options.data = tlvBytes tlvs) (hnd : (tlvs.map Prod.fst).Nodup)
    (hb : ∀ t ∈ tlvs, t.1 < 256) (hmt : GetMessageType response = .ok t) :
    (∀ e, handleRenewResponse env accepted response requestTime (some e) p h
        = .ok (updateState accepted p h INIT)) ∧
    (t = DHCPNAK → handleRenewResponse env accepted response requestTime none p h
        = .ok (updateState accepted p h INIT)) ∧
    ((updateState accepted p h INIT).1.Lease.State = INIT ∧
      (updateState accepted p h INIT).2.calls = h.calls) ∧
    (∀ sid lt, t = DHCPACK → env.IsUniqueIp response.Yiaddr p.Config = true →
      (54, sid) ∈ tlvs → (51, lt) ∈ tlvs → 4 ≤ lt.length →
      (∀ pl, (58, pl) ∈ tlvs → 4 ≤ pl.length) → (∀ pl, (59, pl) ∈ tlvs → 4 ≤ pl.length) →
      ∃ p2 h2, handleRenewResponse env accepted response requestTime none p h = .ok (p2, h2) ∧
        p2.Lease.State = BOUND ∧ p2.Lease.IpAddr = response.Yiaddr ∧
        p2.Lease.ServerIdentifier = sid ∧ p2.Lease.LeaseDuration = secondsOf lt ∧
        p2.Lease.LeaseInitTime = requestTime ∧
        h2.calls = h.calls ++ p.leaseRenewedListeners.map
          (fun f => ⟨true, f, { p2.Lease with State := p.Lease.State }⟩) ∧
        h2.world.sent = h.world.sent) ∧
    (∀ sid, t = DHCPACK → env.IsUniqueIp response.Yiaddr p.Config = false →
      response.Yiaddr.length = 4 → (54, sid) ∈ tlvs →
      ∃ p2 h2, handleRenewResponse env accepted response requestTime none p h = .ok (p2, h2) ∧
        p2.Lease.State = INIT ∧ h2.calls = h.calls ∧
        h2.world.sent = h.world.sent ++
          [((Decline env.growslice env.hardwareAddr (RandomTransactionId h).1 response).1,
            sid)]) := by
  have hnak := IsPacketOfType_distinct tlvs response t DHCPNAK hp hnd hmt
  have hack := IsPacketOfType_distinct tlvs response t DHCPACK hp hnd hmt
  refine ⟨fun e => rfl, ?_, ⟨rfl, rfl⟩, ?_, ?_⟩
  · intro ht
    unfold handleRenewResponse
    rw [hnak, ht]
    rfl
  · intro sid lt ht huniq h54 h51 hlt h58 h59
    obtain ⟨q, hfin, hq⟩ : ∃ q : ProcessingEngine,
        finalizeOffer env p h response requestTime = .ok (none, q, h, response) ∧
        q = { p with Lease := { p.Lease with
          ServerIdentifier := sid, IpAddr := response.Yiaddr, LeaseDuration := secondsOf lt,
          LeaseInitTime := requestTime,
          T1 := timerOf tlvs 58 (Int.tdiv (secondsOf lt) 2),
          T2 := timerOf tlvs 59 (mulFloat0875 (secondsOf lt)) } } :=
      ⟨_, finalizeOffer_distinct env p h response requestTime tlvs sid lt huniq hp hnd hb
        h54 h51 hlt h58 h59, rfl⟩
    have hrun : handleRenewResponse env accepted response requestTime none p h
        = .ok (updateState accepted q (onLeaseRenewed q h) BOUND) := by
      unfold handleRenewResponse
      rw [hnak, ht]
      have e1 : (DHCPACK == DHCPNAK) = false := by decide
      have e2 : (DHCPACK == DHCPACK) = true := by decide
      simp only [e1]
      rw [hack, ht]
      simp only [e2]
      rw [hfin]
    subst hq
    exact ⟨_, _, hrun, rfl, rfl, rfl, rfl, rfl, rfl, rfl⟩
  · intro sid ht hbusy hy h54
    have hsid : GetOption response SERVER_IDENTIFIER = .ok (some (tlvOption (54, sid))) := by
      rw [GetOption_distinct tlvs response SERVER_IDENTIFIER hp hnd hb (by decide)]
      simp only [SERVER_IDENTIFIER]
      rw [find_mem_distinct tlvs 54 sid hnd h54]
      rfl
    obtain ⟨h2, ack2, hfin, hc, _, _, hsent⟩ :=
      finalizeOffer_in_use env p h response requestTime _ hbusy hy hsid
    have hrun : handleRenewResponse env accepted response requestTime none p h
        = .ok (updateState accepted p h2 INIT) := by
      unfold handleRenewResponse
      rw [hnak, ht]
      have e1 : (DHCPACK == DHCPNAK) = false := by decide
      have e2 : (DHCPACK == DHCPACK) = true := by decide
      simp only [e1]
      rw [hack, ht]
      simp only [e2]
      rw [hfin]
    refine ⟨_, _, hrun, rfl, hc, ?_⟩
    show h2.world.sent = _
    rw [hsent]
    rfl

set_option maxRecDepth 100000 in
theorem handleRenewResponse_cases_witness :
    goodAck.options.data = tlvBytes goodAckOptions ∧ GetMessageType goodAck = .ok DHCPACK ∧
    ∃ p2 h2, handleRenewResponse sampleEnv (0, 0) goodAck 1000 none rebootingEngine quietHost
        = .ok (p2, h2) ∧
      p2.Lease.State = BOUND ∧ p2.Lease.IpAddr = [127, 0, 0, 2] ∧
      p2.Lease.LeaseDuration = 200000000000 ∧
      h2.calls.map (fun c => (c.renewed, c.listener)) = [(true, 3)] :=
  have h := (handleRenewResponse_cases sampleEnv (0, 0) goodAck 1000 rebootingEngine quietHost
    goodAckOptions DHCPACK rfl (by decide) (by decide) (by decide)).2.2.2.1
    [127, 0, 0, 1] [0, 0, 0, 200] rfl rfl (by decide) (by decide) (by decide)
    (fun pl h => by simp [goodAckOptions] at h) (fun pl h => by simp [goodAckOptions] at h)
  ⟨rfl, by decide, by
    obtain ⟨p2, h2, h1, hs, hip, _, hld, _, hcalls, _⟩ := h
    refine ⟨p2, h2, h1, hs, hip, ?_, ?_⟩
    · rw [hld]
      decide
    · rw [hcalls]
      rfl⟩

set_option maxRecDepth 100000 in
/-- C28 (divergence). `handleRenewResponse` on an ACK that passes the probe,
with the engine in INIT_REBOOT and one lease-renewed listener: the listener is
called with a lease whose `State` is INIT_REBOOT, and only after the call does
the state become BOUND. -/
theorem handleRenewResponse_listener_before_BOUND :
    ∃ p2 h2, handleRenewResponse sampleEnv (0, 0) goodAck 1000 none rebootingEngine quietHost
        = .ok (p2, h2) ∧
      p2.Lease.State = BOUND ∧
      h2.calls = [⟨true, 3, { p2.Lease with State := INIT_REBOOT }⟩] ∧
      (∀ c ∈ h2.calls, c.lease.State ≠ BOUND) := by
  refine ⟨_, _, rfl, ?_, ?_, ?_⟩
  · decide
  · decide
  · decide

/-! ## What the steps of the engine leave untouched -/

theorem timeNow_frame (h : Host) :
    (timeNow h).2.world = h.world ∧ (timeNow h).2.calls = h.calls ∧
    (timeNow h).2.reads = h.reads ∧ (timeNow h).2.txs = h.txs ∧
    (timeNow h).2.sendErrors = h.sendErrors := by
  unfold timeNow
  split <;> exact ⟨rfl, rfl, rfl, rfl, rfl⟩

theorem RandomTransactionId_frame (h : Host) :
    (RandomTransactionId h).2.world = h.world ∧ (RandomTransactionId h).2.calls = h.calls ∧
    (RandomTransactionId h).2.reads = h.reads ∧
    (RandomTransactionId h).2.sendErrors = h.sendErrors := by
  unfold RandomTransactionId
  split <;> exact ⟨rfl, rfl, rfl, rfl⟩

/-- Sending a packet whose message type can be read: the packet is added to
the log and the next outcome of `WriteToUDP` is the result. -/
theorem clientSend_ok (h : Host) (packet : DHCPPacket) (addr : List Nat) (t : Nat)
    (hmt : GetMessageType packet = .ok t) :
    ∃ h2 : Host, clientSend h packet addr = .ok (h.sendErrors.headD false, h2) ∧
      h2.world.sent = h.world.sent ++ [(packet, addr)] ∧
      h2.world.autoPrivateAddr = h.world.autoPrivateAddr ∧ h2.calls = h.calls ∧
      h2.reads = h.reads ∧ h2.sendErrors = h.sendErrors.tail := by
  unfold clientSend Send
  cases hs : h.sendErrors with
  | nil => simp only [hmt, bind, Run.bind, pure]; exact ⟨_, rfl, rfl, rfl, rfl, rfl, hs⟩
  | cons b rest => simp only [hmt, bind, Run.bind, pure]; exact ⟨_, rfl, rfl, rfl, rfl, rfl, rfl⟩

theorem clientSend_frame (h : Host) (packet : DHCPPacket) (addr : List Nat) (b : Bool)
    (h2 : Host) (hs : clientSend h packet addr = .ok (b, h2)) :
    h2.world.sent = h.world.sent ++ [(packet, addr)] ∧
    h2.world.autoPrivateAddr = h.world.autoPrivateAddr ∧ h2.calls = h.calls ∧
    h2.reads = h.reads := by
  cases hmt : GetMessageType packet with
  | ok t =>
    obtain ⟨h3, e, f1, f2, f3, f4, _⟩ := clientSend_ok h packet addr t hmt
    rw [e] at hs
    cases hs
    exact ⟨f1, f2, f3, f4⟩
  | panic =>
    unfold clientSend Send at hs
    simp only [hmt, bind, Run.bind] at hs
    cases hs
  | outOfFuel =>
    unfold clientSend Send at hs
    simp only [hmt, bind, Run.bind] at hs
    cases hs

theorem readPacket_frame (timeout : Int) (h : Host) (r : DHCPPacket × Option ReadError)
    (h2 : Host) (hr : readPacket timeout h = .ok (r, h2)) :
    h2.world = h.world ∧ h2.calls = h.calls ∧ h2.txs = h.txs ∧
    h2.sendErrors = h.sendErrors ∧ h2.now = h.now ∧ h2.elapsed = h.elapsed := by
  unfold readPacket at hr
  split at hr
  · cases hr
    exact ⟨rfl, rfl, rfl, rfl, rfl, rfl⟩
  · cases hr
  · cases hr

theorem waitForEventLoop_frame (tx : Nat) (timeout : Int) :
    ∀ (fuel : Nat) (h : Host) (r : DHCPPacket × Option ReadError) (h2 : Host),
      waitForEventLoop tx timeout fuel h = .ok (r, h2) →
      h2.world = h.world ∧ h2.calls = h.calls ∧ h2.txs = h.txs ∧
      h2.sendErrors = h.sendErrors ∧ h2.now = h.now ∧ h2.elapsed = h.elapsed := by
  intro fuel
  induction fuel with
  | zero =>
    intro h r h2 hr
    rw [waitForEventLoop] at hr
    cases hr
  | succ fuel ih =>
    intro h r h2 hr
    rw [waitForEventLoop] at hr
    cases hp : readPacket timeout h with
    | ok v =>
      obtain ⟨⟨data, err⟩, h1⟩ := v
      have f := readPacket_frame timeout h _ h1 hp
      rw [hp] at hr
      dsimp only at hr
      cases err with
      | some e =>
        dsimp only at hr
        cases hr
        exact f
      | none =>
        dsimp only at hr
        split at hr
        · have g := ih h1 r h2 hr
          exact ⟨g.1.trans f.1, g.2.1.trans f.2.1, g.2.2.1.trans f.2.2.1,
            g.2.2.2.1.trans f.2.2.2.1, g.2.2.2.2.1.trans f.2.2.2.2.1,
            g.2.2.2.2.2.trans f.2.2.2.2.2⟩
        · cases hr
          exact f
    | panic => rw [hp] at hr; cases hr
    | outOfFuel => rw [hp] at hr; cases hr

theorem WaitForEventUntil_frame (tx : Nat) (timeout : Int) (h : Host)
    (r : DHCPPacket × Option ReadError) (h2 : Host)
    (hr : WaitForEventUntil tx timeout h = .ok (r, h2)) :
    h2.world = h.world ∧ h2.calls = h.calls ∧ h2.txs = h.txs ∧
    h2.sendErrors = h.sendErrors ∧ h2.now = h.now ∧ h2.elapsed = h.elapsed :=
  waitForEventLoop_frame tx timeout _ h r h2 hr

theorem WaitForEvent_frame (tx : Nat) (timeout : Int) (h : Host)
    (r : DHCPPacket × Option ReadError) (h2 : Host)
    (hr : WaitForEvent tx timeout h = .ok (r, h2)) :
    h2.world = h.world ∧ h2.calls = h.calls ∧ h2.txs = h.txs ∧
    h2.sendErrors = h.sendErrors := by
  unfold WaitForEvent at hr
  have f := WaitForEventUntil_frame tx _ _ r h2 hr
  have g := timeNow_frame h
  exact ⟨f.1.trans g.1, f.2.1.trans g.2.1, f.2.2.1.trans g.2.2.2.1,
    f.2.2.2.1.trans g.2.2.2.2⟩

theorem readOffersLoop_frame (tx : Nat) (offerWindowEndMoment : Int) :
    ∀ (fuel : Nat) (offerTimeoutMoment : Int) (offers : List DHCPPacket) (h : Host)
      (result : List DHCPPacket) (h2 : Host),
      readOffersLoop tx offerWindowEndMoment fuel offerTimeoutMoment offers h
        = .ok (result, h2) →
      h2.world = h.world ∧ h2.calls = h.calls ∧ h2.txs = h.txs ∧
      h2.sendErrors = h.sendErrors := by
  intro fuel
  induction fuel with
  | zero =>
    intro otm offers h result h2 hr
    rw [readOffersLoop] at hr
    cases hr
  | succ fuel ih =>
    intro otm offers h result h2 hr
    rw [readOffersLoop] at hr
    have g := timeNow_frame h
    split at hr
    · cases hr
      exact ⟨g.1, g.2.1, g.2.2.2.1, g.2.2.2.2⟩
    · cases hw : WaitForEventUntil tx otm (timeNow h).2 with
      | ok v =>
        obtain ⟨⟨pkt, err⟩, h1⟩ := v
        have f := WaitForEventUntil_frame tx otm _ _ h1 hw
        have fg : h1.world = h.world ∧ h1.calls = h.calls ∧ h1.txs = h.txs ∧
            h1.sendErrors = h.sendErrors :=
          ⟨f.1.trans g.1, f.2.1.trans g.2.1, f.2.2.1.trans g.2.2.2.1,
            f.2.2.2.1.trans g.2.2.2.2⟩
        rw [hw] at hr
        dsimp only at hr
        cases err with
        | some e =>
          dsimp only at hr
          cases hr
          exact fg
        | none =>
          dsimp only at hr
          have g1 := timeNow_frame h1
          split at hr
          · split at hr
            · cases hr
              exact ⟨g1.1.trans fg.1, g1.2.1.trans fg.2.1, g1.2.2.2.1.trans fg.2.2.1,
                g1.2.2.2.2.trans fg.2.2.2⟩
            · have k := ih _ _ _ _ _ hr
              exact ⟨k.1.trans (g1.1.trans fg.1), k.2.1.trans (g1.2.1.trans fg.2.1),
                k.2.2.1.trans (g1.2.2.2.1.trans fg.2.2.1),
                k.2.2.2.trans (g1.2.2.2.2.trans fg.2.2.2)⟩
          · split at hr
            · have k := ih _ _ _ _ _ hr
              exact ⟨k.1.trans fg.1, k.2.1.trans fg.2.1, k.2.2.1.trans fg.2.2.1,
                k.2.2.2.trans fg.2.2.2⟩
            · cases hr
            · cases hr
          · cases hr
          · cases hr
      | panic => rw [hw] at hr; cases hr
      | outOfFuel => rw [hw] at hr; cases hr

theorem readOffers_frame (M : Int) (tx : Nat) (p : ProcessingEngine) (h : Host)
    (result : List DHCPPacket) (h2 : Host) (hr : readOffers M tx p h = .ok (result, h2)) :
    h2.world = h.world ∧ h2.calls = h.calls ∧ h2.txs = h.txs ∧
    h2.sendErrors = h.sendErrors := by
  unfold readOffers at hr
  have k := readOffersLoop_frame tx _ _ _ _ _ _ _ hr
  have g1 := timeNow_frame h
  have g2 := timeNow_frame (timeNow h).2
  exact ⟨k.1.trans (g2.1.trans g1.1), k.2.1.trans (g2.2.1.trans g1.2.1),
    k.2.2.1.trans (g2.2.2.2.1.trans g1.2.2.2.1), k.2.2.2.trans (g2.2.2.2.2.trans g1.2.2.2.2)⟩

/-! ## The discover phase -/

theorem ResetLease_lease (accepted : Nat × Nat) (w w2 : World) (l l2 : DHCPLease)
    (hw : w2.autoPrivateAddr = w.autoPrivateAddr) (hl : l2.Offer = l.Offer) :
    (ResetLease accepted w2 l2).1 = (ResetLease accepted w l).1 := by
  unfold ResetLease
  simp only [hw, hl]

theorem onLeaseAcquisitionFailure_facts (p : ProcessingEngine) :
    (onLeaseAcquisitionFailure p).Lease = p.Lease ∧
    (onLeaseAcquisitionFailure p).Config = p.Config ∧
    (onLeaseAcquisitionFailure p).stopped
      = (p.stopped || p.Config.StopOnLeaseAcquisitionFailure) := by
  unfold onLeaseAcquisitionFailure Stop
  cases hf : p.Config.StopOnLeaseAcquisitionFailure <;> cases hst : p.stopped <;>
    simp [hst]

/-- C24. Acquisition failure: when `Discover` has sent its DISCOVER and
`readOffers` returns no offer, `Discover` ends with the lease reset (state
INIT), has sent the DISCOVER and nothing else, has called no listener, and the
engine is stopped if it was stopped before or `StopOnLeaseAcquisitionFailure`
is set, and otherwise not. -/
theorem Discover_no_offers (env : Env) (accepted : Nat × Nat) (M : Int) (p : ProcessingEngine)
    (h h1 h3 : Host)
    (hs : clientSend (RandomTransactionId h).2
      (DHCPv4.Discover env.growslice p.Config env.hardwareAddr (RandomTransactionId h).1).1
      IPv4bcast = .ok (false, h1))
    (hoffers : readOffers M
      (DHCPv4.Discover env.growslice p.Config env.hardwareAddr (RandomTransactionId h).1).2
      (updateState accepted p h1 SELECTING).1 (updateState accepted p h1 SELECTING).2
      = .ok ([], h3)) :
    ∃ p2 h2, ProcessingEngine.Discover env accepted M p h = .ok (p2, h2) ∧
      p2.Lease.State = INIT ∧ p2.Lease = (ResetLease accepted h.world p.Lease).1 ∧
      h2.world.sent = h.world.sent ++
        [((DHCPv4.Discover env.growslice p.Config env.hardwareAddr
            (RandomTransactionId h).1).1, IPv4bcast)] ∧
      h2.calls = h.calls ∧
      p2.stopped = (p.stopped || p.Config.StopOnLeaseAcquisitionFailure) := by
  have hrun : ProcessingEngine.Discover env accepted M p h
      = .ok (onLeaseAcquisitionFailure
              (updateState accepted (updateState accepted p h1 SELECTING).1 h3 INIT).1,
             (updateState accepted (updateState accepted p h1 SELECTING).1 h3 INIT).2) := by
    unfold ProcessingEngine.Discover
    dsimp only
    rw [hs]
    dsimp only
    rw [hoffers]
    rfl
  have f1 := clientSend_frame _ _ _ _ _ hs
  have f0 := RandomTransactionId_frame h
  have f3 := readOffers_frame _ _ _ _ _ _ hoffers
  have hw3 : h3.world = h1.world := f3.1
  have hc3 : h3.calls = h1.calls := f3.2.1
  have facts := onLeaseAcquisitionFailure_facts
    (updateState accepted (updateState accepted p h1 SELECTING).1 h3 INIT).1
  refine ⟨_, _, hrun, ?_, ?_, ?_, ?_, ?_⟩
  · rw [facts.1]
    rfl
  · rw [facts.1]
    show (ResetLease accepted h3.world _).1 = _
    apply ResetLease_lease
    · rw [hw3, f1.2.1, f0.1]
    · rfl
  · show h3.world.sent = _
    rw [hw3, f1.1, f0.1]
  · show h3.calls = _
    rw [hc3, f1.2.2.1, f0.2.1]
  · rw [facts.2.2]
    rfl

set_option maxRecDepth 100000 in
theorem Discover_no_offers_witness :
    ∃ p2 h2, ProcessingEngine.Discover sampleEnv (0, 0) 10 listeningEngine
        { quietHost with txs := [77] } = .ok (p2, h2) ∧
      p2.Lease.State = INIT ∧ p2.Lease.IpAddr = [169, 254, 7, 9] ∧
      h2.world.sent.map (fun s => s.1.options.data) = [[53, 1, 1]] ∧
      h2.calls = [] ∧ p2.stopped = false := by
  obtain ⟨p2, h2, hrun, hst, hl, hsent, hcalls, hstop⟩ :=
    Discover_no_offers sampleEnv (0, 0) 10 listeningEngine { quietHost with txs := [77] }
      _ _ rfl rfl
  refine ⟨p2, h2, hrun, hst, ?_, ?_, hcalls, ?_⟩
  · rw [hl]
    rfl
  · rw [hsent]
    rfl
  · rw [hstop]
    rfl

/-! ## The REQUEST for an offer -/

/-- What `ProcessOffers` computes from a first offer whose option buffer is a
sequence of whole options with pairwise distinct byte codes, among them a
server identifier: the lookups leave the offer as it is, and the REQUEST has
the `Xid` of the offer and the options requested address, message type and
server identifier. -/
theorem offer_request (growslice : Nat → Nat → Nat) (config : DHCPConfig)
    (hardwareAddr : List Nat) (o : DHCPPacket) (tlvs : List (Nat × List Nat)) (sid : List Nat)
    (hp : o.options.data = tlvBytes tlvs) (hnd : (tlvs.map Prod.fst).Nodup)
    (hb : ∀ t ∈ tlvs, t.1 < 256) (h54 : (54, sid) ∈ tlvs) (hy : o.Yiaddr.length = 4) :
    ∃ (e : Entry) (req : DHCPPacket) (m : List Entry),
      GetOptionRef o SERVER_IDENTIFIER = .ok (some e, o) ∧
      RequestForOffer growslice config hardwareAddr o = .ok (req, o.Xid) ∧
      GetOptionsRun o = .ok (o.options.data ++ o.options.spare, m) ∧
      req.Xid = o.Xid ∧
      req.options.data = tlvBytes [(50, o.Yiaddr), (53, [3]), (54, sid)] ∧
      GetMessageType req = .ok DHCPREQUEST := by
  obtain ⟨found, hget, hfound⟩ := GetOptionRef_distinct tlvs o 54 hp hnd hb (by decide)
  rw [find_mem_distinct tlvs 54 sid hnd h54] at hfound
  have hsid : GetOption o SERVER_IDENTIFIER = .ok (some (tlvOption (54, sid))) := by
    rw [GetOption_distinct tlvs o SERVER_IDENTIFIER hp hnd hb (by decide)]
    simp only [SERVER_IDENTIFIER]
    rw [find_mem_distinct tlvs 54 sid hnd h54]
    rfl
  cases found with
  | none => simp at hfound
  | some e =>
    have hreq : ∃ req, RequestForOffer growslice config hardwareAddr o = .ok (req, o.Xid) ∧
        req.Xid = o.Xid ∧
        req.options.data = tlvBytes [(50, o.Yiaddr), (53, [3]), (54, sid)] := by
      unfold RequestForOffer
      simp only [hsid]
      refine ⟨_, rfl, ?_, ?_⟩
      · simp [AddOption, MarkBroadcastFlag]
      · simp only [AddOption_data]
        simp [MarkBroadcastFlag, DHCPPacket.zero, ByteSlice.empty, NewRequestIpAddrOpt,
          NewMessageTypeOpt, DHCPREQUEST, tlvBytes, tlvOption, hy]
    obtain ⟨req, hr1, hr2, hr3⟩ := hreq
    have hmt : GetMessageType req = .ok DHCPREQUEST := by
      rw [GetMessageType_distinct [(50, o.Yiaddr), (53, [3]), (54, sid)] req hr3 (by simp)
        (by simp)]
      rfl
    exact ⟨e, req, _, hget, hr1, GetOptionsRun_distinct tlvs o hp hnd, hr2, hr3, hmt⟩

theorem Send_sent (sendFails : Bool) (w : World) (packet : DHCPPacket) (addr : List Nat)
    (r : Bool × World) (h : Send sendFails w packet addr = .ok r) :
    r.2.sent = w.sent ++ [(packet, addr)] := by
  unfold Send at h
  simp only [bind, Run.bind, pure] at h
  split at h
  · cases h
    rfl
  · cases h
  · cases h

theorem FinalizeOffer_sent (env : Env) (declineTx : Nat) (sendFails : Bool)
    (p : ProcessingEngine) (w : World) (ack : DHCPPacket) (requestTime : Int) (r : Finalized)
    (h : FinalizeOffer env declineTx sendFails p w ack requestTime = .ok r) :
    ∃ more, r.world.sent = w.sent ++ more := by
  unfold FinalizeOffer at h
  simp only [bind, Run.bind, pure] at h
  repeat (any_goals (split at h))
  all_goals first
    | (cases h; exact ⟨[], (List.append_nil _).symm⟩)
    | (cases h; exact ⟨_, Send_sent _ _ _ _ _ (by assumption)⟩)
    | cases h

theorem finalizeOffer_sent (env : Env) (p : ProcessingEngine) (h : Host) (ack : DHCPPacket)
    (requestTime : Int) (e : Option EngineError) (p2 : ProcessingEngine) (h2 : Host)
    (ack2 : DHCPPacket) (hr : finalizeOffer env p h ack requestTime = .ok (e, p2, h2, ack2)) :
    ∃ more, h2.world.sent = h.world.sent ++ more := by
  unfold finalizeOffer at hr
  dsimp only at hr
  split at hr
  · rename_i r hf
    cases hr
    obtain ⟨more, hm⟩ := FinalizeOffer_sent _ _ _ _ _ _ _ r hf
    refine ⟨more, ?_⟩
    show r.world.sent = _
    rw [hm]
    have f := RandomTransactionId_frame h
    split
    · split <;> simp [f.1]
    · rfl
  · cases hr
  · cases hr

theorem waitForAckEnd_frame (offerPacket ack : DHCPPacket) (p : ProcessingEngine) (h : Host)
    (r : Processed) (hr : waitForAckEnd offerPacket ack p h = .ok r) :
    r.host = h ∧ r.engine = p := by
  unfold waitForAckEnd at hr
  repeat (any_goals (split at hr))
  all_goals first
    | (cases hr; exact ⟨rfl, rfl⟩)
    | cases hr

theorem waitForAck_sent (env : Env) (accepted : Nat × Nat) (offerPacket : DHCPPacket)
    (reqTx : Nat) (requestTime : Int) :
    ∀ (fuel : Nat) (p : ProcessingEngine) (h : Host) (r : Processed),
      waitForAck env accepted offerPacket reqTx requestTime fuel p h = .ok r →
      ∃ more, r.host.world.sent = h.world.sent ++ more := by
  intro fuel
  induction fuel with
  | zero =>
    intro p h r hr
    rw [waitForAck] at hr
    cases hr
  | succ fuel ih =>
    intro p h r hr
    rw [waitForAck] at hr
    cases hw : WaitForEvent reqTx Second h with
    | ok v =>
      obtain ⟨⟨ack, err⟩, h1⟩ := v
      have f := WaitForEvent_frame reqTx Second h _ h1 hw
      rw [hw] at hr
      dsimp only at hr
      cases err with
      | some e =>
        dsimp only at hr
        split at hr <;> (cases hr; exact ⟨[], by simp [f.1]⟩)
      | none =>
        dsimp only at hr
        split at hr
        · split at hr
          · obtain ⟨more, hm⟩ := ih _ _ _ hr
            exact ⟨more, by rw [hm, f.1]⟩
          · cases hr
          · cases hr
        · split at hr
          · split at hr
            · cases hr
              rename_i hfin
              obtain ⟨more, hm⟩ := finalizeOffer_sent _ _ _ _ _ _ _ _ _ hfin
              exact ⟨more, by
                show _ = _
                simp only []
                rw [hm, f.1]⟩
            · rename_i hfin
              obtain ⟨more, hm⟩ := finalizeOffer_sent _ _ _ _ _ _ _ _ _ hfin
              have k := waitForAckEnd_frame _ _ _ _ _ hr
              refine ⟨more, ?_⟩
              rw [k.1]
              show _ = _
              simp only [onLeaseReceived, updateState, UpdateState]
              split <;> simp [hm, f.1, ResetLease]
            · cases hr
            · cases hr
          · have k := waitForAckEnd_frame _ _ _ _ _ hr
            exact ⟨[], by rw [k.1]; simp [f.1]⟩
          · cases hr
          · cases hr
        · cases hr
        · cases hr
    | panic => rw [hw] at hr; cases hr
    | outOfFuel => rw [hw] at hr; cases hr

/-- C25. First offer wins: for every list of offers whose first offer `o` has an
option buffer of whole options with pairwise distinct codes, among them a
server identifier `sid`, a run of `ProcessOffers` that returns has sent, as its
first packet, the REQUEST that `RequestForOffer` builds from `o`, with the
`Xid` of `o`, the requested address `o.Yiaddr` and the server identifier
`sid`, to the broadcast address; and the run is the same whatever the other
offers of the list are. -/
theorem ProcessOffers_first_offer (env : Env) (accepted : Nat × Nat) (o : DHCPPacket)
    (others : List DHCPPacket) (p : ProcessingEngine) (h : Host) (r : Processed)
    (tlvs : List (Nat × List Nat)) (sid : List Nat)
    (hp : o.options.data = tlvBytes tlvs) (hnd : (tlvs.map Prod.fst).Nodup)
    (hb : ∀ t ∈ tlvs, t.1 < 256) (h54 : (54, sid) ∈ tlvs) (hy : o.Yiaddr.length = 4)
    (hrun : ProcessOffers env accepted (o :: others) p h = .ok r) :
    ∃ (req : DHCPPacket) (more : List (DHCPPacket × List Nat)),
      RequestForOffer env.growslice p.Config env.hardwareAddr o = .ok (req, o.Xid) ∧
      req.Xid = o.Xid ∧
      req.options.data = [50, 4] ++ o.Yiaddr ++ [53, 1, 3] ++ (54 :: sid.length :: sid) ∧
      r.host.world.sent = h.world.sent ++ (req, IPv4bcast) :: more ∧
      ∀ others2, ProcessOffers env accepted (o :: others2) p h = .ok r := by
  obtain ⟨e, req, m, hget, hreq, hwalk, hx, hopts, hmt⟩ :=
    offer_request env.growslice p.Config env.hardwareAddr o tlvs sid hp hnd hb h54 hy
  have hopts2 : req.options.data
      = [50, 4] ++ o.Yiaddr ++ [53, 1, 3] ++ (54 :: sid.length :: sid) := by
    rw [hopts]
    simp [tlvBytes, hy]
  obtain ⟨h1, hs, hsent, _, _, _, _⟩ := clientSend_ok (timeNow h).2 req IPv4bcast _ hmt
  have hw : (timeNow h).2.world = h.world := (timeNow_frame h).1
  unfold ProcessOffers at hrun
  simp only [hget, hreq, hwalk, withBuffer_self, hs] at hrun
  cases hb2 : (timeNow h).2.sendErrors.headD false with
  | true =>
    rw [hb2] at hrun
    dsimp only at hrun
    cases hrun
    refine ⟨req, [], hreq, hx, hopts2, ?_, fun _ => ?_⟩
    · show h1.world.sent = _
      rw [hsent, hw]
    · unfold ProcessOffers
      simp only [hget, hreq, hwalk, withBuffer_self, hs, hb2]
  | false =>
    rw [hb2] at hrun
    dsimp only at hrun
    obtain ⟨more, hm⟩ := waitForAck_sent _ _ _ _ _ _ _ _ _ hrun
    refine ⟨req, more, hreq, hx, hopts2, ?_, fun _ => ?_⟩
    · rw [hm]
      show h1.world.sent ++ more = _
      rw [hsent, hw]
      simp
    · unfold ProcessOffers
      simp only [hget, hreq, hwalk, withBuffer_self, hs, hb2]
      exact hrun

set_option maxRecDepth 100000 in
theorem ProcessOffers_first_offer_witness :
    offerPacket.options.data
      = tlvBytes [(53, [2]), (54, [127, 0, 0, 1]), (51, [0, 0, 0, 200])] ∧
    ∃ (r : Processed) (req : DHCPPacket) (more : List (DHCPPacket × List Nat)),
      ProcessOffers sampleEnv (0, 0) [offerPacket, { offerPacket with Yiaddr := [9, 9, 9, 9] }]
        listeningEngine quietHost = .ok r ∧
      req.Xid = 77 ∧
      req.options.data = [50, 4, 127, 0, 0, 2, 53, 1, 3, 54, 4, 127, 0, 0, 1] ∧
      r.host.world.sent = (req, IPv4bcast) :: more := by
  obtain ⟨req, more, _, hx, hopts, hsent, _⟩ :=
    ProcessOffers_first_offer sampleEnv (0, 0) offerPacket
      [{ offerPacket with Yiaddr := [9, 9, 9, 9] }] listeningEngine quietHost _
      [(53, [2]), (54, [127, 0, 0, 1]), (51, [0, 0, 0, 200])] [127, 0, 0, 1]
      rfl (by decide) (by decide) (by decide) rfl rfl
  exact ⟨rfl, _, req, more, rfl, hx, hopts, hsent⟩

/-! ## Waiting without an answer -/

theorem firstWithXid_facts (tx : Nat) : ∀ reads : List ReadResult,
    (∀ r ∈ (firstWithXid tx reads).2, r ∈ reads) ∧
    (((firstWithXid tx reads).1.2 ≠ none) ∨
      ∃ d, ReadResult.datagram d ∈ reads ∧ (firstWithXid tx reads).1 = (received d, none) ∧
        (received d).Xid = tx ∧ (firstWithXid tx reads).2.length < reads.length) := by
  intro reads
  induction reads with
  | nil => exact ⟨fun r hr => hr, Or.inl (by simp [firstWithXid])⟩
  | cons r rest ih =>
    cases r with
    | failure t =>
      exact ⟨fun r hr => List.mem_cons_of_mem _ hr, Or.inl (by simp [firstWithXid])⟩
    | datagram d =>
      rw [firstWithXid]
      by_cases hx : (received d).Xid = tx
      · rw [if_pos hx]
        exact ⟨fun r hr => List.mem_cons_of_mem _ hr,
          Or.inr ⟨d, List.mem_cons_self _ _, rfl, hx, by simp⟩⟩
      · rw [if_neg hx]
        refine ⟨fun r hr => List.mem_cons_of_mem _ (ih.1 r hr), ?_⟩
        rcases ih.2 with h1 | ⟨d2, hd2, e, hx2, hl⟩
        · exact Or.inl h1
        · exact Or.inr ⟨d2, List.mem_cons_of_mem _ hd2, e, hx2, by
            simp only [List.length_cons]; omega⟩

theorem NoReply_wf (tx : Nat) (reads : List ReadResult) (hq : ∀ r ∈ reads, NoReply tx r) :
    ∀ d, ReadResult.datagram d ∈ reads.takeWhile ReadResult.isDatagram →
      WellFormedDatagram d := by
  intro d hd
  exact (hq _ (List.takeWhile_subset _ hd)).1

set_option maxRecDepth 10000 in
/-- The closure `waitForAck` on reads that bring neither ACK nor NAK: it ends
with an error and has changed nothing but the clock and the reads. -/
theorem waitForAck_no_reply (env : Env) (accepted : Nat × Nat) (offerPacket : DHCPPacket)
    (tx : Nat) (requestTime : Int) :
    ∀ (fuel : Nat) (p : ProcessingEngine) (h : Host),
      (∀ r ∈ h.reads, NoReply tx r) → h.reads.length < fuel →
      ∃ (e : EngineError) (h2 : Host),
        waitForAck env accepted offerPacket tx requestTime fuel p h
          = .ok { err := some e, offer := offerPacket, engine := p, host := h2 } ∧
        h2.world = h.world ∧ h2.calls = h.calls ∧ h2.sendErrors = h.sendErrors ∧
        h2.txs = h.txs ∧ ∀ r ∈ h2.reads, NoReply tx r := by
  intro fuel
  induction fuel with
  | zero => intro p h _ hf; omega
  | succ fuel ih =>
    intro p h hq hf
    have g := timeNow_frame h
    have hwait : WaitForEvent tx Second h
        = .ok ((firstWithXid tx h.reads).1,
               { (timeNow h).2 with reads := (firstWithXid tx h.reads).2 }) := by
      unfold WaitForEvent
      dsimp only
      rw [WaitForEventUntil_spec tx _ (timeNow h).2 (by rw [g.2.2.1]; exact NoReply_wf tx _ hq),
        g.2.2.1]
    have facts := firstWithXid_facts tx h.reads
    have hq2 : ∀ r ∈ (firstWithXid tx h.reads).2, NoReply tx r :=
      fun r hr => hq r (facts.1 r hr)
    rw [waitForAck, hwait]
    dsimp only
    rcases facts.2 with herr | ⟨d, hd, e, hx, hl⟩
    · cases he : (firstWithXid tx h.reads).1.2 with
      | none => exact absurd he herr
      | some e =>
        dsimp only
        split
        · exact ⟨_, _, rfl, g.1, g.2.1, g.2.2.2.2, g.2.2.2.1, hq2⟩
        · exact ⟨_, _, rfl, g.1, g.2.1, g.2.2.2.2, g.2.2.2.1, hq2⟩
    · have hnr := hq _ hd
      obtain ⟨t, ht, href, _, htype⟩ := clean_GetMessageType (received d) hnr.1.2
      have hna : (t == DHCPACK) = false := by
        have := (hnr.2 hx).1
        rw [ht] at this
        simpa using this
      have hnn : (t == DHCPNAK) = false := by
        have := (hnr.2 hx).2
        rw [ht] at this
        simpa using this
      have e1 : (firstWithXid tx h.reads).1.1 = received d := by rw [e]
      have e2 : (firstWithXid tx h.reads).1.2 = none := by rw [e]
      rw [e2]
      dsimp only
      rw [e1]
      simp only [htype, bind, Run.bind, pure]
      rw [hna]
      simp only [Bool.false_eq_true, if_false]
      rw [hnn]
      simp only [Bool.not_false, href]
      obtain ⟨e2, h2, hrun, f1, f2, f3, f4, f5⟩ :=
        ih p { (timeNow h).2 with reads := (firstWithXid tx h.reads).2 } hq2
          (by simp only []; omega)
      exact ⟨e2, h2, hrun, f1.trans g.1, f2.trans g.2.1, f3.trans g.2.2.2.2,
        f4.trans g.2.2.2.1, f5⟩

theorem updateState_frame (accepted : Nat × Nat) (p : ProcessingEngine) (h : Host) (s : Nat) :
    (updateState accepted p h s).2.world.sent = h.world.sent ∧
    (updateState accepted p h s).2.calls = h.calls ∧
    (updateState accepted p h s).2.reads = h.reads ∧
    (updateState accepted p h s).2.sendErrors = h.sendErrors ∧
    (updateState accepted p h s).2.txs = h.txs ∧
    (updateState accepted p h s).1.Config = p.Config ∧
    (updateState accepted p h s).1.stopped = p.stopped := by
  unfold updateState UpdateState
  split <;> exact ⟨rfl, rfl, rfl, rfl, rfl, rfl, rfl⟩

/-- One call of `ProcessOffers` on reads that bring neither ACK nor NAK: the
REQUEST for the first offer is sent, nothing else, and the call returns an
error. -/
theorem ProcessOffers_no_reply (env : Env) (accepted : Nat × Nat) (o : DHCPPacket)
    (others : List DHCPPacket) (p : ProcessingEngine) (h : Host)
    (tlvs : List (Nat × List Nat)) (sid : List Nat)
    (hp : o.options.data = tlvBytes tlvs) (hnd : (tlvs.map Prod.fst).Nodup)
    (hb : ∀ t ∈ tlvs, t.1 < 256) (h54 : (54, sid) ∈ tlvs) (hy : o.Yiaddr.length = 4)
    (hq : ∀ r ∈ h.reads, NoReply o.Xid r) :
    ∃ (e : EngineError) (p2 : ProcessingEngine) (h2 : Host) (req : DHCPPacket),
      ProcessOffers env accepted (o :: others) p h
        = .ok { err := some e, offer := o, engine := p2, host := h2 } ∧
      RequestForOffer env.growslice p.Config env.hardwareAddr o = .ok (req, o.Xid) ∧
      h2.world.sent = h.world.sent ++ [(req, IPv4bcast)] ∧ h2.calls = h.calls ∧
      (∀ r ∈ h2.reads, NoReply o.Xid r) ∧ p2.Config = p.Config := by
  obtain ⟨e, req, m, hget, hreq, hwalk, hx, hopts, hmt⟩ :=
    offer_request env.growslice p.Config env.hardwareAddr o tlvs sid hp hnd hb h54 hy
  obtain ⟨h1, hs, hsent, _, hcalls, hreads, _⟩ :=
    clientSend_ok (timeNow h).2 req IPv4bcast _ hmt
  have g := timeNow_frame h
  unfold ProcessOffers
  simp only [hget, hreq, hwalk, withBuffer_self, hs]
  cases hb2 : (timeNow h).2.sendErrors.headD false with
  | true =>
    dsimp only
    refine ⟨_, _, _, req, rfl, rfl, ?_, ?_, ?_, rfl⟩
    · rw [hsent, g.1]
    · rw [hcalls, g.2.1]
    · rw [hreads, g.2.2.1]
      exact hq
  | false =>
    dsimp only
    have u := updateState_frame accepted p h1 REQUESTING
    obtain ⟨e2, h2, hrun, f1, f2, _, _, f5⟩ :=
      waitForAck_no_reply env accepted o o.Xid (timeNow h).1 (h1.reads.length + 1)
        (updateState accepted p h1 REQUESTING).1 (updateState accepted p h1 REQUESTING).2
        (by rw [u.2.2.1, hreads, g.2.2.1]; exact hq) (by rw [u.2.2.1]; omega)
    refine ⟨e2, _, h2, req, hrun, rfl, ?_, ?_, f5, u.2.2.2.2.2.1⟩
    · rw [f1, u.1, hsent, g.1]
    · rw [f2, u.2.1, hcalls, g.2.1]

theorem processOffersLoop_no_reply (env : Env) (accepted : Nat × Nat) (o : DHCPPacket)
    (others : List DHCPPacket) (tlvs : List (Nat × List Nat)) (sid : List Nat)
    (config : DHCPConfig) (req : DHCPPacket)
    (hp : o.options.data = tlvBytes tlvs) (hnd : (tlvs.map Prod.fst).Nodup)
    (hb : ∀ t ∈ tlvs, t.1 < 256) (h54 : (54, sid) ∈ tlvs) (hy : o.Yiaddr.length = 4)
    (hreq : RequestForOffer env.growslice config env.hardwareAddr o = .ok (req, o.Xid)) :
    ∀ (n : Nat) (p : ProcessingEngine) (h : Host), p.Config = config →
      (∀ r ∈ h.reads, NoReply o.Xid r) →
      ∃ (p2 : ProcessingEngine) (h2 : Host),
        processOffersLoop env accepted n (o :: others) p h = .ok (false, p2, h2) ∧
        h2.world.sent = h.world.sent ++ List.replicate n (req, IPv4bcast) ∧
        h2.calls = h.calls ∧ p2.Config = config := by
  intro n
  induction n with
  | zero =>
    intro p h hc _
    exact ⟨p, h, rfl, by simp, rfl, hc⟩
  | succ n ih =>
    intro p h hc hq
    obtain ⟨e, p1, h1, req1, hrun, hreq1, hsent, hcalls, hq1, hc1⟩ :=
      ProcessOffers_no_reply env accepted o others p h tlvs sid hp hnd hb h54 hy hq
    rw [hc, hreq] at hreq1
    cases hreq1
    obtain ⟨p2, h2, hloop, hsent2, hcalls2, hc2⟩ :=
      ih p1 (waitSec p1.Config.RetryRequestSec h1) (hc1.trans hc) hq1
    refine ⟨p2, h2, ?_, ?_, ?_, hc2⟩
    · rw [processOffersLoop]
      simp only [List.isEmpty_cons, Bool.false_eq_true, if_false, hrun, List.tail_cons]
      exact hloop
    · rw [hsent2]
      show h1.world.sent ++ _ = _
      rw [hsent, List.replicate_succ]
      simp
    · rw [hcalls2]
      exact hcalls

/-- The retries on clean replies: in a run of `Discover` that has sent its
DISCOVER, in which `readOffers` returns a list whose first offer `o` has an option buffer
of whole options with distinct codes, among them a server identifier, and in
which the reads that follow bring neither an ACK nor a NAK for the `Xid` of
`o`, exactly three REQUEST packets are sent after the DISCOVER, each the
REQUEST that `RequestForOffer` builds from `o` (with the `Xid` of `o`), the
run ends with the lease in state INIT and no listener has been called. -/
theorem Discover_retry_budget (env : Env) (accepted : Nat × Nat) (M : Int)
    (p : ProcessingEngine) (h h1 h3 : Host) (o : DHCPPacket) (others : List DHCPPacket)
    (tlvs : List (Nat × List Nat)) (sid : List Nat)
    (hs : clientSend (RandomTransactionId h).2
      (DHCPv4.Discover env.growslice p.Config env.hardwareAddr (RandomTransactionId h).1).1
      IPv4bcast = .ok (false, h1))
    (hoffers : readOffers M
      (DHCPv4.Discover env.growslice p.Config env.hardwareAddr (RandomTransactionId h).1).2
      (updateState accepted p h1 SELECTING).1 (updateState accepted p h1 SELECTING).2
      = .ok (o :: others, h3))
    (hp : o.options.data = tlvBytes tlvs) (hnd : (tlvs.map Prod.fst).Nodup)
    (hb : ∀ t ∈ tlvs, t.1 < 256) (h54 : (54, sid) ∈ tlvs) (hy : o.Yiaddr.length = 4)
    (hq : ∀ r ∈ h3.reads, NoReply o.Xid r) :
    ∃ (p2 : ProcessingEngine) (h2 : Host) (req : DHCPPacket),
      ProcessingEngine.Discover env accepted M p h = .ok (p2, h2) ∧
      RequestForOffer env.growslice p.Config env.hardwareAddr o = .ok (req, o.Xid) ∧
      req.Xid = o.Xid ∧
      h2.world.sent = h.world.sent ++
        [((DHCPv4.Discover env.growslice p.Config env.hardwareAddr
            (RandomTransactionId h).1).1, IPv4bcast),
         (req, IPv4bcast), (req, IPv4bcast), (req, IPv4bcast)] ∧
      p2.Lease.State = INIT ∧ h2.calls = h.calls := by
  obtain ⟨e, req, m, hget, hreq, hwalk, hx, hopts, hmt⟩ :=
    offer_request env.growslice p.Config env.hardwareAddr o tlvs sid hp hnd hb h54 hy
  have u := updateState_frame accepted p h1 SELECTING
  obtain ⟨p4, h4, hloop, hsent4, hcalls4, hc4⟩ :=
    processOffersLoop_no_reply env accepted o others tlvs sid p.Config req hp hnd hb h54 hy hreq
      3 (updateState accepted p h1 SELECTING).1 h3 u.2.2.2.2.2.1 hq
  have hrun : ProcessingEngine.Discover env accepted M p h
      = .ok (onLeaseAcquisitionFailure (updateState accepted p4 h4 INIT).1,
             (updateState accepted p4 h4 INIT).2) := by
    unfold ProcessingEngine.Discover
    dsimp only
    rw [hs]
    dsimp only
    rw [hoffers]
    simp only [List.length_cons, Nat.zero_lt_succ, if_true]
    rw [hloop]
  have f1 := clientSend_frame _ _ _ _ _ hs
  have f0 := RandomTransactionId_frame h
  have f3 := readOffers_frame _ _ _ _ _ _ hoffers
  have u4 := updateState_frame accepted p4 h4 INIT
  refine ⟨_, _, req, hrun, hreq, hx, ?_, ?_, ?_⟩
  · rw [u4.1, hsent4, f3.1]
    show h1.world.sent ++ _ = _
    rw [f1.1, f0.1]
    simp [List.replicate]
  · rw [(onLeaseAcquisitionFailure_facts _).1]
    rfl
  · rw [u4.2.1, hcalls4, f3.2.1]
    show h1.calls = _
    rw [f1.2.2.1, f0.2.1]

/-! ## The collection of offers -/

theorem offersAmong_step (tx : Nat) : ∀ reads : List ReadResult,
    ((firstWithXid tx reads).1.2 ≠ none →
      offersAmong tx reads = [] ∧ afterFailure reads = (firstWithXid tx reads).2) ∧
    ((firstWithXid tx reads).1.2 = none →
      offersAmong tx reads
        = (if GetMessageType (firstWithXid tx reads).1.1 = .ok DHCPOFFER
           then [(firstWithXid tx reads).1.1] else []) ++
          offersAmong tx (firstWithXid tx reads).2 ∧
      afterFailure reads = afterFailure (firstWithXid tx reads).2) := by
  intro reads
  induction reads with
  | nil => exact ⟨fun _ => ⟨rfl, rfl⟩, fun h => by simp [firstWithXid] at h⟩
  | cons r rest ih =>
    cases r with
    | failure t => exact ⟨fun _ => ⟨rfl, rfl⟩, fun h => by simp [firstWithXid] at h⟩
    | datagram d =>
      rw [firstWithXid, offersAmong, afterFailure]
      by_cases hx : (received d).Xid = tx
      · rw [if_pos hx]
        refine ⟨fun h => absurd rfl h, fun _ => ⟨?_, rfl⟩⟩
        dsimp only
        by_cases ht : GetMessageType (received d) = .ok DHCPOFFER
        · rw [if_pos ⟨hx, ht⟩, if_pos ht]
          rfl
        · rw [if_neg (fun hc => ht hc.2), if_neg ht]
          rfl
      · rw [if_neg hx, if_neg (fun hc => hx hc.1)]
        exact ih

theorem offersAmong_mem (tx : Nat) : ∀ (reads : List ReadResult) (o : DHCPPacket),
    o ∈ offersAmong tx reads →
      o.Xid = tx ∧ GetMessageType o = .ok DHCPOFFER ∧
      ∃ d, ReadResult.datagram d ∈ reads ∧ o = received d := by
  intro reads
  induction reads with
  | nil => intro o ho; cases ho
  | cons r rest ih =>
    intro o ho
    cases r with
    | failure t => cases ho
    | datagram d =>
      rw [offersAmong] at ho
      split at ho
      · rename_i hc
        rcases List.mem_cons.mp ho with h1 | h1
        · subst h1
          exact ⟨hc.1, hc.2, d, List.mem_cons_self _ _, rfl⟩
        · obtain ⟨a, b, d2, hd2, e⟩ := ih o h1
          exact ⟨a, b, d2, List.mem_cons_of_mem _ hd2, e⟩
      · obtain ⟨a, b, d2, hd2, e⟩ := ih o ho
        exact ⟨a, b, d2, List.mem_cons_of_mem _ hd2, e⟩

set_option maxRecDepth 10000 in
/-- The loop of `readOffers` on a script whose datagrams are well formed: it
returns, and what it has added to the list is a first part of the offers for
`tx` among the reads. -/
theorem readOffersLoop_collects (tx : Nat) (offerWindowEndMoment : Int) :
    ∀ (fuel : Nat) (offerTimeoutMoment : Int) (acc : List DHCPPacket) (h : Host),
      (∀ d, ReadResult.datagram d ∈ h.reads → WellFormedDatagram d) →
      h.reads.length < fuel →
      ∃ (offers : List DHCPPacket) (h2 : Host),
        readOffersLoop tx offerWindowEndMoment fuel offerTimeoutMoment acc h
          = .ok (acc ++ offers, h2) ∧
        offers <+: offersAmong tx h.reads := by
  intro fuel
  induction fuel with
  | zero => intro otm acc h _ hf; omega
  | succ fuel ih =>
    intro otm acc h hwf hf
    have g := timeNow_frame h
    rw [readOffersLoop]
    split
    · exact ⟨[], _, by rw [List.append_nil], List.nil_prefix⟩
    · have hwait : WaitForEventUntil tx otm (timeNow h).2
          = .ok ((firstWithXid tx h.reads).1,
                 { (timeNow h).2 with reads := (firstWithXid tx h.reads).2 }) := by
        rw [WaitForEventUntil_spec tx otm (timeNow h).2 (by
          rw [g.2.2.1]
          intro d hd
          exact hwf d (List.takeWhile_subset _ hd)), g.2.2.1]
      have facts := firstWithXid_facts tx h.reads
      have step := offersAmong_step tx h.reads
      have hwf2 : ∀ d, ReadResult.datagram d ∈ (firstWithXid tx h.reads).2 →
          WellFormedDatagram d := fun d hd => hwf d (facts.1 _ hd)
      rw [hwait]
      dsimp only
      rcases facts.2 with herr | ⟨d, hd, e, hx, hl⟩
      · cases he : (firstWithXid tx h.reads).1.2 with
        | none => exact absurd he herr
        | some e =>
          dsimp only
          exact ⟨[], _, by rw [List.append_nil], List.nil_prefix⟩
      · have e1 : (firstWithXid tx h.reads).1.1 = received d := by rw [e]
        have e2 : (firstWithXid tx h.reads).1.2 = none := by rw [e]
        obtain ⟨t, ht, href, _, htype⟩ := clean_GetMessageType (received d) (hwf d hd).2
        have hstep := (step.2 e2).1
        rw [e1, ht] at hstep
        rw [e2]
        dsimp only
        rw [e1, htype]
        cases hto : (t == DHCPOFFER) with
        | true =>
          have hteq : t = DHCPOFFER := by simpa using hto
          rw [hteq, if_pos rfl] at hstep
          dsimp only
          split
          · exact ⟨[received d], _, rfl, by rw [hstep]; exact List.prefix_append _ _⟩
          · obtain ⟨offers, h2, hrun, hpre⟩ :=
              ih offerWindowEndMoment (acc ++ [received d])
                (timeNow { (timeNow h).2 with reads := (firstWithXid tx h.reads).2 }).2
                (by rw [(timeNow_frame _).2.2.1]; exact hwf2)
                (by rw [(timeNow_frame _).2.2.1]; simp only []; omega)
            rw [(timeNow_frame _).2.2.1] at hpre
            refine ⟨received d :: offers, h2, ?_, ?_⟩
            · rw [hrun]
              simp
            · rw [hstep]
              exact (List.prefix_cons_inj _).mpr hpre
        | false =>
          have hteq : ¬ (Run.ok t : Run Nat) = .ok DHCPOFFER := by
            intro hc
            cases hc
            simp at hto
          rw [if_neg hteq, List.nil_append] at hstep
          dsimp only
          rw [href]
          dsimp only
          obtain ⟨offers, h2, hrun, hpre⟩ :=
            ih otm acc { (timeNow h).2 with reads := (firstWithXid tx h.reads).2 } hwf2
              (by simp only []; omega)
          exact ⟨offers, h2, hrun, by rw [hstep]; exact hpre⟩

theorem timeNow_frozen (h : Host) (he : h.elapsed = []) : timeNow h = (h.now, h) := by
  unfold timeNow
  rw [he]

set_option maxRecDepth 10000 in
/-- The loop of `readOffers` while the clock stands still before both
deadlines: it collects every offer for `tx` among the reads, up to the first
read that fails. -/
theorem readOffersLoop_frozen (tx : Nat) (offerWindowEndMoment : Int) :
    ∀ (fuel : Nat) (offerTimeoutMoment : Int) (acc : List DHCPPacket) (h : Host),
      (∀ d, ReadResult.datagram d ∈ h.reads → WellFormedDatagram d) →
      h.reads.length < fuel → h.elapsed = [] → h.now ≤ offerTimeoutMoment →
      h.now ≤ offerWindowEndMoment →
      readOffersLoop tx offerWindowEndMoment fuel offerTimeoutMoment acc h
        = .ok (acc ++ offersAmong tx h.reads, { h with reads := afterFailure h.reads }) := by
  intro fuel
  induction fuel with
  | zero => intro otm acc h _ hf; omega
  | succ fuel ih =>
    intro otm acc h hwf hf he hotm howe
    rw [readOffersLoop, timeNow_frozen h he]
    dsimp only
    rw [if_neg (by omega)]
    have hwait : WaitForEventUntil tx otm h
        = .ok ((firstWithXid tx h.reads).1, { h with reads := (firstWithXid tx h.reads).2 }) :=
      WaitForEventUntil_spec tx otm h (fun d hd => hwf d (List.takeWhile_subset _ hd))
    have facts := firstWithXid_facts tx h.reads
    have step := offersAmong_step tx h.reads
    have hwf2 : ∀ d, ReadResult.datagram d ∈ (firstWithXid tx h.reads).2 →
        WellFormedDatagram d := fun d hd => hwf d (facts.1 _ hd)
    rw [hwait]
    dsimp only
    rcases facts.2 with herr | ⟨d, hd, e, hx, hl⟩
    · cases he2 : (firstWithXid tx h.reads).1.2 with
      | none => exact absurd he2 herr
      | some e =>
        dsimp only
        rw [(step.1 herr).1, (step.1 herr).2, List.append_nil]
    · have e1 : (firstWithXid tx h.reads).1.1 = received d := by rw [e]
      have e2 : (firstWithXid tx h.reads).1.2 = none := by rw [e]
      obtain ⟨t, ht, href, _, htype⟩ := clean_GetMessageType (received d) (hwf d hd).2
      have hstep := (step.2 e2).1
      have hafter := (step.2 e2).2
      rw [e1, ht] at hstep
      rw [e2]
      dsimp only
      rw [e1, htype]
      have hfro : timeNow { h with reads := (firstWithXid tx h.reads).2 }
          = (h.now, { h with reads := (firstWithXid tx h.reads).2 }) :=
        timeNow_frozen _ he
      cases hto : (t == DHCPOFFER) with
      | true =>
        have hteq : t = DHCPOFFER := by simpa using hto
        rw [hteq, if_pos rfl] at hstep
        dsimp only
        rw [hfro]
        dsimp only
        rw [if_neg (by omega)]
        rw [ih offerWindowEndMoment (acc ++ [received d])
          { h with reads := (firstWithXid tx h.reads).2 } hwf2 (by simp only []; omega) he howe
          howe]
        rw [hstep, hafter]
        simp
      | false =>
        have hteq : ¬ (Run.ok t : Run Nat) = .ok DHCPOFFER := by
          intro hc
          cases hc
          simp at hto
        rw [if_neg hteq, List.nil_append] at hstep
        dsimp only
        rw [href]
        dsimp only
        rw [ih otm acc { h with reads := (firstWithXid tx h.reads).2 } hwf2
          (by simp only []; omega) he hotm howe]
        rw [hstep, hafter]

/-- The collection on clean datagrams: on every script of reads whose
datagrams are well formed, `readOffers(tx)` returns, and its list is a first part of the
packets, in order of arrival, of the datagrams that are a DHCPOFFER with
`Xid = tx`: every packet of the list is one, and a reply of another type or with
another `Xid` is never in it. Such a reply does not end the collection: while
the clock stands before both deadlines, the list holds every DHCPOFFER with
`Xid = tx` that arrives before the first read that fails. -/
theorem readOffers_content (M : Int) (tx : Nat) (p : ProcessingEngine) (h : Host)
    (hwf : ∀ d, ReadResult.datagram d ∈ h.reads → WellFormedDatagram d) :
    ∃ (offers : List DHCPPacket) (h2 : Host),
      readOffers M tx p h = .ok (offers, h2) ∧
      offers <+: offersAmong tx h.reads ∧
      (∀ o ∈ offers, o.Xid = tx ∧ GetMessageType o = .ok DHCPOFFER ∧
        ∃ d, ReadResult.datagram d ∈ h.reads ∧ o = received d) ∧
      (h.elapsed = [] → 0 ≤ wrapInt64 (Second * M) →
        0 ≤ wrapInt64 (Second * p.Config.OfferWindowSec) →
        offers = offersAmong tx h.reads ∧ h2 = { h with reads := afterFailure h.reads }) := by
  have g1 := timeNow_frame h
  have g2 := timeNow_frame (timeNow h).2
  have hr : (timeNow (timeNow h).2).2.reads = h.reads := g2.2.2.1.trans g1.2.2.1
  obtain ⟨offers, h2, hrun, hpre⟩ :=
    readOffersLoop_collects tx
      ((timeNow (timeNow h).2).1 + wrapInt64 (Second * p.Config.OfferWindowSec))
      ((timeNow (timeNow h).2).2.reads.length + 1)
      ((timeNow h).1 + wrapInt64 (Second * M)) [] (timeNow (timeNow h).2).2
      (by rw [hr]; exact hwf) (by omega)
  rw [hr] at hpre hrun
  rw [List.nil_append] at hrun
  have hrun2 : readOffers M tx p h = .ok (offers, h2) := by
    unfold readOffers
    dsimp only
    rw [hr]
    exact hrun
  refine ⟨offers, h2, hrun2, hpre, ?_, ?_⟩
  · intro o ho
    exact offersAmong_mem tx h.reads o (hpre.subset ho)
  · intro he h1 h2w
    have hfz := readOffersLoop_frozen tx (h.now + wrapInt64 (Second * p.Config.OfferWindowSec))
      (h.reads.length + 1) (h.now + wrapInt64 (Second * M)) [] h hwf (by omega) he (by omega)
      (by omega)
    rw [List.nil_append] at hfz
    have hrun3 : readOffers M tx p h
        = .ok (offersAmong tx h.reads, { h with reads := afterFailure h.reads }) := by
      unfold readOffers
      simp only [timeNow_frozen h he]
      exact hfz
    rw [hrun3] at hrun2
    cases hrun2
    exact ⟨rfl, rfl⟩

set_option maxRecDepth 100000 in
theorem readOffers_content_witness :
    ∃ (offers : List DHCPPacket) (h2 : Host),
      readOffers 10 77 listeningEngine
        { quietHost with
          reads := [.datagram (offerDatagram 5), .datagram (offerDatagram 77),
                    .datagram (ackDatagram 77), .datagram (offerDatagram 77)] }
        = .ok (offers, h2) ∧
      offers = [offerPacket, offerPacket] ∧ h2.reads = [] := by
  have hwf : ∀ d, ReadResult.datagram d ∈
      [ReadResult.datagram (offerDatagram 5), .datagram (offerDatagram 77),
       .datagram (ackDatagram 77), .datagram (offerDatagram 77)] → WellFormedDatagram d := by
    intro d hd
    simp only [List.mem_cons, ReadResult.datagram.injEq, List.mem_singleton,
      List.not_mem_nil, or_false] at hd
    rcases hd with hd | hd | hd | hd <;> subst hd
    · exact (wellFormed_offerDatagram 5 (by decide)).1
    · exact (wellFormed_offerDatagram 77 (by decide)).1
    · exact (wellFormed_ackDatagram 77 (by decide)).1
    · exact (wellFormed_offerDatagram 77 (by decide)).1
  obtain ⟨offers, h2, hrun, _, _, hall⟩ :=
    readOffers_content 10 77 listeningEngine
      { quietHost with
        reads := [.datagram (offerDatagram 5), .datagram (offerDatagram 77),
                  .datagram (ackDatagram 77), .datagram (offerDatagram 77)] } hwf
  obtain ⟨ho, hh⟩ := hall rfl (by decide) (by decide)
  refine ⟨offers, h2, hrun, ?_, ?_⟩
  · rw [ho]
    simp only [offersAmong, (wellFormed_offerDatagram 5 (by decide)).2,
      (wellFormed_offerDatagram 77 (by decide)).2, (wellFormed_ackDatagram 77 (by decide)).2]
    decide
  · rw [hh]
    rfl

theorem readOffers_frozen (M : Int) (tx : Nat) (p : ProcessingEngine) (h : Host)
    (hwf : ∀ d, ReadResult.datagram d ∈ h.reads → WellFormedDatagram d)
    (he : h.elapsed = []) (h1 : 0 ≤ wrapInt64 (Second * M))
    (h2 : 0 ≤ wrapInt64 (Second * p.Config.OfferWindowSec)) :
    readOffers M tx p h
      = .ok (offersAmong tx h.reads, { h with reads := afterFailure h.reads }) := by
  have hfz := readOffersLoop_frozen tx (h.now + wrapInt64 (Second * p.Config.OfferWindowSec))
    (h.reads.length + 1) (h.now + wrapInt64 (Second * M)) [] h hwf (by omega) he (by omega)
    (by omega)
  rw [List.nil_append] at hfz
  unfold readOffers
  simp only [timeNow_frozen h he]
  exact hfz

set_option maxRecDepth 100000 in
theorem Discover_retry_budget_witness :
    ∃ (p2 : ProcessingEngine) (h2 : Host) (req : DHCPPacket),
      ProcessingEngine.Discover sampleEnv (0, 0) 10 listeningEngine
        { quietHost with txs := [77], reads := [.datagram (offerDatagram 77)] } = .ok (p2, h2) ∧
      req.Xid = 77 ∧
      req.options.data = [50, 4, 127, 0, 0, 2, 53, 1, 3, 54, 4, 127, 0, 0, 1] ∧
      h2.world.sent.map (fun s => s.1.options.data)
        = [[53, 1, 1], req.options.data, req.options.data, req.options.data] ∧
      p2.Lease.State = INIT ∧ h2.calls = [] := by
  obtain ⟨h1, hs, hr1, he1⟩ : ∃ h1 : Host,
      clientSend (RandomTransactionId
          { quietHost with txs := [77], reads := [.datagram (offerDatagram 77)] }).2
        (DHCPv4.Discover sampleEnv.growslice listeningEngine.Config sampleEnv.hardwareAddr
          (RandomTransactionId
            { quietHost with txs := [77], reads := [.datagram (offerDatagram 77)] }).1).1
        IPv4bcast = .ok (false, h1) ∧
      h1.reads = [.datagram (offerDatagram 77)] ∧ h1.elapsed = [] :=
    ⟨_, rfl, rfl, rfl⟩
  have hwf : ∀ d, ReadResult.datagram d ∈ (updateState (0, 0) listeningEngine h1 SELECTING).2.reads →
      WellFormedDatagram d := by
    intro d hd
    rw [(updateState_frame _ _ _ _).2.2.1, hr1] at hd
    simp only [List.mem_singleton, ReadResult.datagram.injEq] at hd
    subst hd
    exact (wellFormed_offerDatagram 77 (by decide)).1
  have hoff := readOffers_frozen 10
    (DHCPv4.Discover sampleEnv.growslice listeningEngine.Config sampleEnv.hardwareAddr
      (RandomTransactionId
        { quietHost with txs := [77], reads := [.datagram (offerDatagram 77)] }).1).2
    (updateState (0, 0) listeningEngine h1 SELECTING).1
    (updateState (0, 0) listeningEngine h1 SELECTING).2 hwf he1 (by decide)
    (by show 0 ≤ wrapInt64 (Second * listeningEngine.Config.OfferWindowSec); decide)
  have hlist : offersAmong
      (DHCPv4.Discover sampleEnv.growslice listeningEngine.Config sampleEnv.hardwareAddr
        (RandomTransactionId
          { quietHost with txs := [77], reads := [.datagram (offerDatagram 77)] }).1).2
      (updateState (0, 0) listeningEngine h1 SELECTING).2.reads = offerPacket :: [] := by
    rw [(updateState_frame _ _ _ _).2.2.1, hr1]
    simp only [offersAmong, (wellFormed_offerDatagram 77 (by decide)).2]
    decide
  rw [hlist] at hoff
  obtain ⟨p2, h2, req, hrun, hreq, hx, hsent, hst, hcalls⟩ :=
    Discover_retry_budget sampleEnv (0, 0) 10 listeningEngine
      { quietHost with txs := [77], reads := [.datagram (offerDatagram 77)] } h1 _ offerPacket []
      [(53, [2]), (54, [127, 0, 0, 1]), (51, [0, 0, 0, 200])] [127, 0, 0, 1] hs hoff rfl
      (by decide) (by decide) (by decide) rfl
      (by
        intro r hr
        rw [(updateState_frame _ _ _ _).2.2.1, hr1] at hr
        cases hr)
  have hreq2 : req.options.data = [50, 4, 127, 0, 0, 2, 53, 1, 3, 54, 4, 127, 0, 0, 1] := by
    have : RequestForOffer sampleEnv.growslice listeningEngine.Config sampleEnv.hardwareAddr
        offerPacket = .ok (req, offerPacket.Xid) := hreq
    have h2 : RequestForOffer sampleEnv.growslice listeningEngine.Config sampleEnv.hardwareAddr
        offerPacket = .ok ((AddOption sampleEnv.growslice _ _), 77) := rfl
    rw [h2] at this
    cases this
    decide
  refine ⟨p2, h2, req, hrun, hx, hreq2, ?_, hst, hcalls⟩
  rw [hsent]
  rfl

/-! ## The end of a lease -/

set_option maxRecDepth 100000 in
/-- C27 (divergence). A lease of 200 s acquired at the instant 0, the clock at
199.5 s, no reply to the REQUEST of the rebind phase: `RenewOrRebindLease`
returns when the lease has expired (the clock shows 200.5 s) with the engine
not stopped, and the lease is still in state REBINDING with its expired
address, not in INIT. -/
theorem RenewOrRebindLease_expired_not_INIT :
    ∃ p h, RenewOrRebindLease sampleEnv (0, 0) 5 expiringEngine expiringHost = .ok (p, h) ∧
      GetLeaseExpirationMoment expiringEngine.Lease = 200000000000 ∧ h.now = 200500000000 ∧
      h.reads = [] ∧ p.stopped = false ∧
      p.Lease.State = REBINDING ∧ p.Lease.State ≠ INIT ∧ p.Lease.IpAddr = [127, 0, 0, 2] ∧
      h.world.sent.map (fun s => s.1.options.data) = [[53, 1, 3]] := by
  refine ⟨_, _, rfl, ?_, ?_, ?_, ?_, ?_, ?_, ?_, ?_⟩
  · decide
  · decide
  · decide
  · decide
  · decide
  · decide
  · decide
  · decide

/-! ## Link-local addresses -/

/-- C31. APIPA candidate range: for every pair of random draws `r1`, `r2`
(`rand.Int()` is never negative), `generatePrivateIp` is what
`net.IPv4(169, 254, x, y).To4()` is for `x = r1 % 254 + 1` and
`y = r2 % 253 + 1`, the four bytes `169, 254, x, y` with `1 ≤ x ≤ 254` and
`1 ≤ y ≤ 253` (no byte wraps), and `IsApipaAddr` of the result is true. -/
theorem generatePrivateIp_range (r1 r2 : Nat) :
    generatePrivateIp r1 r2 = To4 (IPv4 169 254 (r1 % 254 + 1) (r2 % 253 + 1)) ∧
    generatePrivateIp r1 r2 = [169, 254, r1 % 254 + 1, r2 % 253 + 1] ∧
    (generatePrivateIp r1 r2).length = 4 ∧
    1 ≤ r1 % 254 + 1 ∧ r1 % 254 + 1 ≤ 254 ∧ 1 ≤ r2 % 253 + 1 ∧ r2 % 253 + 1 ≤ 253 ∧
    IsApipaAddr (generatePrivateIp r1 r2) = true := by
  have h1 : r1 % 254 < 254 := Nat.mod_lt _ (by decide)
  have h2 : r2 % 253 < 253 := Nat.mod_lt _ (by decide)
  have e1 : ((r1 % 254) % 256 + 1) % 256 = r1 % 254 + 1 := by omega
  have e2 : ((r2 % 253) % 256 + 1) % 256 = r2 % 253 + 1 := by omega
  have e : generatePrivateIp r1 r2 = [169, 254, r1 % 254 + 1, r2 % 253 + 1] := by
    unfold generatePrivateIp
    rw [e1, e2]
  refine ⟨?_, e, ?_, by omega, by omega, by omega, by omega, ?_⟩
  · rw [e]
    rfl
  · rw [e]
    rfl
  · rw [e]
    rfl

/-! ## The typed accessors of an option -/

/-- C32 (as the code has it). No accessor looks at the length of the payload.
For an option with the bytes `c, l` and then `payload`: `GetDataAsIP4` returns
the payload whatever its length is; `GetDataAsUint` and `GetDataAsSecDuration`
panic on a payload of fewer than four bytes and otherwise return the big-endian
value of its first four bytes, as it is and as that many seconds. -/
theorem accessors_without_length_check (c l : Nat) (payload : List Nat) (id : String)
    (hb : allBytes payload) :
    GetDataAsIP4 ⟨c :: l :: payload, id⟩ = .ok payload ∧
    (payload.length < 4 →
      GetDataAsUint ⟨c :: l :: payload, id⟩ = .panic ∧
      GetDataAsSecDuration ⟨c :: l :: payload, id⟩ = .panic) ∧
    (4 ≤ payload.length →
      GetDataAsUint ⟨c :: l :: payload, id⟩
        = .ok (payload.getD 0 0 * 2 ^ 24 + payload.getD 1 0 * 2 ^ 16 + payload.getD 2 0 * 2 ^ 8
            + payload.getD 3 0) ∧
      GetDataAsSecDuration ⟨c :: l :: payload, id⟩
        = .ok (((payload.getD 0 0 * 2 ^ 24 + payload.getD 1 0 * 2 ^ 16 + payload.getD 2 0 * 2 ^ 8
            + payload.getD 3 0 : Nat) : Int) * 10 ^ 9)) := by
  have hraw : GetRawOptionValue ⟨c :: l :: payload, id⟩ = .ok payload := by
    simp [GetRawOptionValue]
  refine ⟨hraw, ?_, ?_⟩
  · intro hlt
    have hlt2 : ¬ 4 ≤ payload.length := by omega
    simp only [GetDataAsUint, GetDataAsSecDuration, hraw, bigEndianUint32, hlt2, if_false,
      and_self]
  · intro hge
    have hbyte : ∀ i, payload.getD i 0 < 256 := fun i => allBytes_getD payload i hb
    have hv := bigEndian_bytes (payload.getD 0 0) (payload.getD 1 0) (payload.getD 2 0)
      (payload.getD 3 0) (hbyte 0) (hbyte 1) (hbyte 2) (hbyte 3)
    have h0 := hbyte 0
    have h1 := hbyte 1
    have h2 := hbyte 2
    have h3 := hbyte 3
    refine ⟨?_, ?_⟩
    · simp only [GetDataAsUint, hraw, bigEndianUint32, hge, if_true, hv]
    · simp only [GetDataAsSecDuration, hraw, bigEndianUint32, hge, if_true, hv]
      rw [wrapInt64_of_range]
      · rfl
      · exact Int.mul_nonneg (Int.ofNat_nonneg _) (by decide)
      · have hlt : payload.getD 0 0 * 2 ^ 24 + payload.getD 1 0 * 2 ^ 16
            + payload.getD 2 0 * 2 ^ 8 + payload.getD 3 0 < 2 ^ 32 := by omega
        have hS : Second = 1000000000 := rfl
        rw [hS]
        omega

theorem accessors_without_length_check_witness :
    GetDataAsIP4 ⟨[54, 4, 127, 0, 0, 1], "SERVER_IDENTIFIER"⟩ = .ok [127, 0, 0, 1] ∧
    GetDataAsUint ⟨[51, 4, 0, 0, 1, 44], "IP_ADDR_LEASE_TIME"⟩ = .ok 300 ∧
    GetDataAsSecDuration ⟨[51, 4, 0, 0, 1, 44], "IP_ADDR_LEASE_TIME"⟩ = .ok 300000000000 ∧
    GetDataAsUint ⟨[51, 3, 0, 1, 44], "IP_ADDR_LEASE_TIME"⟩ = .panic :=
  ⟨(accessors_without_length_check 54 4 [127, 0, 0, 1] "SERVER_IDENTIFIER" (by decide)).1,
   ((accessors_without_length_check 51 4 [0, 0, 1, 44] "IP_ADDR_LEASE_TIME" (by decide)).2.2
      (by decide)).1,
   ((accessors_without_length_check 51 4 [0, 0, 1, 44] "IP_ADDR_LEASE_TIME" (by decide)).2.2
      (by decide)).2,
   ((accessors_without_length_check 51 3 [0, 1, 44] "IP_ADDR_LEASE_TIME" (by decide)).2.1
      (by decide)).1⟩

/-- C32 (counterexample). On a payload of five bytes every accessor returns a
value: `GetDataAsIP4` the five bytes, `GetDataAsUint` and
`GetDataAsSecDuration` the value of the first four; and on a payload of two
bytes `GetDataAsIP4` returns the two bytes. -/
theorem accessors_accept_other_lengths :
    GetDataAsIP4 ⟨[54, 5, 1, 2, 3, 4, 5], "SERVER_IDENTIFIER"⟩ = .ok [1, 2, 3, 4, 5] ∧
    GetDataAsUint ⟨[51, 5, 0, 0, 1, 44, 9], "IP_ADDR_LEASE_TIME"⟩ = .ok 300 ∧
    GetDataAsSecDuration ⟨[51, 5, 0, 0, 1, 44, 9], "IP_ADDR_LEASE_TIME"⟩ = .ok 300000000000 ∧
    GetDataAsIP4 ⟨[54, 2, 1, 2], "SERVER_IDENTIFIER"⟩ = .ok [1, 2] := by
  decide

/-! ## The list of addresses of an option -/

theorem parseDnsLoop_spec (arr : List Nat) (n : Nat) :
    ∀ (fuel j : Nat) (res : List (List Nat)), j ≤ (n + 3) / 4 → (n + 3) / 4 - j ≤ fuel →
      parseDnsLoop arr n fuel (4 * j) res
        = if j < (n + 3) / 4 ∧ arr.length < 4 * ((n + 3) / 4) then .panic
          else .ok (res ++ (List.range' j ((n + 3) / 4 - j)).map
            (fun k => (arr.drop (4 * k)).take 4)) := by
  intro fuel
  induction fuel with
  | zero =>
    intro j res hj hf
    have hjK : j = (n + 3) / 4 := by omega
    have h1 : ¬ 4 * j < n := by omega
    have h2 : ¬ (j < (n + 3) / 4 ∧ arr.length < 4 * ((n + 3) / 4)) := by omega
    rw [parseDnsLoop, if_neg h1, if_neg h2]
    have e : (n + 3) / 4 - j = 0 := by omega
    rw [e]
    simp
  | succ fuel ih =>
    intro j res hj hf
    rw [parseDnsLoop]
    by_cases hlt : j < (n + 3) / 4
    · have h1 : 4 * j < n := by omega
      rw [if_pos h1]
      by_cases hroom : 4 * j + 4 ≤ arr.length
      · rw [if_pos hroom]
        have e4 : 4 * j + 4 = 4 * (j + 1) := by ring
        rw [e4, ih (j + 1) _ (by omega) (by omega)]
        have hsplit : List.range' j ((n + 3) / 4 - j)
            = j :: List.range' (j + 1) ((n + 3) / 4 - (j + 1)) := by
          have e5 : (n + 3) / 4 - j = ((n + 3) / 4 - (j + 1)) + 1 := by omega
          rw [e5, List.range'_succ]
        by_cases hcap : arr.length < 4 * ((n + 3) / 4)
        · have c1 : j + 1 < (n + 3) / 4 ∧ arr.length < 4 * ((n + 3) / 4) := by
            constructor
            · omega
            · exact hcap
          rw [if_pos c1, if_pos ⟨hlt, hcap⟩]
        · have c1 : ¬ (j + 1 < (n + 3) / 4 ∧ arr.length < 4 * ((n + 3) / 4)) := by
            intro h
            exact hcap h.2
          have c2 : ¬ (j < (n + 3) / 4 ∧ arr.length < 4 * ((n + 3) / 4)) := by
            intro h
            exact hcap h.2
          rw [if_neg c1, if_neg c2, hsplit]
          simp
      · rw [if_neg hroom]
        have c1 : j < (n + 3) / 4 ∧ arr.length < 4 * ((n + 3) / 4) := by
          constructor
          · exact hlt
          · omega
        rw [if_pos c1]
    · have hjK : j = (n + 3) / 4 := by omega
      have h1 : ¬ 4 * j < n := by omega
      have h2 : ¬ (j < (n + 3) / 4 ∧ arr.length < 4 * ((n + 3) / 4)) := by omega
      rw [if_neg h1, if_neg h2]
      have e : (n + 3) / 4 - j = 0 := by omega
      rw [e]
      simp

theorem DnsParser_spec (c l : Nat) (payload spare : List Nat) (id : String) :
    DnsParser ⟨c :: l :: payload, id⟩ spare
      = if 0 < payload.length ∧ payload.length + spare.length < 4 * ((payload.length + 3) / 4)
        then .panic
        else .ok ((List.range ((payload.length + 3) / 4)).map
          (fun k => ((payload ++ spare).drop (4 * k)).take 4)) := by
  unfold DnsParser
  have h1 : ¬ (c :: l :: payload).length < 2 := by simp
  rw [if_neg h1]
  have e1 : (c :: l :: payload).length - 2 = payload.length := by simp
  have e2 : (c :: l :: payload).drop 2 = payload := rfl
  rw [e1, e2]
  have h := parseDnsLoop_spec (payload ++ spare) payload.length payload.length 0 []
    (by omega) (by omega)
  rw [Nat.mul_zero] at h
  rw [h]
  have e3 : (0 < (payload.length + 3) / 4 ∧
      (payload ++ spare).length < 4 * ((payload.length + 3) / 4))
      ↔ (0 < payload.length ∧
        payload.length + spare.length < 4 * ((payload.length + 3) / 4)) := by
    rw [List.length_append]
    constructor
    · intro ⟨a, b⟩
      exact ⟨by omega, b⟩
    · intro ⟨a, b⟩
      exact ⟨by omega, b⟩
  simp only [e3, Nat.sub_zero, List.nil_append, List.range_eq_range']

/-- C33 (as the code has it). For an option with the bytes `c, l` and then
`payload`, whose slice has the bytes `spare` of the buffer behind it:
on a payload of `4k` bytes, `k ≥ 0`, `DnsParser` returns the `k` addresses of
the payload in order, the empty list for the empty payload; on a payload whose
length is no multiple of four it panics when fewer bytes than the last address
needs lie behind the payload, and otherwise returns one address more than the
payload has whole ones, completed with the bytes that follow the payload in the
buffer. -/
theorem DnsParser_without_length_check (c l : Nat) (payload spare : List Nat) (id : String) :
    (payload.length % 4 = 0 →
      DnsParser ⟨c :: l :: payload, id⟩ spare = .ok (addressesOf payload) ∧
      (addressesOf payload).length = payload.length / 4 ∧
      ∀ j, j < payload.length / 4 →
        (addressesOf payload).getD j [] = (payload.drop (4 * j)).take 4) ∧
    (payload.length % 4 ≠ 0 → spare.length < 4 - payload.length % 4 →
      DnsParser ⟨c :: l :: payload, id⟩ spare = .panic) ∧
    (payload.length % 4 ≠ 0 → 4 - payload.length % 4 ≤ spare.length →
      DnsParser ⟨c :: l :: payload, id⟩ spare
        = .ok (addressesOf (payload.take (4 * (payload.length / 4))) ++
            [payload.drop (4 * (payload.length / 4)) ++
              spare.take (4 - payload.length % 4)])) := by
  refine ⟨?_, ?_, ?_⟩
  · intro hm
    have hK : (payload.length + 3) / 4 = payload.length / 4 := by omega
    have hno : ¬ (0 < payload.length ∧
        payload.length + spare.length < 4 * ((payload.length + 3) / 4)) := by omega
    refine ⟨?_, ?_, ?_⟩
    · rw [DnsParser_spec, if_neg hno, hK]
      unfold addressesOf
      congr 1
      apply List.map_congr_left
      intro k hk
      have hk2 : k < payload.length / 4 := List.mem_range.mp hk
      rw [List.drop_append_of_le_length (by omega), List.take_append_of_le_length]
      rw [List.length_drop]
      omega
    · simp [addressesOf]
    · intro j hj
      unfold addressesOf
      rw [List.getD_eq_getElem?_getD, List.getElem?_map, List.getElem?_range hj]
      rfl
  · intro hm hs
    have hyes : 0 < payload.length ∧
        payload.length + spare.length < 4 * ((payload.length + 3) / 4) := by omega
    rw [DnsParser_spec, if_pos hyes]
  · intro hm hs
    have hno : ¬ (0 < payload.length ∧
        payload.length + spare.length < 4 * ((payload.length + 3) / 4)) := by omega
    have hK : (payload.length + 3) / 4 = payload.length / 4 + 1 := by omega
    rw [DnsParser_spec, if_neg hno, hK, List.range_succ, List.map_append]
    have eA : (List.range (payload.length / 4)).map
          (fun k => ((payload ++ spare).drop (4 * k)).take 4)
        = addressesOf (payload.take (4 * (payload.length / 4))) := by
      unfold addressesOf
      have hl : (payload.take (4 * (payload.length / 4))).length / 4 = payload.length / 4 := by
        rw [List.length_take]
        omega
      rw [hl]
      apply List.map_congr_left
      intro k hk
      have hk2 : k < payload.length / 4 := List.mem_range.mp hk
      rw [List.drop_append_of_le_length (by omega), List.take_append_of_le_length]
      · rw [List.drop_take]
        have e : 4 * (payload.length / 4) - 4 * k
            = 4 + (4 * (payload.length / 4) - 4 * k - 4) := by
          omega
        rw [e, List.take_take]
        simp
      · rw [List.length_drop]
        omega
    have eB : [payload.length / 4].map (fun k => ((payload ++ spare).drop (4 * k)).take 4)
        = [payload.drop (4 * (payload.length / 4)) ++ spare.take (4 - payload.length % 4)] := by
      simp only [List.map_cons, List.map_nil, List.cons.injEq, and_true]
      rw [List.drop_append_of_le_length (by omega), List.take_append_eq_append_take]
      rw [List.take_of_length_le (by rw [List.length_drop]; omega)]
      congr 2
      rw [List.length_drop]
      omega
    rw [eA, eB]

theorem DnsParser_without_length_check_witness :
    DnsParser ⟨[6, 8, 8, 8, 8, 8, 8, 8, 4, 4], "DOMAIN_NAME_SERVER_OPT"⟩ [255, 0, 0]
      = .ok [[8, 8, 8, 8], [8, 8, 4, 4]] ∧
    DnsParser ⟨[6, 5, 1, 2, 3, 4, 5], "DOMAIN_NAME_SERVER_OPT"⟩ [255, 0] = .panic :=
  ⟨((DnsParser_without_length_check 6 8 [8, 8, 8, 8, 8, 8, 4, 4] [255, 0, 0]
      "DOMAIN_NAME_SERVER_OPT").1 (by decide)).1,
   (DnsParser_without_length_check 6 5 [1, 2, 3, 4, 5] [255, 0]
      "DOMAIN_NAME_SERVER_OPT").2.1 (by decide) (by decide)⟩

/-- C33 (counterexample). On the empty payload `DnsParser` returns the empty
list, and on a payload of five bytes that is followed in the buffer by the
option `53, 1, 5` it returns two addresses, the second of which is the fifth
byte of the payload and the three bytes of the next option. -/
theorem DnsParser_reads_past_payload :
    DnsParser ⟨[6, 0], "DOMAIN_NAME_SERVER_OPT"⟩ [255, 0, 0] = .ok [] ∧
    DnsParser ⟨[6, 5, 1, 2, 3, 4, 5], "DOMAIN_NAME_SERVER_OPT"⟩ [53, 1, 5, 255, 0, 0]
      = .ok [[1, 2, 3, 4], [5, 53, 1, 5]] := by
  decide

/-! ## Options as text -/

set_option maxRecDepth 1000000 in
theorem jsonEscape_decimal :
    ∀ a, a < 256 → (toString a).data.flatMap jsonEscape = (toString a).data := by
  decide

theorem jsonString_dottedQuad (a b c d : Nat) (ha : a < 256) (hb : b < 256) (hc : c < 256)
    (hd : d < 256) :
    jsonString (dottedQuad [a, b, c, d])
      = "\"" ++ toString a ++ "." ++ toString b ++ "." ++ toString c ++ "." ++ toString d
        ++ "\"" := by
  unfold jsonString dottedQuad
  apply String.ext
  simp only [String.data_append, List.flatMap_append, List.getD_cons_zero, List.getD_cons_succ,
    jsonEscape_decimal a ha, jsonEscape_decimal b hb, jsonEscape_decimal c hc,
    jsonEscape_decimal d hd, List.append_assoc]
  rfl

/-- C34. Option rendering: for every message type `m` from 1 to 7 with the name
`name`, `NewMessageTypeOpt(m).String()` is the JSON object with the fields `ID`
= `DHCP_MESSAGE_TYPE` and `MessageType` = `name`; and for every IPv4 address
`a.b.c.d`, in its 4-byte and in its 16-byte form, `NewRequestIpAddrOpt(ip).String()`
is the JSON object with the fields `ID` = `REQUEST_IP_ADDR` and `IP` = the
dotted decimal text of the address. -/
theorem option_String_rendering (ipv6Text : List Nat → String) (others : DHCPOption → Run String) :
    (∀ m name, 1 ≤ m → m ≤ 7 →
      ["DHCPDISCOVER", "DHCPOFFER", "DHCPREQUEST", "DHCPDECLINE", "DHCPACK", "DHCPNAK",
        "DHCPRELEASE"].get? (m - 1) = some name →
      DHCPOption.String ipv6Text others (NewMessageTypeOpt m)
        = .ok ("\x7b\"ID\":\"DHCP_MESSAGE_TYPE\",\"MessageType\":\"" ++ name ++ "\"\x7d")) ∧
    (∀ a b c d, a < 256 → b < 256 → c < 256 → d < 256 →
      DHCPOption.String ipv6Text others (NewRequestIpAddrOpt [a, b, c, d])
        = .ok ("\x7b\"ID\":\"REQUEST_IP_ADDR\",\"IP\":\"" ++ toString a ++ "." ++ toString b
            ++ "." ++ toString c ++ "." ++ toString d ++ "\"\x7d") ∧
      DHCPOption.String ipv6Text others (NewRequestIpAddrOpt (IPv4 a b c d))
        = .ok ("\x7b\"ID\":\"REQUEST_IP_ADDR\",\"IP\":\"" ++ toString a ++ "." ++ toString b
            ++ "." ++ toString c ++ "." ++ toString d ++ "\"\x7d")) := by
  constructor
  · intro m name h1 h7 hname
    interval_cases m <;> (cases hname; rfl)
  · intro a b c d ha hb hc hd
    have hq := jsonString_dottedQuad a b c d ha hb hc hd
    have hid : jsonString (TypeToString 50) = "\"REQUEST_IP_ADDR\"" := by decide
    have hip : jsonString "IP" = "\"IP\"" := by decide
    have hidn : jsonString "ID" = "\"ID\"" := by decide
    have e4 : IPString ipv6Text [a, b, c, d] = dottedQuad [a, b, c, d] := rfl
    have e16 : IPString ipv6Text (IPv4 a b c d) = dottedQuad [a, b, c, d] := rfl
    have hrun : ∀ ip, IPString ipv6Text ip = dottedQuad [a, b, c, d] →
        DHCPOption.String ipv6Text others (NewRequestIpAddrOpt ip)
          = .ok ("\x7b\"ID\":\"REQUEST_IP_ADDR\",\"IP\":\"" ++ toString a ++ "." ++ toString b
            ++ "." ++ toString c ++ "." ++ toString d ++ "\"\x7d") := by
      intro ip hipt
      have hdata : (NewRequestIpAddrOpt ip).Data = 50 :: 4 :: ip := rfl
      unfold DHCPOption.String requestIpAddrConverter
      simp only [hdata, List.length_cons, List.getD_cons_zero, List.drop_succ_cons, List.drop_zero]
      have c1 : ¬ ip.length + 1 + 1 = 0 := by omega
      have c2 : ¬ ip.length + 1 + 1 < 2 := by omega
      simp only [c1, c2, if_false, if_true, hipt, toJsonString, List.map_cons, List.map_nil]
      simp only [hq, hid, hip, hidn]
      congr 1
      apply String.ext
      simp [String.intercalate, String.intercalate.go, String.data_append]
    exact ⟨hrun _ e4, hrun _ e16⟩

theorem option_String_rendering_witness :
    DHCPOption.String (fun _ => "") (fun _ => .panic) (NewMessageTypeOpt DHCPDISCOVER)
      = .ok "\x7b\"ID\":\"DHCP_MESSAGE_TYPE\",\"MessageType\":\"DHCPDISCOVER\"\x7d" ∧
    DHCPOption.String (fun _ => "") (fun _ => .panic) (NewRequestIpAddrOpt IPv4bcast)
      = .ok "\x7b\"ID\":\"REQUEST_IP_ADDR\",\"IP\":\"255.255.255.255\"\x7d" :=
  ⟨(option_String_rendering (fun _ => "") (fun _ => .panic)).1 1 "DHCPDISCOVER"
      (by decide) (by decide) rfl,
   ((option_String_rendering (fun _ => "") (fun _ => .panic)).2 255 255 255 255
      (by decide) (by decide) (by decide) (by decide)).2⟩

/-! ## A reply without a required option -/

set_option maxRecDepth 100000 in
/-- C35 (divergence). An ACK whose option buffer is well formed but holds no
server identifier makes `FinalizeOffer` panic, whether the probe finds the
address unused or in use, and so does an ACK without a lease time whose
address passes the probe: the method is called on the nil pointer that
`GetOption` returns. The panic goes on through `handleRenewResponse`. -/
theorem FinalizeOffer_missing_option_panics :
    ackWithoutServerId.options.data = tlvBytes [(53, [5]), (51, [0, 0, 0, 200])] ∧
    GetMessageType ackWithoutServerId = .ok DHCPACK ∧
    GetOption ackWithoutServerId SERVER_IDENTIFIER = .ok none ∧
    FinalizeOffer sampleEnv 5 false sampleEngine sampleWorld ackWithoutServerId 1000 = .panic ∧
    FinalizeOffer busyEnv 5 false sampleEngine sampleWorld ackWithoutServerId 1000 = .panic ∧
    ackWithoutLeaseTime.options.data = tlvBytes [(53, [5]), (54, [127, 0, 0, 1])] ∧
    GetOption ackWithoutLeaseTime IP_ADDR_LEASE_TIME = .ok none ∧
    FinalizeOffer sampleEnv 5 false sampleEngine sampleWorld ackWithoutLeaseTime 1000 = .panic ∧
    handleRenewResponse sampleEnv (0, 0) ackWithoutServerId 1000 none rebootingEngine quietHost
      = .panic := by
  refine ⟨rfl, ?_, ?_, ?_, ?_, rfl, ?_, ?_, ?_⟩
  · decide
  · decide
  · decide
  · decide
  · decide
  · decide
  · decide

/-! ## What `Decode` accepts -/

theorem readBytes_ok_length (k : Nat) (r x r2 : List Nat) (h : readBytes k r = .ok (x, r2)) :
    r2.length + k = r.length := by
  unfold readBytes at h
  split at h
  · cases h
    omega
  · split at h
    · cases h
    · split at h
      · cases h
      · cases h
        simp
        omega

theorem readUint8_ok_length (r : List Nat) (x : Nat) (r2 : List Nat)
    (h : readUint8 r = .ok (x, r2)) : r2.length + 1 = r.length := by
  unfold readUint8 at h
  split at h
  · rename_i bs r3 heq
    cases h
    exact readBytes_ok_length 1 r bs _ heq
  · cases h

theorem readUint16_ok_length (r : List Nat) (x : Nat) (r2 : List Nat)
    (h : readUint16 r = .ok (x, r2)) : r2.length + 2 = r.length := by
  unfold readUint16 at h
  split at h
  · rename_i bs r3 heq
    cases h
    exact readBytes_ok_length 2 r bs _ heq
  · cases h

theorem readUint32_ok_length (r : List Nat) (x : Nat) (r2 : List Nat)
    (h : readUint32 r = .ok (x, r2)) : r2.length + 4 = r.length := by
  unfold readUint32 at h
  split at h
  · rename_i bs r3 heq
    cases h
    exact readBytes_ok_length 4 r bs _ heq
  · cases h
theorem readBytes_ok_fst_length (k : Nat) (r x r2 : List Nat) (h : readBytes k r = .ok (x, r2)) :
    x.length = k := by
  unfold readBytes at h
  split at h
  · cases h
    simp
    omega
  · split at h
    · cases h
    · split at h
      · cases h
      · cases h
        simp
        omega

theorem decodeBody_ok_bound (buf : List Nat) (n : Int) (p : DHCPPacket)
    (h : decodeBody buf n = .ok p) : 243 ≤ n ∧ n ≤ buf.length := by
  unfold decodeBody at h
  simp only [bind, Except.bind, pure, Except.pure] at h
  by_cases hc : n < 0 ∨ (buf.length : Int) < n
  · simp only [hc, if_true] at h
    cases h
  · simp only [hc, if_false] at h
    split at h
    · cases h
    rename_i v0 e0
    split at h
    · cases h
    rename_i v1 e1
    split at h
    · cases h
    rename_i v2 e2
    split at h
    · cases h
    rename_i v3 e3
    split at h
    · cases h
    rename_i v4 e4
    split at h
    · cases h
    rename_i v5 e5
    split at h
    · cases h
    rename_i v6 e6
    split at h
    · cases h
    rename_i v7 e7
    split at h
    · cases h
    rename_i v8 e8
    split at h
    · cases h
    rename_i v9 e9
    split at h
    · cases h
    rename_i v10 e10
    split at h
    · cases h
    rename_i v11 e11
    split at h
    · cases h
    rename_i v12 e12
    split at h
    · cases h
    rename_i v13 e13
    split at h
    · cases h
    rename_i v14 e14
    split at h
    · cases h
    rename_i hlen
    have l0 := readUint8_ok_length _ v0.1 v0.2 e0
    have l1 := readUint8_ok_length _ v1.1 v1.2 e1
    have l2 := readUint8_ok_length _ v2.1 v2.2 e2
    have l3 := readUint8_ok_length _ v3.1 v3.2 e3
    have l4 := readUint32_ok_length _ v4.1 v4.2 e4
    have l5 := readUint16_ok_length _ v5.1 v5.2 e5
    have l6 := readUint16_ok_length _ v6.1 v6.2 e6
    have l7 := readBytes_ok_length _ _ v7.1 v7.2 e7
    have l8 := readBytes_ok_length _ _ v8.1 v8.2 e8
    have l9 := readBytes_ok_length _ _ v9.1 v9.2 e9
    have l10 := readBytes_ok_length _ _ v10.1 v10.2 e10
    have l11 := readBytes_ok_length _ _ v11.1 v11.2 e11
    have l12 := readBytes_ok_length _ _ v12.1 v12.2 e12
    have l13 := readBytes_ok_length _ _ v13.1 v13.2 e13
    have l14 := readBytes_ok_fst_length _ _ v14.1 v14.2 e14
    have lt : (buf.take n.toNat).length = n.toNat := by
      rw [List.length_take]
      omega
    omega
theorem getD_take_lt (b : List Nat) (i k : Nat) (h : i < k) : (b.take k).getD i 0 = b.getD i 0 := by
  simp [List.getD_eq_getElem?_getD, List.getElem?_take, h]

theorem take_drop_take (b : List Nat) (i j k : Nat) (h : i + j ≤ k) :
    ((b.take k).drop i).take j = (b.drop i).take j := by
  rw [List.drop_take, List.take_take]
  congr 1
  omega

/-- C36. Acceptance condition of `Decode`: for every buffer `buf` and every `n`
with `0 ≤ n ≤ len(buf)`, `Decode(buf, n)` returns an error exactly when
`n < 243`; then the packet is the zero packet. When it succeeds the header
fields are read from the bytes 0 to 235 of `buf`, the option bytes are the
bytes 240 to `n - 4`, the three bytes behind them lie in the capacity of the
option slice, and the result is the same for every buffer that has the same
first `n` bytes. -/
theorem Decode_acceptance (buf : List Nat) (n : Int) (h0 : 0 ≤ n) (hn : n ≤ buf.length) :
    ((Decode buf n).2 ≠ none ↔ n < 243) ∧
    (n < 243 → (Decode buf n).1 = DHCPPacket.zero) ∧
    (243 ≤ n →
      (Decode buf n).2 = none ∧
      (Decode buf n).1 =
        { decodedPacket buf with
          options := ⟨(buf.drop 240).take (n.toNat - 243), (buf.drop (n.toNat - 3)).take 3⟩ }) ∧
    (∀ buf2 : List Nat, n ≤ buf2.length → buf2.take n.toNat = buf.take n.toNat →
      Decode buf2 n = Decode buf n) := by
  obtain ⟨m, rfl⟩ := Int.eq_ofNat_of_zero_le h0
  have hm : m ≤ buf.length := by omega
  have hshort : (m : Int) < 243 → ∃ e, Decode buf m = (DHCPPacket.zero, some e) := by
    intro hlt
    unfold Decode
    cases hd : decodeBody buf (m : Int) with
    | ok p =>
      have := (decodeBody_ok_bound buf m p hd).1
      omega
    | error e => exact ⟨e, rfl⟩
  have hlong : (243 : Int) ≤ m → Decode buf m = (decodedPacket (buf.take m), none) := by
    intro hge
    unfold Decode
    rw [decodeBody_ok buf m (by omega) hm]
  refine ⟨?_, ?_, ?_, ?_⟩
  · constructor
    · intro hne
      by_contra hge
      rw [hlong (by omega)] at hne
      exact hne rfl
    · intro hlt
      obtain ⟨e, he⟩ := hshort hlt
      rw [he]
      simp
  · intro hlt
    obtain ⟨e, he⟩ := hshort hlt
    rw [he]
  · intro hge
    rw [hlong hge]
    refine ⟨rfl, ?_⟩
    have hm243 : 243 ≤ m := by omega
    have hl : (buf.take m).length = m := by
      rw [List.length_take]
      omega
    simp only [decodedPacket, Int.toNat_ofNat, hl]
    rw [getD_take_lt buf 0 m (by omega), getD_take_lt buf 1 m (by omega),
      getD_take_lt buf 2 m (by omega), getD_take_lt buf 3 m (by omega),
      getD_take_lt buf 4 m (by omega), getD_take_lt buf 5 m (by omega),
      getD_take_lt buf 6 m (by omega), getD_take_lt buf 7 m (by omega),
      getD_take_lt buf 8 m (by omega), getD_take_lt buf 9 m (by omega),
      getD_take_lt buf 10 m (by omega), getD_take_lt buf 11 m (by omega),
      take_drop_take buf 12 4 m (by omega), take_drop_take buf 16 4 m (by omega),
      take_drop_take buf 20 4 m (by omega), take_drop_take buf 24 4 m (by omega),
      take_drop_take buf 28 16 m (by omega), take_drop_take buf 44 64 m (by omega),
      take_drop_take buf 108 128 m (by omega), take_drop_take buf 240 (m - 243) m (by omega)]
    congr 2
    rw [List.drop_take]
    congr 1
    omega
  · intro buf2 hn2 heq
    have hm2 : m ≤ buf2.length := by omega
    rw [Int.toNat_ofNat] at heq
    rw [Decode_take buf m hm, Decode_take buf2 m hm2, heq]

set_option maxRecDepth 100000 in
theorem Decode_acceptance_witness :
    (0 : Int) ≤ 242 ∧ (242 : Int) ≤ (Encode samplePacket).length ∧
    (Decode (Encode samplePacket) 242).2 ≠ none ∧
    (Decode (Encode samplePacket) 242).1 = DHCPPacket.zero ∧
    (Decode (Encode samplePacket) 243).2 = none :=
  ⟨by decide, by decide,
   (Decode_acceptance (Encode samplePacket) 242 (by decide) (by decide)).1.mpr (by decide),
   (Decode_acceptance (Encode samplePacket) 242 (by decide) (by decide)).2.1 (by decide),
   ((Decode_acceptance (Encode samplePacket) 243 (by decide) (by decide)).2.2.1
      (by decide)).1⟩

/-! ## The DECLINE -/

/-- C37. Content of DECLINE: for every ACK, `Decline(ack)` builds a packet with
`Op = REQUEST`, `Ciaddr` 0.0.0.0, the broadcast flag clear, `Htype` and `Hlen`
zero, and the option bytes `50, 4` and `ack.Yiaddr` and no others; it has no
message type option, so `GetMessageType` on it returns UNKNOWN, not
DHCPDECLINE. -/
theorem Decline_content (growslice : Nat → Nat → Nat) (hardwareAddr : List Nat) (tx : Nat)
    (ack : DHCPPacket) (hy : ack.Yiaddr.length = 4) :
    (Decline growslice hardwareAddr tx ack).1.Op = REQUEST ∧
    (Decline growslice hardwareAddr tx ack).1.Ciaddr = [0, 0, 0, 0] ∧
    (Decline growslice hardwareAddr tx ack).1.Flags = 0 ∧
    BroadcastFlag (Decline growslice hardwareAddr tx ack).1 = false ∧
    (Decline growslice hardwareAddr tx ack).1.Htype = 0 ∧
    (Decline growslice hardwareAddr tx ack).1.Hlen = 0 ∧
    (Decline growslice hardwareAddr tx ack).1.Xid = tx ∧
    (Decline growslice hardwareAddr tx ack).1.options.data = [50, 4] ++ ack.Yiaddr ∧
    GetOption (Decline growslice hardwareAddr tx ack).1 DHCP_MESSAGE_TYPE = .ok none ∧
    GetMessageType (Decline growslice hardwareAddr tx ack).1 = .ok UNKNOWN ∧
    UNKNOWN ≠ DHCPDECLINE := by
  have hdata : (Decline growslice hardwareAddr tx ack).1.options.data = [50, 4] ++ ack.Yiaddr := by
    unfold Decline
    dsimp only
    rw [AddOption_data]
    rfl
  have htlv : (Decline growslice hardwareAddr tx ack).1.options.data
      = tlvBytes [(50, ack.Yiaddr)] := by
    rw [hdata]
    simp [tlvBytes, hy]
  have hopt := GetOption_distinct [(50, ack.Yiaddr)] (Decline growslice hardwareAddr tx ack).1
    DHCP_MESSAGE_TYPE htlv (by simp) (by simp) (by decide)
  refine ⟨rfl, rfl, rfl, BroadcastFlag_of_Flags_zero _ rfl, rfl, rfl, rfl, hdata, ?_,
    GetMessageType_Decline growslice hardwareAddr tx ack hy, by decide⟩
  rw [hopt]
  rfl

theorem Decline_content_witness :
    goodAck.Yiaddr.length = 4 ∧
    (Decline doubling [0, 10, 149, 157, 104, 22] 9 goodAck).1.options.data
      = [50, 4, 127, 0, 0, 2] ∧
    GetMessageType (Decline doubling [0, 10, 149, 157, 104, 22] 9 goodAck).1 = .ok UNKNOWN :=
  ⟨rfl, (Decline_content doubling [0, 10, 149, 157, 104, 22] 9 goodAck rfl).2.2.2.2.2.2.2.1,
   (Decline_content doubling [0, 10, 149, 157, 104, 22] 9 goodAck rfl).2.2.2.2.2.2.2.2.2.1⟩

/-! ## `IP2Array` -/

/-- C40. `IP2Array` copies the first four bytes of its argument: a 4-byte
address comes back as it is, a shorter argument is filled up with zero bytes, a
longer one is cut after four bytes; for the 16-byte `net.IPv4bcast` the result
is 0.0.0.0, and a packet with that `Ciaddr` prints `Ciaddr` as `0.0.0.0`. -/
theorem IP2Array_first_four (ipv6Text : List Nat → String) :
    (∀ ip : List Nat, ip.length = 4 → IP2Array ip = ip) ∧
    (∀ ip : List Nat, ip.length < 4 →
      IP2Array ip = ip ++ List.replicate (4 - ip.length) 0) ∧
    (∀ ip : List Nat, 4 ≤ ip.length → IP2Array ip = ip.take 4) ∧
    IP2Array IPv4bcast = [0, 0, 0, 0] ∧
    IPv4bcast.take 4 = [0, 0, 0, 0] ∧
    (∀ packet : DHCPPacket, packet.Ciaddr = IP2Array IPv4bcast →
      ciaddrText ipv6Text packet = "0.0.0.0") := by
  refine ⟨?_, ?_, ?_, rfl, rfl, ?_⟩
  · intro ip h
    exact IP2Array_of_length ip h
  · intro ip h
    unfold IP2Array
    rw [List.take_append_eq_append_take, List.take_of_length_le (by omega)]
    congr 1
    have hcases : ip.length = 0 ∨ ip.length = 1 ∨ ip.length = 2 ∨ ip.length = 3 := by omega
    rcases hcases with e | e | e | e <;> rw [e] <;> rfl
  · intro ip h
    unfold IP2Array
    rw [List.take_append_of_le_length h]
  · intro packet h
    unfold ciaddrText
    rw [h]
    rfl

theorem IP2Array_first_four_witness :
    IP2Array [127, 0, 0, 2] = [127, 0, 0, 2] ∧ IP2Array [10, 1] = [10, 1, 0, 0] ∧
    ciaddrText (fun _ => "") { DHCPPacket.zero with Ciaddr := IP2Array IPv4bcast } = "0.0.0.0" :=
  ⟨(IP2Array_first_four (fun _ => "")).1 [127, 0, 0, 2] rfl,
   (IP2Array_first_four (fun _ => "")).2.1 [10, 1] (by decide),
   (IP2Array_first_four (fun _ => "")).2.2.2.2.2 _ rfl⟩

/-! ## The default timers -/

theorem mulFloat0875_seconds (v : Nat) :
    mulFloat0875 ((v : Int) * 10 ^ 9) = (mulFloat0875Nat (v * 10 ^ 9) : Int) := by
  unfold mulFloat0875
  have h0 : (0 : Int) ≤ (v : Int) * 10 ^ 9 := Int.mul_nonneg (Int.ofNat_nonneg _) (by norm_num)
  rw [if_pos h0]
  have e : ((v : Int) * 10 ^ 9) = ((v * 10 ^ 9 : Nat) : Int) := by
    push_cast
    rfl
  rw [e, Int.toNat_ofNat]

/-- C39 (as the code has it). Default timers: for every ACK that passes the
probe, whose option buffer is a sequence of whole options with pairwise distinct
codes and byte payloads, which carries a server identifier and a lease time of
`s` seconds with `1 ≤ s < 2^32` and omits the options 58 and 59,
`FinalizeOffer` succeeds and leaves `LeaseDuration = s` seconds,
`T1 = LeaseDuration / 2` and `T2 = Duration(float64(LeaseDuration) * 0.875)`,
which is within 256 nanoseconds of 7/8 of `LeaseDuration` and equal to it for
`s ≤ 658812288`; the timers satisfy `0 < T1 < T2 < LeaseDuration`, and all
three lie below `2^63` nanoseconds. -/
theorem FinalizeOffer_default_timers (env : Env) (declineTx : Nat) (sendFails : Bool)
    (p : ProcessingEngine) (w : World) (ack : DHCPPacket) (requestTime : Int)
    (tlvs : List (Nat × List Nat)) (sid lt : List Nat)
    (huniq : env.IsUniqueIp ack.Yiaddr p.Config = true)
    (hp : ack.options.data = tlvBytes tlvs) (hnd : (tlvs.map Prod.fst).Nodup)
    (hb : ∀ t ∈ tlvs, t.1 < 256) (hbytes : ∀ t ∈ tlvs, ∀ x ∈ t.2, x < 256)
    (h54 : (54, sid) ∈ tlvs) (h51 : (51, lt) ∈ tlvs) (hlt : lt.length = 4)
    (hs : 1 ≤ bigEndianValue lt)
    (h58 : ∀ pl, (58, pl) ∉ tlvs) (h59 : ∀ pl, (59, pl) ∉ tlvs) :
    ∃ r : Finalized,
      FinalizeOffer env declineTx sendFails p w ack requestTime = .ok r ∧
      r.err = none ∧
      bigEndianValue lt < 2 ^ 32 ∧
      r.engine.Lease.LeaseDuration = (bigEndianValue lt : Int) * 10 ^ 9 ∧
      2 * r.engine.Lease.T1 = r.engine.Lease.LeaseDuration ∧
      r.engine.Lease.T2 = mulFloat0875 r.engine.Lease.LeaseDuration ∧
      8 * r.engine.Lease.T2 - 7 * r.engine.Lease.LeaseDuration ≤ 2 ^ 11 ∧
      7 * r.engine.Lease.LeaseDuration - 8 * r.engine.Lease.T2 ≤ 2 ^ 11 ∧
      (bigEndianValue lt ≤ 658812288 →
        8 * r.engine.Lease.T2 = 7 * r.engine.Lease.LeaseDuration) ∧
      0 < r.engine.Lease.T1 ∧ r.engine.Lease.T1 < r.engine.Lease.T2 ∧
      r.engine.Lease.T2 < r.engine.Lease.LeaseDuration ∧
      r.engine.Lease.LeaseDuration < 2 ^ 63 := by
  have h := FinalizeOffer_distinct env declineTx sendFails p w ack requestTime tlvs
    sid lt huniq hp hnd hb h54 h51 (by omega) (fun pl hpl => absurd hpl (h58 pl))
    (fun pl hpl => absurd hpl (h59 pl))
  obtain ⟨elt, hv⟩ := secondsOf_eq lt (hbytes _ h51)
  obtain ⟨b1, b2, b3⟩ := mulFloat0875Nat_seconds (bigEndianValue lt) hv
  have e1 : timerOf tlvs 58 (Int.tdiv (secondsOf lt) 2) = (bigEndianValue lt : Int) * 500000000 := by
    rw [timerOf_not_mem tlvs 58 _ h58, elt]
    have e : ((bigEndianValue lt : Int) * 10 ^ 9) = 2 * ((bigEndianValue lt : Int) * 500000000) := by
      ring
    rw [e, Int.mul_tdiv_cancel_left _ (by decide)]
  have e2 : timerOf tlvs 59 (mulFloat0875 (secondsOf lt))
      = (mulFloat0875Nat (bigEndianValue lt * 10 ^ 9) : Int) := by
    rw [timerOf_not_mem tlvs 59 _ h59, elt, mulFloat0875_seconds]
  have e3 : mulFloat0875 (secondsOf lt) = (mulFloat0875Nat (bigEndianValue lt * 10 ^ 9) : Int) := by
    rw [elt, mulFloat0875_seconds]
  refine ⟨_, h, rfl, hv, elt, ?_, ?_, ?_, ?_, ?_, ?_, ?_, ?_, ?_⟩
  · show 2 * timerOf tlvs 58 _ = secondsOf lt
    rw [e1, elt]
    ring
  · show timerOf tlvs 59 _ = mulFloat0875 (secondsOf lt)
    rw [e2, e3]
  · show 8 * timerOf tlvs 59 _ - 7 * secondsOf lt ≤ 2 ^ 11
    rw [e2, elt]
    omega
  · show 7 * secondsOf lt - 8 * timerOf tlvs 59 _ ≤ 2 ^ 11
    rw [e2, elt]
    omega
  · intro hsmall
    show 8 * timerOf tlvs 59 _ = 7 * secondsOf lt
    rw [e2, elt]
    have := b3 hsmall
    omega
  · show 0 < timerOf tlvs 58 _
    rw [e1]
    omega
  · show timerOf tlvs 58 _ < timerOf tlvs 59 _
    rw [e1, e2]
    omega
  · show timerOf tlvs 59 _ < secondsOf lt
    rw [e2, elt]
    omega
  · show secondsOf lt < 2 ^ 63
    rw [elt]
    omega

set_option maxRecDepth 100000 in
theorem FinalizeOffer_default_timers_witness :
    sampleEnv.IsUniqueIp infiniteAck.Yiaddr sampleEngine.Config = true ∧
    infiniteAck.options.data
      = tlvBytes [(53, [5]), (54, [127, 0, 0, 1]), (51, [255, 255, 255, 255])] ∧
    1 ≤ bigEndianValue [255, 255, 255, 255] ∧
    ∃ r : Finalized,
      FinalizeOffer sampleEnv 5 false sampleEngine sampleWorld infiniteAck 1000 = .ok r ∧
      0 < r.engine.Lease.T1 ∧ r.engine.Lease.T1 < r.engine.Lease.T2 ∧
      r.engine.Lease.T2 < r.engine.Lease.LeaseDuration ∧
      r.engine.Lease.LeaseDuration < 2 ^ 63 :=
  have h := FinalizeOffer_default_timers sampleEnv 5 false sampleEngine sampleWorld infiniteAck
    1000 [(53, [5]), (54, [127, 0, 0, 1]), (51, [255, 255, 255, 255])] [127, 0, 0, 1]
    [255, 255, 255, 255] rfl rfl (by decide) (by decide) (by decide) (by decide) (by decide)
    rfl (by decide) (fun pl h => by simp at h) (fun pl h => by simp at h)
  ⟨rfl, rfl, by decide, by
    obtain ⟨r, h1, _, _, _, _, _, _, _, _, h10, h11, h12, h13⟩ := h
    exact ⟨r, h1, h10, h11, h12, h13⟩⟩

set_option maxRecDepth 100000 in
/-- C39 (counterexample). An ACK with a lease time of 1 000 000 001 seconds and
neither T1 nor T2: `FinalizeOffer` succeeds with T2 = 875000000875000064 ns,
which is 64 ns more than 7/8 of `LeaseDuration`. -/
theorem FinalizeOffer_default_T2_not_seven_eighths :
    GetOption longLeaseAck RENEWAL_TIME_VALUE = .ok none ∧
    GetOption longLeaseAck REBINDING_TIME_VALUE = .ok none ∧
    ∃ r : Finalized,
      FinalizeOffer sampleEnv 5 false sampleEngine sampleWorld longLeaseAck 1000 = .ok r ∧
      r.err = none ∧
      r.engine.Lease.LeaseDuration = 1000000001000000000 ∧
      r.engine.Lease.T1 = 500000000500000000 ∧
      r.engine.Lease.T2 = 875000000875000064 ∧
      8 * r.engine.Lease.T2 ≠ 7 * r.engine.Lease.LeaseDuration := by
  refine ⟨by decide, by decide, _, rfl, rfl, ?_, ?_, ?_, ?_⟩
  · decide
  · decide
  · decide
  · decide

/-! ## A reply whose options shift from walk to walk -/

theorem readOffers_one_offer (M : Int) (tx : Nat) (p : ProcessingEngine) (h : Host)
    (d : List Nat) (post : List ReadResult) (t : Bool)
    (hreads : h.reads = .datagram d :: .failure t :: post) (hwf : WellFormedDatagram d)
    (hx : (received d).Xid = tx) (hoffer : GetMessageType (received d) = .ok DHCPOFFER)
    (he : h.elapsed = []) (h1 : 0 ≤ wrapInt64 (Second * M))
    (h2 : 0 ≤ wrapInt64 (Second * p.Config.OfferWindowSec)) :
    readOffers M tx p h = .ok ([received d], { h with reads := post }) := by
  obtain ⟨ty, hty, _, _, hist⟩ := clean_GetMessageType (received d) hwf.2
  rw [hoffer] at hty
  cases hty
  have hofferT : IsPacketOfType (received d) DHCPOFFER = .ok (true, received d) := hist DHCPOFFER
  have hw1 : WaitForEventUntil tx (h.now + wrapInt64 (Second * M)) h
      = .ok ((received d, none), { h with reads := .failure t :: post }) := by
    rw [WaitForEventUntil_spec tx _ h (by
      intro d2 hd2
      rw [hreads] at hd2
      simp [List.takeWhile, ReadResult.isDatagram] at hd2
      subst hd2
      exact hwf), hreads]
    simp only [firstWithXid, hx, if_true]
  have hw2 : WaitForEventUntil tx (h.now + wrapInt64 (Second * p.Config.OfferWindowSec))
        { h with reads := .failure t :: post }
      = .ok ((DHCPPacket.zero, some (.net t)), { h with reads := post }) := by
    rw [WaitForEventUntil_spec tx _ _ (by
      intro d2 hd2
      simp [List.takeWhile, ReadResult.isDatagram] at hd2)]
    rfl
  have he2 : ({ h with reads := .failure t :: post } : Host).elapsed = [] := he
  unfold readOffers
  simp only [timeNow_frozen h he]
  rw [hreads]
  simp only [List.length_cons]
  rw [readOffersLoop]
  simp only [timeNow_frozen h he]
  rw [if_neg (by omega), hw1]
  simp only [hofferT, timeNow_frozen _ he2]
  rw [if_neg (by show ¬ _ < h.now; omega)]
  rw [readOffersLoop]
  simp only [timeNow_frozen _ he2]
  rw [if_neg (by show ¬ _ < h.now; omega), hw2]
  rfl

theorem readPacketFrom_long (d : List Nat) (rest : List ReadResult) (t : Nat) (q : DHCPPacket)
    (hd : 243 ≤ d.length) (hmt : GetMessageTypeRef (received d) = .ok (t, q)) :
    readPacketFrom (.datagram d :: rest) = .ok ((printed q, none), rest) := by
  obtain ⟨hdec, hpos⟩ := Decode_readBuffer d hd
  rw [readPacketFrom]
  rw [if_neg hpos, hdec]
  dsimp only
  rw [hmt]

theorem WaitForEvent_long (tx : Nat) (timeout : Int) (h : Host) (d : List Nat)
    (rest : List ReadResult) (t : Nat) (q : DHCPPacket)
    (hreads : h.reads = .datagram d :: rest) (hd : 243 ≤ d.length)
    (hmt : GetMessageTypeRef (received d) = .ok (t, q)) (hx : (printed q).Xid = tx) :
    WaitForEvent tx timeout h = .ok ((printed q, none), { (timeNow h).2 with reads := rest }) := by
  have hr : (timeNow h).2.reads = .datagram d :: rest := by
    rw [(timeNow_frame h).2.2.1, hreads]
  unfold WaitForEvent WaitForEventUntil
  dsimp only
  rw [hr]
  simp only [List.length_cons]
  rw [waitForEventLoop]
  unfold readPacket
  rw [hr, readPacketFrom_long d rest t q hd hmt]
  dsimp only
  rw [if_neg (by rw [hx]; exact fun h => h rfl)]

theorem shiftingReply_WF : shiftingReply.WF :=
  ⟨by decide, by decide, by decide, by decide, by decide, by decide, by decide, by decide,
   by decide, by decide, by decide, by decide, by decide, by decide, by decide⟩

theorem shiftingDatagram_received :
    243 ≤ shiftingDatagram.length ∧
    received shiftingDatagram = { shiftingReply with options := ⟨shiftingOptions, [255, 0, 0]⟩ } := by
  constructor
  · unfold shiftingDatagram
    rw [length_Encode _ shiftingReply_WF]
    omega
  · unfold shiftingDatagram
    rw [received_Encode _ shiftingReply_WF (by decide)]
    rfl

set_option maxRecDepth 100000 in
theorem shiftedReply_walks :
    received shiftingDatagram = shiftedReply 0 ∧
    GetMessageTypeRef (shiftedReply 0) = .ok (UNKNOWN, shiftedReply 1) ∧
    printed (shiftedReply 1) = shiftedReply 2 ∧
    IsPacketOfType (shiftedReply 2) DHCPACK = .ok (true, shiftedReply 3) ∧
    IsPacketOfType (shiftedReply 3) DHCPACK = .ok (false, shiftedReply 4) ∧
    IsPacketOfType (shiftedReply 4) DHCPNAK = .ok (false, shiftedReply 5) := by
  refine ⟨?_, ?_, ?_, ?_, ?_, ?_⟩
  · rw [shiftingDatagram_received.2]
    rfl
  · decide
  · decide
  · decide
  · decide
  · decide

set_option maxRecDepth 100000 in
theorem ProcessOffers_shifting (p : ProcessingEngine) (h : Host)
    (hreads : h.reads = [.datagram shiftingDatagram]) (hse : h.sendErrors = []) :
    ∃ r : Processed, ProcessOffers sampleEnv (0, 0) [offerPacket] p h = .ok r ∧
      r.err = none ∧ r.engine.Lease.State = REQUESTING ∧ r.engine.stopped = p.stopped ∧
      r.host.calls = h.calls ∧ r.host.reads = [] ∧
      r.host.world.sent.map (fun s => s.1.options.data)
        = h.world.sent.map (fun s => s.1.options.data)
          ++ [[50, 4, 127, 0, 0, 2, 53, 1, 3, 54, 4, 127, 0, 0, 1]] := by
  obtain ⟨e, req, m, hget, hreq, hwalk, hx, hopts, hmt⟩ :=
    offer_request sampleEnv.growslice p.Config sampleEnv.hardwareAddr offerPacket
      [(53, [2]), (54, [127, 0, 0, 1]), (51, [0, 0, 0, 200])] [127, 0, 0, 1] rfl (by decide)
      (by decide) (by decide) rfl
  obtain ⟨h1, hs, hsent, _, hcalls, hr1, _⟩ := clientSend_ok (timeNow h).2 req IPv4bcast _ hmt
  have hse2 : (timeNow h).2.sendErrors = [] := by rw [(timeNow_frame h).2.2.2.2, hse]
  rw [hse2] at hs
  have hs2 : clientSend (timeNow h).2 req IPv4bcast = .ok (false, h1) := hs
  have hr2 : (updateState (0, 0) p h1 REQUESTING).2.reads = [.datagram shiftingDatagram] := by
    rw [(updateState_frame _ _ _ _).2.2.1, hr1, (timeNow_frame h).2.2.1, hreads]
  have hw := WaitForEvent_long 77 Second (updateState (0, 0) p h1 REQUESTING).2 shiftingDatagram []
    UNKNOWN (shiftedReply 1) hr2 shiftingDatagram_received.1
    (by rw [shiftedReply_walks.1]; exact shiftedReply_walks.2.1)
    (by rw [shiftedReply_walks.2.2.1]; rfl)
  rw [shiftedReply_walks.2.2.1] at hw
  have hrun : ProcessOffers sampleEnv (0, 0) [offerPacket] p h
      = .ok { err := none, offer := offerPacket,
              engine := (updateState (0, 0) p h1 REQUESTING).1,
              host := { (timeNow (updateState (0, 0) p h1 REQUESTING).2).2 with reads := [] } } := by
    unfold ProcessOffers
    simp only [hget, hreq, hwalk, withBuffer_self, hs2]
    have hlen : h1.reads.length + 1 = 1 + 1 := by
      rw [hr1, (timeNow_frame h).2.2.1, hreads]
      rfl
    rw [hlen, waitForAck]
    have ex : offerPacket.Xid = 77 := rfl
    rw [ex, hw]
    simp only [shiftedReply_walks.2.2.2.1, shiftedReply_walks.2.2.2.2.1, bind, Run.bind, pure,
      if_true]
    unfold waitForAckEnd
    rw [shiftedReply_walks.2.2.2.2.2]
  have hst : (updateState (0, 0) p h1 REQUESTING).1.Lease.State = REQUESTING := by
    unfold updateState UpdateState
    rw [if_neg (by decide)]
  have tf := timeNow_frame (updateState (0, 0) p h1 REQUESTING).2
  have uf := updateState_frame (0, 0) p h1 REQUESTING
  have tf0 := timeNow_frame h
  refine ⟨_, hrun, rfl, hst, uf.2.2.2.2.2.2, ?_, rfl, ?_⟩
  · show (timeNow (updateState (0, 0) p h1 REQUESTING).2).2.calls = h.calls
    rw [tf.2.1, uf.2.1, hcalls, tf0.2.1]
  · show (timeNow (updateState (0, 0) p h1 REQUESTING).2).2.world.sent.map _ = _
    rw [tf.1, uf.1, hsent, tf0.1, List.map_append, List.map_cons, List.map_nil]
    dsimp only
    rw [hopts]
    rfl

set_option maxRecDepth 100000 in
/-- C38 (divergence). The engine is in INIT; an OFFER arrives, and after the
REQUEST the reply `shiftingReply`, whose option 12 comes twice. The first test
of `waitForAck` reads the message type ACK from it, the two tests that follow
read no message type, since every walk of `GetOptions` moves the options of the
buffer: `ProcessOffers` returns nil without `FinalizeOffer`, and `Discover`
returns with the lease in state REQUESTING, the engine not stopped and no
listener called. -/
theorem Discover_returns_in_REQUESTING :
    listeningEngine.Lease.State = INIT ∧
    received shiftingDatagram = shiftedReply 0 ∧
    (shiftedReply 0).options.data = shiftingOptions ∧
    IsPacketOfType (shiftedReply 2) DHCPACK = .ok (true, shiftedReply 3) ∧
    IsPacketOfType (shiftedReply 3) DHCPACK = .ok (false, shiftedReply 4) ∧
    IsPacketOfType (shiftedReply 4) DHCPNAK = .ok (false, shiftedReply 5) ∧
    ∃ p h,
      ProcessingEngine.Discover sampleEnv (0, 0) 10 listeningEngine shiftingHost = .ok (p, h) ∧
      p.Lease.State = REQUESTING ∧ p.Lease.State ≠ INIT ∧ p.Lease.State ≠ BOUND ∧
      p.stopped = false ∧ h.calls = [] ∧ h.reads = [] ∧
      h.world.sent.map (fun s => s.1.options.data)
        = [[53, 1, 1], [50, 4, 127, 0, 0, 2, 53, 1, 3, 54, 4, 127, 0, 0, 1]] := by
  refine ⟨rfl, shiftedReply_walks.1, rfl, shiftedReply_walks.2.2.2.1,
    shiftedReply_walks.2.2.2.2.1, shiftedReply_walks.2.2.2.2.2, ?_⟩
  obtain ⟨h1, hs, hr1, he1, hse1, hc1, hsent1⟩ : ∃ h1 : Host,
      clientSend (RandomTransactionId shiftingHost).2
        (DHCPv4.Discover sampleEnv.growslice listeningEngine.Config sampleEnv.hardwareAddr
          (RandomTransactionId shiftingHost).1).1
        IPv4bcast = .ok (false, h1) ∧
      h1.reads = [.datagram (offerDatagram 77), .failure true, .datagram shiftingDatagram] ∧
      h1.elapsed = [] ∧ h1.sendErrors = [] ∧ h1.calls = [] ∧
      h1.world.sent.map (fun s => s.1.options.data) = [[53, 1, 1]] :=
    ⟨_, rfl, rfl, rfl, rfl, rfl, by decide⟩
  have uf := updateState_frame (0, 0) listeningEngine h1 SELECTING
  have hoff := readOffers_one_offer 10
    (DHCPv4.Discover sampleEnv.growslice listeningEngine.Config sampleEnv.hardwareAddr
      (RandomTransactionId shiftingHost).1).2
    (updateState (0, 0) listeningEngine h1 SELECTING).1
    (updateState (0, 0) listeningEngine h1 SELECTING).2 (offerDatagram 77)
    [.datagram shiftingDatagram] true (by rw [uf.2.2.1, hr1])
    (wellFormed_offerDatagram 77 (by decide)).1
    (by rw [(wellFormed_offerDatagram 77 (by decide)).2]; rfl)
    (by rw [(wellFormed_offerDatagram 77 (by decide)).2]; decide)
    he1 (by decide)
    (by show 0 ≤ wrapInt64 (Second * listeningEngine.Config.OfferWindowSec); decide)
  rw [(wellFormed_offerDatagram 77 (by decide)).2] at hoff
  have e77 : ({ offerPacket with Xid := 77 } : DHCPPacket) = offerPacket := rfl
  rw [e77] at hoff
  obtain ⟨r, hpo, herr, hst, hstop, hcalls, hreads, hsent⟩ :=
    ProcessOffers_shifting (updateState (0, 0) listeningEngine h1 SELECTING).1
      { (updateState (0, 0) listeningEngine h1 SELECTING).2 with
        reads := [.datagram shiftingDatagram] } rfl (by
        show (updateState (0, 0) listeningEngine h1 SELECTING).2.sendErrors = []
        rw [uf.2.2.2.1, hse1])
  have hrun : ProcessingEngine.Discover sampleEnv (0, 0) 10 listeningEngine shiftingHost
      = .ok (r.engine, r.host) := by
    unfold ProcessingEngine.Discover
    dsimp only
    rw [hs]
    dsimp only
    rw [hoff]
    dsimp only
    rw [if_pos (by decide)]
    rw [processOffersLoop]
    rw [if_neg (by decide), hpo]
    dsimp only
    rw [herr]
  refine ⟨_, _, hrun, hst, ?_, ?_, ?_, ?_, hreads, ?_⟩
  · rw [hst]
    decide
  · rw [hst]
    decide
  · rw [hstop, uf.2.2.2.2.2.2]
    rfl
  · rw [hcalls]
    show (updateState (0, 0) listeningEngine h1 SELECTING).2.calls = []
    rw [uf.2.1, hc1]
  · rw [hsent]
    show (updateState (0, 0) listeningEngine h1 SELECTING).2.world.sent.map _ ++ _ = _
    rw [uf.1, hsent1]
    rfl

/-! ## `Discover` on replies without repeated option codes -/

theorem GetOptionRef_clean (q : DHCPPacket) (hq : CleanPacket q) (name : Nat) (hname : name < 256)
    (found : Option Entry) (q2 : DHCPPacket) (h : GetOptionRef q name = .ok (found, q2)) :
    q2 = q := by
  obtain ⟨tlvs, hp, hnd, hb, _⟩ := hq
  obtain ⟨f, hf, _⟩ := GetOptionRef_distinct tlvs q name hp hnd hb hname
  rw [hf] at h
  cases h
  rfl

theorem FinalizeOffer_frame (env : Env) (declineTx : Nat) (sendFails : Bool)
    (p : ProcessingEngine) (w : World) (ack : DHCPPacket) (requestTime : Int) (r : Finalized)
    (hq : CleanPacket ack)
    (h : FinalizeOffer env declineTx sendFails p w ack requestTime = .ok r) :
    r.ack = ack ∧ r.engine.leaseReceivedListeners = p.leaseReceivedListeners ∧
    r.engine.Config = p.Config ∧ r.engine.stopped = p.stopped := by
  unfold FinalizeOffer at h
  simp only [bind, Run.bind, pure] at h
  split at h
  · -- the address is in use
    split at h
    · rename_i v hg
      obtain ⟨found, ack1⟩ := v
      have e1 := GetOptionRef_clean ack hq SERVER_IDENTIFIER (by decide) found ack1 hg
      subst e1
      dsimp only at h
      repeat (any_goals (split at h))
      all_goals first
        | (cases h; exact ⟨rfl, rfl, rfl, rfl⟩)
        | cases h
    · cases h
    · cases h
  · split at h
    · rename_i v hg
      obtain ⟨found, ack1⟩ := v
      have e1 := GetOptionRef_clean ack hq SERVER_IDENTIFIER (by decide) found ack1 hg
      subst e1
      dsimp only at h
      split at h
      · cases h
      · split at h
        · rename_i v2 hg2
          obtain ⟨found2, ack2⟩ := v2
          have e2 := GetOptionRef_clean _ hq IP_ADDR_LEASE_TIME (by decide) found2 ack2 hg2
          subst e2
          dsimp only at h
          split at h
          · cases h
          · split at h
            · split at h
              · rename_i v3 hg3
                obtain ⟨found3, ack3⟩ := v3
                have e3 := GetOptionRef_clean _ hq RENEWAL_TIME_VALUE (by decide) found3 ack3 hg3
                subst e3
                dsimp only at h
                split at h
                · split at h
                  · rename_i v4 hg4
                    obtain ⟨found4, ack4⟩ := v4
                    have e4 := GetOptionRef_clean _ hq REBINDING_TIME_VALUE (by decide) found4
                      ack4 hg4
                    subst e4
                    dsimp only at h
                    repeat (any_goals (split at h))
                    all_goals first
                      | (cases h; exact ⟨rfl, rfl, rfl, rfl⟩)
                      | cases h
                  · cases h
                  · cases h
                · cases h
                · cases h
              · cases h
              · cases h
            · cases h
            · cases h
        · cases h
        · cases h
    · cases h
    · cases h

theorem finalizeOffer_frame (env : Env) (p : ProcessingEngine) (h : Host) (ack : DHCPPacket)
    (requestTime : Int) (e : Option EngineError) (p2 : ProcessingEngine) (h2 : Host)
    (ack2 : DHCPPacket) (hq : CleanPacket ack)
    (hr : finalizeOffer env p h ack requestTime = .ok (e, p2, h2, ack2)) :
    ack2 = ack ∧ h2.calls = h.calls ∧ h2.reads = h.reads ∧
    p2.leaseReceivedListeners = p.leaseReceivedListeners := by
  unfold finalizeOffer at hr
  dsimp only at hr
  split at hr
  · rename_i r hf
    cases hr
    obtain ⟨f1, f2, _, _⟩ := FinalizeOffer_frame _ _ _ _ _ _ _ r hq hf
    have f := RandomTransactionId_frame h
    refine ⟨f1, ?_, ?_, f2⟩
    · show (_ : Host).calls = h.calls
      split
      · split <;> simp [f.2.1]
      · rfl
    · show (_ : Host).reads = h.reads
      split
      · split <;> simp [f.2.2.1]
      · rfl
  · cases hr
  · cases hr

theorem updateState_BOUND_facts (accepted : Nat × Nat) (p : ProcessingEngine) (h : Host) :
    (updateState accepted p h BOUND).1.Lease.State = BOUND ∧
    (updateState accepted p h BOUND).1.leaseReceivedListeners = p.leaseReceivedListeners ∧
    (updateState accepted p h BOUND).2.calls = h.calls ∧
    (updateState accepted p h BOUND).2.reads = h.reads := by
  unfold updateState UpdateState
  rw [if_neg (by decide)]
  exact ⟨rfl, rfl, rfl, rfl⟩

theorem updateState_listeners (accepted : Nat × Nat) (p : ProcessingEngine) (h : Host) (s : Nat) :
    (updateState accepted p h s).1.leaseReceivedListeners = p.leaseReceivedListeners := by
  unfold updateState UpdateState
  split <;> rfl

theorem WaitForEvent_clean (tx : Nat) (timeout : Int) (h : Host)
    (hwf : ∀ d, ReadResult.datagram d ∈ h.reads → WellFormedDatagram d)
    (r : DHCPPacket × Option ReadError) (h2 : Host)
    (hr : WaitForEvent tx timeout h = .ok (r, h2)) :
    h2.calls = h.calls ∧ (∀ x ∈ h2.reads, x ∈ h.reads) ∧
    (r.2 = none → CleanPacket r.1) := by
  have f := WaitForEvent_frame tx timeout h r h2 hr
  have tf := timeNow_frame h
  have hwf2 : ∀ d, ReadResult.datagram d ∈ (timeNow h).2.reads.takeWhile ReadResult.isDatagram →
      WellFormedDatagram d := by
    intro d hd
    have := List.takeWhile_subset _ hd
    rw [tf.2.2.1] at this
    exact hwf d this
  unfold WaitForEvent at hr
  dsimp only at hr
  rw [WaitForEventUntil_spec tx _ _ hwf2] at hr
  cases hr
  have ff := firstWithXid_facts tx (timeNow h).2.reads
  refine ⟨f.2.1, ?_, ?_⟩
  · intro x hx
    have := ff.1 x hx
    rw [tf.2.2.1] at this
    exact this
  · intro hnone
    rcases ff.2 with hne | ⟨d, hd, he, _, _⟩
    · exact absurd hnone hne
    · rw [he]
      rw [tf.2.2.1] at hd
      exact (hwf d hd).2

theorem waitForAck_clean (env : Env) (accepted : Nat × Nat) (offerPacket : DHCPPacket)
    (reqTx : Nat) (requestTime : Int) :
    ∀ (fuel : Nat) (p : ProcessingEngine) (h : Host) (r : Processed),
      (∀ d, ReadResult.datagram d ∈ h.reads → WellFormedDatagram d) →
      waitForAck env accepted offerPacket reqTx requestTime fuel p h = .ok r →
      (∀ x ∈ r.host.reads, x ∈ h.reads) ∧
      r.engine.leaseReceivedListeners = p.leaseReceivedListeners ∧
      ((r.err ≠ none ∧ r.host.calls = h.calls) ∨
       (r.err = none ∧ r.engine.Lease.State = BOUND ∧
        r.host.calls = h.calls ++ p.leaseReceivedListeners.map
          (fun f => ⟨false, f, r.engine.Lease⟩))) := by
  intro fuel
  induction fuel with
  | zero =>
    intro p h r hwf hr
    rw [waitForAck] at hr
    cases hr
  | succ fuel ih =>
    intro p h r hwf hr
    rw [waitForAck] at hr
    cases hw : WaitForEvent reqTx Second h with
    | ok v =>
      obtain ⟨⟨ack, err⟩, h1⟩ := v
      obtain ⟨fc, fr, fclean⟩ := WaitForEvent_clean reqTx Second h hwf _ h1 hw
      rw [hw] at hr
      dsimp only at hr
      cases err with
      | some e =>
        dsimp only at hr
        split at hr <;> (cases hr; exact ⟨fr, rfl, Or.inl ⟨by simp, fc⟩⟩)
      | none =>
        dsimp only at hr
        have hq : CleanPacket ack := fclean rfl
        obtain ⟨t, _, href, _, hist⟩ := clean_GetMessageType ack hq
        simp only [hist, href, bind, Run.bind, pure] at hr
        by_cases hA : t = DHCPACK
        · subst hA
          have e1 : (DHCPACK == DHCPACK) = true := by decide
          have e2 : (DHCPACK == DHCPNAK) = false := by decide
          simp only [e1, e2, if_true] at hr
          rw [hist DHCPACK] at hr
          simp only [e1] at hr
          cases hfin : finalizeOffer env p h1 ack requestTime with
          | ok v =>
            obtain ⟨e, p2, h2, ack2⟩ := v
            obtain ⟨ea, fc2, fr2, fl2⟩ := finalizeOffer_frame env p h1 ack requestTime e p2 h2 ack2
              hq hfin
            subst ea
            rw [hfin] at hr
            cases e with
            | some e =>
              dsimp only at hr
              cases hr
              refine ⟨?_, fl2, Or.inl ⟨by simp, ?_⟩⟩
              · intro x hx
                rw [fr2] at hx
                exact fr x hx
              · show h2.calls = h.calls
                rw [fc2, fc]
            | none =>
              dsimp only at hr
              obtain ⟨k1, k2⟩ := waitForAckEnd_frame _ _ _ _ _ hr
              obtain ⟨b1, b2, b3, b4⟩ := updateState_BOUND_facts accepted p2 h2
              have hnot : r.err = none := by
                unfold waitForAckEnd at hr
                rw [hist DHCPNAK] at hr
                simp only [e2] at hr
                cases hr
                rfl
              refine ⟨?_, ?_, Or.inr ⟨hnot, ?_, ?_⟩⟩
              · intro x hx
                rw [k1] at hx
                have hx2 : x ∈ (updateState accepted p2 h2 BOUND).2.reads := hx
                rw [b4, fr2] at hx2
                exact fr x hx2
              · rw [k2, b2, fl2]
              · rw [k2, b1]
              · rw [k1, k2]
                show (updateState accepted p2 h2 BOUND).2.calls ++ _ = _
                rw [b3, fc2, fc, b2, fl2]
          | panic => rw [hfin] at hr; cases hr
          | outOfFuel => rw [hfin] at hr; cases hr
        · by_cases hN : t = DHCPNAK
          · subst hN
            have e1 : (DHCPNAK == DHCPACK) = false := by decide
            have e2 : (DHCPNAK == DHCPNAK) = true := by decide
            simp only [e1, e2, Bool.not_true, Bool.false_eq_true, if_false] at hr
            rw [hist DHCPACK] at hr
            simp only [e1] at hr
            obtain ⟨k1, k2⟩ := waitForAckEnd_frame _ _ _ _ _ hr
            have herr : r.err ≠ none := by
              unfold waitForAckEnd at hr
              rw [hist DHCPNAK] at hr
              simp only [e2] at hr
              split at hr
              · cases hr
                simp
              · cases hr
              · cases hr
            refine ⟨?_, ?_, Or.inl ⟨herr, ?_⟩⟩
            · rw [k1]
              exact fr
            · rw [k2]
            · rw [k1, fc]
          · have e1 : (t == DHCPACK) = false := by simpa using hA
            have e2 : (t == DHCPNAK) = false := by simpa using hN
            simp only [e1, e2, Bool.not_false, Bool.false_eq_true, if_false, href] at hr
            have hwf1 : ∀ d, ReadResult.datagram d ∈ h1.reads → WellFormedDatagram d :=
              fun d hd => hwf d (fr _ hd)
            obtain ⟨i1, i2, i3⟩ := ih p h1 r hwf1 hr
            refine ⟨fun x hx => fr x (i1 x hx), i2, ?_⟩
            rw [fc] at i3
            exact i3
    | panic => rw [hw] at hr; cases hr
    | outOfFuel => rw [hw] at hr; cases hr

theorem ProcessOffers_clean (env : Env) (accepted : Nat × Nat) (offers : List DHCPPacket)
    (p : ProcessingEngine) (h : Host) (r : Processed)
    (hwf : ∀ d, ReadResult.datagram d ∈ h.reads → WellFormedDatagram d)
    (hr : ProcessOffers env accepted offers p h = .ok r) :
    (∀ x ∈ r.host.reads, x ∈ h.reads) ∧
    r.engine.leaseReceivedListeners = p.leaseReceivedListeners ∧
    ((r.err ≠ none ∧ r.host.calls = h.calls) ∨
     (r.err = none ∧ r.engine.Lease.State = BOUND ∧
      r.host.calls = h.calls ++ p.leaseReceivedListeners.map
        (fun f => ⟨false, f, r.engine.Lease⟩))) := by
  unfold ProcessOffers at hr
  cases offers with
  | nil => cases hr
  | cons o others =>
    dsimp only at hr
    split at hr
    · cases hr
      exact ⟨fun x hx => hx, rfl, Or.inl ⟨by simp, rfl⟩⟩
    · split at hr
      · split at hr
        · rename_i h1 hs
          cases hr
          have f := clientSend_frame _ _ _ _ _ hs
          have tf := timeNow_frame h
          refine ⟨?_, rfl, Or.inl ⟨by simp, ?_⟩⟩
          · intro x hx
            have hx2 : x ∈ h1.reads := hx
            rw [f.2.2.2, tf.2.2.1] at hx2
            exact hx2
          · show h1.calls = h.calls
            rw [f.2.2.1, tf.2.1]
        · rename_i h1 hs
          have f := clientSend_frame _ _ _ _ _ hs
          have tf := timeNow_frame h
          have uf := updateState_frame accepted p h1 REQUESTING
          have hreads : (updateState accepted p h1 REQUESTING).2.reads = h.reads := by
            rw [uf.2.2.1, f.2.2.2, tf.2.2.1]
          have hcalls : (updateState accepted p h1 REQUESTING).2.calls = h.calls := by
            rw [uf.2.1, f.2.2.1, tf.2.1]
          obtain ⟨i1, i2, i3⟩ := waitForAck_clean env accepted _ _ _ _ _ _ r
            (by rw [hreads]; exact hwf) hr
          rw [hreads] at i1
          rw [hcalls, updateState_listeners] at i3
          rw [updateState_listeners] at i2
          exact ⟨i1, i2, i3⟩
        · cases hr
        · cases hr
      · cases hr
      · cases hr
      · cases hr
    · cases hr
    · cases hr

theorem processOffersLoop_clean (env : Env) (accepted : Nat × Nat) :
    ∀ (n : Nat) (offers : List DHCPPacket) (p : ProcessingEngine) (h : Host) (b : Bool)
      (p2 : ProcessingEngine) (h2 : Host),
      (∀ d, ReadResult.datagram d ∈ h.reads → WellFormedDatagram d) →
      processOffersLoop env accepted n offers p h = .ok (b, p2, h2) →
      p2.leaseReceivedListeners = p.leaseReceivedListeners ∧
      ((b = false ∧ h2.calls = h.calls) ∨
       (b = true ∧ p2.Lease.State = BOUND ∧
        h2.calls = h.calls ++ p.leaseReceivedListeners.map (fun f => ⟨false, f, p2.Lease⟩))) := by
  intro n
  induction n with
  | zero =>
    intro offers p h b p2 h2 hwf hr
    rw [processOffersLoop] at hr
    cases hr
    exact ⟨rfl, Or.inl ⟨rfl, rfl⟩⟩
  | succ n ih =>
    intro offers p h b p2 h2 hwf hr
    rw [processOffersLoop] at hr
    split at hr
    · cases hr
      exact ⟨rfl, Or.inl ⟨rfl, rfl⟩⟩
    · cases hpo : ProcessOffers env accepted offers p h with
      | ok r =>
        obtain ⟨c1, c2, c3⟩ := ProcessOffers_clean env accepted offers p h r hwf hpo
        rw [hpo] at hr
        dsimp only at hr
        cases herr : r.err with
        | none =>
          rw [herr] at hr
          dsimp only at hr
          cases hr
          rcases c3 with ⟨hne, _⟩ | ⟨_, hb, hcalls⟩
          · exact absurd herr hne
          · exact ⟨c2, Or.inr ⟨rfl, hb, hcalls⟩⟩
        | some e =>
          rw [herr] at hr
          dsimp only at hr
          rcases c3 with ⟨_, hcalls⟩ | ⟨hnone, _, _⟩
          · obtain ⟨i1, i2⟩ := ih _ _ _ _ _ _
              (by
                intro d hd
                exact hwf d (c1 _ hd)) hr
            have hw : (waitSec r.engine.Config.RetryRequestSec r.host).calls = h.calls := hcalls
            rw [hw, c2] at i2
            rw [c2] at i1
            exact ⟨i1, i2⟩
          · rw [herr] at hnone
            cases hnone
      | panic => rw [hpo] at hr; cases hr
      | outOfFuel => rw [hpo] at hr; cases hr

theorem WaitForEventUntil_reads (tx : Nat) (timeout : Int) (h : Host)
    (hwf : ∀ d, ReadResult.datagram d ∈ h.reads → WellFormedDatagram d)
    (r : DHCPPacket × Option ReadError) (h2 : Host)
    (hr : WaitForEventUntil tx timeout h = .ok (r, h2)) :
    ∀ x ∈ h2.reads, x ∈ h.reads := by
  rw [WaitForEventUntil_spec tx timeout h
    (fun d hd => hwf d (List.takeWhile_subset _ hd))] at hr
  cases hr
  exact (firstWithXid_facts tx h.reads).1

theorem readOffersLoop_reads (tx : Nat) (offerWindowEndMoment : Int) :
    ∀ (fuel : Nat) (offerTimeoutMoment : Int) (offers : List DHCPPacket) (h : Host)
      (result : List DHCPPacket) (h2 : Host),
      (∀ d, ReadResult.datagram d ∈ h.reads → WellFormedDatagram d) →
      readOffersLoop tx offerWindowEndMoment fuel offerTimeoutMoment offers h
        = .ok (result, h2) →
      ∀ x ∈ h2.reads, x ∈ h.reads := by
  intro fuel
  induction fuel with
  | zero =>
    intro T offers h result h2 hwf hr
    rw [readOffersLoop] at hr
    cases hr
  | succ fuel ih =>
    intro T offers h result h2 hwf hr
    have tf := timeNow_frame h
    rw [readOffersLoop] at hr
    split at hr
    · cases hr
      intro x hx
      have hx2 : x ∈ (timeNow h).2.reads := hx
      rw [tf.2.2.1] at hx2
      exact hx2
    · cases hw : WaitForEventUntil tx T (timeNow h).2 with
      | ok v =>
        obtain ⟨⟨pk, err⟩, h1⟩ := v
        have sub := WaitForEventUntil_reads tx T (timeNow h).2
          (by rw [tf.2.2.1]; exact hwf) _ h1 hw
        rw [tf.2.2.1] at sub
        have hwf1 : ∀ d, ReadResult.datagram d ∈ h1.reads → WellFormedDatagram d :=
          fun d hd => hwf d (sub _ hd)
        rw [hw] at hr
        dsimp only at hr
        cases err with
        | some e =>
          dsimp only at hr
          cases hr
          exact sub
        | none =>
          dsimp only at hr
          have tf1 := timeNow_frame h1
          split at hr
          · split at hr
            · cases hr
              intro x hx
              have hx2 : x ∈ (timeNow h1).2.reads := hx
              rw [tf1.2.2.1] at hx2
              exact sub x hx2
            · have := ih _ _ _ _ _ (by rw [tf1.2.2.1]; exact hwf1) hr
              intro x hx
              have hx2 := this x hx
              rw [tf1.2.2.1] at hx2
              exact sub x hx2
          · split at hr
            · have := ih _ _ _ _ _ hwf1 hr
              exact fun x hx => sub x (this x hx)
            · cases hr
            · cases hr
          · cases hr
          · cases hr
      | panic => rw [hw] at hr; cases hr
      | outOfFuel => rw [hw] at hr; cases hr

theorem readOffers_reads (M : Int) (tx : Nat) (p : ProcessingEngine) (h : Host)
    (result : List DHCPPacket) (h2 : Host)
    (hwf : ∀ d, ReadResult.datagram d ∈ h.reads → WellFormedDatagram d)
    (hr : readOffers M tx p h = .ok (result, h2)) :
    ∀ x ∈ h2.reads, x ∈ h.reads := by
  have g1 := timeNow_frame h
  have g2 := timeNow_frame (timeNow h).2
  have hreads : (timeNow (timeNow h).2).2.reads = h.reads := g2.2.2.1.trans g1.2.2.1
  unfold readOffers at hr
  dsimp only at hr
  have := readOffersLoop_reads tx _ _ _ _ _ _ _ (by rw [hreads]; exact hwf) hr
  rw [hreads] at this
  exact this

/-- On replies without repeated option codes `Discover` does not return in the
middle of a transaction: when every datagram of the script is well formed, a
run of `Discover` that starts in INIT and returns ends in INIT with no listener
called, or in BOUND with every lease-received listener called once, in order,
with the lease as it then is. -/
theorem Discover_clean_replies (env : Env) (accepted : Nat × Nat) (M : Int)
    (p p2 : ProcessingEngine) (h h2 : Host) (hinit : p.Lease.State = INIT)
    (hwf : ∀ d, ReadResult.datagram d ∈ h.reads → WellFormedDatagram d)
    (hr : ProcessingEngine.Discover env accepted M p h = .ok (p2, h2)) :
    (p2.Lease.State = INIT ∧ h2.calls = h.calls) ∨
    (p2.Lease.State = BOUND ∧
      h2.calls = h.calls ++ p.leaseReceivedListeners.map (fun f => ⟨false, f, p2.Lease⟩)) := by
  have f0 := RandomTransactionId_frame h
  unfold ProcessingEngine.Discover at hr
  dsimp only at hr
  split at hr
  · rename_i h1 hs
    cases hr
    have f1 := clientSend_frame _ _ _ _ _ hs
    exact Or.inl ⟨hinit, by rw [f1.2.2.1, f0.2.1]⟩
  · rename_i h1 hs
    have f1 := clientSend_frame _ _ _ _ _ hs
    have uf := updateState_frame accepted p h1 SELECTING
    have hreads : (updateState accepted p h1 SELECTING).2.reads = h.reads := by
      rw [uf.2.2.1, f1.2.2.2, f0.2.2.1]
    have hcalls : (updateState accepted p h1 SELECTING).2.calls = h.calls := by
      rw [uf.2.1, f1.2.2.1, f0.2.1]
    split at hr
    · rename_i offers h3 hro
      have f3 := readOffers_frame _ _ _ _ _ _ hro
      have sub := readOffers_reads _ _ _ _ _ _ (by rw [hreads]; exact hwf) hro
      rw [hreads] at sub
      have hwf3 : ∀ d, ReadResult.datagram d ∈ h3.reads → WellFormedDatagram d :=
        fun d hd => hwf d (sub _ hd)
      have hc3 : h3.calls = h.calls := by rw [f3.2.1, hcalls]
      split at hr
      · split at hr
        · rename_i p4 h4 hloop
          cases hr
          obtain ⟨l1, l2⟩ := processOffersLoop_clean env accepted _ _ _ _ _ _ _ hwf3 hloop
          rcases l2 with ⟨hb, _⟩ | ⟨_, hb, hc⟩
          · cases hb
          · rw [hc3, updateState_listeners] at hc
            exact Or.inr ⟨hb, hc⟩
        · rename_i p4 h4 hloop
          cases hr
          obtain ⟨l1, l2⟩ := processOffersLoop_clean env accepted _ _ _ _ _ _ _ hwf3 hloop
          have i := updateState_INIT_facts accepted p4 h4
          rcases l2 with ⟨_, hc⟩ | ⟨hb, _, _⟩
          · refine Or.inl ⟨?_, ?_⟩
            · rw [(onLeaseAcquisitionFailure_facts _).1]
              exact i.1
            · show (updateState accepted p4 h4 INIT).2.calls = h.calls
              rw [i.2.1, hc, hc3]
          · cases hb
        · cases hr
        · cases hr
      · cases hr
        have i := updateState_INIT_facts accepted (updateState accepted p h1 SELECTING).1 h3
        refine Or.inl ⟨?_, ?_⟩
        · rw [(onLeaseAcquisitionFailure_facts _).1]
          exact i.1
        · show (updateState accepted _ h3 INIT).2.calls = h.calls
          rw [i.2.1, hc3]
    · cases hr
    · cases hr
  · cases hr
  · cases hr

set_option maxRecDepth 100000 in
theorem Discover_clean_replies_witness :
    ∃ (p2 : ProcessingEngine) (h2 : Host),
      ProcessingEngine.Discover sampleEnv (0, 0) 10 listeningEngine
        { quietHost with txs := [77] } = .ok (p2, h2) ∧
      ((p2.Lease.State = INIT ∧ h2.calls = []) ∨
       (p2.Lease.State = BOUND ∧
        h2.calls = [] ++ listeningEngine.leaseReceivedListeners.map
          (fun f => ⟨false, f, p2.Lease⟩))) :=
  ⟨_, _, rfl, Discover_clean_replies sampleEnv (0, 0) 10 listeningEngine _
    { quietHost with txs := [77] } _ rfl (fun d hd => by cases hd) rfl⟩

/-! ## Datagrams that end a wait, and datagrams on which it panics -/

theorem readPacketFrom_panic (d : List Nat) (rest : List ReadResult) (hd : 243 ≤ d.length)
    (hmt : GetMessageTypeRef (received d) = .panic) :
    readPacketFrom (.datagram d :: rest) = .panic := by
  obtain ⟨hdec, hpos⟩ := Decode_readBuffer d hd
  rw [readPacketFrom, if_neg hpos, hdec]
  dsimp only
  rw [hmt]

theorem WaitForEventUntil_panic (tx : Nat) (timeout : Int) (h : Host) (d : List Nat)
    (rest : List ReadResult) (hreads : h.reads = .datagram d :: rest) (hd : 243 ≤ d.length)
    (hmt : GetMessageTypeRef (received d) = .panic) :
    WaitForEventUntil tx timeout h = .panic := by
  unfold WaitForEventUntil
  rw [hreads]
  simp only [List.length_cons]
  rw [waitForEventLoop]
  unfold readPacket
  rw [hreads, readPacketFrom_panic d rest hd hmt]

theorem WaitForEvent_panic (tx : Nat) (timeout : Int) (h : Host) (d : List Nat)
    (rest : List ReadResult) (hreads : h.reads = .datagram d :: rest) (hd : 243 ≤ d.length)
    (hmt : GetMessageTypeRef (received d) = .panic) :
    WaitForEvent tx timeout h = .panic := by
  unfold WaitForEvent
  dsimp only
  exact WaitForEventUntil_panic tx _ _ d rest
    (by rw [(timeNow_frame h).2.2.1, hreads]) hd hmt

theorem readPacketFrom_empty (d : List Nat) (rest : List ReadResult) (hd : d.length = 0) :
    readPacketFrom (.datagram d :: rest) = readPacketFrom rest := by
  rw [readPacketFrom, if_pos]
  unfold readBuffer
  dsimp only
  rw [List.length_take, hd]
  decide

theorem Decode_short (d : List Nat) (hd : d.length < 243) :
    ∃ e, (Decode (readBuffer d).1 (readBuffer d).2).2 = some e := by
  rw [Decode_readBuffer_eq]
  unfold Decode
  cases hb : decodeBody (d.take 2000) ((d.take 2000).length : Int) with
  | ok p =>
    have h1 := (decodeBody_ok_bound _ _ p hb).1
    rw [List.length_take] at h1
    omega
  | error e => exact ⟨e, rfl⟩

theorem nextPacket_facts (tx : Nat) : ∀ reads : List ReadResult,
    ((nextPacket tx reads).1 = none →
      offersBefore tx reads = [] ∧ afterStop reads = (nextPacket tx reads).2) ∧
    (∀ q, (nextPacket tx reads).1 = some q →
      (∀ r ∈ beforeStop (nextPacket tx reads).2, r ∈ beforeStop reads) ∧
      (∃ d, ReadResult.datagram d ∈ beforeStop reads ∧ 243 ≤ d.length ∧ q = received d) ∧
      q.Xid = tx ∧ (nextPacket tx reads).2.length < reads.length ∧
      offersBefore tx reads
        = (if GetMessageType q = .ok DHCPOFFER then [q] else []) ++
            offersBefore tx (nextPacket tx reads).2 ∧
      afterStop reads = afterStop (nextPacket tx reads).2) := by
  intro reads
  induction reads with
  | nil => exact ⟨fun _ => ⟨rfl, rfl⟩, fun q h => by simp [nextPacket] at h⟩
  | cons r rest ih =>
    cases r with
    | failure t => exact ⟨fun _ => ⟨rfl, rfl⟩, fun q h => by simp [nextPacket] at h⟩
    | datagram d =>
      rw [nextPacket, offersBefore, afterStop, beforeStop]
      by_cases h0 : d.length = 0
      · simp only [h0, if_true]
        refine ⟨ih.1, ?_⟩
        intro q hq
        obtain ⟨a, ⟨d2, hd2, hl2, e2⟩, c, dl, e, f⟩ := ih.2 q hq
        exact ⟨fun r hr => List.mem_cons_of_mem _ (a r hr),
          ⟨d2, List.mem_cons_of_mem _ hd2, hl2, e2⟩, c,
          by simp only [List.length_cons]; omega, e, f⟩
      · rw [if_neg h0, if_neg h0, if_neg h0, if_neg h0]
        by_cases hs : d.length < 243
        · rw [if_pos hs, if_pos hs, if_pos hs, if_pos hs]
          exact ⟨fun _ => ⟨rfl, rfl⟩, fun q h => by simp at h⟩
        · rw [if_neg hs, if_neg hs, if_neg hs, if_neg hs]
          by_cases hx : (received d).Xid = tx
          · rw [if_pos hx]
            refine ⟨fun h => by simp at h, ?_⟩
            intro q hq
            simp only [Option.some.injEq] at hq
            subst hq
            refine ⟨fun r hr => List.mem_cons_of_mem _ hr,
              ⟨d, List.mem_cons_self _ _, by omega, rfl⟩, hx, by simp, ?_, rfl⟩
            dsimp only
            by_cases ht : GetMessageType (received d) = .ok DHCPOFFER
            · rw [if_pos ⟨hx, ht⟩, if_pos ht]
              rfl
            · rw [if_neg (fun hc => ht hc.2), if_neg ht]
              rfl
          · rw [if_neg hx, if_neg (fun hc => hx hc.1)]
            refine ⟨ih.1, ?_⟩
            intro q hq
            obtain ⟨a, ⟨d2, hd2, hl2, e2⟩, c, dl, e, f⟩ := ih.2 q hq
            exact ⟨fun r hr => List.mem_cons_of_mem _ (a r hr),
              ⟨d2, List.mem_cons_of_mem _ hd2, hl2, e2⟩, c,
              by simp only [List.length_cons]; omega, e, f⟩

/-- On a script in which the datagrams that `Decode` accepts are clean, up to
the first read that ends the wait, the recursion of `WaitForEventUntil`
returns what `nextPacket` says: the packet without an error, or the zero packet
with an error. -/
theorem waitForEventLoop_next (tx : Nat) (timeout : Int) :
    ∀ (reads : List ReadResult) (fuel : Nat) (h : Host), h.reads = reads →
      (∀ d, ReadResult.datagram d ∈ beforeStop reads → 243 ≤ d.length →
        CleanPacket (received d)) →
      reads.length < fuel →
      ∃ e : Option ReadError,
        waitForEventLoop tx timeout fuel h
          = .ok (((nextPacket tx reads).1.getD DHCPPacket.zero, e),
                 { h with reads := (nextPacket tx reads).2 }) ∧
        (e = none ↔ (nextPacket tx reads).1 ≠ none) := by
  intro reads
  induction reads with
  | nil =>
    intro fuel h hr _ hf
    cases fuel with
    | zero => omega
    | succ fuel =>
      refine ⟨some (.net true), ?_, by simp [nextPacket]⟩
      rw [waitForEventLoop]
      unfold readPacket
      rw [hr]
      rfl
  | cons r rest ih =>
    intro fuel h hr hclean hf
    cases fuel with
    | zero => omega
    | succ fuel =>
      cases r with
      | failure t =>
        refine ⟨some (.net t), ?_, by simp [nextPacket]⟩
        rw [waitForEventLoop]
        unfold readPacket
        rw [hr]
        rfl
      | datagram d =>
        by_cases h0 : d.length = 0
        · have hstep : waitForEventLoop tx timeout (fuel + 1) h
              = waitForEventLoop tx timeout (fuel + 1) { h with reads := rest } := by
            rw [waitForEventLoop, waitForEventLoop]
            unfold readPacket
            rw [hr]
            dsimp only
            rw [readPacketFrom_empty d rest h0]
          have hc2 : ∀ d2, ReadResult.datagram d2 ∈ beforeStop rest → 243 ≤ d2.length →
              CleanPacket (received d2) := by
            intro d2 hd2 hl2
            refine hclean d2 ?_ hl2
            rw [beforeStop, if_pos h0]
            exact List.mem_cons_of_mem _ hd2
          obtain ⟨e, he, hiff⟩ := ih (fuel + 1) { h with reads := rest } rfl hc2
            (by simp only [List.length_cons] at hf; omega)
          refine ⟨e, ?_, ?_⟩
          · rw [hstep, he, nextPacket, if_pos h0]
          · rw [nextPacket, if_pos h0]
            exact hiff
        · by_cases hs : d.length < 243
          · obtain ⟨e, he⟩ := Decode_short d hs
            refine ⟨some (.decode e), ?_, by simp [nextPacket, h0, hs]⟩
            rw [waitForEventLoop]
            unfold readPacket
            rw [hr, readPacketFrom_malformed d rest e (by omega) he, nextPacket, if_neg h0,
              if_pos hs]
            rfl
          · have hmem : ReadResult.datagram d ∈ beforeStop (.datagram d :: rest) := by
              rw [beforeStop, if_neg h0, if_neg hs]
              exact List.mem_cons_self _ _
            have hwf : WellFormedDatagram d := ⟨by omega, hclean d hmem (by omega)⟩
            rw [waitForEventLoop]
            unfold readPacket
            rw [hr, readPacketFrom_wf d rest hwf, nextPacket, if_neg h0, if_neg hs]
            dsimp only
            by_cases hx : (received d).Xid = tx
            · rw [if_neg (by simpa using hx), if_pos hx]
              exact ⟨none, rfl, by simp⟩
            · rw [if_pos (by simpa using hx), if_neg hx]
              have hc2 : ∀ d2, ReadResult.datagram d2 ∈ beforeStop rest → 243 ≤ d2.length →
                  CleanPacket (received d2) := by
                intro d2 hd2 hl2
                refine hclean d2 ?_ hl2
                rw [beforeStop, if_neg h0, if_neg hs]
                exact List.mem_cons_of_mem _ hd2
              obtain ⟨e, he, hiff⟩ := ih fuel { h with reads := rest } rfl hc2
                (by simp only [List.length_cons] at hf; omega)
              exact ⟨e, he, hiff⟩

theorem WaitForEventUntil_next (tx : Nat) (timeout : Int) (h : Host)
    (hclean : ∀ d, ReadResult.datagram d ∈ beforeStop h.reads → 243 ≤ d.length →
      CleanPacket (received d)) :
    ∃ e : Option ReadError,
      WaitForEventUntil tx timeout h
        = .ok (((nextPacket tx h.reads).1.getD DHCPPacket.zero, e),
               { h with reads := (nextPacket tx h.reads).2 }) ∧
      (e = none ↔ (nextPacket tx h.reads).1 ≠ none) :=
  waitForEventLoop_next tx timeout h.reads (h.reads.length + 1) h rfl hclean (by omega)

theorem offersBefore_mem (tx : Nat) : ∀ (reads : List ReadResult) (o : DHCPPacket),
    o ∈ offersBefore tx reads →
      o.Xid = tx ∧ GetMessageType o = .ok DHCPOFFER ∧
      ∃ d, ReadResult.datagram d ∈ beforeStop reads ∧ 243 ≤ d.length ∧ o = received d := by
  intro reads
  induction reads with
  | nil => intro o ho; cases ho
  | cons r rest ih =>
    intro o ho
    cases r with
    | failure t => cases ho
    | datagram d =>
      rw [offersBefore] at ho
      rw [beforeStop]
      by_cases h0 : d.length = 0
      · rw [if_pos h0] at ho
        rw [if_pos h0]
        obtain ⟨a, b, d2, hd2, hl2, e⟩ := ih o ho
        exact ⟨a, b, d2, List.mem_cons_of_mem _ hd2, hl2, e⟩
      · rw [if_neg h0] at ho
        rw [if_neg h0]
        by_cases hs : d.length < 243
        · rw [if_pos hs] at ho
          cases ho
        · rw [if_neg hs] at ho
          rw [if_neg hs]
          split at ho
          · rename_i hc
            rcases List.mem_cons.mp ho with h1 | h1
            · subst h1
              exact ⟨hc.1, hc.2, d, List.mem_cons_self _ _, by omega, rfl⟩
            · obtain ⟨a, b, d2, hd2, hl2, e⟩ := ih o h1
              exact ⟨a, b, d2, List.mem_cons_of_mem _ hd2, hl2, e⟩
          · obtain ⟨a, b, d2, hd2, hl2, e⟩ := ih o ho
            exact ⟨a, b, d2, List.mem_cons_of_mem _ hd2, hl2, e⟩

set_option maxRecDepth 10000 in
/-- The loop of `readOffers` on a script in which the datagrams that `Decode`
accepts are clean, up to the first read that ends the collection: it returns,
and what it has added to the list is a first part of the offers for `tx` among
the reads. -/
theorem readOffersLoop_before (tx : Nat) (offerWindowEndMoment : Int) :
    ∀ (fuel : Nat) (offerTimeoutMoment : Int) (acc : List DHCPPacket) (h : Host),
      (∀ d, ReadResult.datagram d ∈ beforeStop h.reads → 243 ≤ d.length →
        CleanPacket (received d)) →
      h.reads.length < fuel →
      ∃ (offers : List DHCPPacket) (h2 : Host),
        readOffersLoop tx offerWindowEndMoment fuel offerTimeoutMoment acc h
          = .ok (acc ++ offers, h2) ∧
        offers <+: offersBefore tx h.reads := by
  intro fuel
  induction fuel with
  | zero => intro otm acc h _ hf; omega
  | succ fuel ih =>
    intro otm acc h hclean hf
    have g := timeNow_frame h
    rw [readOffersLoop]
    split
    · exact ⟨[], _, by rw [List.append_nil], List.nil_prefix⟩
    · obtain ⟨e, hwait, hiff⟩ := WaitForEventUntil_next tx otm (timeNow h).2 (by
        rw [g.2.2.1]
        exact hclean)
      rw [g.2.2.1] at hwait hiff
      have facts := nextPacket_facts tx h.reads
      rw [hwait]
      dsimp only
      cases hn : (nextPacket tx h.reads).1 with
      | none =>
        cases e with
        | none => exact absurd (hiff.mp rfl) (by rw [hn]; exact fun hc => hc rfl)
        | some e2 =>
          dsimp only
          exact ⟨[], _, by rw [List.append_nil], List.nil_prefix⟩
      | some q =>
        have he : e = none := hiff.mpr (by rw [hn]; exact fun hc => Option.noConfusion hc)
        subst he
        obtain ⟨hsub, ⟨d, hd, hl, hq⟩, hx, hlen, hstep, _⟩ := facts.2 q hn
        have hcl : CleanPacket q := by
          rw [hq]
          exact hclean d hd hl
        have hclean2 : ∀ d2, ReadResult.datagram d2 ∈ beforeStop (nextPacket tx h.reads).2 →
            243 ≤ d2.length → CleanPacket (received d2) :=
          fun d2 hd2 hl2 => hclean d2 (hsub _ hd2) hl2
        obtain ⟨t, ht, href, _, htype⟩ := clean_GetMessageType q hcl
        rw [ht] at hstep
        dsimp only
        rw [Option.getD_some, htype]
        cases hto : (t == DHCPOFFER) with
        | true =>
          have hteq : t = DHCPOFFER := by simpa using hto
          rw [hteq, if_pos rfl] at hstep
          dsimp only
          split
          · exact ⟨[q], _, rfl, by rw [hstep]; exact List.prefix_append _ _⟩
          · obtain ⟨offers, h2, hrun, hpre⟩ :=
              ih offerWindowEndMoment (acc ++ [q])
                (timeNow { (timeNow h).2 with reads := (nextPacket tx h.reads).2 }).2
                (by rw [(timeNow_frame _).2.2.1]; exact hclean2)
                (by rw [(timeNow_frame _).2.2.1]; simp only []; omega)
            rw [(timeNow_frame _).2.2.1] at hpre
            refine ⟨q :: offers, h2, ?_, ?_⟩
            · rw [hrun]
              simp
            · rw [hstep]
              exact (List.prefix_cons_inj _).mpr hpre
        | false =>
          have hteq : ¬ (Run.ok t : Run Nat) = .ok DHCPOFFER := by
            intro hc
            cases hc
            simp at hto
          rw [if_neg hteq, List.nil_append] at hstep
          dsimp only
          rw [href]
          dsimp only
          obtain ⟨offers, h2, hrun, hpre⟩ :=
            ih otm acc { (timeNow h).2 with reads := (nextPacket tx h.reads).2 } hclean2
              (by simp only []; omega)
          exact ⟨offers, h2, hrun, by rw [hstep]; exact hpre⟩

set_option maxRecDepth 10000 in
/-- The loop of `readOffers` while the clock stands still before both
deadlines: it collects every offer for `tx` among the reads, up to the first
read that fails or datagram that `Decode` rejects. -/
theorem readOffersLoop_still (tx : Nat) (offerWindowEndMoment : Int) :
    ∀ (fuel : Nat) (offerTimeoutMoment : Int) (acc : List DHCPPacket) (h : Host),
      (∀ d, ReadResult.datagram d ∈ beforeStop h.reads → 243 ≤ d.length →
        CleanPacket (received d)) →
      h.reads.length < fuel → h.elapsed = [] → h.now ≤ offerTimeoutMoment →
      h.now ≤ offerWindowEndMoment →
      readOffersLoop tx offerWindowEndMoment fuel offerTimeoutMoment acc h
        = .ok (acc ++ offersBefore tx h.reads, { h with reads := afterStop h.reads }) := by
  intro fuel
  induction fuel with
  | zero => intro otm acc h _ hf; omega
  | succ fuel ih =>
    intro otm acc h hclean hf he hotm howe
    rw [readOffersLoop, timeNow_frozen h he]
    dsimp only
    rw [if_neg (by omega)]
    obtain ⟨e, hwait, hiff⟩ := WaitForEventUntil_next tx otm h hclean
    have facts := nextPacket_facts tx h.reads
    rw [hwait]
    dsimp only
    cases hn : (nextPacket tx h.reads).1 with
    | none =>
      cases e with
      | none => exact absurd (hiff.mp rfl) (by rw [hn]; exact fun hc => hc rfl)
      | some e2 =>
        dsimp only
        rw [(facts.1 hn).1, (facts.1 hn).2, List.append_nil]
    | some q =>
      have he2 : e = none := hiff.mpr (by rw [hn]; exact fun hc => Option.noConfusion hc)
      subst he2
      obtain ⟨hsub, ⟨d, hd, hl, hq⟩, hx, hlen, hstep, hafter⟩ := facts.2 q hn
      have hcl : CleanPacket q := by
        rw [hq]
        exact hclean d hd hl
      have hclean2 : ∀ d2, ReadResult.datagram d2 ∈ beforeStop (nextPacket tx h.reads).2 →
          243 ≤ d2.length → CleanPacket (received d2) :=
        fun d2 hd2 hl2 => hclean d2 (hsub _ hd2) hl2
      obtain ⟨t, ht, href, _, htype⟩ := clean_GetMessageType q hcl
      rw [ht] at hstep
      dsimp only
      rw [Option.getD_some, htype]
      have hfro : timeNow { h with reads := (nextPacket tx h.reads).2 }
          = (h.now, { h with reads := (nextPacket tx h.reads).2 }) :=
        timeNow_frozen _ he
      cases hto : (t == DHCPOFFER) with
      | true =>
        have hteq : t = DHCPOFFER := by simpa using hto
        rw [hteq, if_pos rfl] at hstep
        dsimp only
        rw [hfro]
        dsimp only
        rw [if_neg (by omega)]
        rw [ih offerWindowEndMoment (acc ++ [q])
          { h with reads := (nextPacket tx h.reads).2 } hclean2 (by simp only []; omega) he howe
          howe]
        rw [hstep, hafter]
        simp
      | false =>
        have hteq : ¬ (Run.ok t : Run Nat) = .ok DHCPOFFER := by
          intro hc
          cases hc
          simp at hto
        rw [if_neg hteq, List.nil_append] at hstep
        dsimp only
        rw [href]
        dsimp only
        rw [ih otm acc { h with reads := (nextPacket tx h.reads).2 } hclean2
          (by simp only []; omega) he hotm howe]
        rw [hstep, hafter]

theorem readOffers_still (M : Int) (tx : Nat) (p : ProcessingEngine) (h : Host)
    (hclean : ∀ d, ReadResult.datagram d ∈ beforeStop h.reads → 243 ≤ d.length →
      CleanPacket (received d))
    (he : h.elapsed = []) (h1 : 0 ≤ wrapInt64 (Second * M))
    (h2 : 0 ≤ wrapInt64 (Second * p.Config.OfferWindowSec)) :
    readOffers M tx p h
      = .ok (offersBefore tx h.reads, { h with reads := afterStop h.reads }) := by
  have hfz := readOffersLoop_still tx (h.now + wrapInt64 (Second * p.Config.OfferWindowSec))
    (h.reads.length + 1) (h.now + wrapInt64 (Second * M)) [] h hclean (by omega) he (by omega)
    (by omega)
  rw [List.nil_append] at hfz
  unfold readOffers
  simp only [timeNow_frozen h he]
  exact hfz
/-! ## Padded and short datagrams on the receive path -/

set_option maxRecDepth 100000 in
theorem paddedForeignDatagram_facts :
    paddedForeignDatagram.length = 247 ∧
    received paddedForeignDatagram
      = { ackPacket with Xid := 5, options := ⟨[53, 1, 5, 255], [0, 0, 0]⟩ } ∧
    GetMessageTypeRef (received paddedForeignDatagram) = .panic := by
  refine ⟨by decide, by decide, by decide⟩

set_option maxRecDepth 100000 in
theorem paddedForeignOffer_facts :
    paddedForeignOffer.length = 259 ∧
    received paddedForeignOffer
      = { offerPacket with
          Xid := 5,
          options := ⟨[53, 1, 2, 54, 4, 127, 0, 0, 1, 51, 4, 0, 0, 0, 200, 255], [0, 0, 0]⟩ } ∧
    GetMessageTypeRef (received paddedForeignOffer) = .panic := by
  refine ⟨by decide, by decide, by decide⟩

set_option maxRecDepth 100000 in
/-- C21 (divergence). The ACK of the transaction 5 with the option bytes
53,1,5, the END tag and three zero octets of padding is a datagram of 247 bytes
that `Decode` accepts; it leaves the END tag in the option buffer, on which the
option walk of `GetMessageType` panics. So a wait on a socket whose next
datagram is this one panics, whatever the transaction waited for and whatever
comes after it: `WaitForEventUntil(77, _)` on this datagram followed by the
OFFER of the transaction 77 panics, where the claim has it return the OFFER. -/
theorem WaitForEventUntil_padded_datagram_panics :
    paddedForeignDatagram
      = fixedHeader { ackPacket with Xid := 5 } ++ [99, 130, 83, 99] ++ [53, 1, 5]
          ++ [255, 0, 0, 0] ∧
    paddedForeignDatagram.length = 247 ∧
    (Decode paddedForeignDatagram 247).2 = none ∧
    (Decode paddedForeignDatagram 247).1.Xid = 5 ∧
    (Decode paddedForeignDatagram 247).1.options.data = [53, 1, 5, 255] ∧
    GetMessageType (Decode paddedForeignDatagram 247).1 = .panic ∧
    (received (offerDatagram 77)).Xid = 77 ∧
    (∀ (tx : Nat) (timeout : Int) (h : Host) (rest : List ReadResult),
      WaitForEventUntil tx timeout
        { h with reads := .datagram paddedForeignDatagram :: rest } = .panic) ∧
    WaitForEventUntil 77 1000000000
      { quietHost with
        reads := [.datagram paddedForeignDatagram, .datagram (offerDatagram 77)] } = .panic := by
  have hp : ∀ (tx : Nat) (timeout : Int) (h : Host) (rest : List ReadResult),
      WaitForEventUntil tx timeout
        { h with reads := .datagram paddedForeignDatagram :: rest } = .panic :=
    fun tx timeout h rest =>
      WaitForEventUntil_panic tx timeout _ paddedForeignDatagram rest rfl
        (by rw [paddedForeignDatagram_facts.1]; decide) paddedForeignDatagram_facts.2.2
  refine ⟨rfl, by decide, by decide, by decide, by decide, by decide, ?_, hp, hp _ _ _ _⟩
  rw [(wellFormed_offerDatagram 77 (by decide)).2]

set_option maxRecDepth 100000 in
/-- C23 (divergence). The engine is in INIT and draws the transaction id 77; an
OFFER with a server identifier arrives and is collected, then the offer window
ends with a timeout and the REQUEST is sent. No ACK and no NAK ever arrives: the
one datagram that follows is the OFFER of the transaction 5, with three zero
octets of padding behind its END tag. `Decode` accepts it and the option walk
of the log line of `readPacket` panics on the END tag: the run of `Discover`
panics during the first wait for the ACK, where the claim has it send three
REQUESTs and end in INIT. -/
theorem Discover_padded_datagram_panics :
    listeningEngine.Lease.State = INIT ∧
    paddedOfferHost.txs = [77] ∧
    paddedOfferHost.reads
      = [.datagram (offerDatagram 77), .failure true, .datagram paddedForeignOffer] ∧
    received (offerDatagram 77) = offerPacket ∧
    offerPacket.options.data = [53, 1, 2, 54, 4, 127, 0, 0, 1, 51, 4, 0, 0, 0, 200] ∧
    paddedForeignOffer
      = fixedHeader { offerPacket with Xid := 5 } ++ [99, 130, 83, 99]
          ++ [53, 1, 2, 54, 4, 127, 0, 0, 1, 51, 4, 0, 0, 0, 200] ++ [255, 0, 0, 0] ∧
    (Decode paddedForeignOffer 259).2 = none ∧
    (Decode paddedForeignOffer 259).1.Xid = 5 ∧
    (Decode paddedForeignOffer 259).1.options.data
      = [53, 1, 2, 54, 4, 127, 0, 0, 1, 51, 4, 0, 0, 0, 200, 255] ∧
    (∃ h1 : Host,
      clientSend (RandomTransactionId paddedOfferHost).2
        (DHCPv4.Discover sampleEnv.growslice listeningEngine.Config sampleEnv.hardwareAddr
          (RandomTransactionId paddedOfferHost).1).1 IPv4bcast = .ok (false, h1) ∧
      readOffers 10 77 (updateState (0, 0) listeningEngine h1 SELECTING).1
          (updateState (0, 0) listeningEngine h1 SELECTING).2
        = .ok ([offerPacket],
            { (updateState (0, 0) listeningEngine h1 SELECTING).2 with
              reads := [.datagram paddedForeignOffer] })) ∧
    ProcessingEngine.Discover sampleEnv (0, 0) 10 listeningEngine paddedOfferHost = .panic := by
  obtain ⟨h1, hs, hr1, he1, hse1⟩ : ∃ h1 : Host,
      clientSend (RandomTransactionId paddedOfferHost).2
        (DHCPv4.Discover sampleEnv.growslice listeningEngine.Config sampleEnv.hardwareAddr
          (RandomTransactionId paddedOfferHost).1).1
        IPv4bcast = .ok (false, h1) ∧
      h1.reads = [.datagram (offerDatagram 77), .failure true, .datagram paddedForeignOffer] ∧
      h1.elapsed = [] ∧ h1.sendErrors = [] :=
    ⟨_, rfl, rfl, rfl, rfl⟩
  have uf := updateState_frame (0, 0) listeningEngine h1 SELECTING
  have hoff := readOffers_one_offer 10
    (DHCPv4.Discover sampleEnv.growslice listeningEngine.Config sampleEnv.hardwareAddr
      (RandomTransactionId paddedOfferHost).1).2
    (updateState (0, 0) listeningEngine h1 SELECTING).1
    (updateState (0, 0) listeningEngine h1 SELECTING).2 (offerDatagram 77)
    [.datagram paddedForeignOffer] true (by rw [uf.2.2.1, hr1])
    (wellFormed_offerDatagram 77 (by decide)).1
    (by rw [(wellFormed_offerDatagram 77 (by decide)).2]; rfl)
    (by rw [(wellFormed_offerDatagram 77 (by decide)).2]; decide)
    he1 (by decide)
    (by show 0 ≤ wrapInt64 (Second * listeningEngine.Config.OfferWindowSec); decide)
  rw [(wellFormed_offerDatagram 77 (by decide)).2] at hoff
  have e77 : ({ offerPacket with Xid := 77 } : DHCPPacket) = offerPacket := rfl
  rw [e77] at hoff
  have hpo : ∀ (p : ProcessingEngine) (h : Host),
      h.reads = [.datagram paddedForeignOffer] → h.sendErrors = [] →
      ProcessOffers sampleEnv (0, 0) [offerPacket] p h = .panic := by
    intro p h hreads hse
    obtain ⟨e, req, m, hget, hreq, hwalk, hx, hopts, hmt⟩ :=
      offer_request sampleEnv.growslice p.Config sampleEnv.hardwareAddr offerPacket
        [(53, [2]), (54, [127, 0, 0, 1]), (51, [0, 0, 0, 200])] [127, 0, 0, 1] rfl (by decide)
        (by decide) (by decide) rfl
    obtain ⟨h2, hs2, _, _, _, hr2, _⟩ := clientSend_ok (timeNow h).2 req IPv4bcast _ hmt
    have hse2 : (timeNow h).2.sendErrors = [] := by rw [(timeNow_frame h).2.2.2.2, hse]
    rw [hse2] at hs2
    have hs3 : clientSend (timeNow h).2 req IPv4bcast = .ok (false, h2) := hs2
    have hr3 : (updateState (0, 0) p h2 REQUESTING).2.reads = [.datagram paddedForeignOffer] := by
      rw [(updateState_frame _ _ _ _).2.2.1, hr2, (timeNow_frame h).2.2.1, hreads]
    have hw := WaitForEvent_panic 77 Second (updateState (0, 0) p h2 REQUESTING).2
      paddedForeignOffer [] hr3 (by rw [paddedForeignOffer_facts.1]; decide)
      paddedForeignOffer_facts.2.2
    unfold ProcessOffers
    simp only [hget, hreq, hwalk, withBuffer_self, hs3]
    have hlen : h2.reads.length + 1 = 0 + 1 + 1 := by
      rw [hr2, (timeNow_frame h).2.2.1, hreads]
      rfl
    rw [hlen, waitForAck]
    have ex : offerPacket.Xid = 77 := rfl
    rw [ex, hw]
  have hrun : ProcessingEngine.Discover sampleEnv (0, 0) 10 listeningEngine paddedOfferHost
      = .panic := by
    unfold ProcessingEngine.Discover
    dsimp only
    rw [hs]
    dsimp only
    rw [hoff]
    dsimp only
    rw [if_pos (by decide)]
    rw [processOffersLoop]
    rw [if_neg (by decide), hpo _ _ rfl (by
      show (updateState (0, 0) listeningEngine h1 SELECTING).2.sendErrors = []
      rw [uf.2.2.2.1, hse1])]
  refine ⟨rfl, rfl, rfl, ?_, rfl, rfl, by decide, by decide, by decide, ⟨h1, hs, hoff⟩, hrun⟩
  rw [(wellFormed_offerDatagram 77 (by decide)).2]
  rfl
/-- C29 (as the code has it). Offer collection content: on every script of
reads in which the datagrams that `Decode` accepts (243 bytes or more) are
clean, up to the first read that fails or datagram that `Decode` rejects,
`readOffers(tx)` returns, and its list is a first part of the packets, in order
of arrival, of the datagrams before that read that are a DHCPOFFER with
`Xid = tx`: every packet of the list is one, and a reply of another type or with
another `Xid` is never in it. Such a reply, once decoded, does not end the
collection, and neither does an empty datagram; a datagram of 1 to 242 bytes
does, like a read that fails: while the clock stands before both deadlines, the
list holds every DHCPOFFER with `Xid = tx` that arrives before the first such
read, and the reads behind that one are left in the socket. -/
theorem readOffers_collection (M : Int) (tx : Nat) (p : ProcessingEngine) (h : Host)
    (hclean : ∀ d, ReadResult.datagram d ∈ beforeStop h.reads → 243 ≤ d.length →
      CleanPacket (received d)) :
    ∃ (offers : List DHCPPacket) (h2 : Host),
      readOffers M tx p h = .ok (offers, h2) ∧
      offers <+: offersBefore tx h.reads ∧
      (∀ o ∈ offers, o.Xid = tx ∧ GetMessageType o = .ok DHCPOFFER ∧
        ∃ d, ReadResult.datagram d ∈ beforeStop h.reads ∧ 243 ≤ d.length ∧ o = received d) ∧
      (h.elapsed = [] → 0 ≤ wrapInt64 (Second * M) →
        0 ≤ wrapInt64 (Second * p.Config.OfferWindowSec) →
        offers = offersBefore tx h.reads ∧ h2 = { h with reads := afterStop h.reads }) := by
  have g1 := timeNow_frame h
  have g2 := timeNow_frame (timeNow h).2
  have hr : (timeNow (timeNow h).2).2.reads = h.reads := g2.2.2.1.trans g1.2.2.1
  obtain ⟨offers, h2, hrun, hpre⟩ :=
    readOffersLoop_before tx
      ((timeNow (timeNow h).2).1 + wrapInt64 (Second * p.Config.OfferWindowSec))
      ((timeNow (timeNow h).2).2.reads.length + 1)
      ((timeNow h).1 + wrapInt64 (Second * M)) [] (timeNow (timeNow h).2).2
      (by rw [hr]; exact hclean) (by omega)
  rw [hr] at hpre hrun
  rw [List.nil_append] at hrun
  have hrun2 : readOffers M tx p h = .ok (offers, h2) := by
    unfold readOffers
    dsimp only
    rw [hr]
    exact hrun
  refine ⟨offers, h2, hrun2, hpre, ?_, ?_⟩
  · intro o ho
    exact offersBefore_mem tx h.reads o (hpre.subset ho)
  · intro he h1 h2w
    have hrun3 := readOffers_still M tx p h hclean he h1 h2w
    rw [hrun3] at hrun2
    cases hrun2
    exact ⟨rfl, rfl⟩

theorem offerDatagram_long (x : Nat) (hx : x < 2 ^ 32) :
    ¬ (offerDatagram x).length = 0 ∧ ¬ (offerDatagram x).length < 243 := by
  have h := (wellFormed_offerDatagram x hx).1.1
  omega

theorem ackDatagram_long (x : Nat) (hx : x < 2 ^ 32) :
    ¬ (ackDatagram x).length = 0 ∧ ¬ (ackDatagram x).length < 243 := by
  have h := (wellFormed_ackDatagram x hx).1.1
  omega

theorem shortForeignDatagram_short :
    ¬ shortForeignDatagram.length = 0 ∧ shortForeignDatagram.length < 243 := by
  decide

set_option maxRecDepth 100000 in
theorem readOffers_collection_witness :
    (∀ d, ReadResult.datagram d ∈ beforeStop
        [.datagram (offerDatagram 5), .datagram (offerDatagram 77), .datagram (ackDatagram 77),
         .datagram [], .datagram (offerDatagram 77), .datagram shortForeignDatagram,
         .datagram (offerDatagram 77)] →
      243 ≤ d.length → CleanPacket (received d)) ∧
    ∃ (offers : List DHCPPacket) (h2 : Host),
      readOffers 10 77 listeningEngine
        { quietHost with
          reads := [.datagram (offerDatagram 5), .datagram (offerDatagram 77),
                    .datagram (ackDatagram 77), .datagram [], .datagram (offerDatagram 77),
                    .datagram shortForeignDatagram, .datagram (offerDatagram 77)] }
        = .ok (offers, h2) ∧
      offers = [offerPacket, offerPacket] ∧
      h2.reads = [.datagram (offerDatagram 77)] := by
  have hclean : ∀ d, ReadResult.datagram d ∈ beforeStop
      [.datagram (offerDatagram 5), .datagram (offerDatagram 77), .datagram (ackDatagram 77),
       .datagram [], .datagram (offerDatagram 77), .datagram shortForeignDatagram,
       .datagram (offerDatagram 77)] →
      243 ≤ d.length → CleanPacket (received d) := by
    intro d hd _
    simp only [beforeStop, offerDatagram_long 5 (by decide), offerDatagram_long 77 (by decide),
      ackDatagram_long 77 (by decide), shortForeignDatagram_short, List.length_nil, if_true,
      if_false, List.mem_cons, ReadResult.datagram.injEq, List.not_mem_nil, or_false] at hd
    rcases hd with hd | hd | hd | hd | hd <;> subst hd
    · exact (wellFormed_offerDatagram 5 (by decide)).1.2
    · exact (wellFormed_offerDatagram 77 (by decide)).1.2
    · exact (wellFormed_ackDatagram 77 (by decide)).1.2
    · exact ⟨[], rfl, by decide, by decide, by decide⟩
    · exact (wellFormed_offerDatagram 77 (by decide)).1.2
  refine ⟨hclean, ?_⟩
  obtain ⟨offers, h2, hrun, _, _, hall⟩ :=
    readOffers_collection 10 77 listeningEngine
      { quietHost with
        reads := [.datagram (offerDatagram 5), .datagram (offerDatagram 77),
                  .datagram (ackDatagram 77), .datagram [], .datagram (offerDatagram 77),
                  .datagram shortForeignDatagram, .datagram (offerDatagram 77)] } hclean
  obtain ⟨ho, hh⟩ := hall rfl (by decide) (by decide)
  refine ⟨offers, h2, hrun, ?_, ?_⟩
  · rw [ho]
    simp only [offersBefore, offerDatagram_long 5 (by decide), offerDatagram_long 77 (by decide),
      ackDatagram_long 77 (by decide), shortForeignDatagram_short, List.length_nil, if_true,
      if_false, (wellFormed_offerDatagram 5 (by decide)).2,
      (wellFormed_offerDatagram 77 (by decide)).2, (wellFormed_ackDatagram 77 (by decide)).2]
    decide
  · rw [hh]
    simp only [afterStop, offerDatagram_long 5 (by decide), offerDatagram_long 77 (by decide),
      ackDatagram_long 77 (by decide), shortForeignDatagram_short, List.length_nil, if_true,
      if_false]

set_option maxRecDepth 100000 in
/-- C29 (counterexample). A datagram of 100 bytes with the transaction id 5
arrives, and behind it the OFFER of the transaction 77. `Decode` rejects the
first, and `readOffers(77)` returns at once with an empty list, the OFFER left
unread in the socket: the datagram of the other transaction has ended the
collection. Without it the OFFER is collected. -/
theorem readOffers_short_datagram_ends_collection :
    shortForeignDatagram.length = 100 ∧
    shortForeignDatagram.take 8 = [2, 1, 6, 0, 0, 0, 0, 5] ∧
    (Decode (readBuffer shortForeignDatagram).1 (readBuffer shortForeignDatagram).2).2
      = some ParseError.unexpectedEOF ∧
    received (offerDatagram 77) = offerPacket ∧
    offerPacket.Xid = 77 ∧ GetMessageType offerPacket = .ok DHCPOFFER ∧
    readOffers 10 77 listeningEngine
        { quietHost with
          reads := [.datagram shortForeignDatagram, .datagram (offerDatagram 77)] }
      = .ok ([], { quietHost with reads := [.datagram (offerDatagram 77)] }) ∧
    readOffers 10 77 listeningEngine
        { quietHost with reads := [.datagram (offerDatagram 77)] }
      = .ok ([offerPacket], { quietHost with reads := [] }) := by
  have hdec : (Decode (readBuffer shortForeignDatagram).1 (readBuffer shortForeignDatagram).2).2
      = some ParseError.unexpectedEOF := by
    rw [Decode_readBuffer_eq]
    decide
  have h1 := readOffers_still 10 77 listeningEngine
    { quietHost with reads := [.datagram shortForeignDatagram, .datagram (offerDatagram 77)] }
    (by
      intro d hd
      simp only [beforeStop, shortForeignDatagram_short, if_true, if_false,
        List.not_mem_nil] at hd)
    rfl (by decide) (by decide)
  have h2 := readOffers_still 10 77 listeningEngine
    { quietHost with reads := [.datagram (offerDatagram 77)] }
    (by
      intro d hd _
      simp only [beforeStop, offerDatagram_long 77 (by decide), if_false, List.mem_cons,
        ReadResult.datagram.injEq, List.not_mem_nil, or_false] at hd
      subst hd
      exact (wellFormed_offerDatagram 77 (by decide)).1.2)
    rfl (by decide) (by decide)
  refine ⟨by decide, by decide, hdec, ?_, rfl, by decide, ?_, ?_⟩
  · rw [(wellFormed_offerDatagram 77 (by decide)).2]
    rfl
  · rw [h1]
    simp only [offersBefore, afterStop, shortForeignDatagram_short, if_true, if_false]
  · rw [h2]
    simp only [offersBefore, afterStop, offerDatagram_long 77 (by decide), if_false,
      (wellFormed_offerDatagram 77 (by decide)).2]
    decide
/-! ## Short timer options in `FinalizeOffer`, and the two readings of the clock -/

set_option maxRecDepth 100000 in
/-- C13 (counterexample). The ACK `shortT1Ack` passes the probe and carries a
server identifier and a lease time with 4-byte payloads, in a buffer of whole
options with distinct codes; its renewal time (option 58) has two bytes, and
`FinalizeOffer` panics in `GetDataAsSecDuration`. The ACK `splitServerIdAck`
carries the server identifier 127.0.0.1 in two parts of two bytes and the lease
time in one; the walks of `GetOptions` shift its option buffer and
`FinalizeOffer` panics as well. -/
theorem FinalizeOffer_short_timer_panics :
    sampleEnv.IsUniqueIp shortT1Ack.Yiaddr sampleEngine.Config = true ∧
    shortT1Ack.options.data
      = tlvBytes [(53, [5]), (54, [127, 0, 0, 1]), (51, [0, 0, 0, 200]), (58, [0, 1])] ∧
    FinalizeOffer sampleEnv 5 false sampleEngine sampleWorld shortT1Ack 1000 = .panic ∧
    sampleEnv.IsUniqueIp splitServerIdAck.Yiaddr sampleEngine.Config = true ∧
    splitServerIdAck.options.data
      = tlvBytes [(53, [5]), (54, [127, 0]), (54, [0, 1]), (51, [0, 0, 0, 200])] ∧
    FinalizeOffer sampleEnv 5 false sampleEngine sampleWorld splitServerIdAck 1000 = .panic := by
  refine ⟨rfl, by decide, by decide, rfl, by decide, by decide⟩

theorem timeNow_mono (h : Host) : (timeNow h).1 ≤ (timeNow (timeNow h).2).1 := by
  unfold timeNow
  cases h1 : h.elapsed with
  | nil =>
    dsimp only
    rw [h1]
  | cons d rest =>
    dsimp only
    cases rest with
    | nil => exact Int.le_refl _
    | cons d2 rest2 =>
      dsimp only
      omega

theorem timeSub_facts (t u : Int) :
    (u < t → 0 < timeSub t u) ∧ (t ≤ u → timeSub t u ≤ 0) ∧
    (0 ≤ t - u → t - u ≤ maxDuration → timeSub t u = t - u) := by
  unfold timeSub maxDuration minDuration
  refine ⟨?_, ?_, ?_⟩
  · intro h
    split
    · decide
    · split <;> omega
  · intro h
    split
    · omega
    · split
      · decide
      · omega
  · intro h1 h2
    split
    · omega
    · split <;> omega

theorem DurationUntilRenew_eq (l : DHCPLease) (h : Host) :
    (DurationUntilRenew l h).1
      = if (timeNow h).1 < l.LeaseInitTime + l.T1
        then timeSub (l.LeaseInitTime + l.T1) (timeNow (timeNow h).2).1 else Second * 60 := by
  unfold DurationUntilRenew
  dsimp only
  split <;> rfl

theorem DurationUntilRebind_eq (l : DHCPLease) (h : Host) :
    (DurationUntilRebind l h).1
      = if (timeNow h).1 < l.LeaseInitTime + l.T2
        then timeSub (l.LeaseInitTime + l.T2) (timeNow (timeNow h).2).1 else Second * 60 := by
  unfold DurationUntilRebind
  dsimp only
  split <;> rfl

/-- The value of a function that reads the clock twice, first for the test
`now < boundary` and then for the difference. -/
theorem pacing_facts (b n1 n2 r : Int) (hle : n1 ≤ n2)
    (hr : r = if n1 < b then timeSub b n2 else Second * 60) :
    ((n2 < b ∨ b ≤ n1) → 0 < r) ∧
    (n1 < b → b ≤ n2 → r ≤ 0) ∧
    (b ≤ n1 → r = 60 * 10 ^ 9) ∧
    (n1 = n2 → b - n1 ≤ maxDuration →
      r = (if n1 < b then b - n1 else 60 * 10 ^ 9) ∧ 0 < r) := by
  have hs : Second * 60 = 60 * 10 ^ 9 := by decide
  have f := timeSub_facts b n2
  refine ⟨?_, ?_, ?_, ?_⟩
  · intro h
    rcases h with h | h
    · rw [hr, if_pos (by omega)]
      exact f.1 h
    · rw [hr, if_neg (by omega), hs]
      decide
  · intro h1 h2
    rw [hr, if_pos h1]
    exact f.2.1 h2
  · intro h
    rw [hr, if_neg (by omega), hs]
  · intro he hfit
    subst he
    by_cases hb : n1 < b
    · rw [hr, if_pos hb, if_pos hb, f.2.2 (by omega) hfit]
      exact ⟨rfl, by omega⟩
    · rw [hr, if_neg hb, if_neg hb, hs]
      exact ⟨rfl, by decide⟩

/-- The two readings of the clock in the pacing: `DurationUntilRenew` reads
the clock twice. With `n1 ≤ n2` the two readings, it returns 60 s when `n1` is
not before `LeaseInitTime + T1`, and otherwise `time.Sub` of that boundary and
`n2`: the difference, cut to the range of a `Duration`. The result is strictly
positive when `n2` is still before the boundary or `n1` is no longer; it is
zero or negative when the boundary lies behind `n1` and not behind `n2`. When
both readings are the same instant `now` and the difference fits a `Duration`,
the result is `(LeaseInitTime + T1) - now` before the boundary and 60 s
otherwise, and strictly positive. `DurationUntilRebind` does the same with
`T2`. -/
theorem DurationUntil_two_readings (l : DHCPLease) (h : Host) :
    (timeNow h).1 ≤ (timeNow (timeNow h).2).1 ∧
    (DurationUntilRenew l h).1
      = (if (timeNow h).1 < l.LeaseInitTime + l.T1
         then timeSub (l.LeaseInitTime + l.T1) (timeNow (timeNow h).2).1 else Second * 60) ∧
    (DurationUntilRebind l h).1
      = (if (timeNow h).1 < l.LeaseInitTime + l.T2
         then timeSub (l.LeaseInitTime + l.T2) (timeNow (timeNow h).2).1 else Second * 60) ∧
    (((timeNow (timeNow h).2).1 < l.LeaseInitTime + l.T1 ∨
        l.LeaseInitTime + l.T1 ≤ (timeNow h).1) → 0 < (DurationUntilRenew l h).1) ∧
    ((timeNow h).1 < l.LeaseInitTime + l.T1 →
      l.LeaseInitTime + l.T1 ≤ (timeNow (timeNow h).2).1 → (DurationUntilRenew l h).1 ≤ 0) ∧
    (l.LeaseInitTime + l.T1 ≤ (timeNow h).1 → (DurationUntilRenew l h).1 = 60 * 10 ^ 9) ∧
    ((timeNow h).1 = (timeNow (timeNow h).2).1 →
      l.LeaseInitTime + l.T1 - (timeNow h).1 ≤ maxDuration →
      (DurationUntilRenew l h).1
        = (if (timeNow h).1 < l.LeaseInitTime + l.T1
           then l.LeaseInitTime + l.T1 - (timeNow h).1 else 60 * 10 ^ 9) ∧
      0 < (DurationUntilRenew l h).1) ∧
    (((timeNow (timeNow h).2).1 < l.LeaseInitTime + l.T2 ∨
        l.LeaseInitTime + l.T2 ≤ (timeNow h).1) → 0 < (DurationUntilRebind l h).1) ∧
    ((timeNow h).1 < l.LeaseInitTime + l.T2 →
      l.LeaseInitTime + l.T2 ≤ (timeNow (timeNow h).2).1 → (DurationUntilRebind l h).1 ≤ 0) ∧
    (l.LeaseInitTime + l.T2 ≤ (timeNow h).1 → (DurationUntilRebind l h).1 = 60 * 10 ^ 9) ∧
    ((timeNow h).1 = (timeNow (timeNow h).2).1 →
      l.LeaseInitTime + l.T2 - (timeNow h).1 ≤ maxDuration →
      (DurationUntilRebind l h).1
        = (if (timeNow h).1 < l.LeaseInitTime + l.T2
           then l.LeaseInitTime + l.T2 - (timeNow h).1 else 60 * 10 ^ 9) ∧
      0 < (DurationUntilRebind l h).1) := by
  have hle := timeNow_mono h
  have r1 := pacing_facts (l.LeaseInitTime + l.T1) _ _ _ hle (DurationUntilRenew_eq l h)
  have r2 := pacing_facts (l.LeaseInitTime + l.T2) _ _ _ hle (DurationUntilRebind_eq l h)
  exact ⟨hle, DurationUntilRenew_eq l h, DurationUntilRebind_eq l h, r1.1, r1.2.1, r1.2.2.1,
    r1.2.2.2, r2.1, r2.2.1, r2.2.2.1, r2.2.2.2⟩

theorem DurationUntil_two_readings_witness :
    (DurationUntilRenew boundEngine.Lease { quietHost with now := 5000, elapsed := [0, 7] }).1
      = 100000001000 - 5007 ∧
    (DurationUntilRebind boundEngine.Lease { quietHost with now := 5000, elapsed := [0, 7] }).1
      = 175000001000 - 5007 ∧
    0 < (DurationUntilRenew boundEngine.Lease
      { quietHost with now := 5000, elapsed := [0, 7] }).1 ∧
    (DurationUntilRenew boundEngine.Lease { quietHost with now := 200000000000 }).1
      = 60 * 10 ^ 9 :=
  have h := DurationUntil_two_readings boundEngine.Lease
    { quietHost with now := 5000, elapsed := [0, 7] }
  have h2 := DurationUntil_two_readings boundEngine.Lease { quietHost with now := 200000000000 }
  ⟨by rw [h.2.1]; decide, by rw [h.2.2.1]; decide, h.2.2.2.1 (Or.inl (by decide)),
   h2.2.2.2.2.2.1 (by decide)⟩

/-- C30 (divergence). The lease of `boundEngine` has its renewal moment at the
instant 100000001000 and its rebinding moment at 175000001000. When the clock
reads five nanoseconds before the renewal moment at the test and five
nanoseconds after it at the subtraction, `DurationUntilRenew` returns -5: not
the 5 ns that were left at the first reading and not the 60 s that it returns
once the moment has passed. When the clock reads five nanoseconds before the
rebinding moment at the test and the rebinding moment itself at the
subtraction, `DurationUntilRebind` returns 0. Neither result is strictly
positive. -/
theorem DurationUntil_clock_passes_boundary :
    boundEngine.Lease.LeaseInitTime + boundEngine.Lease.T1 = 100000001000 ∧
    (timeNow renewCrossingHost).1 = 100000000995 ∧
    (timeNow (timeNow renewCrossingHost).2).1 = 100000001005 ∧
    (DurationUntilRenew boundEngine.Lease renewCrossingHost).1 = -5 ∧
    ¬ 0 < (DurationUntilRenew boundEngine.Lease renewCrossingHost).1 ∧
    (DurationUntilRenew boundEngine.Lease (timeNow (timeNow renewCrossingHost).2).2).1
      = 60 * 10 ^ 9 ∧
    boundEngine.Lease.LeaseInitTime + boundEngine.Lease.T2 = 175000001000 ∧
    (timeNow rebindCrossingHost).1 = 175000000995 ∧
    (timeNow (timeNow rebindCrossingHost).2).1 = 175000001000 ∧
    (DurationUntilRebind boundEngine.Lease rebindCrossingHost).1 = 0 ∧
    ¬ 0 < (DurationUntilRebind boundEngine.Lease rebindCrossingHost).1 ∧
    (DurationUntilRebind boundEngine.Lease (timeNow (timeNow rebindCrossingHost).2).2).1
      = 60 * 10 ^ 9 := by
  refine ⟨by decide, by decide, by decide, by decide, by decide, by decide, by decide,
    by decide, by decide, by decide, by decide, by decide⟩

end DHCPv4
